import Mathlib

/-!
# satmine: a shallow embedding of the block-application pipeline

Source files embedded: `satmine/utilities.go`, `satmine/protocolhandler.go`,
`satmine/miner.go`, `satmine/blockpreprocessor.go`, `satmine/writeoperations.go`,
`satmine/blockwriter.go`.

Conventions.

* A Go `string` / `[]byte` is a `String`; a byte `b` is the character with code `b`.
* `*big.Int` is `Int`. `big.Int.Div` / `Mod` are Euclidean (`/`, `%` on `Int`).
* `error` results are `Except String`; a Go panic (nil dereference, division by zero)
  is an error as well: the write transaction is not committed in either case.
* The badger transaction is explicit state passing over `Store`; `db.Update` commits the
  final store when the closure returns `nil` and discards every write otherwise.
* `jsoniter.Marshal` / `Unmarshal` of the records the indexer stores are the identity on the
  decoded record (`Val`); an inscription payload is held in decoded form (`Content`).
-/

namespace Satmine

/-! ## Decimal text and big integers -/

/-- The decimal digit character of `d` (for `d < 10`). -/
def digitChar : Nat → Char
  | 0 => '0' | 1 => '1' | 2 => '2' | 3 => '3' | 4 => '4'
  | 5 => '5' | 6 => '6' | 7 => '7' | 8 => '8' | _ => '9'

/-- The value of a decimal digit character, if it is one. -/
def digitVal (c : Char) : Option Nat :=
  if c = '0' then some 0 else if c = '1' then some 1 else if c = '2' then some 2
  else if c = '3' then some 3 else if c = '4' then some 4 else if c = '5' then some 5
  else if c = '6' then some 6 else if c = '7' then some 7 else if c = '8' then some 8
  else if c = '9' then some 9 else none

/-- Digits of `n`, most significant first, pushed in front of `acc`. -/
def natToDecAux : Nat → Nat → List Char → List Char
  | 0, _, acc => acc
  | fuel + 1, n, acc =>
    if n < 10 then digitChar n :: acc
    else natToDecAux fuel (n / 10) (digitChar (n % 10) :: acc)

/-- Decimal text of a natural number (`strconv.Itoa`, `big.Int.String` on non-negatives). -/
def natToDec (n : Nat) : String := ⟨natToDecAux (n + 1) n []⟩

/-- Decimal text of an integer: `big.Int.String()`, `strconv.Itoa`, `fmt.Sprintf("%d")`. -/
def intToDec : Int → String
  | Int.ofNat n => natToDec n
  | Int.negSucc n => ⟨'-' :: (natToDec (n + 1)).data⟩

/-- Value of a non-empty run of decimal digits, accumulated left to right. -/
def digitsVal : List Char → Nat → Option Nat
  | [], acc => some acc
  | c :: cs, acc =>
    match digitVal c with
    | some d => digitsVal cs (acc * 10 + d)
    | none => none

/-- Unsigned decimal text: at least one digit, nothing else. -/
def parseNatDec (cs : List Char) : Option Nat :=
  match cs with
  | [] => none
  | _ => digitsVal cs 0

/-- Go `new(big.Int).SetString(s, 10)`: an optional sign followed by one or more decimal
digits, the whole text consumed; `none` is the `ok == false` result. -/
def SetString10 (s : String) : Option Int :=
  match s.data with
  | '-' :: cs => (parseNatDec cs).map (fun n => - (n : Int))
  | '+' :: cs => (parseNatDec cs).map (fun n => (n : Int))
  | cs => (parseNatDec cs).map (fun n => (n : Int))

/-- Go `strconv.Atoi` on a 64-bit platform: the same grammar as `SetString10`, with a range
error outside `int64`. -/
def Atoi (s : String) : Option Int :=
  match SetString10 s with
  | some v => if -9223372036854775808 ≤ v ∧ v ≤ 9223372036854775807 then some v else none
  | none => none

/-- Big-endian base-256 digits of `n`, pushed in front of `acc`. -/
def bytesAux : Nat → Nat → List Char → List Char
  | 0, _, acc => acc
  | fuel + 1, n, acc =>
    if n = 0 then acc
    else bytesAux fuel (n / 256) (Char.ofNat (n % 256) :: acc)

/-- Go `big.Int.Bytes()`: the absolute value as a minimal big-endian byte string. -/
def bigBytes (x : Int) : String := ⟨bytesAux (x.natAbs + 1) x.natAbs []⟩

/-- Go `new(big.Int).SetBytes(b)`: the bytes read as a big-endian unsigned integer. -/
def SetBytes (s : String) : Int :=
  ((s.data.foldl (fun acc c => acc * 256 + c.toNat) 0 : Nat) : Int)

/-! ## Percentage text (`strconv.ParseFloat` and `stringToPercentageBigInt`)

The standard-library float parser is modelled with exact rational arithmetic: a text is read
as an exact rational, rounded to the nearest binary64 value (ties to even), multiplied by
1000 with the same rounding, and truncated toward zero. Texts using digit separators (`_`)
are outside the modelled grammar and are treated as malformed. -/

/-- A binary64 value: a finite `(-1)^neg * m * 2^e`, an infinity, or not-a-number. -/
inductive F64 where
  | fin (neg : Bool) (m : Nat) (e : Int)
  | inf (neg : Bool)
  | nan
  deriving DecidableEq, Repr

/-- Number of binary digits of `n`, by halving. -/
def bitLenAux : Nat → Nat → Nat
  | 0, _ => 0
  | fuel + 1, n => if n = 0 then 0 else bitLenAux fuel (n / 2) + 1

/-- Number of binary digits of `n` (`0` for `0`). -/
def bitLen (n : Nat) : Nat := bitLenAux n n

/-- Round the positive rational `num / den` to the nearest binary64 (ties to even); the
result is `m * 2^e`, or `none` on overflow past the largest finite value. -/
def roundF64 (num den : Nat) : Option (Nat × Int) :=
  if num = 0 then some (0, 0) else
  let k : Int := (bitLen num : Int) - (bitLen den : Int)
  let e0 : Int := k - 53
  -- num / den lies in [2^(k-1), 2^(k+1)); pick e with num / (den * 2^e) in [2^52, 2^53)
  let scaledNum (e : Int) : Nat := if e ≤ 0 then num * 2 ^ (-e).toNat else num
  let scaledDen (e : Int) : Nat := if e ≤ 0 then den else den * 2 ^ e.toNat
  let e1 : Int := if scaledNum e0 ≥ scaledDen e0 * 2 ^ 53 then e0 + 1 else e0
  let e : Int := if e1 < -1074 then -1074 else e1
  let n := scaledNum e
  let d := scaledDen e
  let q := n / d
  let r := n % d
  let m := if 2 * r > d ∨ (2 * r = d ∧ q % 2 = 1) then q + 1 else q
  -- overflow: m * 2^e >= 2^1024
  if e ≥ 0 ∧ m * 2 ^ e.toNat ≥ 2 ^ 1024 then none else some (m, e)

/-- Value of a hexadecimal digit character. -/
def hexVal (c : Char) : Option Nat :=
  match digitVal c with
  | some d => some d
  | none =>
    if c = 'a' ∨ c = 'A' then some 10 else if c = 'b' ∨ c = 'B' then some 11
    else if c = 'c' ∨ c = 'C' then some 12 else if c = 'd' ∨ c = 'D' then some 13
    else if c = 'e' ∨ c = 'E' then some 14 else if c = 'f' ∨ c = 'F' then some 15
    else none

/-- Read a mantissa in the given base: digits with at most one `.`; returns the digits read
as a natural number, the count of digits after the point, whether a digit was seen, and the
unread rest. -/
def readMantissa (digit : Char → Option Nat) (base : Nat) :
    List Char → Nat → Nat → Bool → Bool → Nat × Nat × Bool × List Char
  | [], acc, frac, _, sawDigit => (acc, frac, sawDigit, [])
  | c :: cs, acc, frac, sawDot, sawDigit =>
    if c = '.' then
      if sawDot then (acc, frac, sawDigit, c :: cs)
      else readMantissa digit base cs acc frac true sawDigit
    else
      match digit c with
      | some d => readMantissa digit base cs (acc * base + d) (if sawDot then frac + 1 else frac)
          sawDot true
      | none => (acc, frac, sawDigit, c :: cs)

/-- Read an exponent body: an optional sign and at least one decimal digit, to the end. -/
def readExponent (cs : List Char) : Option Int :=
  match cs with
  | '-' :: ds => (parseNatDec ds).map (fun n => - (n : Int))
  | '+' :: ds => (parseNatDec ds).map (fun n => (n : Int))
  | ds => (parseNatDec ds).map (fun n => (n : Int))

/-- Round `mant * base^scale` (`base` is 10 or 2) to binary64. -/
def roundScaled (mant : Nat) (base : Nat) (scale : Int) : Option (Nat × Int) :=
  if scale ≥ 0 then roundF64 (mant * base ^ scale.toNat) 1
  else roundF64 mant (base ^ (-scale).toNat)

/-- The unsigned part of a float text: special names, hexadecimal, or decimal. -/
def parseFloatBody (neg : Bool) (signed : Bool) (cs : List Char) : Option F64 :=
  let lower := cs.map Char.toLower
  if lower = "inf".data ∨ lower = "infinity".data then some (F64.inf neg)
  else if lower = "nan".data then (if signed then none else some F64.nan)
  else
    match cs with
    | '0' :: x :: rest =>
      if (x = 'x' ∨ x = 'X') ∧ rest ≠ [] then
        match readMantissa hexVal 16 rest 0 0 false false with
        | (mant, frac, true, p :: ex) =>
          if p = 'p' ∨ p = 'P' then
            match readExponent ex with
            | some e => (roundScaled mant 2 (e - 4 * (frac : Int))).map (fun r => F64.fin neg r.1 r.2)
            | none => none
          else none
        | _ => none
      else decimal cs
    | _ => decimal cs
where
  /-- Decimal mantissa with an optional decimal exponent. -/
  decimal (cs : List Char) : Option F64 :=
    match readMantissa digitVal 10 cs 0 0 false false with
    | (mant, frac, true, []) =>
      (roundScaled mant 10 (- (frac : Int))).map (fun r => F64.fin neg r.1 r.2)
    | (mant, frac, true, x :: ex) =>
      if x = 'e' ∨ x = 'E' then
        match readExponent ex with
        | some e => (roundScaled mant 10 (e - (frac : Int))).map (fun r => F64.fin neg r.1 r.2)
        | none => none
      else none
    | _ => none

/-- Go `strconv.ParseFloat(s, 64)`; `none` is a non-nil error (syntax or range). -/
def ParseFloat (s : String) : Option F64 :=
  match s.data with
  | '-' :: cs => parseFloatBody true true cs
  | '+' :: cs => parseFloatBody false true cs
  | cs => parseFloatBody false false cs

/-- The binary64 product `f * 1000`. -/
def mul1000 : F64 → F64
  | F64.fin neg m e =>
    match roundScaled (m * 1000) 2 e with
    | some r => F64.fin neg r.1 r.2
    | none => F64.inf neg
  | F64.inf neg => F64.inf neg
  | F64.nan => F64.nan

/-- Go `int64(f)`: truncation toward zero; a value outside `int64`, an infinity or a NaN
converts to the minimum `int64` (the amd64 result). -/
def toInt64 : F64 → Int
  | F64.fin neg m e =>
    let a : Nat := if e ≥ 0 then m * 2 ^ e.toNat else m / 2 ^ (-e).toNat
    let v : Int := if neg then - (a : Int) else (a : Int)
    if -9223372036854775808 ≤ v ∧ v ≤ 9223372036854775807 then v else -9223372036854775808
  | _ => -9223372036854775808

/-- Source `stringToPercentageBigInt` (utilities.go): parse as float, multiply by 1000,
convert with `int64(...)`; a parse error yields 0. -/
def stringToPercentageBigInt (str : String) : Int :=
  match ParseFloat str with
  | none => 0
  | some f => toInt64 (mul1000 f)

/-! ## Text helpers (`strings.TrimSpace`, `ToUpper`, `ToLower`, `HasPrefix`) -/

/-- White space removed by `strings.TrimSpace` (the ASCII part). -/
def isSpace (c : Char) : Bool :=
  c = ' ' || c = '\t' || c = '\n' || c = '\r' || c.toNat = 11 || c.toNat = 12

/-- Go `strings.TrimSpace`. -/
def TrimSpace (s : String) : String :=
  ⟨((s.data.dropWhile isSpace).reverse.dropWhile isSpace).reverse⟩

/-- Go `strings.ToUpper` (ASCII letters). -/
def ToUpper (s : String) : String := ⟨s.data.map Char.toUpper⟩

/-- Go `strings.ToLower` (ASCII letters). -/
def ToLower (s : String) : String := ⟨s.data.map Char.toLower⟩

/-- Go `strings.HasPrefix` / badger `ValidForPrefix`. -/
def HasPrefix (s pre : String) : Bool := pre.data.isPrefixOf s.data

/-- The text after a leading `pre` (`strings.TrimPrefix`, `key[len(pre):]`). -/
def dropPre (s pre : String) : String := ⟨s.data.drop pre.data.length⟩

/-! ## Protocol payloads (protocolhandler.go) -/

/-- Source `Miner`. -/
structure Miner where
  Name : String
  Max : String
  Lim : String
  deriving DecidableEq, Repr

/-- Source `(m *Miner) GetUpperName`. -/
def Miner.GetUpperName (m : Miner) : String := ToUpper m.Name

/-- Source `Token`. -/
structure Token where
  Tick : String
  Total : String
  Beg : String
  Halv : String
  Dcr : String
  deriving DecidableEq, Repr

/-- Source `(t *Token) GetLowerTick`. -/
def Token.GetLowerTick (t : Token) : String := ToLower t.Tick

/-- Source `Lottery`. -/
structure Lottery where
  Pool : String
  Intvl : String
  Winp : String
  Dist : String
  deriving DecidableEq, Repr

/-- Source `Burn`. -/
structure Burn where
  Unit : String
  Boost : String
  deriving DecidableEq, Repr

/-- Source `MRC721Protocol`. -/
structure MRC721Protocol where
  P : String
  Miner : Miner
  Token : Token
  Ltry : Option Lottery
  Burn : Option Burn
  deriving DecidableEq, Repr

/-- Source `MRC20Protocol`. -/
structure MRC20Protocol where
  P : String
  Op : String
  Tick : String
  Amt : String
  Dec : Option String
  Insc : Option String
  deriving DecidableEq, Repr

/-- An inscription payload (`ContentByte`) in decoded form: what each decoder the source
applies to the bytes returns for them.

* `json p a b body root`: a JSON document; `p` is its top-level `"p"` text, `a` / `b` are the
  results of `jsoniter.Unmarshal` into `MRC721Protocol` / `MRC20Protocol` (`none` when that
  fails).
* `html name id src root`: a document starting with `<!DOCTYPE html>` or `<html>`; the `body`
  attributes `name` and `mrc-721` and the `img` attribute `src` (empty when absent).
* `svg ns wf name id body`: a document starting with `<svg`; whether the root carries the SVG
  namespace, whether it is well-formed XML, and its `mrc721` / `mrc721id` attributes.
* `other body root`: anything else (not JSON, or no textual `"p"`).

`html.Parse` accepts every text, so `HtmlToNameID` has a result for every payload: `body` is
the pair of attributes `name` and `mrc-721` that the parser collects on the `body` element
(empty when absent; a tag `<body name=.. mrc-721=..>` inside a JSON string value sets them).
`root` is the result of `xml.Unmarshal` into the `svg` struct of `SvgToNameID`: `none` when
the decoder fails, otherwise the attributes `mrc721` and `mrc721id` of the first element,
which must be named `svg` (text before it is skipped). -/
inductive Content where
  | json (p : String) (a : Option MRC721Protocol) (b : Option MRC20Protocol)
      (body : String × String) (root : Option (String × String))
  | html (name : String) (id : String) (src : String) (root : Option (String × String))
  | svg (ns : Bool) (wf : Bool) (name : String) (id : String) (body : String × String)
  | other (body : String × String) (root : Option (String × String))
  deriving DecidableEq, Repr

/-- Source `ParseMRC721Protocol`: decode, trim every text field, apply the SATMINE override. -/
def ParseMRC721Protocol (data : Content) : Except String MRC721Protocol :=
  match data with
  | Content.json _ (some q) _ _ _ =>
    let miner : Miner :=
      { Name := TrimSpace q.Miner.Name, Max := TrimSpace q.Miner.Max, Lim := TrimSpace q.Miner.Lim }
    let token : Token :=
      { Tick := TrimSpace q.Token.Tick, Total := TrimSpace q.Token.Total,
        Beg := TrimSpace q.Token.Beg, Halv := TrimSpace q.Token.Halv,
        Dcr := TrimSpace q.Token.Dcr }
    let ltry := q.Ltry.map (fun l =>
      ({ Pool := TrimSpace l.Pool, Intvl := TrimSpace l.Intvl, Winp := TrimSpace l.Winp,
         Dist := TrimSpace l.Dist } : Lottery))
    let burn := q.Burn.map (fun b =>
      ({ Unit := TrimSpace b.Unit, Boost := TrimSpace b.Boost } : Burn))
    let miner2 : Miner :=
      if miner.GetUpperName = "SATMINE" then { miner with Max := "13263", Lim := "100" }
      else miner
    .ok { P := TrimSpace q.P, Miner := miner2, Token := token, Ltry := ltry, Burn := burn }
  | _ => .error "unmarshal MRC721Protocol"

/-- Source `ParseMRC20Protocol`: decode and trim (`Insc` is not trimmed). -/
def ParseMRC20Protocol (data : Content) : Except String MRC20Protocol :=
  match data with
  | Content.json _ _ (some q) _ _ =>
    .ok { P := TrimSpace q.P, Op := TrimSpace q.Op, Tick := TrimSpace q.Tick,
          Amt := TrimSpace q.Amt, Dec := q.Dec.map TrimSpace, Insc := q.Insc }
  | _ => .error "unmarshal MRC20Protocol"

/-- Source `HtmlToNameID`: `html.Parse` of the bytes (it accepts every text), then the
attributes `name` and `mrc-721` of the `body` element; both must be non-empty. -/
def HtmlToNameID (data : Content) : Except String (String × String) :=
  let found : String × String :=
    match data with
    | Content.json _ _ _ body _ => body
    | Content.html name id _ _ => (name, id)
    | Content.svg _ _ _ _ body => body
    | Content.other body _ => body
  if found.1 = "" ∨ found.2 = "" then .error "required attributes not found" else .ok found

/-- Source `SvgToNameID`: `xml.Unmarshal` of the bytes into the `svg` struct, then its
attributes `mrc721` and `mrc721id`; both must be non-empty. -/
def SvgToNameID (data : Content) : Except String (String × String) :=
  let decoded : Option (String × String) :=
    match data with
    | Content.json _ _ _ _ root => root
    | Content.html _ _ _ root => root
    | Content.svg _ wf name id _ => if wf then some (name, id) else none
    | Content.other _ root => root
  match decoded with
  | none => .error "error parsing SVG"
  | some found =>
    if found.1 = "" ∨ found.2 = "" then .error "required attributes not found in the SVG"
    else .ok found

/-- Source `validatePercentageField`. -/
def validatePercentageField (field : String) : Bool :=
  if field.length > 5 then false
  else
    let r := stringToPercentageBigInt field
    if r < 0 ∨ r > 1000 then false else true

/-- Source `validateToken`. -/
def validateToken (token : Token) : Bool :=
  if token.Tick.length > 4 then false
  else if token.Tick ≠ ToLower token.Tick then false
  else
    match SetString10 token.Total with
    | none => false
    | some total =>
      if token.Total.length > 100 then false
      else
        match SetString10 token.Beg with
        | none => false
        | some beg =>
          if token.Beg.length > 100 ∨ beg > total then false
          else
            match SetString10 token.Halv with
            | none => false
            | some halv =>
              if halv < 1 ∨ halv > 100000000 then false
              else validatePercentageField token.Dcr

/-- Source `validateMiner`. -/
def validateMiner (miner : Miner) : Bool :=
  match SetString10 miner.Max with
  | none => false
  | some max =>
    if max < 1 ∨ max > 100000000 then false
    else
      match SetString10 miner.Lim with
      | none => false
      | some lim => if lim < 1 ∨ lim > max then false else true

/-- Source `validateLottery`. -/
def validateLottery (ltry : Lottery) : Bool :=
  if !validatePercentageField ltry.Pool then false
  else if !validatePercentageField ltry.Winp then false
  else if !validatePercentageField ltry.Dist then false
  else
    match SetString10 ltry.Intvl with
    | none => false
    | some intvl => if intvl < 1 ∨ intvl > 100000000 then false else true

/-- Source `validateBurn(burn, max)`; the caller passes `protocol.Token.Total` as `max`.
A `max` that does not parse is a nil `*big.Int`, whose comparison panics: rejected here. -/
def validateBurn (burn : Burn) (max : String) : Bool :=
  match SetString10 burn.Unit with
  | none => false
  | some unit =>
    if unit < 1 then false
    else
      match SetString10 max with
      | none => false
      | some m => if unit > m then false else validatePercentageField burn.Boost

/-- Source `validateMRC721Data` on the decoded payload (`none`: the decode failed). -/
def validateMRC721Data (a : Option MRC721Protocol) : Bool :=
  match a with
  | none => false
  | some protocol =>
    if protocol.P ≠ "mrc-721" then false
    else if !validateToken protocol.Token then false
    else if !validateMiner protocol.Miner then false
    else if !(match protocol.Ltry with | some l => validateLottery l | none => true) then false
    else
      match protocol.Burn with
      | some b => validateBurn b protocol.Token.Total
      | none => true

/-- Source `validateMRC20Data` on the decoded payload. -/
def validateMRC20Data (b : Option MRC20Protocol) : Bool :=
  match b with
  | none => false
  | some protocol =>
    if protocol.P ≠ "mrc-20" then false
    else if protocol.Op ≠ "transfer" ∧ protocol.Op ≠ "burn" then false
    else if protocol.Tick.length > 4 ∨ protocol.Tick ≠ ToLower protocol.Tick then false
    else if protocol.Amt.length > 666 then false
    else if (SetString10 protocol.Amt).isNone then false
    else
      match protocol.Dec with
      | some d => if d ≠ "8" then false else true
      | none => true

/-- Source `validateMRC721HtmlData`. -/
def validateMRC721HtmlData (name id src : String) : Bool :=
  name ≠ "" ∧ id ≠ "" ∧ src ≠ ""

/-- Source `validateMRC721SvgData`. -/
def validateMRC721SvgData (ns : Bool) (name id : String) : Bool :=
  ns ∧ name ≠ "" ∧ id ≠ ""

/-- Source `ValidateProtocolData`: `some t` is `(true, t, nil)`, `none` is any failure. -/
def ValidateProtocolData (data : Content) : Option String :=
  match data with
  | Content.html name id src _ =>
    if validateMRC721HtmlData name id src then some "mrc-721html" else none
  | Content.svg ns _ name id _ =>
    if validateMRC721SvgData ns name id then some "mrc-721svg" else none
  | Content.json p a b _ _ =>
    if p = "mrc-721" then (if validateMRC721Data a then some "mrc-721" else none)
    else if p = "mrc-20" then (if validateMRC20Data b then some "mrc-20" else none)
    else none
  | Content.other _ _ => none

/-- Source `IsEqual721DataByte`. -/
def IsEqual721DataByte (a b : Content) : Bool :=
  match ParseMRC721Protocol a with
  | .error _ => false
  | .ok protocolA =>
    match ParseMRC721Protocol b with
    | .error _ => false
    | .ok protocolB =>
      if protocolA.P ≠ protocolB.P ∨
          protocolA.Miner.Name ≠ protocolB.Miner.Name ∨
          protocolA.Miner.Max ≠ protocolB.Miner.Max ∨
          protocolA.Miner.Lim ≠ protocolB.Miner.Lim ∨
          protocolA.Token.Tick ≠ protocolB.Token.Tick ∨
          protocolA.Token.Total ≠ protocolB.Token.Total ∨
          protocolA.Token.Beg ≠ protocolB.Token.Beg ∨
          protocolA.Token.Halv ≠ protocolB.Token.Halv ∨
          protocolA.Token.Dcr ≠ protocolB.Token.Dcr then false
      else if (match protocolA.Ltry, protocolB.Ltry with
          | some la, some lb =>
            decide (la.Pool ≠ lb.Pool ∨ la.Intvl ≠ lb.Intvl ∨ la.Winp ≠ lb.Winp ∨ la.Dist ≠ lb.Dist)
          | _, _ => false) then false
      else if (match protocolA.Burn, protocolB.Burn with
          | some ba, some bb => decide (ba.Unit ≠ bb.Unit ∨ ba.Boost ≠ bb.Boost)
          | _, _ => false) then false
      else true

/-! ## Records (models.go, miner.go) -/

/-- Source `HookInscription`. -/
structure HookInscription where
  ID : String
  Number : Int
  Address : String
  Offset : String
  Sat : Int
  BlockHeight : Int
  OrdinalHeight : Int
  ContentByte : Option Content
  ContentType : String
  ContentLength : Int
  CurseType : Option String
  InscriptionFee : Int
  InscriptionInputIndex : Int
  InscriptionOutputValue : Int
  SatpointPostInscription : String
  TransfersPreInscription : Int
  TxIndex : Int
  deriving DecidableEq, Repr

/-- Source `HookTransfer` (`TransferType` is the field `Type`). -/
structure HookTransfer where
  ID : String
  TransferType : String
  ToAddress : String
  PostTransferOutputValue : Int
  SatpointPostTransfer : String
  SatpointPreTransfer : String
  TxIndex : Int
  deriving DecidableEq, Repr

/-- Source `HookBlock`. -/
structure HookBlock where
  BlockHeight : String
  BlockHash : String
  Timestamp : Int
  Inscriptions : List HookInscription
  Transfers : List HookTransfer
  deriving DecidableEq, Repr

/-- Source `Mrc721GenesisData`. -/
structure Mrc721GenesisData where
  ID : String
  Number : Int
  Name : String
  PrevName : String
  BlockHeight : String
  GenesisAddress : String
  InscriptionsCount : Int
  InscriptionsMax : Int
  PrizePoolTokens : String
  TotalMinedTokens : String
  TotalPrizePoolTokens : String
  Tick : String
  PrevTick : String
  GenesisBlockHeight : String
  GenesisTimestamp : Int
  EndID : String
  EndBlockHeight : String
  EndTimestamp : Int
  TotalPrizeRound : Int
  TotalBurn : String
  deriving DecidableEq, Repr

/-- Source `LotteryData`. -/
structure LotteryData where
  BlockHeight : String
  BlockHash : String
  BlockTimestamp : Int
  Address : String
  InscriptionID : String
  Number : Int
  Mrc721name : String
  WinAmount : String
  JackpotAccum : String
  Round : Int
  Winp : String
  Dist : String
  deriving DecidableEq, Repr

/-- Source `MiningRewardCalculation`. -/
structure MiningRewardCalculation where
  CurrentPrizePoolAllNum : String
  CurrentMiningAllNum : String
  IsMiningEnd : Bool
  EndReason : String
  deriving DecidableEq, Repr

/-- Source `Mrc721MinerData`. -/
structure Mrc721MinerData where
  InscriptionsID : String
  InscriptionsNumber : Int
  Address : String
  BurnNum : String
  Tick : String
  MinedAmount : String
  Power : Int
  deriving DecidableEq, Repr

/-- Source constant `NO_INSCRIPTION_BLOCK_HASH`. -/
def NO_INSCRIPTION_BLOCK_HASH : String :=
  "0x0000000000000000000000000000000000000000000000000000000000000000"

/-! ## Mining arithmetic (miner.go)

The miner map (`map[string]*Mrc721MinerData`) is the list of its entries in key order; the
entries are updated in place, as the source does through the pointers. -/

/-- A nil `*big.Int` (a failed `SetString` whose `ok` was dropped) panics when used. -/
def need (what : String) : Option Int → Except String Int
  | some v => .ok v
  | none => .error ("panic: nil big.Int " ++ what)

/-- Source miner.go lines 119-127: the loop `for i := 0; i < round; i++` that applies
`cur = cur * (1000 - dcr) / 1000`; `fuel` bounds the number of iterations. -/
def decayLoop (dcr : Int) (round : Int) : Nat → Int → Int → Int
  | 0, _, cur => cur
  | fuel + 1, i, cur =>
    if i < round then decayLoop dcr round fuel (i + 1) (cur * (1000 - dcr) / 1000)
    else cur

/-- Source miner.go lines 110-127: the per-block issuance before it is clamped to the
remaining supply. `halv = 0` is Go's division-by-zero panic. -/
def blockIssuance (genesisHeight currentHeight beg halv dcr : Int) : Except String Int :=
  let blockCount := currentHeight - genesisHeight
  if halv = 0 then .error "panic: division by zero"
  else
    let round := blockCount / halv
    .ok (decayLoop dcr round round.toNat 0 beg)

/-- The order used by `sort.Slice` in `powerRewards`: power descending, then inscription
number ascending. -/
def minerLess (a b : Mrc721MinerData) : Bool :=
  if a.Power = b.Power then decide (a.InscriptionsNumber < b.InscriptionsNumber)
  else decide (a.Power > b.Power)

/-- Insert into a list sorted by `minerLess`. -/
def insertMiner (m : Mrc721MinerData) : List Mrc721MinerData → List Mrc721MinerData
  | [] => [m]
  | x :: xs => if minerLess x m then x :: insertMiner m xs else m :: x :: xs

/-- The sorted slice built by `sort.Slice` (as a stable insertion sort). -/
def sortMiners : List Mrc721MinerData → List Mrc721MinerData
  | [] => []
  | x :: xs => insertMiner x (sortMiners xs)

/-- Source miner.go lines 272-278: hand out one token per miner in slice order until the
amount reaches zero; returns the ids awarded and the amount left. -/
def awardLoop : List Mrc721MinerData → Int → List String × Int
  | [], cur => ([], cur)
  | m :: rest, cur =>
    let cur1 := cur - 1
    if cur1 = 0 then ([m.InscriptionsID], cur1)
    else
      let r := awardLoop rest cur1
      (m.InscriptionsID :: r.1, r.2)

/-- Source `powerRewards`: returns the residual funds and the updated miners. -/
def powerRewards (currentMining : Int) (miners : List Mrc721MinerData) :
    Int × List Mrc721MinerData :=
  if currentMining = 0 then (currentMining, miners)
  else
    let totalPower : Int := miners.foldl (fun acc m => acc + m.Power) 0
    if totalPower = 0 then (currentMining, miners)
    else if currentMining ≥ (miners.length : Int) then
      let shared := miners.map (fun m =>
        { m with MinedAmount := intToDec (currentMining * m.Power / totalPower) })
      let allocated : Int :=
        miners.foldl (fun acc m => acc + currentMining * m.Power / totalPower) 0
      (currentMining - allocated, shared)
    else
      let r := awardLoop (sortMiners miners) currentMining
      (r.2, miners.map (fun m =>
        if m.InscriptionsID ∈ r.1 then { m with MinedAmount := "1" } else m))

/-- Source miner.go lines 168-195: add the burn boost to every miner's power, capped at
11000. A unit that does not parse or is zero panics at the first miner. -/
def applyBurnPower (unit : Option Int) (boost : Int) :
    List Mrc721MinerData → Except String (List Mrc721MinerData)
  | [] => .ok []
  | m :: rest =>
    match unit with
    | none => .error "panic: nil big.Int unit"
    | some u =>
      if u = 0 then .error "panic: division by zero"
      else
        let burnNum := SetBytes m.BurnNum
        let power := m.Power + (burnNum / u) * boost
        let m1 := { m with Power := if power > 11000 then 11000 else power }
        match applyBurnPower unit boost rest with
        | .ok rest1 => .ok (m1 :: rest1)
        | .error e => .error e

/-- Source `CalculateMiningRewards`: the calculation result and the updated miner map. -/
def CalculateMiningRewards (currentHeight : String) (genesisData : Mrc721GenesisData)
    (firstMrc721 : MRC721Protocol) (minerMap : List Mrc721MinerData) :
    Except String (MiningRewardCalculation × List Mrc721MinerData) := do
  let dcr := stringToPercentageBigInt firstMrc721.Token.Dcr
  let total ← need "total" (SetString10 firstMrc721.Token.Total)
  let totalMined ← need "totalMined" (SetString10 genesisData.TotalMinedTokens)
  let totalPrizePool ← need "totalPrizePool" (SetString10 genesisData.TotalPrizePoolTokens)
  let remainingTokens := total - (totalMined + totalPrizePool)
  if remainingTokens < 0 then
    .error "error: negative value of remaining tokens"
  else if remainingTokens = 0 then
    .ok ({ CurrentMiningAllNum := "0", CurrentPrizePoolAllNum := "0", IsMiningEnd := true,
           EndReason := "FullRelease" }, minerMap)
  else
    let currentHeightV ← need "currentHeight" (SetString10 currentHeight)
    let genesisHeightV ← need "genesisHeight" (SetString10 genesisData.BlockHeight)
    let halv ← need "halv" (SetString10 firstMrc721.Token.Halv)
    let beg ← need "beg" (SetString10 firstMrc721.Token.Beg)
    let issued ← blockIssuance genesisHeightV currentHeightV beg halv dcr
    let clamped := if issued > remainingTokens then remainingTokens else issued
    if clamped = 0 then
      .ok ({ CurrentMiningAllNum := "0", CurrentPrizePoolAllNum := "0", IsMiningEnd := true,
             EndReason := "NotFullyReleased" }, minerMap)
    else
      let prizePoolValue : Int :=
        match firstMrc721.Ltry with
        | some l => clamped * stringToPercentageBigInt l.Pool / 1000
        | none => 0
      let currentBlockMining := clamped - prizePoolValue
      let miners1 ←
        match firstMrc721.Burn with
        | some b => applyBurnPower (SetString10 b.Unit) (stringToPercentageBigInt b.Boost) minerMap
        | none => .ok minerMap
      let r := powerRewards currentBlockMining miners1
      .ok ({ CurrentPrizePoolAllNum := intToDec prizePoolValue,
             CurrentMiningAllNum := intToDec (currentBlockMining - r.1),
             IsMiningEnd := false, EndReason := "" }, r.2)

/-! ## The key-value store

Keys are the source's ASCII texts. A value is raw bytes or one of the JSON records the
indexer stores. The store is an association list kept in key order, so that a prefix scan
returns keys in badger's iteration order. -/

/-- A stored value. -/
inductive Val where
  | raw (b : String)
  | inscr (i : HookInscription)
  | genesis (g : Mrc721GenesisData)
  | block (b : HookBlock)
  | lottery (l : LotteryData)
  deriving DecidableEq, Repr

/-- The store: key/value pairs in key order. -/
abbrev Store := List (String × Val)

/-- Byte-wise lexicographic order on keys. -/
def keyLt : List Char → List Char → Bool
  | [], [] => false
  | [], _ :: _ => true
  | _ :: _, [] => false
  | a :: as, b :: bs =>
    if a.toNat < b.toNat then true
    else if a = b then keyLt as bs
    else false

/-- Transaction read `txn.Get(key)`; `none` is `ErrKeyNotFound`. -/
def kvGet : Store → String → Option Val
  | [], _ => none
  | (k1, v1) :: rest, k => if k = k1 then some v1 else kvGet rest k

/-- Transaction write `txn.Set(key, value)`. -/
def kvSet : Store → String → Val → Store
  | [], k, v => [(k, v)]
  | (k1, v1) :: rest, k, v =>
    if k = k1 then (k, v) :: rest
    else if keyLt k.data k1.data then (k, v) :: (k1, v1) :: rest
    else (k1, v1) :: kvSet rest k v

/-- Transaction delete `txn.Delete(key)`. -/
def kvDelete (s : Store) (k : String) : Store :=
  s.filter (fun kv => kv.1 ≠ k)

/-- The entries an iterator yields for `Seek(pre)` / `ValidForPrefix(pre)`, in order. -/
def kvScan (s : Store) (pre : String) : Store :=
  s.filter (fun kv => HasPrefix kv.1 pre)

/-- Read a value as raw bytes (`item.Value` into a `string`). -/
def asRaw : Val → Except String String
  | Val.raw b => .ok b
  | _ => .error "value is not raw text"

/-- Decode a value with `jsoniter.Unmarshal(val, &HookInscription)`. -/
def asInscr : Val → Except String HookInscription
  | Val.inscr i => .ok i
  | _ => .error "unmarshal HookInscription"

/-- Decode a value with `jsoniter.Unmarshal(val, &Mrc721GenesisData)`. -/
def asGenesis : Val → Except String Mrc721GenesisData
  | Val.genesis g => .ok g
  | _ => .error "unmarshal Mrc721GenesisData"

/-- Dereference `*inscription.ContentByte`; a nil pointer panics. -/
def contentOf (i : HookInscription) : Except String Content :=
  match i.ContentByte with
  | some c => .ok c
  | none => .error "panic: nil ContentByte"

/-- Whether an error is a Go panic (it is never swallowed by an `if err != nil` branch). -/
def isPanic (e : String) : Bool := HasPrefix e "panic"

/-! ## Block admission (blockpreprocessor.go) -/

/-- Source `checkPrefixInDB`. -/
def checkPrefixInDB (s : Store) (pre : String) : Bool :=
  match kvScan s pre with
  | [] => false
  | _ :: _ => true

/-- Source `filterBlockData`: keep the transfers whose id matches a stored owner-index
prefix (the prefixes are built without the trailing `::`, as in the source). -/
def filterBlockData (s : Store) (block : HookBlock) : HookBlock :=
  { BlockHeight := block.BlockHeight
    BlockHash := block.BlockHash
    Timestamp := block.Timestamp
    Inscriptions := block.Inscriptions
    Transfers := block.Transfers.filter (fun transfer =>
      checkPrefixInDB s ("mrc721::inscr_addr::" ++ transfer.ID) ||
      checkPrefixInDB s ("mrc20::inscr_addr::" ++ transfer.ID)) }

/-- Source `checkBlockContinuity`. -/
def checkBlockContinuity (s : Store) (block : HookBlock) : Except String Unit :=
  match kvGet s "latestblock" with
  | none => .ok ()
  | some item =>
    match asRaw item with
    | .error e => .error e
    | .ok lastBlockHeightStr =>
      match Atoi lastBlockHeightStr with
      | none => .error "strconv.Atoi: parsing last block height"
      | some lastBlockHeight =>
        match Atoi block.BlockHeight with
        | none => .error "strconv.Atoi: parsing block height"
        | some currentBlockHeight =>
          if currentBlockHeight ≤ lastBlockHeight then .error "block height mismatch"
          else .ok ()

/-- The placeholder block created for a missing height. -/
def emptyBlock (h : Int) : HookBlock :=
  { BlockHeight := intToDec h, BlockHash := NO_INSCRIPTION_BLOCK_HASH, Timestamp := 0,
    Inscriptions := [], Transfers := [] }

/-- Source blockpreprocessor.go lines 146-153: `for h := last + 1; h < current; h++`. -/
def gapLoop (current : Int) : Nat → Int → List HookBlock
  | 0, _ => []
  | fuel + 1, h => if h < current then emptyBlock h :: gapLoop current fuel (h + 1) else []

/-- Source `fillMissingBlocks`. -/
def fillMissingBlocks (s : Store) (block : HookBlock) : Except String (List HookBlock) :=
  match kvGet s "latestblock" with
  | none => .ok [block]
  | some item =>
    match asRaw item with
    | .error e => .error e
    | .ok lastBlockNumberStr =>
      match Atoi lastBlockNumberStr with
      | none => .error "strconv.Atoi: parsing last block number"
      | some lastBlockNumber =>
        match Atoi block.BlockHeight with
        | none => .error "strconv.Atoi: parsing block number"
        | some currentBlockNumber =>
          .ok (gapLoop currentBlockNumber (currentBlockNumber - lastBlockNumber - 1).toNat
                (lastBlockNumber + 1) ++ [block])

/-! ## Inscription writer (writeoperations.go) -/

/-- Source `addNewMrc721`. -/
def addNewMrc721 (s : Store) (inscr : HookInscription) (mrc721Data : MRC721Protocol)
    (mrc721Count : Int) : Except String Store := do
  let upper := mrc721Data.Miner.GetUpperName
  let addrNumKey := "mrc721::addr_num::" ++ upper ++ "::" ++ inscr.Address
  let s1 ←
    match kvGet s addrNumKey with
    | none => pure (kvSet s addrNumKey (Val.raw "1"))
    | some item =>
      match asRaw item with
      | .error e => .error e
      | .ok txt =>
        match Atoi txt with
        | none => .error "Failed to parse inscription count"
        | some count =>
          match Atoi mrc721Data.Miner.Lim with
          | none => .error "Failed to convert Max to integer"
          | some maxInscriptions =>
            if count < maxInscriptions then
              pure (kvSet s addrNumKey (Val.raw (intToDec (count + 1))))
            else .error "inscription limit reached"
  let s2 := kvSet s1 ("mrc721::name_inscr::" ++ upper ++ "::" ++ inscr.ID) (Val.raw "")
  let s3 := kvSet s2 ("mrc721::addr_inscr::" ++ inscr.Address ++ "::" ++ inscr.ID) (Val.raw "")
  let s4 := kvSet s3 ("mrc721::inscr_addr::" ++ inscr.ID ++ "::" ++ inscr.Address) (Val.raw "")
  let s5 := kvSet s4 ("mrc721::count_inscr::" ++ upper ++ "::" ++ intToDec mrc721Count)
    (Val.raw inscr.ID)
  let s6 := kvSet s5 ("mrc721::inscr_count::" ++ upper ++ "::" ++ inscr.ID)
    (Val.raw (intToDec mrc721Count))
  pure s6

/-- Source `IsEqual721Data`. -/
def IsEqual721Data (a b : HookInscription) : Except String Bool := do
  let ca ← contentOf a
  let cb ← contentOf b
  if IsEqual721DataByte ca cb then pure true
  else
    match ParseMRC721Protocol ca with
    | .error _ => pure false
    | .ok protocolA =>
      let nameID :=
        match HtmlToNameID cb with
        | .ok r => Except.ok r
        | .error _ => SvgToNameID cb
      match nameID with
      | .error _ => pure false
      | .ok (mrc721name, mrc721ID) =>
        pure (protocolA.Miner.GetUpperName = ToUpper mrc721name && a.ID = mrc721ID)

/-- Source `writeMrc721`. -/
def writeMrc721 (s : Store) (block : HookBlock) (inscr : HookInscription)
    (mrc721Data : MRC721Protocol) : Except String Store := do
  let geninsc_key := "mrc721::geninsc::" ++ mrc721Data.Miner.GetUpperName
  let geninsc20_key := "mrc20::geninsc::" ++ mrc721Data.Token.GetLowerTick
  match kvGet s geninsc_key with
  | none =>
    match kvGet s geninsc20_key with
    | some _ => pure s
    | none =>
      match Atoi mrc721Data.Miner.Max with
      | none => .error "Failed to strconv.Atoi(mrc721Data.Miner.Max)"
      | some geninscMax =>
        let mrc721GenesisInscription : Mrc721GenesisData :=
          { ID := inscr.ID, Number := inscr.Number, Name := mrc721Data.Miner.GetUpperName,
            PrevName := mrc721Data.Miner.Name, BlockHeight := block.BlockHeight,
            GenesisAddress := inscr.Address, InscriptionsCount := 1,
            InscriptionsMax := geninscMax, PrizePoolTokens := "0", TotalMinedTokens := "0",
            TotalPrizePoolTokens := "0", Tick := mrc721Data.Token.GetLowerTick,
            PrevTick := mrc721Data.Token.Tick, GenesisBlockHeight := block.BlockHeight,
            GenesisTimestamp := block.Timestamp, EndID := "", EndBlockHeight := "",
            EndTimestamp := 0, TotalPrizeRound := 0, TotalBurn := "0" }
        let s1 := kvSet s geninsc_key (Val.genesis mrc721GenesisInscription)
        let s2 := kvSet s1 geninsc20_key (Val.raw mrc721Data.Miner.GetUpperName)
        match addNewMrc721 s2 inscr mrc721Data 0 with
        | .error _ => pure s2
        | .ok s3 => pure s3
  | some item =>
    let genesisData ← asGenesis item
    match kvGet s ("inscr::" ++ genesisData.ID) with
    | none => .error "Key not found"
    | some item2 =>
      let existingHookInscription ← asInscr item2
      let equal ← IsEqual721Data existingHookInscription inscr
      if !equal then pure s
      else
        let firstMrc721 ← (contentOf existingHookInscription) >>= ParseMRC721Protocol
        match Atoi firstMrc721.Miner.Max with
        | none => .error "Failed to convert firstMrc721.Miner.Max to integer"
        | some maxInscriptions =>
          if genesisData.InscriptionsCount ≥ maxInscriptions then pure s
          else
            match addNewMrc721 s inscr mrc721Data genesisData.InscriptionsCount with
            | .error _ => pure s
            | .ok s1 =>
              let updated : Mrc721GenesisData :=
                { genesisData with
                  EndID := inscr.ID, EndBlockHeight := block.BlockHeight,
                  EndTimestamp := block.Timestamp,
                  InscriptionsCount := genesisData.InscriptionsCount + 1 }
              pure (kvSet s1 geninsc_key (Val.genesis updated))

/-- Source `ParseMRC721HtmlProtocol` and `ParseMRC721SvgProtocol`, after the name and id
have been extracted: load the collection's genesis inscription and parse its payload. -/
def parseCarrierProtocol (s : Store) (nameID : Except String (String × String)) :
    Except String MRC721Protocol := do
  let (mrc721name, _) ← nameID
  match kvGet s ("mrc721::geninsc::" ++ mrc721name) with
  | none => .error "error retrieving Mrc721GenesisData"
  | some item =>
    let genesisData ← asGenesis item
    match kvGet s ("inscr::" ++ genesisData.ID) with
    | none => .error "error retrieving HookInscription"
    | some item2 =>
      let hookInscription ← asInscr item2
      let c ← contentOf hookInscription
      ParseMRC721Protocol c

/-- Source `ParseMRC721HtmlProtocol`. -/
def ParseMRC721HtmlProtocol (s : Store) (data : Content) : Except String MRC721Protocol :=
  parseCarrierProtocol s (HtmlToNameID data)

/-- Source `ParseMRC721SvgProtocol`. -/
def ParseMRC721SvgProtocol (s : Store) (data : Content) : Except String MRC721Protocol :=
  parseCarrierProtocol s (SvgToNameID data)

/-! ## More big-integer text forms -/

/-- The longest run of leading decimal digits as a number, with the count of digits read. -/
def scanDigits : List Char → Nat → Nat → Nat × Nat
  | [], acc, n => (acc, n)
  | c :: cs, acc, n =>
    match digitVal c with
    | some d => scanDigits cs (acc * 10 + d) (n + 1)
    | none => (acc, n)

/-- The value left in `z` by `z.SetString(s, 10)` when the returned `ok` is dropped: the
decimal value when `s` is well-formed, otherwise what the scanner had stored so far (the
signed value of the leading digits when digits were read but text remains, else 0). -/
def setStringInPlace (s : String) : Int :=
  match SetString10 s with
  | some v => v
  | none =>
    match s.data with
    | '-' :: cs =>
      let r := scanDigits cs 0 0
      if r.2 = 0 then 0 else - (r.1 : Int)
    | '+' :: cs => ((scanDigits cs 0 0).1 : Int)
    | cs => ((scanDigits cs 0 0).1 : Int)

/-- Value of a non-empty run of digits in base `base`. -/
def digitsValBase (digit : Char → Option Nat) (base : Nat) : List Char → Nat → Option Nat
  | [], acc => some acc
  | c :: cs, acc =>
    match digit c with
    | some d => if d < base then digitsValBase digit base cs (acc * base + d) else none
    | none => none

/-- At least one digit in base `base`, nothing else. -/
def parseNatBase (base : Nat) (cs : List Char) : Option Nat :=
  match cs with
  | [] => none
  | _ => digitsValBase hexVal base cs 0

/-- Go `new(big.Int).SetString(s, 16)`. -/
def SetString16 (s : String) : Option Int :=
  match s.data with
  | '-' :: cs => (parseNatBase 16 cs).map (fun n => - (n : Int))
  | '+' :: cs => (parseNatBase 16 cs).map (fun n => (n : Int))
  | cs => (parseNatBase 16 cs).map (fun n => (n : Int))

/-- The unsigned part of a base-0 integer text: `0x`, `0b`, `0o` prefixes, a leading `0`
for octal, otherwise decimal (digit separators are not modelled). -/
def parseNatBase0 (cs : List Char) : Option Nat :=
  match cs with
  | ['0'] => some 0
  | '0' :: c :: rest =>
    if c = 'x' ∨ c = 'X' then parseNatBase 16 rest
    else if c = 'b' ∨ c = 'B' then parseNatBase 2 rest
    else if c = 'o' ∨ c = 'O' then parseNatBase 8 rest
    else parseNatBase 8 (c :: rest)
  | _ => parseNatDec cs

/-- Go `(*big.Int).UnmarshalText`, which scans with base 0. -/
def UnmarshalText (s : String) : Option Int :=
  match s.data with
  | '-' :: cs => (parseNatBase0 cs).map (fun n => - (n : Int))
  | '+' :: cs => (parseNatBase0 cs).map (fun n => (n : Int))
  | cs => (parseNatBase0 cs).map (fun n => (n : Int))

/-- Source `convertHashToBigInt`. -/
def convertHashToBigInt (hash : String) (limit : Int) : Except String Int :=
  if limit = 0 then .error "convertHashToBigInt limit = 0"
  else if limit = 1 then .ok 0
  else
    let hash1 : String :=
      match hash.data with
      | '0' :: 'x' :: rest => ⟨rest⟩
      | _ => hash
    match SetString16 hash1 with
    | none => .error "invalid hash format"
    | some hashInt => .ok (hashInt % limit)

/-! ## MRC-20 inscriptions (writeoperations.go) -/

/-- Source `writeMrc20`. -/
def writeMrc20 (s : Store) (inscr : HookInscription) (mrc20Data : MRC20Protocol) :
    Except String Store :=
  if mrc20Data.Op = "transfer" then
    match kvGet s ("mrc20::geninsc::" ++ mrc20Data.Tick) with
    | none => .ok s
    | some _ =>
      let balanceKey := "mrc20::balance::" ++ inscr.Address ++ "::" ++ mrc20Data.Tick
      match kvGet s balanceKey with
      | none => .ok s
      | some item =>
        match asRaw item with
        | .error e => .error e
        | .ok val =>
          let balanceBigInt := setStringInPlace val
          let amountBigInt := setStringInPlace mrc20Data.Amt
          if amountBigInt > balanceBigInt then .ok s
          else
            let newBalanceBigInt := balanceBigInt - amountBigInt
            let s1 := kvSet s balanceKey (Val.raw (intToDec newBalanceBigInt))
            let s2 := kvSet s1 ("mrc20::name_inscr::" ++ mrc20Data.Tick ++ "::" ++ inscr.ID)
              (Val.raw "")
            let s3 := kvSet s2 ("mrc20::addr_inscr::" ++ inscr.Address ++ "::" ++ inscr.ID)
              (Val.raw "")
            let s4 := kvSet s3 ("mrc20::inscr_addr::" ++ inscr.ID ++ "::" ++ inscr.Address)
              (Val.raw "")
            .ok (kvSet s4 ("inscr::" ++ inscr.ID) (Val.inscr inscr))
  else if mrc20Data.Op = "burn" then
    match mrc20Data.Insc with
    | none => .ok s
    | some insc =>
      let balanceKey := "mrc20::balance::" ++ inscr.Address ++ "::" ++ mrc20Data.Tick
      match kvGet s balanceKey with
      | none => .error "Key not found"
      | some item =>
        match asRaw item with
        | .error e => .error e
        | .ok val =>
          let balanceBigInt := SetBytes val
          let amountBigInt := setStringInPlace mrc20Data.Amt
          if amountBigInt > balanceBigInt then .ok s
          else
            let newBalanceBigInt := balanceBigInt - amountBigInt
            let s1 := kvSet s balanceKey (Val.raw (bigBytes newBalanceBigInt))
            let burnKey := "mrc721::burn::" ++ insc
            let totalBurnt0 : Except String Int :=
              match kvGet s1 burnKey with
              | none => .ok 0
              | some b => (asRaw b).map SetBytes
            match totalBurnt0 with
            | .error e => .error e
            | .ok t0 =>
              let totalBurnt := t0 + amountBigInt
              let s2 := kvSet s1 burnKey (Val.raw (bigBytes totalBurnt))
              match kvGet s2 ("mrc20::geninsc::" ++ mrc20Data.Tick) with
              | none => .error "Key not found"
              | some to721Item =>
                match asRaw to721Item with
                | .error e => .error e
                | .ok mrc721Name =>
                  -- the source tests `genErr != nil` and then reads the nil item
                  match kvGet s2 ("mrc721::geninsc::" ++ mrc721Name) with
                  | none => .error "panic: nil item"
                  | some _ => .ok s2
  else .ok s

/-- One inscription of `addInscriptionList` (the loop body, lines 18-126). -/
def addInscription (s : Store) (block : HookBlock) (inscription : HookInscription) :
    Except String Store :=
  let inscriptionKey := "inscr::" ++ inscription.ID
  match kvGet s inscriptionKey with
  | some _ => .error ("inscription " ++ inscriptionKey ++ " already exists in database")
  | none =>
    let s1 := kvSet s inscriptionKey (Val.inscr inscription)
    let s2 := kvSet s1 ("inscr::number::" ++ intToDec inscription.Number)
      (Val.raw inscription.ID)
    match inscription.ContentByte with
    | none => .ok s2
    | some data =>
      match ValidateProtocolData data with
      | none => .ok s2
      | some protocolType =>
        if protocolType = "mrc-721" then
          match ParseMRC721Protocol data with
          | .error _ => .ok s2
          | .ok mrc721Data => writeMrc721 s2 block inscription mrc721Data
        else if protocolType = "mrc-721html" then
          match ParseMRC721HtmlProtocol s2 data with
          | .error e => if isPanic e then .error e else .ok s2
          | .ok mrc721Data => writeMrc721 s2 block inscription mrc721Data
        else if protocolType = "mrc-721svg" then
          match ParseMRC721SvgProtocol s2 data with
          | .error e => if isPanic e then .error e else .ok s2
          | .ok mrc721Data => writeMrc721 s2 block inscription mrc721Data
        else if protocolType = "mrc-20" then
          match ParseMRC20Protocol data with
          | .error _ => .ok s2
          | .ok mrc20Data => writeMrc20 s2 inscription mrc20Data
        else .ok s2

/-- The loop of `addInscriptionList` over a list of inscriptions. -/
def addInscriptions (block : HookBlock) : List HookInscription → Store → Except String Store
  | [], s => .ok s
  | inscription :: rest, s =>
    match addInscription s block inscription with
    | .error e => .error e
    | .ok s1 => addInscriptions block rest s1

/-- Source `addInscriptionList`. -/
def addInscriptionList (s : Store) (block : HookBlock) : Except String Store :=
  addInscriptions block block.Inscriptions s

/-! ## Transfer writer (writeoperations.go) -/

/-- The first key under `pre` and the address that follows the prefix in it
(`oldKey`, `oldAddr`); both empty when no key matches. -/
def firstUnder (s : Store) (pre : String) : String × String :=
  match kvScan s pre with
  | [] => ("", "")
  | (key, _) :: _ => (key, dropPre key pre)

/-- The MRC-721 part of one transfer (lines 446-535). -/
def transfer721 (s : Store) (transferItem : HookTransfer) (toAddress : String) :
    Except String Store :=
  let r := firstUnder s ("mrc721::inscr_addr::" ++ transferItem.ID ++ "::")
  let oldKey := r.1
  let oldAddr := r.2
  if oldAddr = "" then .ok s
  else
    let s1 := kvDelete s oldKey
    let s2 := kvSet s1 ("mrc721::inscr_addr::" ++ transferItem.ID ++ "::" ++ toAddress)
      (Val.raw "")
    let oldKeyValue := "mrc721::addr_inscr::" ++ oldAddr ++ "::" ++ transferItem.ID
    match kvGet s2 oldKeyValue with
    | none => .error "key-value pair does not exist"
    | some _ =>
      let s3 := kvDelete s2 oldKeyValue
      let s4 := kvSet s3 ("mrc721::addr_inscr::" ++ toAddress ++ "::" ++ transferItem.ID)
        (Val.raw "")
      let inscrKey := "inscr::" ++ transferItem.ID
      match kvGet s4 inscrKey with
      | none => .error "error retrieving HookInscription"
      | some item =>
        match asInscr item with
        | .error e => .error e
        | .ok hookInscription =>
          .ok (kvSet s4 inscrKey (Val.inscr { hookInscription with Address := toAddress }))

/-- The MRC-20 part of one transfer (lines 537-629). -/
def transfer20 (s : Store) (transferItem : HookTransfer) (toAddress : String) :
    Except String Store :=
  let r := firstUnder s ("mrc20::inscr_addr::" ++ transferItem.ID ++ "::")
  let oldKey := r.1
  let oldAddr := r.2
  if oldAddr = "" then .ok s
  else
    match kvGet s ("inscr::" ++ transferItem.ID) with
    | none => .error "Key not found"
    | some item =>
      match asInscr item with
      | .error e => .error e
      | .ok mrc20Inscription =>
        match contentOf mrc20Inscription >>= ParseMRC20Protocol with
        | .error e => .error e
        | .ok mrc20Data =>
          let balanceKey := "mrc20::balance::" ++ toAddress ++ "::" ++ mrc20Data.Tick
          let currentBalance : Except String Int :=
            match kvGet s balanceKey with
            | none => .ok 0
            | some b =>
              match asRaw b with
              | .error e => .error e
              | .ok val =>
                match UnmarshalText val with
                | some v => .ok v
                | none => .error "math/big: cannot unmarshal into a *big.Int"
          match currentBalance with
          | .error e => .error e
          | .ok cur =>
            match SetString10 mrc20Data.Amt with
            | none => .error "invalid amount format"
            | some transferAmount =>
              let newBalance := cur + transferAmount
              let s1 := kvSet s balanceKey (Val.raw (intToDec newBalance))
              let s2 := kvDelete s1
                ("mrc20::name_inscr::" ++ mrc20Data.Tick ++ "::" ++ transferItem.ID)
              let s3 := kvDelete s2
                ("mrc20::addr_inscr::" ++ oldAddr ++ "::" ++ transferItem.ID)
              .ok (kvDelete s3 oldKey)

/-- One transfer of `addTransferList` (the loop body, lines 427-630). -/
def addTransfer (s : Store) (transferItem : HookTransfer) : Except String Store :=
  if transferItem.TransferType = "transferred" then
    match transfer721 s transferItem transferItem.ToAddress with
    | .error e => .error e
    | .ok s1 => transfer20 s1 transferItem transferItem.ToAddress
  else if transferItem.TransferType = "burnt" then
    match transfer721 s transferItem "1BitcoinEaterAddressDontSendf59kuE" with
    | .error e => .error e
    | .ok s1 => transfer20 s1 transferItem "1BitcoinEaterAddressDontSendf59kuE"
  else .ok s

/-- The loop of `addTransferList` over a list of transfers. -/
def addTransfers : List HookTransfer → Store → Except String Store
  | [], s => .ok s
  | transferItem :: rest, s =>
    match addTransfer s transferItem with
    | .error e => .error e
    | .ok s1 => addTransfers rest s1

/-- Source `addTransferList`. -/
def addTransferList (s : Store) (block : HookBlock) : Except String Store :=
  addTransfers block.Transfers s

/-! ## Mining over the store (writeoperations.go, `mineWithMrc721Inscription`) -/

/-- Lines 936-990: build the miner map from the keys under
`mrc721::name_inscr::<name>::`; an entry whose inscription is missing or does not decode is
skipped. -/
def buildMinerMap (s : Store) (tick : String) (pre : String) :
    List (String × Val) → List Mrc721MinerData
  | [] => []
  | (key, _) :: rest =>
    let inscriptionID := dropPre key pre
    match kvGet s ("inscr::" ++ inscriptionID) with
    | none => buildMinerMap s tick pre rest
    | some item =>
      match asInscr item with
      | .error _ => buildMinerMap s tick pre rest
      | .ok minerInscription =>
        let burnNum : String :=
          match kvGet s ("mrc721::burn::" ++ inscriptionID) with
          | some (Val.raw val) => if val.length > 0 then val else "0"
          | _ => "0"
        { InscriptionsID := inscriptionID, InscriptionsNumber := minerInscription.Number,
          Address := minerInscription.Address, BurnNum := burnNum, Tick := tick,
          MinedAmount := "0", Power := 1000 } :: buildMinerMap s tick pre rest

/-- Lines 1010-1100: write one miner's mined amount, power and balance. -/
def creditMiner (s : Store) (minerData : Mrc721MinerData) : Except String Store :=
  let minerKey := "mrc721::inscr_miner::" ++ minerData.InscriptionsID
  let existing : Except String Int :=
    match kvGet s minerKey with
    | some item => (asRaw item).map SetBytes
    | none => .ok 0
  match existing with
  | .error e => .error e
  | .ok existingMinedAmount =>
    match SetString10 minerData.MinedAmount with
    | none => .error "failed to parse mined amount to big.Int"
    | some minedAmount =>
      let s1 := kvSet s minerKey (Val.raw (bigBytes (existingMinedAmount + minedAmount)))
      let s2 := kvSet s1 ("mrc721::inscr_power::" ++ minerData.InscriptionsID)
        (Val.raw (bigBytes minerData.Power))
      let balanceKey := "mrc20::balance::" ++ minerData.Address ++ "::" ++ minerData.Tick
      let current : Except String Int :=
        match kvGet s2 balanceKey with
        | some item => (asRaw item).map setStringInPlace
        | none => .ok 0
      match current with
      | .error e => .error e
      | .ok currentBalance =>
        .ok (kvSet s2 balanceKey (Val.raw (intToDec (currentBalance + minedAmount))))

/-- The loop over the miner map of lines 1010-1100. -/
def creditMiners : List Mrc721MinerData → Store → Except String Store
  | [], s => .ok s
  | m :: rest, s =>
    match creditMiner s m with
    | .error e => .error e
    | .ok s1 => creditMiners rest s1

/-- Lines 1102-1119: the genesis record after a mining step. -/
def updateGenesisMined (genesisData : Mrc721GenesisData) (calcResult : MiningRewardCalculation) :
    Except String Mrc721GenesisData := do
  let prizePoolTokens ← need "prizePool" (SetString10 genesisData.PrizePoolTokens)
  let totalMinedTokens ← need "totalMined" (SetString10 genesisData.TotalMinedTokens)
  let totalPrizePoolTokens ← need "totalPrizePool" (SetString10 genesisData.TotalPrizePoolTokens)
  let currentPrizePoolAllNum ← need "currentPrizePool" (SetString10 calcResult.CurrentPrizePoolAllNum)
  let currentMiningAllNum ← need "currentMining" (SetString10 calcResult.CurrentMiningAllNum)
  pure { genesisData with
    PrizePoolTokens := intToDec (prizePoolTokens + currentPrizePoolAllNum)
    TotalMinedTokens := intToDec (totalMinedTokens + currentMiningAllNum)
    TotalPrizePoolTokens := intToDec (totalPrizePoolTokens + currentPrizePoolAllNum) }

/-- One collection of `mineWithMrc721Inscription` (the body of the outer loop): `key` and
`val` are the iterator's current item. -/
def mineCollection (s : Store) (block : HookBlock) (key : String) (val : Val) :
    Except String Store := do
  let mrc721Name := dropPre key "mrc721::geninsc::"
  let genesisData ← asGenesis val
  match kvGet s ("inscr::" ++ genesisData.ID) with
  | none => .error "Error retrieving HookInscription"
  | some item =>
    let hookInscription ← asInscr item
    let firstMrc721 ← contentOf hookInscription >>= ParseMRC721Protocol
    if genesisData.TotalMinedTokens = firstMrc721.Token.Total then pure s
    else
      let nameInscrPre := "mrc721::name_inscr::" ++ mrc721Name ++ "::"
      let minerMap := buildMinerMap s genesisData.Tick nameInscrPre (kvScan s nameInscrPre)
      let (calcResult, miners) ←
        CalculateMiningRewards block.BlockHeight genesisData firstMrc721 minerMap
      if calcResult.IsMiningEnd then pure s
      else
        let s1 ← creditMiners miners s
        let updated ← updateGenesisMined genesisData calcResult
        pure (kvSet s1 ("mrc721::geninsc::" ++ mrc721Name) (Val.genesis updated))

/-- The outer loop of `mineWithMrc721Inscription` over the iterator's items. -/
def mineCollections (block : HookBlock) : List (String × Val) → Store → Except String Store
  | [], s => .ok s
  | (key, val) :: rest, s =>
    match mineCollection s block key val with
    | .error e => .error e
    | .ok s1 => mineCollections block rest s1

/-- Source `mineWithMrc721Inscription`. -/
def mineWithMrc721Inscription (s : Store) (block : HookBlock) : Except String Store :=
  mineCollections block (kvScan s "mrc721::geninsc::") s

/-! ## Lottery (writeoperations.go, `lotteryWithBlockHash`) -/

/-- One collection of `lotteryWithBlockHash` (the body of the loop). -/
def lotteryCollection (s : Store) (block : HookBlock) (key : String) (val : Val) :
    Except String Store := do
  let mrc721Name := dropPre key "mrc721::geninsc::"
  let genesisData ← asGenesis val
  if genesisData.PrizePoolTokens = "0" then pure s
  else
    match kvGet s ("inscr::" ++ genesisData.ID) with
    | none => .error "Error retrieving HookInscription"
    | some item =>
      let hookInscription ← asInscr item
      let firstMrc721 ← contentOf hookInscription >>= ParseMRC721Protocol
      match firstMrc721.Ltry with
      | none => pure s
      | some ltry =>
        let genesisHeight ← need "genesisHeight" (SetString10 genesisData.BlockHeight)
        let currentHeight ← need "currentHeight" (SetString10 block.BlockHeight)
        let blockCount := currentHeight - genesisHeight
        if blockCount = 0 then pure s
        else
        let intvl ← need "intvl" (SetString10 ltry.Intvl)
        if intvl = 0 then .error "panic: division by zero"
        else if Int.tmod blockCount intvl ≠ 0 then pure s
        else
          let winp := stringToPercentageBigInt ltry.Winp
          let dist := stringToPercentageBigInt ltry.Dist
          let randomWinp ← convertHashToBigInt block.BlockHash 1000
          if randomWinp > winp then pure s
          else
            let luckNum ← convertHashToBigInt block.BlockHash genesisData.InscriptionsCount
            let prizePoolTokens ← need "prizePool" (SetString10 genesisData.PrizePoolTokens)
            let actualPrizeAmount := prizePoolTokens * dist / 1000
            match kvGet s ("mrc721::count_inscr::" ++ mrc721Name ++ "::" ++ intToDec luckNum) with
            | none => .error "Failed to get luck inscription ID"
            | some idItem =>
              let luckInscriptionID ← asRaw idItem
              let luckAddress :=
                (firstUnder s ("mrc721::inscr_addr::" ++ luckInscriptionID ++ "::")).2
              if luckAddress = "" then .error "no luck address found"
              else
                let balanceKey := "mrc20::balance::" ++ luckAddress ++ "::" ++ firstMrc721.Token.Tick
                let balanceStr ←
                  match kvGet s balanceKey with
                  | none => pure "0"
                  | some b => asRaw b
                match SetString10 balanceStr with
                | none => .error "invalid balance format"
                | some balance =>
                  let s1 := kvSet s balanceKey (Val.raw (intToDec (balance + actualPrizeAmount)))
                  let updated : Mrc721GenesisData :=
                    { genesisData with
                      PrizePoolTokens := intToDec (prizePoolTokens - actualPrizeAmount)
                      TotalPrizeRound := genesisData.TotalPrizeRound + 1 }
                  let s2 := kvSet s1 ("mrc721::geninsc::" ++ mrc721Name) (Val.genesis updated)
                  let lotteryData : LotteryData :=
                    { BlockHeight := block.BlockHeight, BlockHash := block.BlockHash,
                      BlockTimestamp := block.Timestamp, Address := luckAddress,
                      InscriptionID := luckInscriptionID, Number := 0,
                      Mrc721name := mrc721Name, WinAmount := intToDec actualPrizeAmount,
                      JackpotAccum := genesisData.PrizePoolTokens,
                      Round := updated.TotalPrizeRound, Winp := ltry.Winp, Dist := ltry.Dist }
                  pure (kvSet s2
                    ("lottery::mrc721::" ++ mrc721Name ++ "::" ++ intToDec updated.TotalPrizeRound)
                    (Val.lottery lotteryData))

/-- The loop of `lotteryWithBlockHash` over the iterator's items. -/
def lotteryCollections (block : HookBlock) : List (String × Val) → Store → Except String Store
  | [], s => .ok s
  | (key, val) :: rest, s =>
    match lotteryCollection s block key val with
    | .error e => .error e
    | .ok s1 => lotteryCollections block rest s1

/-- Source `lotteryWithBlockHash`. -/
def lotteryWithBlockHash (s : Store) (block : HookBlock) : Except String Store :=
  if block.BlockHash = NO_INSCRIPTION_BLOCK_HASH then .ok s
  else lotteryCollections block (kvScan s "mrc721::geninsc::") s

/-! ## Block writer (blockwriter.go) -/

/-- One iteration of the loop in `WriteBlock` (lines 85-124). -/
def applyBlock (s : Store) (block : HookBlock) : Except String Store := do
  let s1 ← addInscriptionList s block
  let s2 ← addTransferList s1 block
  let s3 ← mineWithMrc721Inscription s2 block
  let s4 ← lotteryWithBlockHash s3 block
  let s5 := kvSet s4 "latestblock" (Val.raw block.BlockHeight)
  let s6 := kvSet s5 ("block::" ++ block.BlockHeight) (Val.block block)
  pure (kvSet s6 ("bkhash::" ++ block.BlockHash) (Val.raw block.BlockHeight))

/-- The loop of `WriteBlock` over the gap-fill blocks and the event. -/
def applyBlocks : List HookBlock → Store → Except String Store
  | [], s => .ok s
  | block :: rest, s =>
    match applyBlock s block with
    | .error e => .error e
    | .ok s1 => applyBlocks rest s1

/-- The closure passed to `db.Update` in `WriteBlock`: `none` is the early `return nil` on a
continuity error (nothing written), `some s1` the store to commit. -/
def writeBlockTxn (s : Store) (filterBlock : HookBlock) : Except String (Option Store) :=
  match checkBlockContinuity s filterBlock with
  | .error _ => .ok none
  | .ok _ =>
    match fillMissingBlocks s filterBlock with
    | .error e => .error e
    | .ok blocks =>
      match applyBlocks blocks s with
      | .error e => .error e
      | .ok s1 => .ok (some s1)

/-- Source `WriteBlock`: the returned error (if any) and the store after the call. The
update transaction commits its writes only when the closure returns `nil`. -/
def WriteBlock (s : Store) (newBlock : HookBlock) : Except String Unit × Store :=
  match writeBlockTxn s (filterBlockData s newBlock) with
  | .error e => (.error e, s)
  | .ok none => (.ok (), s)
  | .ok (some s1) => (.ok (), s1)

/-! ## Concrete scenarios used by the theorems below -/

/-- An inscription with the given id, number, owner and payload (other fields zero). -/
def mkInscription (id : String) (number : Int) (address : String) (c : Content) :
    HookInscription :=
  { ID := id, Number := number, Address := address, Offset := "", Sat := 0, BlockHeight := 0,
    OrdinalHeight := 0, ContentByte := some c, ContentType := "", ContentLength := 0,
    CurseType := none, InscriptionFee := 0, InscriptionInputIndex := 0,
    InscriptionOutputValue := 0, SatpointPostInscription := "",
    TransfersPreInscription := 0, TxIndex := 0 }

/-- A transfer of inscription `id` to `toAddress`. -/
def mkTransfer (id : String) (toAddress : String) : HookTransfer :=
  { ID := id, TransferType := "transferred", ToAddress := toAddress,
    PostTransferOutputValue := 0, SatpointPostTransfer := "", SatpointPreTransfer := "",
    TxIndex := 0 }

/-- A block event. -/
def mkBlock (height hash : String) (inscriptions : List HookInscription)
    (transfers : List HookTransfer) : HookBlock :=
  { BlockHeight := height, BlockHash := hash, Timestamp := 0, Inscriptions := inscriptions,
    Transfers := transfers }

/-- A genesis payload for collection `demo` / tick `demo` without lottery or burn. -/
def demoProtocol (max lim total beg halv dcr : String) : MRC721Protocol :=
  { P := "mrc-721", Miner := { Name := "demo", Max := max, Lim := lim },
    Token := { Tick := "demo", Total := total, Beg := beg, Halv := halv, Dcr := dcr },
    Ltry := none, Burn := none }

/-- The JSON payload carrying a genesis protocol (no markup in its text). -/
def genesisContent (q : MRC721Protocol) : Content :=
  Content.json "mrc-721" (some q) none ("", "") none

/-- Scenario "halving": `beg = 1000`, `halv = 2`, `dcr = "0.500"`. -/
def halvingProtocol : MRC721Protocol := demoProtocol "3" "2" "100000" "1000" "2" "0.500"

/-- Scenario "halving": the genesis record of a collection created at height 0. -/
def halvingGenesis : Mrc721GenesisData :=
  { ID := "g0", Number := 1, Name := "DEMO", PrevName := "demo", BlockHeight := "0",
    GenesisAddress := "A", InscriptionsCount := 1, InscriptionsMax := 3,
    PrizePoolTokens := "0", TotalMinedTokens := "0", TotalPrizePoolTokens := "0",
    Tick := "demo", PrevTick := "demo", GenesisBlockHeight := "0", GenesisTimestamp := 0,
    EndID := "", EndBlockHeight := "", EndTimestamp := 0, TotalPrizeRound := 0,
    TotalBurn := "0" }

/-- Scenario "halving": the single miner of the collection. -/
def halvingMiner : Mrc721MinerData :=
  { InscriptionsID := "g0", InscriptionsNumber := 1, Address := "A", BurnNum := "0",
    Tick := "demo", MinedAmount := "0", Power := 1000 }

/-- Scenario "negative beg": a payload with `total = 1` and `beg = -1`. -/
def negBegProtocol : MRC721Protocol := demoProtocol "2" "2" "1" "-1" "1" "0"

/-- Scenario "negative beg": the genesis and one mint revealed in the same block. -/
def negBegBlock : HookBlock :=
  mkBlock "100" "00ab"
    [mkInscription "g0" 1 "A" (genesisContent negBegProtocol),
     mkInscription "g1" 2 "A" (genesisContent negBegProtocol)] []

/-- Scenario "negative amount": an ordinary collection with `total = 1000`, `beg = 10`. -/
def plainProtocol : MRC721Protocol := demoProtocol "2" "2" "1000" "10" "1" "0"

/-- Scenario "negative amount": an MRC-20 transfer inscription with `amt = "-5"`. -/
def negAmtPayload : MRC20Protocol :=
  { P := "mrc-20", Op := "transfer", Tick := "demo", Amt := "-5", Dec := none, Insc := none }

/-- Scenario "negative amount", block 100: address `A` deploys the collection. -/
def negAmtBlock1 : HookBlock :=
  mkBlock "100" "00ab" [mkInscription "g0" 1 "A" (genesisContent plainProtocol)] []

/-- Scenario "negative amount", block 101: `A` reveals the transfer inscription `t0`. -/
def negAmtBlock2 : HookBlock :=
  mkBlock "101" "00ac"
    [mkInscription "t0" 2 "A" (Content.json "mrc-20" none (some negAmtPayload) ("", "") none)] []

/-- Scenario "negative amount", block 102: inscription `t0` is sent to address `B`. -/
def negAmtBlock3 : HookBlock := mkBlock "102" "00ad" [] [mkTransfer "t0" "B"]

/-- Apply a list of block events in order, keeping the store after each call. -/
def writeBlocks : List HookBlock → Store → Store
  | [], s => s
  | b :: rest, s => writeBlocks rest (WriteBlock s b).2

/-- Whether every `WriteBlock` call of a run returns without error. -/
def allSucceed : List HookBlock → Store → Bool
  | [], _ => true
  | b :: rest, s => (WriteBlock s b).1.isOk && allSucceed rest (WriteBlock s b).2

/-! ## Write footprints -/

/-- Keys of the families the protocol phases write: inscriptions, MRC-721, MRC-20 and
lottery records. -/
def Touched (k : String) : Prop :=
  HasPrefix k "inscr::" = true ∨ HasPrefix k "mrc721::" = true ∨
    HasPrefix k "mrc20::" = true ∨ HasPrefix k "lottery::" = true

/-- Keys of the families in which the transfer writer deletes. -/
def Deletable (k : String) : Prop :=
  HasPrefix k "mrc721::" = true ∨ HasPrefix k "mrc20::" = true

/-- The store `s1` is reached from `s` by writes to `Touched` keys and deletions of
`Deletable` keys. -/
inductive Steps : Store → Store → Prop
  | refl (s : Store) : Steps s s
  | set {s s1 : Store} (k : String) (v : Val) : Steps s s1 → Touched k → Steps s (kvSet s1 k v)
  | del {s s1 : Store} (k : String) : Steps s s1 → Deletable k → Steps s (kvDelete s1 k)

instance (k : String) : Decidable (Touched k) := by unfold Touched; infer_instance

instance (k : String) : Decidable (Deletable k) := by unfold Deletable; infer_instance

/-- Two texts disagree at a position both have. -/
def clash : List Char → List Char → Bool
  | c :: cs, d :: ds => if c = d then clash cs ds else true
  | _, _ => false

/-- Scenario "duplicate id": block 101 reveals an inscription whose id `g0` is already stored. -/
def dupBlock : HookBlock :=
  mkBlock "101" "00ac" [mkInscription "g0" 5 "B" (Content.other ("", "") none)] []

/-- Scenario "gap": the event of height 103 that follows block 100. -/
def gapBlock : HookBlock := mkBlock "103" "00ae" [] []

/-- Scenario "late start": the first event ever applied has height 2. -/
def lateStartBlock : HookBlock := mkBlock "2" "00ab" [] []

/-- Scenario "negative beg", next event: an empty block of height 101. -/
def negBegNext : HookBlock := mkBlock "101" "00ac" [] []

/-- The state reached after the heights `lo .. cur` have been applied. -/
def DenseFrom (s : Store) (lo cur : Int) : Prop :=
  kvGet s "latestblock" = some (Val.raw (intToDec cur)) ∧
    (-9223372036854775808 ≤ cur ∧ cur ≤ 9223372036854775807) ∧
    ∀ h : Int, lo ≤ h → h ≤ cur → kvGet s ("block::" ++ intToDec h) ≠ none

/-- Stores reachable from the empty store by `WriteBlock` calls. -/
inductive Reachable : Store → Prop
  | empty : Reachable []
  | step (s : Store) (e : HookBlock) : Reachable s → Reachable (WriteBlock s e).2

/-- What the cap invariant says about one genesis record: the count is at least 1, the
record's genesis inscription key exists, and the count does not exceed the `miner.max` of
the protocol parsed from that inscription (the collection's canonical protocol). -/
def GoodGenesis (s : Store) (g : Mrc721GenesisData) : Prop :=
  1 ≤ g.InscriptionsCount ∧ kvGet s ("inscr::" ++ g.ID) ≠ none ∧
    ∀ (insc : HookInscription) (c : Content) (proto : MRC721Protocol) (m : Int),
      kvGet s ("inscr::" ++ g.ID) = some (Val.inscr insc) → insc.ContentByte = some c →
      ParseMRC721Protocol c = .ok proto → Atoi proto.Miner.Max = some m →
      g.InscriptionsCount ≤ m

/-- The cap invariant: every stored genesis record is good. -/
def CountInv (s : Store) : Prop :=
  ∀ (k : String) (g : Mrc721GenesisData), (k, Val.genesis g) ∈ s → GoodGenesis s g

/-- No stored genesis record names inscription `id` as its genesis inscription. -/
def NoGenesisOf (s : Store) (id : String) : Prop :=
  ∀ (k : String) (g : Mrc721GenesisData), (k, Val.genesis g) ∈ s → g.ID ≠ id

/-- Keys of the index families (everything the phases write except `inscr::` keys). -/
def IndexKey (k : String) : Prop :=
  HasPrefix k "mrc721::" = true ∨ HasPrefix k "mrc20::" = true ∨
    HasPrefix k "lottery::" = true

instance (k : String) : Decidable (IndexKey k) := by unfold IndexKey; infer_instance

/-- The store `s1` is reached from `s` by writing raw values to index keys and deleting
index keys. -/
inductive RawSteps : Store → Store → Prop
  | refl (s : Store) : RawSteps s s
  | set {s s1 : Store} (k : String) (b : String) :
      RawSteps s s1 → IndexKey k → RawSteps s (kvSet s1 k (Val.raw b))
  | del {s s1 : Store} (k : String) : RawSteps s s1 → IndexKey k → RawSteps s (kvDelete s1 k)

/-- Scenario "mint up to cap": `max = 3`, `lim = 2`. -/
def capProtocol : MRC721Protocol := demoProtocol "3" "2" "100000" "1000" "10" "0.0"

/-- Scenario "mint up to cap": blocks 100-104, one mint attempt per block by A, A, A, B, B. -/
def capBlocks : List HookBlock :=
  [ mkBlock "100" "aa" [mkInscription "g0" 1 "A" (genesisContent capProtocol)] [],
    mkBlock "101" "ab" [mkInscription "m1" 2 "A" (genesisContent capProtocol)] [],
    mkBlock "102" "ac" [mkInscription "m2" 3 "A" (genesisContent capProtocol)] [],
    mkBlock "103" "ad" [mkInscription "m3" 4 "B" (genesisContent capProtocol)] [],
    mkBlock "104" "ae" [mkInscription "m4" 5 "B" (genesisContent capProtocol)] [] ]

/-- Scenario "mint up to cap": the store after the five blocks. -/
def capStore : Store := writeBlocks capBlocks []

/-- Scenario "mint up to cap": the genesis record of `DEMO` after the five blocks. -/
def capGenesis : Mrc721GenesisData :=
  { ID := "g0", Number := 1, Name := "DEMO", PrevName := "demo", BlockHeight := "100",
    GenesisAddress := "A", InscriptionsCount := 3, InscriptionsMax := 3,
    PrizePoolTokens := "0", TotalMinedTokens := "4998", TotalPrizePoolTokens := "0",
    Tick := "demo", PrevTick := "demo", GenesisBlockHeight := "100", GenesisTimestamp := 0,
    EndID := "m3", EndBlockHeight := "103", EndTimestamp := 0, TotalPrizeRound := 0,
    TotalBurn := "0" }

/-- The store lists its keys in strictly increasing byte order. -/
def StoreSorted (s : Store) : Prop :=
  s.Pairwise (fun x y => keyLt x.1.data y.1.data = true)

/-- A text without a colon. Bitcoin addresses and inscription ids never contain one. -/
def NoColon (a : String) : Prop := ':' ∉ a.data

instance (a : String) : Decidable (NoColon a) := by unfold NoColon; infer_instance

/-- Stores reachable from the empty store by `WriteBlock` calls on events that satisfy `P`. -/
inductive ReachableBy (P : HookBlock → Prop) : Store → Prop
  | empty : ReachableBy P []
  | step (s : Store) (e : HookBlock) :
      ReachableBy P s → P e → ReachableBy P (WriteBlock s e).2

/-- Whether the inscription names no collection through markup in a JSON payload: when its
payload decodes as an MRC-721 protocol, `HtmlToNameID` and `SvgToNameID` both fail on it. -/
def tagFree (i : HookInscription) : Bool :=
  match i.ContentByte with
  | none => true
  | some data =>
    !(ParseMRC721Protocol data).isOk ||
      (!(HtmlToNameID data).isOk && !(SvgToNameID data).isOk)

/-- Every inscription of the event has an owner address without a colon and a payload that
is not at once an MRC-721 JSON document and a carrier of a `body` or `svg` collection tag. -/
def MintsPlain (b : HookBlock) : Prop :=
  ∀ i ∈ b.Inscriptions, NoColon i.Address ∧ tagFree i = true

/-- The protocol parsed from the payload of the inscription stored under `id`: for a genesis
record's `ID` this is the collection's canonical protocol (`firstMrc721` in the source). -/
def Canon (s : Store) (id : String) (proto : MRC721Protocol) : Prop :=
  ∃ (insc : HookInscription) (c : Content),
    kvGet s ("inscr::" ++ id) = some (Val.inscr insc) ∧ insc.ContentByte = some c ∧
      ParseMRC721Protocol c = .ok proto

/-- A genesis record stored for collection `U`: its genesis inscription key exists, and the
canonical protocol is named `U` and has `miner.lim` at least 1. -/
def GoodColl (s : Store) (U : String) (g : Mrc721GenesisData) : Prop :=
  kvGet s ("inscr::" ++ g.ID) ≠ none ∧
    ∀ proto, Canon s g.ID proto →
      proto.Miner.GetUpperName = U ∧ ∀ l, Atoi proto.Miner.Lim = some l → 1 ≤ l

/-- Every stored genesis record is good for the collection name of its key. -/
def CollInv (s : Store) : Prop :=
  ∀ (U : String) (g : Mrc721GenesisData),
    kvGet s ("mrc721::geninsc::" ++ U) = some (Val.genesis g) → GoodColl s U g

/-- The count `n` does not exceed the canonical `miner.lim` of the record's collection. -/
def LimOK (s : Store) (g : Mrc721GenesisData) (n : Int) : Prop :=
  ∀ proto l, Canon s g.ID proto → Atoi proto.Miner.Lim = some l → n ≤ l

/-- Every per-address mint count is the decimal text of a number between 1 and the canonical
`miner.lim` of its collection, and the collection's genesis record exists. -/
def AddrInv (s : Store) : Prop :=
  ∀ (U a : String) (v : Val), NoColon a →
    kvGet s ("mrc721::addr_num::" ++ U ++ "::" ++ a) = some v →
    kvGet s ("mrc721::geninsc::" ++ U) ≠ none ∧
    ∃ n : Int, v = Val.raw (intToDec n) ∧ 1 ≤ n ∧ n ≤ 9223372036854775807 ∧
      ∀ g, kvGet s ("mrc721::geninsc::" ++ U) = some (Val.genesis g) → LimOK s g n

/-- No stored genesis record has `id` as its genesis inscription. -/
def NoRec (s : Store) (id : String) : Prop :=
  ∀ (U : String) (g : Mrc721GenesisData),
    kvGet s ("mrc721::geninsc::" ++ U) = some (Val.genesis g) → g.ID ≠ id

/-- Key families whose content the cap invariants do not read. -/
def quietPrefixes : List String :=
  ["mrc721::name_inscr::", "mrc721::addr_inscr::", "mrc721::inscr_addr::",
   "mrc721::count_inscr::", "mrc721::inscr_count::", "mrc721::inscr_miner::",
   "mrc721::inscr_power::", "mrc721::burn::", "mrc20::", "lottery::", "latestblock",
   "block::", "bkhash::"]

/-- The key belongs to one of the quiet families. -/
def Quiet (k : String) : Prop := quietPrefixes.any (fun p => HasPrefix k p) = true

instance (k : String) : Decidable (Quiet k) := by unfold Quiet; infer_instance

/-- Writes and deletes on quiet keys only. -/
inductive QSteps : Store → Store → Prop
  | refl (s : Store) : QSteps s s
  | set {s s1 : Store} (k : String) (v : Val) : QSteps s s1 → Quiet k → QSteps s (kvSet s1 k v)
  | del {s s1 : Store} (k : String) : QSteps s s1 → Quiet k → QSteps s (kvDelete s1 k)

/-- The keys the cap invariants read. -/
def Relevant (k : String) : Prop :=
  HasPrefix k "inscr::" = true ∨ HasPrefix k "mrc721::geninsc::" = true ∨
    HasPrefix k "mrc721::addr_num::" = true

/-- Two stores agree on every key the cap invariants read. -/
def Agree (s s1 : Store) : Prop := ∀ k, Relevant k → kvGet s1 k = kvGet s k

/-- What the mining and lottery loops need of an iterator item taken at the start of the
phase: its record is good for the key's collection name and the stored counts of that name
respect its canonical limit. -/
def SnapOK (s : Store) (key : String) (val : Val) : Prop :=
  ∀ g, asGenesis val = .ok g →
    GoodColl s (dropPre key "mrc721::geninsc::") g ∧
    ∀ (a : String) (v : Val) (n : Int), NoColon a →
      kvGet s ("mrc721::addr_num::" ++ dropPre key "mrc721::geninsc::" ++ "::" ++ a) = some v →
      v = Val.raw (intToDec n) → LimOK s g n

/-- Two stores agree on inscription records and per-address counts. -/
def AgreeIA (s s1 : Store) : Prop :=
  (∀ x, kvGet s1 ("inscr::" ++ x) = kvGet s ("inscr::" ++ x)) ∧
    ∀ U a, kvGet s1 ("mrc721::addr_num::" ++ U ++ "::" ++ a)
      = kvGet s ("mrc721::addr_num::" ++ U ++ "::" ++ a)

instance (b : HookBlock) : Decidable (MintsPlain b) := by unfold MintsPlain; infer_instance

/-- A genesis payload for collection `name` / tick `tick` without lottery or burn. -/
def namedProtocol (name tick max lim : String) : MRC721Protocol :=
  { P := "mrc-721", Miner := { Name := name, Max := max, Lim := lim },
    Token := { Tick := tick, Total := "100000", Beg := "1000", Halv := "10", Dcr := "0.0" },
    Ltry := none, Burn := none }

/-- Scenario "colon in a name": collection `a` (`lim = 1`) deployed by `D`, collection `a::b`
(`lim = 2`) deployed by `C`, who then mints a second member of `a::b`. -/
def colonBlocks : List HookBlock :=
  [ mkBlock "100" "aa" [mkInscription "g0" 1 "D" (genesisContent (namedProtocol "a" "ta" "5" "1"))] [],
    mkBlock "101" "ab" [mkInscription "g1" 2 "C" (genesisContent (namedProtocol "a::b" "tb" "5" "2"))] [],
    mkBlock "102" "ac" [mkInscription "m1" 3 "C" (genesisContent (namedProtocol "a::b" "tb" "5" "2"))] [] ]

/-- Scenario "colon in a name": the store after the three blocks. -/
def colonStore : Store := writeBlocks colonBlocks []

/-- Scenario "mint up to cap": the store after blocks 100 and 101 (`A` holds two members). -/
def limStore : Store := writeBlocks (capBlocks.take 2) []

/-- Every inscription id and transfer id of the event is colon-free. -/
def PlainIds (b : HookBlock) : Prop :=
  (∀ i ∈ b.Inscriptions, NoColon i.ID) ∧ ∀ t ∈ b.Transfers, NoColon t.ID

instance (b : HookBlock) : Decidable (PlainIds b) := by unfold PlainIds; infer_instance

/-- The owner indexes of inscription `id` are consistent: at most one
`mrc721::inscr_addr::<id>::<addr>` key, mirrored by `mrc721::addr_inscr::<addr>::<id>`; a
member has an owner key; an inscription with an owner key has an inscription record. -/
def OwnOK (s : Store) (id : String) : Prop :=
  (∀ a b, kvGet s ("mrc721::inscr_addr::" ++ id ++ "::" ++ a) ≠ none →
    kvGet s ("mrc721::inscr_addr::" ++ id ++ "::" ++ b) ≠ none → a = b) ∧
  (∀ a, kvGet s ("mrc721::addr_inscr::" ++ a ++ "::" ++ id) ≠ none ↔
    kvGet s ("mrc721::inscr_addr::" ++ id ++ "::" ++ a) ≠ none) ∧
  ((∃ nm, kvGet s ("mrc721::name_inscr::" ++ nm ++ "::" ++ id) ≠ none) →
    ∃ a, kvGet s ("mrc721::inscr_addr::" ++ id ++ "::" ++ a) ≠ none) ∧
  ((∃ a, kvGet s ("mrc721::inscr_addr::" ++ id ++ "::" ++ a) ≠ none) →
    kvGet s ("inscr::" ++ id) ≠ none)

/-- The owner indexes of every colon-free id are consistent. -/
def OwnInv (s : Store) : Prop := ∀ id, NoColon id → OwnOK s id

/-- Key families the owner invariant does not read. -/
def ownQuietPrefixes : List String :=
  ["mrc721::geninsc::", "mrc721::addr_num::", "mrc721::count_inscr::",
   "mrc721::inscr_count::", "mrc721::inscr_miner::", "mrc721::inscr_power::",
   "mrc721::burn::", "mrc20::", "lottery::", "latestblock", "block::", "bkhash::"]

/-- The key belongs to a family the owner invariant does not read. -/
def OwnQuiet (k : String) : Prop := ownQuietPrefixes.any (fun p => HasPrefix k p) = true

instance (k : String) : Decidable (OwnQuiet k) := by unfold OwnQuiet; infer_instance

/-- A key that may be written without touching the owner indexes: quiet, or under `inscr::`. -/
def OwnSettable (k : String) : Prop := OwnQuiet k ∨ HasPrefix k "inscr::" = true

instance (k : String) : Decidable (OwnSettable k) := by unfold OwnSettable; infer_instance

/-- Writes on settable keys and deletes on quiet keys. -/
inductive OSteps : Store → Store → Prop
  | refl (s : Store) : OSteps s s
  | set {s s1 : Store} (k : String) (v : Val) :
      OSteps s s1 → OwnSettable k → OSteps s (kvSet s1 k v)
  | del {s s1 : Store} (k : String) : OSteps s s1 → OwnQuiet k → OSteps s (kvDelete s1 k)

/-- The keys of the three owner index families. -/
def OwnKey (k : String) : Prop :=
  HasPrefix k "mrc721::inscr_addr::" = true ∨ HasPrefix k "mrc721::addr_inscr::" = true ∨
    HasPrefix k "mrc721::name_inscr::" = true

/-- The second store has the same owner index entries and at least the inscription records
of the first. -/
def OwnAgree (s s1 : Store) : Prop :=
  (∀ k, OwnKey k → kvGet s1 k = kvGet s k) ∧
    ∀ x, kvGet s ("inscr::" ++ x) ≠ none → kvGet s1 ("inscr::" ++ x) ≠ none

/-- Scenario "colon in an id": one block reveals the genesis `x` (owner `B`) and the mint
`x::y` (owner `A`) of the same collection. -/
def colonIdBlocks : List HookBlock :=
  [ mkBlock "100" "aa"
      [mkInscription "x" 1 "B" (genesisContent capProtocol),
       mkInscription "x::y" 2 "A" (genesisContent capProtocol)] [] ]

/-- Scenario "colon in an id": the store after the block. -/
def colonIdStore : Store := writeBlocks colonIdBlocks []

/-- Scenario "mint up to cap, then transfer": member `m1` is sent from `A` to `B` in
block 105. -/
def ownBlocks : List HookBlock := capBlocks ++ [mkBlock "105" "af" [] [mkTransfer "m1" "B"]]

/-- Scenario "mint up to cap, then transfer": the store after the six blocks. -/
def ownStore : Store := writeBlocks ownBlocks []

/-- Scenario "three miners": powers 1000, 1500, 1000. -/
def threeMiners : List Mrc721MinerData :=
  [ { InscriptionsID := "g0", InscriptionsNumber := 1, Address := "A", BurnNum := "0",
      Tick := "demo", MinedAmount := "0", Power := 1000 },
    { InscriptionsID := "m1", InscriptionsNumber := 2, Address := "A", BurnNum := "0",
      Tick := "demo", MinedAmount := "0", Power := 1500 },
    { InscriptionsID := "m3", InscriptionsNumber := 4, Address := "B", BurnNum := "0",
      Tick := "demo", MinedAmount := "0", Power := 1000 } ]

/-- The order of `powerRewards` as a relation: power descending, then inscription number
ascending. -/
def MinerBefore (a b : Mrc721MinerData) : Prop :=
  a.Power > b.Power ∨ (a.Power = b.Power ∧ a.InscriptionsNumber < b.InscriptionsNumber)

instance (a b : Mrc721MinerData) : Decidable (MinerBefore a b) := by
  unfold MinerBefore; infer_instance

/-- Scenario "two equal miners": powers 1000 and 1000. -/
def twoMiners : List Mrc721MinerData :=
  [ { InscriptionsID := "g0", InscriptionsNumber := 1, Address := "A", BurnNum := "0",
      Tick := "demo", MinedAmount := "0", Power := 1000 },
    { InscriptionsID := "m1", InscriptionsNumber := 2, Address := "B", BurnNum := "0",
      Tick := "demo", MinedAmount := "0", Power := 1000 } ]

/-- Scenario "burn section": collection `demo` with `burn.unit = 10`, `burn.boost = 0.100`. -/
def burnProtocol : MRC721Protocol :=
  { P := "mrc-721", Miner := { Name := "demo", Max := "3", Lim := "2" },
    Token := { Tick := "demo", Total := "100000", Beg := "1000", Halv := "10", Dcr := "0.0" },
    Ltry := none, Burn := some { Unit := "10", Boost := "0.100" } }

/-- Scenario "burn section": block 100 deploys the collection; nothing is ever burned. -/
def burnBlocks : List HookBlock :=
  [ mkBlock "100" "aa" [mkInscription "g0" 1 "A" (genesisContent burnProtocol)] [] ]

/-- Scenario "burn section": the store after block 100. -/
def burnStore : Store := writeBlocks burnBlocks []

/-- Scenario "burn section": a miner whose burn record holds the amount 50. -/
def burnedMiner : Mrc721MinerData :=
  { InscriptionsID := "x", InscriptionsNumber := 1, Address := "A", BurnNum := bigBytes 50,
    Tick := "demo", MinedAmount := "0", Power := 1000 }

/-- The value of a run of hexadecimal digits, most significant first. -/
def hexValue (cs : List Char) : Nat :=
  cs.foldl (fun acc c => acc * 16 + (hexVal c).getD 0) 0

/-- A non-empty text of hexadecimal digits. -/
def IsHex (cs : List Char) : Prop := cs ≠ [] ∧ ∀ c ∈ cs, (hexVal c).isSome = true

instance (cs : List Char) : Decidable (IsHex cs) := by unfold IsHex; infer_instance

/-- Whether the store holds a key that starts with `pre`. -/
def keyUnder (s : Store) (pre : String) : Bool := s.any (fun kv => HasPrefix kv.1 pre)

/-- The store after a winning draw of collection `name`: the winner's balance credited with
`a`, the genesis record with the pool reduced by `a` and one more round, and the round's
lottery record. -/
def drawResult (s : Store) (block : HookBlock) (name : String) (g : Mrc721GenesisData)
    (ltry : Lottery) (tick luckID luckAddress : String) (bal P a : Int) : Store :=
  kvSet
    (kvSet
      (kvSet s ("mrc20::balance::" ++ luckAddress ++ "::" ++ tick) (Val.raw (intToDec (bal + a))))
      ("mrc721::geninsc::" ++ name)
      (Val.genesis { g with PrizePoolTokens := intToDec (P - a),
                            TotalPrizeRound := g.TotalPrizeRound + 1 }))
    ("lottery::mrc721::" ++ name ++ "::" ++ intToDec (g.TotalPrizeRound + 1))
    (Val.lottery
      { BlockHeight := block.BlockHeight, BlockHash := block.BlockHash,
        BlockTimestamp := block.Timestamp, Address := luckAddress, InscriptionID := luckID,
        Number := 0, Mrc721name := name, WinAmount := intToDec a,
        JackpotAccum := g.PrizePoolTokens, Round := g.TotalPrizeRound + 1,
        Winp := ltry.Winp, Dist := ltry.Dist })

/-- The balance the lottery reads for a key: 0 when the key is absent, otherwise the decimal
value of the stored text (`none` when it is not a decimal text). -/
def lotteryBalance (s : Store) (key : String) : Option Int :=
  match kvGet s key with
  | none => some 0
  | some (Val.raw txt) => SetString10 txt
  | some _ => none

/-- Scenario "lottery": collection `demo` with pool 0.500, interval 1, winp 1.000 and
dist 0.600. -/
def lotteryProtocol : MRC721Protocol :=
  { P := "mrc-721", Miner := { Name := "demo", Max := "3", Lim := "2" },
    Token := { Tick := "demo", Total := "100000", Beg := "1000", Halv := "10", Dcr := "0.0" },
    Ltry := some { Pool := "0.500", Intvl := "1", Winp := "1.000", Dist := "0.600" },
    Burn := none }

/-- Scenario "lottery": the genesis inscription `g0` of owner `A`. -/
def lotteryHook : HookInscription := mkInscription "g0" 1 "A" (genesisContent lotteryProtocol)

/-- Scenario "lottery": the store after block 100, which deploys the collection. -/
def lotteryStore : Store := writeBlocks [mkBlock "100" "aa" [lotteryHook] []] []

/-- Scenario "lottery": the event of height 101 with hash `ab` (171). -/
def drawBlock : HookBlock := mkBlock "101" "ab" [] []

/-- Scenario "lottery": the genesis record of `DEMO` after block 100. -/
def lotteryGenesis : Mrc721GenesisData :=
  { ID := "g0", Number := 1, Name := "DEMO", PrevName := "demo", BlockHeight := "100",
    GenesisAddress := "A", InscriptionsCount := 1, InscriptionsMax := 3,
    PrizePoolTokens := "500", TotalMinedTokens := "500", TotalPrizePoolTokens := "500",
    Tick := "demo", PrevTick := "demo", GenesisBlockHeight := "100", GenesisTimestamp := 0,
    EndID := "", EndBlockHeight := "", EndTimestamp := 0, TotalPrizeRound := 0,
    TotalBurn := "0" }

/-- Scenario "lost owner": the same collection deployed by an inscription whose owner
address is empty. -/
def lostStore : Store :=
  writeBlocks [mkBlock "100" "aa" [mkInscription "g0" 1 "" (genesisContent lotteryProtocol)] []] []

/-- Scenario "negative pool": the lottery collection with `beg = -10`. -/
def negPoolProtocol : MRC721Protocol :=
  { lotteryProtocol with
    Token := { Tick := "demo", Total := "100000", Beg := "-10", Halv := "10", Dcr := "0.0" } }

/-- Scenario "negative pool": block 100 deploys the collection, block 101 draws. -/
def negPoolBlocks : List HookBlock :=
  [ mkBlock "100" "aa" [mkInscription "g0" 1 "A" (genesisContent negPoolProtocol)] [],
    drawBlock ]

/-- Scenario "prefix transfer": after the five blocks of "mint up to cap", block 105
carries transfers of `m` (no such inscription; `m1` ... `m3` are stored), of `m1` and of
`zz`. -/
def prefixBlock : HookBlock :=
  mkBlock "105" "af" [] [mkTransfer "m" "B", mkTransfer "m1" "B", mkTransfer "zz" "B"]

/-- The store after the reveal of an accepted MRC-20 transfer inscription: the inscription
record, its number index, the debited balance and the three pending-transfer keys. -/
def pendingStore (s : Store) (inscr : HookInscription) (tick : String) (newBalance : Int) :
    Store :=
  kvSet
    (kvSet
      (kvSet
        (kvSet
          (kvSet
            (kvSet (kvSet s ("inscr::" ++ inscr.ID) (Val.inscr inscr))
              ("inscr::number::" ++ intToDec inscr.Number) (Val.raw inscr.ID))
            ("mrc20::balance::" ++ inscr.Address ++ "::" ++ tick)
            (Val.raw (intToDec newBalance)))
          ("mrc20::name_inscr::" ++ tick ++ "::" ++ inscr.ID) (Val.raw ""))
        ("mrc20::addr_inscr::" ++ inscr.Address ++ "::" ++ inscr.ID) (Val.raw ""))
      ("mrc20::inscr_addr::" ++ inscr.ID ++ "::" ++ inscr.Address) (Val.raw ""))
    ("inscr::" ++ inscr.ID) (Val.inscr inscr)

/-- The store after a pending MRC-20 transfer inscription `id` of `fromAddress` has been
sent to `toAddress`: the receiver's balance is written and the three pending keys are
deleted. -/
def settledStore (s1 : Store) (id fromAddress toAddress tick : String) (newBalance : Int) :
    Store :=
  kvDelete
    (kvDelete
      (kvDelete
        (kvSet s1 ("mrc20::balance::" ++ toAddress ++ "::" ++ tick)
          (Val.raw (intToDec newBalance)))
        ("mrc20::name_inscr::" ++ tick ++ "::" ++ id))
      ("mrc20::addr_inscr::" ++ fromAddress ++ "::" ++ id))
    ("mrc20::inscr_addr::" ++ id ++ "::" ++ fromAddress)

/-- Scenario "pending transfer": a store in which tick `demo` is registered and `A` holds
100 tokens. -/
def sendStore : Store :=
  kvSet (kvSet [] "mrc20::geninsc::demo" (Val.raw "DEMO")) "mrc20::balance::A::demo"
    (Val.raw "100")

/-- Scenario "pending transfer": the payload `transfer 50 demo`. -/
def sendPayload : MRC20Protocol :=
  { P := "mrc-20", Op := "transfer", Tick := "demo", Amt := "50", Dec := none, Insc := none }

/-- Scenario "pending transfer": the inscription `t0` revealed by `A`. -/
def sendInscription : HookInscription :=
  mkInscription "t0" 7 "A" (Content.json "mrc-20" none (some sendPayload) ("", "") none)

/-- The amount a miner entry carries after the reward calculation (0 when the text does
not parse). -/
def minedOf (m : Mrc721MinerData) : Int := (SetString10 m.MinedAmount).getD 0

/-- The cumulative amount stored at `mrc721::inscr_miner::<id>` (0 when absent). -/
def minerTotal (s : Store) (id : String) : Int :=
  match kvGet s ("mrc721::inscr_miner::" ++ id) with
  | some (Val.raw b) => SetBytes b
  | _ => 0

/-- The balance stored at `mrc20::balance::<addr>::<tick>` as the mining step reads it
(0 when absent). -/
def balanceValue (s : Store) (addr tick : String) : Int :=
  match kvGet s ("mrc20::balance::" ++ addr ++ "::" ++ tick) with
  | some (Val.raw b) => setStringInPlace b
  | _ => 0

/-- Balance and mined-amount keys hold raw bytes. -/
def RawAt (s : Store) : Prop :=
  ∀ k v, kvGet s k = some v →
    (HasPrefix k "mrc20::balance::" = true ∨ HasPrefix k "mrc721::inscr_miner::" = true) →
    ∃ b, v = Val.raw b

/-- The amount issued for a block: the decayed issuance of the block's halving round,
clamped to the remaining supply `T - (TM + TP)`. -/
def perBlockOf (T TM TP gh ch halv beg dcr : Int) : Int :=
  if decayLoop dcr ((ch - gh) / halv) ((ch - gh) / halv).toNat 0 beg > T - (TM + TP)
  then T - (TM + TP)
  else decayLoop dcr ((ch - gh) / halv) ((ch - gh) / halv).toNat 0 beg

/-- The part of the block's issuance that goes to the prize pool: `perBlock * pool / 1000`
with a lottery section, 0 without. -/
def poolSkim (proto : MRC721Protocol) (perBlock : Int) : Int :=
  match proto.Ltry with
  | some l => perBlock * stringToPercentageBigInt l.Pool / 1000
  | none => 0

/-- The miner map after the burn boost of `CalculateMiningRewards`. -/
def boostedMiners (proto : MRC721Protocol) (minerMap : List Mrc721MinerData) :
    List Mrc721MinerData :=
  match proto.Burn with
  | some b =>
    minerMap.map (fun m =>
      { m with Power :=
          if m.Power + SetBytes m.BurnNum / (SetString10 b.Unit).getD 0
              * stringToPercentageBigInt b.Boost > 11000 then 11000
          else m.Power + SetBytes m.BurnNum / (SetString10 b.Unit).getD 0
              * stringToPercentageBigInt b.Boost })
  | none => minerMap

/-- Executable form of `RawAt`: every entry under the two key families is raw. -/
def rawAtCheck (s : Store) : Bool :=
  s.all (fun kv =>
    !(HasPrefix kv.1 "mrc20::balance::" || HasPrefix kv.1 "mrc721::inscr_miner::") ||
      (match kv.2 with
       | Val.raw _ => true
       | _ => false))

/-- Scenario "two miners": collection `demo` with `beg = 1001`, pool 0.500 and a lottery
interval of 1000 blocks. -/
def mineProtocol : MRC721Protocol :=
  { P := "mrc-721", Miner := { Name := "demo", Max := "3", Lim := "2" },
    Token := { Tick := "demo", Total := "100000", Beg := "1001", Halv := "10", Dcr := "0.0" },
    Ltry := some { Pool := "0.500", Intvl := "1000", Winp := "1.000", Dist := "0.600" },
    Burn := none }

/-- Scenario "two miners": the genesis inscription `g0` of owner `A`. -/
def mineHook : HookInscription := mkInscription "g0" 1 "A" (genesisContent mineProtocol)

/-- Scenario "two miners": block 100 deploys the collection, block 101 mints `m1` to `B`. -/
def mineBlocks : List HookBlock :=
  [ mkBlock "100" "aa" [mineHook] [],
    mkBlock "101" "ab" [mkInscription "m1" 2 "B" (genesisContent mineProtocol)] [] ]

/-- Scenario "two miners": the store after blocks 100 and 101. -/
def mineStore : Store := writeBlocks mineBlocks []

/-- Scenario "two miners": the genesis record of `DEMO` after block 101. -/
def mineGenesis : Mrc721GenesisData :=
  { ID := "g0", Number := 1, Name := "DEMO", PrevName := "demo", BlockHeight := "100",
    GenesisAddress := "A", InscriptionsCount := 2, InscriptionsMax := 3,
    PrizePoolTokens := "1000", TotalMinedTokens := "1001", TotalPrizePoolTokens := "1000",
    Tick := "demo", PrevTick := "demo", GenesisBlockHeight := "100", GenesisTimestamp := 0,
    EndID := "m1", EndBlockHeight := "101", EndTimestamp := 0, TotalPrizeRound := 0,
    TotalBurn := "0" }

/-- Decode a value with `jsoniter.Unmarshal(val, &LotteryData)`. -/
def asLottery : Val → Except String LotteryData
  | Val.lottery l => .ok l
  | _ => .error "unmarshal LotteryData"

/-- The loop of `GetLotteryList` (indexreader.go:2268-2286):
`for i := TotalPrizeRound - 1; i > 0; i--`; a round whose record is missing or does not
decode is skipped. `fuel` bounds the number of iterations. -/
def lotteryListLoop (s : Store) (mrc721name : String) :
    Nat → Int → List LotteryData → List LotteryData
  | 0, _, acc => acc
  | fuel + 1, i, acc =>
    if i > 0 then
      match kvGet s ("lottery::mrc721::" ++ mrc721name ++ "::" ++ intToDec i) with
      | none => lotteryListLoop s mrc721name fuel (i - 1) acc
      | some item =>
        match asLottery item with
        | .error _ => lotteryListLoop s mrc721name fuel (i - 1) acc
        | .ok lotteryData => lotteryListLoop s mrc721name fuel (i - 1) (acc ++ [lotteryData])
    else acc

/-- Source `GetLotteryList`. -/
def GetLotteryList (s : Store) (mrc721name : String) : Except String (List LotteryData) :=
  match kvGet s ("mrc721::geninsc::" ++ mrc721name) with
  | none => .error "GetLotteryList error2"
  | some item =>
    match asGenesis item with
    | .error _ => .error "GetLotteryList error2"
    | .ok genesisData =>
      .ok (lotteryListLoop s mrc721name genesisData.TotalPrizeRound.toNat
        (genesisData.TotalPrizeRound - 1) [])

/-- Source `WebBurnInfo`. -/
structure WebBurnInfo where
  Balance : String
  Mrc721name : String
  Mrc20name : String
  Power : String
  BurnAmount : String
  BurnMax : String
  Unit : String
  Boost : String
  deriving DecidableEq, Repr

/-- Source `ConvertToNameID`. -/
def ConvertToNameID (data : Content) : Except String (String × String) :=
  match HtmlToNameID data with
  | .ok r => .ok r
  | .error _ => SvgToNameID data

/-- The `BurnMax` computation of `GetBurnInfo` (indexreader.go:1953-1955):
`new(big.Int).Div(big.NewInt(11000), boost).Mul(unit, big.NewInt(10)).String()`. The
division panics for a zero boost; `Mul` then overwrites the receiver with `unit * 10`. -/
def burnMaxOf (burn : Burn) : Except String String :=
  let boostBigInt := stringToPercentageBigInt burn.Boost
  if boostBigInt = 0 then .error "panic: division by zero"
  else
    match SetString10 burn.Unit with
    | none => .error "panic: nil big.Int unit"
    | some unitBigInt => .ok (intToDec (unitBigInt * 10))

/-- A raw value read as text, `dflt` when the key is absent. -/
def rawOr (s : Store) (key : String) (dflt : String) (f : String → String) : String :=
  match kvGet s key with
  | some (Val.raw b) => f b
  | _ => dflt

/-- Source `GetBurnInfo`. -/
def GetBurnInfo (s : Store) (inscriptionID : String) : Except String WebBurnInfo :=
  match kvGet s ("inscr::" ++ inscriptionID) with
  | none => .error "GetBurnInfo error2"
  | some item =>
    match asInscr item with
    | .error _ => .error "GetBurnInfo error2"
    | .ok hookInscription =>
      match contentOf hookInscription with
      | .error e => .error e
      | .ok content =>
        let name : Except String String :=
          match ConvertToNameID content with
          | .ok r => .ok r.1
          | .error _ =>
            match ParseMRC721Protocol content with
            | .error _ => .error "GetBurnInfo error3"
            | .ok mrc721 => .ok mrc721.Miner.GetUpperName
        match name with
        | .error e => .error e
        | .ok mrc721name =>
          match kvGet s ("mrc721::geninsc::" ++ mrc721name) with
          | none => .error "GetBurnInfo error5"
          | some genItem =>
            match asGenesis genItem with
            | .error _ => .error "GetBurnInfo error5"
            | .ok genesisData =>
              match kvGet s ("inscr::" ++ genesisData.ID) with
              | none => .error "GetBurnInfo error5.5"
              | some gi =>
                match asInscr gi with
                | .error _ => .error "GetBurnInfo error5.5"
                | .ok genInscription =>
                  match contentOf genInscription with
                  | .error e => .error e
                  | .ok genContent =>
                    match ParseMRC721Protocol genContent with
                    | .error _ => .error "GetBurnInfo error6"
                    | .ok genInscMrc721 =>
                      let burnPart : Except String (String × String × String) :=
                        match genInscMrc721.Burn with
                        | none => .ok ("0", "0", "0")
                        | some burn =>
                          match burnMaxOf burn with
                          | .error e => .error e
                          | .ok burnMax => .ok (burn.Unit, burn.Boost, burnMax)
                      match burnPart with
                      | .error e => .error e
                      | .ok (unit, boost, burnMax) =>
                        .ok
                          { Mrc721name := mrc721name
                            Mrc20name := genInscMrc721.Token.Tick
                            Unit := unit
                            Boost := boost
                            BurnMax := burnMax
                            Balance := rawOr s ("mrc20::balance::" ++ hookInscription.Address
                              ++ "::" ++ genInscMrc721.Token.Tick) "0" id
                            Power := rawOr s ("mrc721::inscr_power::" ++ inscriptionID) "0"
                              (fun b => intToDec (SetBytes b))
                            BurnAmount := rawOr s ("mrc721::burn::" ++ inscriptionID) "0"
                              (fun b => intToDec (SetBytes b)) }

/-- Scenario "burn": an MRC-20 burn payload of `amt` on tick `demo` for inscription `g0`. -/
def burnPayload (amt : String) : MRC20Protocol :=
  { P := "mrc-20", Op := "burn", Tick := "demo", Amt := amt, Dec := none, Insc := some "g0" }

/-- Scenario "burn": the burn inscription `b0` revealed by `address`. -/
def burnInscription (address amt : String) : HookInscription :=
  mkInscription "b0" 2 address (Content.json "mrc-20" none (some (burnPayload amt)) ("", "") none)

/-- Scenario "burn": the store after block 100 of "negative amount" (collection `demo`
deployed by `A`, who holds the balance `10`). -/
def burnBaseStore : Store := writeBlocks [negAmtBlock1] []

/-- Scenario "three rounds": the lottery collection and the blocks 100, 101, 102. -/
def roundBlocks : List HookBlock :=
  [ mkBlock "100" "aa" [lotteryHook] [], drawBlock, mkBlock "102" "ac" [] [] ]

/-- Scenario "missing section": the lottery protocol without its `ltry` section. -/
def noLtryProtocol : MRC721Protocol := { lotteryProtocol with Ltry := none }

/-- Scenario "missing section": the burn protocol without its `burn` section. -/
def noBurnProtocol : MRC721Protocol := { burnProtocol with Burn := none }

/-- Scenario "missing section": block 100 deploys the lottery collection, block 101 reveals
a mint whose payload omits `ltry`. -/
def noLtryBlocks : List HookBlock :=
  [ mkBlock "100" "aa" [lotteryHook] [],
    mkBlock "101" "ab" [mkInscription "m1" 2 "B" (genesisContent noLtryProtocol)] [] ]

/-- Scenario "small total": `max = 5`, `total = 1`, `burn.unit = 2`. -/
def smallTotalProtocol : MRC721Protocol :=
  { P := "mrc-721", Miner := { Name := "demo", Max := "5", Lim := "1" },
    Token := { Tick := "demo", Total := "1", Beg := "1", Halv := "10", Dcr := "0.0" },
    Ltry := none, Burn := some { Unit := "2", Boost := "0.100" } }

/-- Scenario "negative total": `total = -5`, `beg = -5`. -/
def negTotalProtocol : MRC721Protocol := demoProtocol "2" "2" "-5" "-5" "1" "0"

/-- Scenario "zero boost": a burn section with `boost = 0`. -/
def zeroBoostProtocol : MRC721Protocol :=
  { burnProtocol with Burn := some { Unit := "10", Boost := "0" } }

/-- Scenario "zero boost": the store after block 100, which deploys the collection. -/
def zeroBoostStore : Store :=
  writeBlocks [mkBlock "100" "aa" [mkInscription "g0" 1 "A" (genesisContent zeroBoostProtocol)] []] []

/-- Scenario "tagged mint": the protocol of collection `demo` with `lim = 3`. -/
def tagProtocol : MRC721Protocol := demoProtocol "3" "3" "100000" "1000" "10" "0.0"

/-- Scenario "tagged mint": a JSON document that decodes to `tagProtocol` and holds, in an
extra string field, the text `<body name=demo mrc-721=g0>`; `html.Parse` of the document
reports the body attributes `demo` and `g0`. -/
def tagContent : Content :=
  Content.json "mrc-721" (some tagProtocol) none ("demo", "g0") none

/-- Scenario "tagged mint": blocks 100 and 101 of "mint up to cap" (`A` then holds two
members, the canonical `lim`), and block 102 in which `A` reveals the tagged document. -/
def tagBlocks : List HookBlock :=
  capBlocks.take 2 ++ [mkBlock "102" "ac" [mkInscription "m2" 3 "A" tagContent] []]

/-- Scenario "tagged mint": the store after the three blocks. -/
def tagStore : Store := writeBlocks tagBlocks []

/-- Scenario "second collection": the lottery protocol under the name `zzz` / tick `zzz`. -/
def pairProtocol : MRC721Protocol :=
  { lotteryProtocol with
    Miner := { Name := "zzz", Max := "3", Lim := "2" },
    Token := { Tick := "zzz", Total := "100000", Beg := "1000", Halv := "10", Dcr := "0.0" } }

/-- Scenario "second collection": block 100 deploys `demo` by the inscription `g0` of owner
`A` and `zzz` by the inscription `z0`, whose owner address is empty. -/
def pairStore : Store :=
  writeBlocks
    [mkBlock "100" "aa" [lotteryHook, mkInscription "z0" 2 "" (genesisContent pairProtocol)] []]
    []

/-- Scenario "empty sender": the inscription `t0` (`transfer 50 demo`) revealed with an
empty owner address. -/
def lostInscription : HookInscription :=
  mkInscription "t0" 7 "" (Content.json "mrc-20" none (some sendPayload) ("", "") none)

/-- Scenario "empty sender": block 100 deploys collection `demo` (no lottery) by an
inscription whose owner address is empty, so mining credits the empty address; block 101
reveals `t0`; block 102 sends `t0` to `B`. -/
def lostBlocks : List HookBlock :=
  [ mkBlock "100" "aa" [mkInscription "g0" 1 "" (genesisContent noLtryProtocol)] [],
    mkBlock "101" "ab" [lostInscription] [],
    mkBlock "102" "ac" [] [mkTransfer "t0" "B"] ]

/-- The error text of a result, `none` on success. -/
def errorOf {α : Type} : Except String α → Option String
  | .error e => some e
  | .ok _ => none

/-- Scenario "empty sender": the store after block 100, in which the empty address holds the
1000 tokens mined by the genesis inscription. -/
def senderStore : Store := writeBlocks (lostBlocks.take 1) []

/-! # Theorems -/

set_option maxRecDepth 100000

/-! ## Store lemmas -/

theorem kvGet_kvSet_self (s : Store) (k : String) (v : Val) :
    kvGet (kvSet s k v) k = some v := by
  induction s with
  | nil => simp [kvSet, kvGet]
  | cons hd tl ih =>
    obtain ⟨k1, v1⟩ := hd
    unfold kvSet
    by_cases h1 : k = k1
    · simp [h1, kvGet]
    · by_cases h2 : keyLt k.data k1.data = true
      · simp [h1, h2, kvGet]
      · simp [h1, h2, kvGet, ih]

theorem kvGet_kvSet_ne (s : Store) (k k2 : String) (v : Val) (h : k2 ≠ k) :
    kvGet (kvSet s k v) k2 = kvGet s k2 := by
  induction s with
  | nil => simp [kvSet, kvGet, h]
  | cons hd tl ih =>
    obtain ⟨k1, v1⟩ := hd
    unfold kvSet
    by_cases h1 : k = k1
    · subst h1
      simp [kvGet, h]
    · by_cases h2 : keyLt k.data k1.data = true
      · simp [h1, h2, kvGet, h]
      · simp only [h1, h2, if_false, kvGet, ih]

theorem kvGet_kvDelete_self (s : Store) (k : String) : kvGet (kvDelete s k) k = none := by
  induction s with
  | nil => simp [kvDelete, kvGet]
  | cons hd tl ih =>
    obtain ⟨k1, v1⟩ := hd
    by_cases h1 : k1 = k
    · simpa [kvDelete, List.filter_cons, h1] using ih
    · have h2 : k ≠ k1 := fun h => h1 h.symm
      simpa [kvDelete, List.filter_cons, h1, kvGet, h2] using ih

theorem kvGet_kvDelete_ne (s : Store) (k k2 : String) (h : k2 ≠ k) :
    kvGet (kvDelete s k) k2 = kvGet s k2 := by
  induction s with
  | nil => simp [kvDelete, kvGet]
  | cons hd tl ih =>
    obtain ⟨k1, v1⟩ := hd
    by_cases h1 : k1 = k
    · subst h1
      simpa [kvDelete, List.filter_cons, kvGet, h] using ih
    · by_cases h3 : k2 = k1
      · simp [kvDelete, List.filter_cons, h1, kvGet, h3]
      · simpa [kvDelete, List.filter_cons, h1, kvGet, h3] using ih

/-! ## Key texts -/

theorem isPrefixOf_append_self (p x : List Char) : p.isPrefixOf (p ++ x) = true := by
  induction p with
  | nil => simp [List.isPrefixOf]
  | cons c cs ih => simp [List.isPrefixOf, ih]

theorem HasPrefix_append (p x : String) : HasPrefix (p ++ x) p = true := by
  simp [HasPrefix, String.data_append, isPrefixOf_append_self]

/-- A key that does not start with `p` differs from every key built on `p`. -/
theorem ne_append_of_not_HasPrefix {k p : String} (x : String) (h : HasPrefix k p = false) :
    k ≠ p ++ x := by
  intro heq
  rw [heq, HasPrefix_append] at h
  exact Bool.noConfusion h

/-! ## Mining arithmetic -/

theorem decayLoop_eq_iterate (dcr round : Int) (fuel : Nat) (i cur : Int)
    (hfuel : (round - i).toNat ≤ fuel) :
    decayLoop dcr round fuel i cur
      = (fun x : Int => x * (1000 - dcr) / 1000)^[(round - i).toNat] cur := by
  induction fuel generalizing i cur with
  | zero =>
    have h0 : (round - i).toNat = 0 := Nat.le_zero.mp hfuel
    simp [decayLoop, h0]
  | succ n ih =>
    unfold decayLoop
    by_cases hlt : i < round
    · have hstep : (round - i).toNat = (round - (i + 1)).toNat + 1 := by omega
      rw [if_pos hlt, ih (i + 1) _ (by omega), hstep, Function.iterate_succ_apply]
    · have h0 : (round - i).toNat = 0 := by omega
      rw [if_neg hlt, h0]
      rfl

theorem floor_div_thousand (a : Int) : ⌊((a : ℤ) : ℚ) / 1000⌋ = a / 1000 := by
  have := Rat.floor_intCast_div_natCast a 1000
  simpa using this

theorem floor_div_pos (a b : Int) (hb : 0 < b) : ⌊((a : ℤ) : ℚ) / (b : ℚ)⌋ = a / b := by
  obtain ⟨n, rfl⟩ := Int.eq_ofNat_of_zero_le hb.le
  have := Rat.floor_intCast_div_natCast a n
  simpa using this

/-- C10: the issuance loop of `CalculateMiningRewards` (before the clamp) applies
`x -> floor(x * (1000 - d) / 1000)` exactly `floor((h - g) / halv)` times to `beg`; with
`beg = 1000`, `halv = 2`, `dcr = "0.500"` the values for `h - g = 0..9` are
1000, 1000, 500, 500, 250, 250, 125, 125, 62, 62, also as the amount that
`CalculateMiningRewards` hands to a single miner. -/
theorem blockIssuance_halving_decay :
    (∀ g h beg halv d : Int, 1 ≤ halv →
      blockIssuance g h beg halv d
        = .ok ((fun x : Int => ⌊((x * (1000 - d) : ℤ) : ℚ) / 1000⌋)^[
            (⌊((h - g : ℤ) : ℚ) / (halv : ℚ)⌋).toNat] beg)) ∧
    (List.range 10).map (fun k : Nat =>
        (blockIssuance 0 (k : Int) 1000 2 (stringToPercentageBigInt "0.500")).toOption)
      = [1000, 1000, 500, 500, 250, 250, 125, 125, 62, 62].map some ∧
    (List.range 10).map (fun k : Nat =>
        (CalculateMiningRewards (natToDec k) halvingGenesis halvingProtocol
          [halvingMiner]).toOption.map (fun r => r.1.CurrentMiningAllNum))
      = ["1000", "1000", "500", "500", "250", "250", "125", "125", "62", "62"].map some := by
  refine ⟨?_, by decide, by decide⟩
  intro g h beg halv d hhalv
  have hne : halv ≠ 0 := by omega
  have hfun : (fun x : Int => ⌊((x * (1000 - d) : ℤ) : ℚ) / 1000⌋)
      = (fun x : Int => x * (1000 - d) / 1000) := by
    funext x
    exact floor_div_thousand _
  rw [hfun, floor_div_pos _ _ (by omega)]
  unfold blockIssuance
  simp only [hne, if_false]
  rw [decayLoop_eq_iterate _ _ _ _ _ (by simp)]
  simp

/-- Witness for C10 at `g = 0`, `h = 9`, `halv = 2`, `d = 500`. -/
theorem blockIssuance_halving_decay_witness :
    (1 : Int) ≤ 2 ∧
    blockIssuance 0 9 1000 2 500
        = .ok ((fun x : Int => ⌊((x * (1000 - 500) : ℤ) : ℚ) / 1000⌋)^[
            (⌊((9 - 0 : ℤ) : ℚ) / ((2 : ℤ) : ℚ)⌋).toNat] 1000) :=
  ⟨by decide, blockIssuance_halving_decay.1 0 9 1000 2 500 (by decide)⟩

/-- C1 (the code breaks the bound): the payload with `total = 1`, `beg = -1` passes
`validateMRC721Data`; one `WriteBlock` that reveals the genesis and one mint succeeds and
leaves `total_mined_tokens = 2`, `total_prize_pool_tokens = 0`, above `token.total = 1`. -/
theorem mining_exceeds_total_with_negative_beg :
    validateMRC721Data (some negBegProtocol) = true ∧
    (WriteBlock [] negBegBlock).1.isOk = true ∧
    ((kvGet (WriteBlock [] negBegBlock).2 "mrc721::geninsc::DEMO").map (fun v =>
        match v with
        | Val.genesis g => (g.TotalMinedTokens, g.TotalPrizePoolTokens)
        | _ => ("", ""))) = some ("2", "0") ∧
    SetString10 negBegProtocol.Token.Total = some 1 := by
  decide

/-- C2 (the code breaks non-negativity): the MRC-20 transfer payload with `amt = "-5"` passes
`validateMRC20Data`; after the three blocks (deploy, reveal the transfer inscription, send it
to `B`) every `WriteBlock` has succeeded and `mrc20::balance::B::demo` holds `-5`. -/
theorem negative_amount_makes_balance_negative :
    validateMRC20Data (some negAmtPayload) = true ∧
    allSucceed [negAmtBlock1, negAmtBlock2, negAmtBlock3] [] = true ∧
    kvGet (writeBlocks [negAmtBlock1, negAmtBlock2, negAmtBlock3] [])
        "mrc20::balance::B::demo" = some (Val.raw "-5") := by
  decide

/-! ## Block admission -/

theorem checkBlockContinuity_of_le (s : Store) (b : HookBlock) (l : String) (L H : Int)
    (hl : kvGet s "latestblock" = some (Val.raw l)) (hL : Atoi l = some L)
    (hH : Atoi b.BlockHeight = some H) (hle : H ≤ L) :
    ∃ e, checkBlockContinuity s b = .error e := by
  refine ⟨"block height mismatch", ?_⟩
  simp [checkBlockContinuity, hl, asRaw, hL, hH, hle]

theorem checkBlockContinuity_latest_self (s : Store) (b : HookBlock)
    (hl : kvGet s "latestblock" = some (Val.raw b.BlockHeight)) :
    ∃ e, checkBlockContinuity s b = .error e := by
  unfold checkBlockContinuity
  rw [hl]
  simp only [asRaw]
  cases hA : Atoi b.BlockHeight with
  | none => exact ⟨_, rfl⟩
  | some H => exact ⟨"block height mismatch", by simp⟩

theorem applyBlock_latest (s s1 : Store) (b : HookBlock) (h : applyBlock s b = .ok s1) :
    kvGet s1 "latestblock" = some (Val.raw b.BlockHeight) := by
  unfold applyBlock at h
  simp only [bind, Except.bind, pure, Except.pure] at h
  split at h
  · exact Except.noConfusion h
  split at h
  · exact Except.noConfusion h
  split at h
  · exact Except.noConfusion h
  split at h
  · exact Except.noConfusion h
  injection h with h
  subst h
  rw [kvGet_kvSet_ne _ _ _ _ (ne_append_of_not_HasPrefix _ (by decide)),
    kvGet_kvSet_ne _ _ _ _ (ne_append_of_not_HasPrefix _ (by decide)), kvGet_kvSet_self]

theorem applyBlocks_latest (bs : List HookBlock) (b : HookBlock) (s s1 : Store)
    (h : applyBlocks (bs ++ [b]) s = .ok s1) :
    kvGet s1 "latestblock" = some (Val.raw b.BlockHeight) := by
  induction bs generalizing s with
  | nil =>
    simp only [List.nil_append, applyBlocks] at h
    cases hb : applyBlock s b with
    | error e => rw [hb] at h; exact Except.noConfusion h
    | ok s2 =>
      rw [hb] at h
      injection h with h
      subst h
      exact applyBlock_latest _ _ _ hb
  | cons b0 rest ih =>
    simp only [List.cons_append, applyBlocks] at h
    cases hb : applyBlock s b0 with
    | error e => rw [hb] at h; exact Except.noConfusion h
    | ok s2 =>
      rw [hb] at h
      exact ih _ h

theorem fillMissingBlocks_last (s : Store) (b : HookBlock) (blocks : List HookBlock)
    (h : fillMissingBlocks s b = .ok blocks) : ∃ bs, blocks = bs ++ [b] := by
  unfold fillMissingBlocks at h
  split at h
  · injection h with h
    exact ⟨[], h.symm⟩
  · split at h
    · exact Except.noConfusion h
    · split at h
      · exact Except.noConfusion h
      · split at h
        · exact Except.noConfusion h
        · injection h with h
          exact ⟨_, h.symm⟩

/-- C3: when the store's `latestblock` is `L` and the event's height is `H <= L`, `WriteBlock`
returns success and the store is unchanged; and for every store and event, applying the
event a second time leaves the store exactly as the first application left it. -/
theorem WriteBlock_duplicate_height_noop :
    (∀ (s : Store) (e : HookBlock) (l : String) (L H : Int),
      kvGet s "latestblock" = some (Val.raw l) → Atoi l = some L →
      Atoi e.BlockHeight = some H → H ≤ L →
      WriteBlock s e = (.ok (), s)) ∧
    (∀ (s : Store) (e : HookBlock),
      (WriteBlock (WriteBlock s e).2 e).2 = (WriteBlock s e).2) := by
  constructor
  · intro s e l L H hl hL hH hle
    obtain ⟨err, herr⟩ := checkBlockContinuity_of_le s (filterBlockData s e) l L H hl hL hH hle
    simp [WriteBlock, writeBlockTxn, herr]
  · intro s e
    have hdup : ∀ (t : Store) (fb : HookBlock),
        (∃ err, checkBlockContinuity t fb = .error err) →
        (match writeBlockTxn t fb with
          | .error er => ((.error er : Except String Unit), t)
          | .ok none => (.ok (), t)
          | .ok (some s1) => (.ok (), s1)).2 = t := by
      intro t fb ⟨err, herr⟩
      simp [writeBlockTxn, herr]
    cases hres : writeBlockTxn s (filterBlockData s e) with
    | error er =>
      have h1 : WriteBlock s e = (.error er, s) := by simp [WriteBlock, hres]
      rw [h1]
      simp [WriteBlock, hres]
    | ok r =>
      cases r with
      | none =>
        have h1 : WriteBlock s e = (.ok (), s) := by simp [WriteBlock, hres]
        rw [h1]
        simp [WriteBlock, hres]
      | some s1 =>
        have h1 : WriteBlock s e = (.ok (), s1) := by simp [WriteBlock, hres]
        rw [h1]
        show (WriteBlock s1 e).2 = s1
        unfold writeBlockTxn at hres
        split at hres
        · exact Option.noConfusion (Except.ok.inj hres)
        · split at hres
          · exact Except.noConfusion hres
          · rename_i blocks hfill
            split at hres
            · exact Except.noConfusion hres
            · rename_i s2 happ
              have hs : s2 = s1 := Option.some.inj (Except.ok.inj hres)
              subst hs
              obtain ⟨bs, hbs⟩ := fillMissingBlocks_last _ _ _ hfill
              rw [hbs] at happ
              have hlat := applyBlocks_latest _ _ _ _ happ
              exact hdup s2 (filterBlockData s2 e)
                (checkBlockContinuity_latest_self s2 (filterBlockData s2 e) hlat)

/-- Witness for C3: block 100 submitted again after it was applied. -/
theorem WriteBlock_duplicate_height_noop_witness :
    kvGet (writeBlocks [negAmtBlock1] []) "latestblock" = some (Val.raw "100") ∧
    Atoi "100" = some 100 ∧ Atoi negAmtBlock1.BlockHeight = some 100 ∧ (100 : Int) ≤ 100 ∧
    WriteBlock (writeBlocks [negAmtBlock1] []) negAmtBlock1
      = (.ok (), writeBlocks [negAmtBlock1] []) :=
  ⟨by decide, by decide, by decide, by decide,
    WriteBlock_duplicate_height_noop.1 _ negAmtBlock1 "100" 100 100 (by decide) (by decide)
      (by decide) (by decide)⟩

/-! ## Footprint of the protocol phases -/

theorem isPrefixOf_append_left (p a b : List Char) (h : p.isPrefixOf a = true) :
    p.isPrefixOf (a ++ b) = true := by
  induction p generalizing a with
  | nil => simp [List.isPrefixOf]
  | cons c cs ih =>
    cases a with
    | nil => simp [List.isPrefixOf] at h
    | cons d ds =>
      simp only [List.isPrefixOf, List.cons_append, Bool.and_eq_true] at h ⊢
      exact ⟨h.1, ih _ h.2⟩

theorem HasPrefix_append_left (a b p : String) (h : HasPrefix a p = true) :
    HasPrefix (a ++ b) p = true := by
  unfold HasPrefix at h ⊢
  rw [String.data_append]
  exact isPrefixOf_append_left _ _ _ h

theorem Touched_append {a : String} (b : String) (h : Touched a) : Touched (a ++ b) := by
  rcases h with h | h | h | h
  · exact Or.inl (HasPrefix_append_left _ _ _ h)
  · exact Or.inr (Or.inl (HasPrefix_append_left _ _ _ h))
  · exact Or.inr (Or.inr (Or.inl (HasPrefix_append_left _ _ _ h)))
  · exact Or.inr (Or.inr (Or.inr (HasPrefix_append_left _ _ _ h)))

theorem Deletable_append {a : String} (b : String) (h : Deletable a) : Deletable (a ++ b) := by
  rcases h with h | h
  · exact Or.inl (HasPrefix_append_left _ _ _ h)
  · exact Or.inr (HasPrefix_append_left _ _ _ h)

theorem Deletable_touched {k : String} (h : Deletable k) : Touched k := by
  rcases h with h | h
  · exact Or.inr (Or.inl h)
  · exact Or.inr (Or.inr (Or.inl h))


theorem Steps_trans {a b c : Store} (h1 : Steps a b) (h2 : Steps b c) : Steps a c := by
  induction h2 with
  | refl => exact h1
  | set k v _ hk ih => exact Steps.set k v ih hk
  | del k _ hk ih => exact Steps.del k ih hk

theorem Steps_frame {s s1 : Store} (h : Steps s s1) (k : String) (hk : ¬ Touched k) :
    kvGet s1 k = kvGet s k := by
  induction h with
  | refl => rfl
  | set k1 v _ hk1 ih =>
    rw [kvGet_kvSet_ne _ _ _ _ (fun e => hk (by rw [e]; exact hk1)), ih]
  | del k1 _ hk1 ih =>
    rw [kvGet_kvDelete_ne _ _ _ (fun e => hk (by rw [e]; exact (Deletable_touched hk1))), ih]

theorem Steps_keeps {s s1 : Store} (h : Steps s s1) (k : String) (hk : ¬ Deletable k)
    (hp : kvGet s k ≠ none) : kvGet s1 k ≠ none := by
  induction h with
  | refl => exact hp
  | set k1 v _ _ ih =>
    by_cases e : k = k1
    · subst e
      rw [kvGet_kvSet_self]
      exact Option.some_ne_none _
    · rw [kvGet_kvSet_ne _ _ _ _ e]
      exact ih
  | del k1 _ hk1 ih =>
    rw [kvGet_kvDelete_ne _ _ _ (fun e => hk (by rw [e]; exact hk1))]
    exact ih

theorem addNewMrc721_steps {s s1 : Store} {inscr : HookInscription} {d : MRC721Protocol}
    {n : Int} (h : addNewMrc721 s inscr d n = .ok s1) : Steps s s1 := by
  unfold addNewMrc721 at h
  simp only [bind, Except.bind, pure, Except.pure] at h
  repeat' split at h
  all_goals
    cases h
    repeat (first
      | exact Steps.refl _
      | refine Steps.set _ _ ?_ (by repeat (first | exact (by decide) | apply Touched_append)))

theorem writeMrc721_steps {s s1 : Store} {block : HookBlock} {inscr : HookInscription}
    {d : MRC721Protocol} (h : writeMrc721 s block inscr d = .ok s1) : Steps s s1 := by
  unfold writeMrc721 at h
  simp only [bind, Except.bind, pure, Except.pure] at h
  repeat' split at h
  all_goals
    cases h
    repeat (first
      | exact Steps.refl _
      | refine Steps_trans ?_ (addNewMrc721_steps (by assumption))
      | refine Steps.set _ _ ?_ (by repeat (first | exact (by decide) | apply Touched_append)))

theorem writeMrc20_steps {s s1 : Store} {inscr : HookInscription}
    {d : MRC20Protocol} (h : writeMrc20 s inscr d = .ok s1) : Steps s s1 := by
  unfold writeMrc20 at h
  dsimp only at h
  repeat' split at h
  all_goals
    cases h
    repeat (first
      | exact Steps.refl _
      | refine Steps.set _ _ ?_ (by repeat (first | exact (by decide) | apply Touched_append)))

theorem addInscription_steps {s s1 : Store} {block : HookBlock} {inscr : HookInscription}
    (h : addInscription s block inscr = .ok s1) : Steps s s1 := by
  unfold addInscription at h
  dsimp only at h
  repeat' split at h
  all_goals
    first
    | cases h
      repeat (first
        | exact Steps.refl _
        | refine Steps.set _ _ ?_ (by repeat (first | exact (by decide) | apply Touched_append)))
    | refine Steps_trans ?_ (writeMrc721_steps h)
      repeat (first
        | exact Steps.refl _
        | refine Steps.set _ _ ?_ (by repeat (first | exact (by decide) | apply Touched_append)))
    | refine Steps_trans ?_ (writeMrc20_steps h)
      repeat (first
        | exact Steps.refl _
        | refine Steps.set _ _ ?_ (by repeat (first | exact (by decide) | apply Touched_append)))

theorem addInscriptions_steps {block : HookBlock} (l : List HookInscription) {s s1 : Store}
    (h : addInscriptions block l s = .ok s1) : Steps s s1 := by
  induction l generalizing s with
  | nil =>
    cases h
    exact Steps.refl _
  | cons i rest ih =>
    unfold addInscriptions at h
    split at h
    · cases h
    · rename_i s2 h2
      exact Steps_trans (addInscription_steps h2) (ih h)

theorem isPrefixOf_of_append (a b k : List Char) (h : (a ++ b).isPrefixOf k = true) :
    a.isPrefixOf k = true := by
  induction a generalizing k with
  | nil => simp [List.isPrefixOf]
  | cons c cs ih =>
    cases k with
    | nil => simp [List.isPrefixOf] at h
    | cons d ds =>
      simp only [List.isPrefixOf, List.cons_append, Bool.and_eq_true] at h ⊢
      exact ⟨h.1, ih _ h.2⟩

theorem HasPrefix_of_append {k a b : String} (h : HasPrefix k (a ++ b) = true) :
    HasPrefix k a = true := by
  unfold HasPrefix at h ⊢
  rw [String.data_append] at h
  exact isPrefixOf_of_append _ _ _ h

theorem kvScan_mem_HasPrefix {s : Store} {pre : String} {kv : String × Val}
    (h : kv ∈ kvScan s pre) : HasPrefix kv.1 pre = true := by
  unfold kvScan at h
  exact (List.mem_filter.mp h).2

theorem firstUnder_key (s : Store) (pre : String) (h : (firstUnder s pre).2 ≠ "") :
    HasPrefix (firstUnder s pre).1 pre = true := by
  unfold firstUnder at h ⊢
  cases hscan : kvScan s pre with
  | nil => rw [hscan] at h; exact absurd rfl h
  | cons kv rest =>
    have hm : kv ∈ kvScan s pre := by rw [hscan]; exact List.mem_cons_self _ _
    exact kvScan_mem_HasPrefix hm

theorem isPrefixOf_trans (a b c : List Char) (h1 : a.isPrefixOf b = true)
    (h2 : b.isPrefixOf c = true) : a.isPrefixOf c = true := by
  induction a generalizing b c with
  | nil => simp [List.isPrefixOf]
  | cons x xs ih =>
    cases b with
    | nil => simp [List.isPrefixOf] at h1
    | cons y ys =>
      cases c with
      | nil => simp [List.isPrefixOf] at h2
      | cons z zs =>
        simp only [List.isPrefixOf, Bool.and_eq_true, beq_iff_eq] at h1 h2 ⊢
        exact ⟨h1.1.trans h2.1, ih _ _ h1.2 h2.2⟩

theorem HasPrefix_trans {k p q : String} (h1 : HasPrefix k p = true)
    (h2 : HasPrefix p q = true) : HasPrefix k q = true := by
  unfold HasPrefix at h1 h2 ⊢
  exact isPrefixOf_trans _ _ _ h2 h1

theorem transfer721_steps {s s1 : Store} {t : HookTransfer} {a : String}
    (h : transfer721 s t a = .ok s1) : Steps s s1 := by
  unfold transfer721 at h
  dsimp only at h
  repeat' split at h
  all_goals
    cases h
    repeat (first
      | exact Steps.refl _
      | refine Steps.set _ _ ?_ (by repeat (first | exact (by decide) | apply Touched_append))
      | refine Steps.del _ ?_ (Or.inl (HasPrefix_trans (HasPrefix_of_append (HasPrefix_of_append
          (firstUnder_key _ _ (by assumption)))) (by decide)))
      | refine Steps.del _ ?_ (by repeat (first | exact (by decide) | apply Deletable_append)))

theorem transfer20_steps {s s1 : Store} {t : HookTransfer} {a : String}
    (h : transfer20 s t a = .ok s1) : Steps s s1 := by
  unfold transfer20 at h
  dsimp only at h
  repeat' split at h
  all_goals
    cases h
    repeat (first
      | exact Steps.refl _
      | refine Steps.set _ _ ?_ (by repeat (first | exact (by decide) | apply Touched_append))
      | refine Steps.del _ ?_ (Or.inr (HasPrefix_trans (HasPrefix_of_append (HasPrefix_of_append
          (firstUnder_key _ _ (by assumption)))) (by decide)))
      | refine Steps.del _ ?_ (by repeat (first | exact (by decide) | apply Deletable_append)))

theorem addTransfer_steps {s s1 : Store} {t : HookTransfer}
    (h : addTransfer s t = .ok s1) : Steps s s1 := by
  unfold addTransfer at h
  repeat' split at h
  all_goals
    first
    | cases h; done
    | cases h; exact Steps.refl _
    | exact Steps_trans (transfer721_steps (by assumption)) (transfer20_steps h)

theorem addTransfers_steps (l : List HookTransfer) {s s1 : Store}
    (h : addTransfers l s = .ok s1) : Steps s s1 := by
  induction l generalizing s with
  | nil =>
    cases h
    exact Steps.refl _
  | cons i rest ih =>
    unfold addTransfers at h
    split at h
    · cases h
    · rename_i s2 h2
      exact Steps_trans (addTransfer_steps h2) (ih h)

theorem creditMiner_steps {s s1 : Store} {m : Mrc721MinerData}
    (h : creditMiner s m = .ok s1) : Steps s s1 := by
  unfold creditMiner at h
  dsimp only at h
  repeat' split at h
  all_goals
    cases h
    repeat (first
      | exact Steps.refl _
      | refine Steps.set _ _ ?_ (by repeat (first | exact (by decide) | apply Touched_append)))

theorem creditMiners_steps (l : List Mrc721MinerData) {s s1 : Store}
    (h : creditMiners l s = .ok s1) : Steps s s1 := by
  induction l generalizing s with
  | nil =>
    cases h
    exact Steps.refl _
  | cons i rest ih =>
    unfold creditMiners at h
    split at h
    · cases h
    · rename_i s2 h2
      exact Steps_trans (creditMiner_steps h2) (ih h)

theorem mineCollection_steps {s s1 : Store} {block : HookBlock} {key : String} {val : Val}
    (h : mineCollection s block key val = .ok s1) : Steps s s1 := by
  unfold mineCollection at h
  simp only [bind, Except.bind, pure, Except.pure] at h
  repeat' split at h
  all_goals
    cases h
    repeat (first
      | exact Steps.refl _
      | exact creditMiners_steps _ (by assumption)
      | refine Steps.set _ _ ?_ (by repeat (first | exact (by decide) | apply Touched_append)))

theorem mineCollections_steps (block : HookBlock) (l : List (String × Val)) {s s1 : Store}
    (h : mineCollections block l s = .ok s1) : Steps s s1 := by
  induction l generalizing s with
  | nil =>
    cases h
    exact Steps.refl _
  | cons i rest ih =>
    obtain ⟨k, v⟩ := i
    unfold mineCollections at h
    split at h
    · cases h
    · rename_i s2 h2
      exact Steps_trans (mineCollection_steps h2) (ih h)

theorem lotteryCollection_steps {s s1 : Store} {block : HookBlock} {key : String} {val : Val}
    (h : lotteryCollection s block key val = .ok s1) : Steps s s1 := by
  unfold lotteryCollection at h
  simp only [bind, Except.bind, pure, Except.pure] at h
  repeat' split at h
  all_goals
    cases h
    repeat (first
      | exact Steps.refl _
      | refine Steps.set _ _ ?_ (by repeat (first | exact (by decide) | apply Touched_append)))

theorem lotteryCollections_steps (block : HookBlock) (l : List (String × Val)) {s s1 : Store}
    (h : lotteryCollections block l s = .ok s1) : Steps s s1 := by
  induction l generalizing s with
  | nil =>
    cases h
    exact Steps.refl _
  | cons i rest ih =>
    obtain ⟨k, v⟩ := i
    unfold lotteryCollections at h
    split at h
    · cases h
    · rename_i s2 h2
      exact Steps_trans (lotteryCollection_steps h2) (ih h)

/-- The four protocol phases of one block only write protocol keys. -/
theorem phases_steps {s s4 : Store} {block : HookBlock}
    (h : (do
      let s1 ← addInscriptionList s block
      let s2 ← addTransferList s1 block
      let s3 ← mineWithMrc721Inscription s2 block
      lotteryWithBlockHash s3 block) = .ok s4) : Steps s s4 := by
  simp only [bind, Except.bind] at h
  split at h
  · cases h
  rename_i s1 h1
  split at h
  · cases h
  rename_i s2 h2
  split at h
  · cases h
  rename_i s3 h3
  have a1 : Steps s s1 := addInscriptions_steps _ h1
  have a2 : Steps s1 s2 := addTransfers_steps _ h2
  have a3 : Steps s2 s3 := mineCollections_steps _ _ h3
  have a4 : Steps s3 s4 := by
    unfold lotteryWithBlockHash at h
    split at h
    · cases h
      exact Steps.refl _
    · exact lotteryCollections_steps _ _ h
  exact Steps_trans a1 (Steps_trans a2 (Steps_trans a3 a4))

/-! ## Duplicate inscriptions -/

theorem isPrefixOf_clash (a p x : List Char) (h : clash a p = true) :
    p.isPrefixOf (a ++ x) = false := by
  induction a generalizing p with
  | nil => simp [clash] at h
  | cons c cs ih =>
    cases p with
    | nil => simp [clash] at h
    | cons d ds =>
      simp only [clash] at h
      by_cases hcd : c = d
      · subst hcd
        simp only [if_true] at h
        simp [List.isPrefixOf, ih _ h]
      · have hdc : ¬ d = c := fun e => hcd e.symm
        simp [List.isPrefixOf, hdc]

theorem HasPrefix_append_clash (a x p : String) (h : clash a.data p.data = true) :
    HasPrefix (a ++ x) p = false := by
  unfold HasPrefix
  rw [String.data_append]
  exact isPrefixOf_clash _ _ _ h

theorem not_Deletable_inscr (x : String) : ¬ Deletable ("inscr::" ++ x) := by
  intro h
  rcases h with h | h
  · rw [HasPrefix_append_clash _ _ _ (by decide)] at h; exact Bool.noConfusion h
  · rw [HasPrefix_append_clash _ _ _ (by decide)] at h; exact Bool.noConfusion h

theorem kvGet_kvSet_ne_none (s : Store) (k k2 : String) (v : Val) (h : kvGet s k ≠ none) :
    kvGet (kvSet s k2 v) k ≠ none := by
  by_cases e : k = k2
  · subst e
    rw [kvGet_kvSet_self]
    exact Option.some_ne_none _
  · rw [kvGet_kvSet_ne _ _ _ _ e]
    exact h

theorem applyBlock_decompose {s s1 : Store} {b : HookBlock} (h : applyBlock s b = .ok s1) :
    ∃ s4, Steps s s4 ∧
      s1 = kvSet (kvSet (kvSet s4 "latestblock" (Val.raw b.BlockHeight))
        ("block::" ++ b.BlockHeight) (Val.block b)) ("bkhash::" ++ b.BlockHash)
        (Val.raw b.BlockHeight) := by
  unfold applyBlock at h
  simp only [bind, Except.bind, pure, Except.pure] at h
  split at h
  · cases h
  rename_i sa ha
  split at h
  · cases h
  rename_i sb hb
  split at h
  · cases h
  rename_i sc hc
  split at h
  · cases h
  rename_i sd hd
  cases h
  refine ⟨sd, ?_, rfl⟩
  have a1 : Steps s sa := addInscriptions_steps _ ha
  have a2 : Steps sa sb := addTransfers_steps _ hb
  have a3 : Steps sb sc := mineCollections_steps _ _ hc
  have a4 : Steps sc sd := by
    unfold lotteryWithBlockHash at hd
    split at hd
    · cases hd
      exact Steps.refl _
    · exact lotteryCollections_steps _ _ hd
  exact Steps_trans a1 (Steps_trans a2 (Steps_trans a3 a4))

theorem applyBlock_keeps {s s1 : Store} {b : HookBlock} (h : applyBlock s b = .ok s1)
    (k : String) (hk : ¬ Deletable k) (hp : kvGet s k ≠ none) : kvGet s1 k ≠ none := by
  obtain ⟨s4, hs, rfl⟩ := applyBlock_decompose h
  exact kvGet_kvSet_ne_none _ _ _ _ (kvGet_kvSet_ne_none _ _ _ _
    (kvGet_kvSet_ne_none _ _ _ _ (Steps_keeps hs k hk hp)))

theorem addInscription_present {s s1 : Store} {b : HookBlock} {i : HookInscription}
    (h : addInscription s b i = .ok s1) : kvGet s1 ("inscr::" ++ i.ID) ≠ none := by
  have base : ∀ v, kvGet (kvSet (kvSet s ("inscr::" ++ i.ID) (Val.inscr i))
      ("inscr::number::" ++ intToDec i.Number) v) ("inscr::" ++ i.ID) ≠ none := by
    intro v
    apply kvGet_kvSet_ne_none
    rw [kvGet_kvSet_self]
    exact Option.some_ne_none _
  unfold addInscription at h
  dsimp only at h
  repeat' split at h
  all_goals
    first
    | cases h; done
    | cases h; exact base _
    | exact Steps_keeps (writeMrc721_steps h) _ (not_Deletable_inscr _) (base _)
    | exact Steps_keeps (writeMrc20_steps h) _ (not_Deletable_inscr _) (base _)

theorem addInscriptions_dup_error (b : HookBlock) (pre : List HookInscription)
    (i : HookInscription) (post : List HookInscription) (s : Store)
    (h : kvGet s ("inscr::" ++ i.ID) ≠ none ∨ ∃ j ∈ pre, j.ID = i.ID) :
    ∃ e, addInscriptions b (pre ++ i :: post) s = .error e := by
  induction pre generalizing s with
  | nil =>
    have hp : kvGet s ("inscr::" ++ i.ID) ≠ none := by
      rcases h with h | ⟨j, hj, _⟩
      · exact h
      · cases hj
    simp only [List.nil_append, addInscriptions]
    have herr : ∃ e, addInscription s b i = .error e := by
      unfold addInscription
      dsimp only
      cases hg : kvGet s ("inscr::" ++ i.ID) with
      | none => exact absurd hg hp
      | some v => exact ⟨_, rfl⟩
    obtain ⟨e, he⟩ := herr
    exact ⟨e, by rw [he]⟩
  | cons j rest ih =>
    simp only [List.cons_append, addInscriptions]
    cases hj : addInscription s b j with
    | error e => exact ⟨e, rfl⟩
    | ok s1 =>
      simp only []
      apply ih
      rcases h with h | ⟨j2, hj2, hid⟩
      · exact Or.inl (Steps_keeps (addInscription_steps hj) _ (not_Deletable_inscr _) h)
      · rcases List.mem_cons.mp hj2 with e | hmem
        · subst e
          left
          rw [← hid]
          exact addInscription_present hj
        · exact Or.inr ⟨j2, hmem, hid⟩

theorem applyBlocks_dup_error (bs : List HookBlock) (fb : HookBlock)
    (pre : List HookInscription) (i : HookInscription) (post : List HookInscription)
    (hins : fb.Inscriptions = pre ++ i :: post) (s : Store)
    (h : kvGet s ("inscr::" ++ i.ID) ≠ none ∨ ∃ j ∈ pre, j.ID = i.ID) :
    ∃ e, applyBlocks (bs ++ [fb]) s = .error e := by
  induction bs generalizing s with
  | nil =>
    simp only [List.nil_append, applyBlocks]
    obtain ⟨e, he⟩ := addInscriptions_dup_error fb pre i post s h
    have : applyBlock s fb = .error e := by
      unfold applyBlock addInscriptionList
      rw [hins, he]
      rfl
    exact ⟨e, by rw [this]⟩
  | cons b0 rest ih =>
    simp only [List.cons_append, applyBlocks]
    cases hb : applyBlock s b0 with
    | error e => exact ⟨e, rfl⟩
    | ok s1 =>
      simp only []
      apply ih
      rcases h with h | h
      · exact Or.inl (applyBlock_keeps hb _ (not_Deletable_inscr _) h)
      · exact Or.inr h

/-- C4: for an admissible block event (the continuity check passes) that contains an
inscription whose key `inscr::<id>` is already in the store, or was revealed earlier in the
same block, `WriteBlock` returns an error and the store after the call is the store before
it. -/
theorem WriteBlock_duplicate_inscription_aborts (s : Store) (e : HookBlock)
    (pre : List HookInscription) (i : HookInscription) (post : List HookInscription)
    (hadm : checkBlockContinuity s (filterBlockData s e) = .ok ())
    (hins : e.Inscriptions = pre ++ i :: post)
    (hdup : kvGet s ("inscr::" ++ i.ID) ≠ none ∨ ∃ j ∈ pre, j.ID = i.ID) :
    ∃ err, WriteBlock s e = (.error err, s) := by
  unfold WriteBlock writeBlockTxn
  rw [hadm]
  dsimp only
  cases hfill : fillMissingBlocks s (filterBlockData s e) with
  | error er => exact ⟨er, rfl⟩
  | ok blocks =>
    obtain ⟨bs, hbs⟩ := fillMissingBlocks_last _ _ _ hfill
    obtain ⟨er, her⟩ := applyBlocks_dup_error bs (filterBlockData s e) pre i post hins s hdup
    refine ⟨er, ?_⟩
    dsimp only
    rw [hbs, her]

/-- Witness for C4: block 101 re-reveals the stored id `g0`. -/
theorem WriteBlock_duplicate_inscription_aborts_witness :
    checkBlockContinuity (writeBlocks [negAmtBlock1] [])
        (filterBlockData (writeBlocks [negAmtBlock1] []) dupBlock) = .ok () ∧
    dupBlock.Inscriptions = [] ++ mkInscription "g0" 5 "B" (Content.other ("", "") none) :: [] ∧
    (kvGet (writeBlocks [negAmtBlock1] []) ("inscr::" ++ (mkInscription "g0" 5 "B" (Content.other ("", "") none)).ID)
        ≠ none ∨ ∃ j ∈ ([] : List HookInscription), j.ID = (mkInscription "g0" 5 "B" (Content.other ("", "") none)).ID) ∧
    ∃ err, WriteBlock (writeBlocks [negAmtBlock1] []) dupBlock
      = (.error err, writeBlocks [negAmtBlock1] []) :=
  ⟨by rfl, rfl, Or.inl (by decide),
    WriteBlock_duplicate_inscription_aborts _ dupBlock [] _ [] (by rfl) rfl (Or.inl (by decide))⟩

/-! ## Decimal text -/

theorem digitVal_digitChar (d : Nat) (h : d < 10) : digitVal (digitChar d) = some d := by
  interval_cases d <;> decide

theorem digitsVal_append_single (ds rest : List Char) (c : Char) (a : Nat) :
    digitsVal ((ds ++ [c]) ++ rest) a = digitsVal (ds ++ (c :: rest)) a := by
  simp

/-- The digits produced for `n` read back as `n`, whatever follows and whatever was read
before. -/
theorem natToDecAux_spec (fuel n : Nat) (acc : List Char) (hf : n < fuel) :
    ∃ ds : List Char, natToDecAux fuel n acc = ds ++ acc ∧ ds ≠ [] ∧
      ∀ (rest : List Char) (a : Nat),
        digitsVal (ds ++ rest) a = digitsVal rest (a * 10 ^ ds.length + n) := by
  induction fuel generalizing n acc with
  | zero => exact absurd hf (Nat.not_lt_zero _)
  | succ f ih =>
    unfold natToDecAux
    by_cases h10 : n < 10
    · rw [if_pos h10]
      refine ⟨[digitChar n], rfl, by simp, ?_⟩
      intro rest a
      simp [digitsVal, digitVal_digitChar n h10]
    · rw [if_neg h10]
      have hlt : n / 10 < f := by omega
      obtain ⟨ds, hds, hne, hval⟩ := ih (n / 10) (digitChar (n % 10) :: acc) hlt
      refine ⟨ds ++ [digitChar (n % 10)], ?_, by simp, ?_⟩
      · rw [hds]; simp
      · intro rest a
        have hmod : n % 10 < 10 := Nat.mod_lt _ (by decide)
        rw [List.append_assoc, hval]
        simp only [List.singleton_append, digitsVal, digitVal_digitChar _ hmod,
          List.length_append, List.length_singleton]
        congr 1
        rw [pow_succ]
        have := Nat.div_add_mod n 10
        nlinarith [this]

theorem parseNatDec_natToDec (n : Nat) : parseNatDec (natToDec n).data = some n := by
  obtain ⟨ds, hds, hne, hval⟩ := natToDecAux_spec (n + 1) n [] (Nat.lt_succ_self n)
  have hdata : (natToDec n).data = ds := by
    simp [natToDec, hds]
  rw [hdata]
  have h := hval [] 0
  simp only [List.append_nil, digitsVal, zero_mul, zero_add] at h
  cases ds with
  | nil => exact absurd rfl hne
  | cons c cs => simpa [parseNatDec] using h

theorem parseNatDec_head (c : Char) (cs : List Char) (n : Nat)
    (h : parseNatDec (c :: cs) = some n) : c ≠ '-' ∧ c ≠ '+' := by
  simp only [parseNatDec, digitsVal] at h
  constructor
  · intro e
    subst e
    simp [digitVal] at h
  · intro e
    subst e
    simp [digitVal] at h

theorem SetString10_natToDec (n : Nat) : SetString10 (natToDec n) = some (n : Int) := by
  have h := parseNatDec_natToDec n
  unfold SetString10
  cases hd : (natToDec n).data with
  | nil => rw [hd] at h; simp [parseNatDec] at h
  | cons c cs =>
    rw [hd] at h
    obtain ⟨h1, h2⟩ := parseNatDec_head c cs n h
    split
    · rename_i heq
      injection heq with e1 e2
      exact absurd e1 h1
    · rename_i heq
      injection heq with e1 e2
      exact absurd e1 h2
    · rw [h]; rfl

theorem SetString10_intToDec (v : Int) : SetString10 (intToDec v) = some v := by
  cases v with
  | ofNat n => exact SetString10_natToDec n
  | negSucc n =>
    have h := parseNatDec_natToDec (n + 1)
    simp only [intToDec, SetString10, h, Option.map_some']
    rfl

theorem intToDec_injective {a b : Int} (h : intToDec a = intToDec b) : a = b := by
  have ha := SetString10_intToDec a
  rw [h, SetString10_intToDec b] at ha
  exact (Option.some.inj ha).symm

theorem Atoi_intToDec (v : Int) (h1 : -9223372036854775808 ≤ v) (h2 : v ≤ 9223372036854775807) :
    Atoi (intToDec v) = some v := by
  simp [Atoi, SetString10_intToDec, h1, h2]

theorem Atoi_eq_SetString10 {s : String} {v : Int} (h : Atoi s = some v) :
    SetString10 s = some v ∧ -9223372036854775808 ≤ v ∧ v ≤ 9223372036854775807 := by
  unfold Atoi at h
  cases hs : SetString10 s with
  | none => rw [hs] at h; cases h
  | some w =>
    rw [hs] at h
    dsimp only at h
    split at h
    · rename_i hr
      cases h
      exact ⟨rfl, hr.1, hr.2⟩
    · cases h

/-! ## Gap fill -/

theorem not_Touched_block (x : String) : ¬ Touched ("block::" ++ x) := by
  intro h
  rcases h with h | h | h | h <;>
    · rw [HasPrefix_append_clash _ _ _ (by decide)] at h
      exact Bool.noConfusion h

theorem append_left_cancel_str {p a b : String} (h : p ++ a = p ++ b) : a = b := by
  have h1 : (p ++ a).data = (p ++ b).data := by rw [h]
  rw [String.data_append, String.data_append] at h1
  exact String.ext (List.append_cancel_left h1)

/-- A block other than height `x` leaves `block::x` as it was. -/
theorem applyBlock_frame_block {s s1 : Store} {b : HookBlock} (h : applyBlock s b = .ok s1)
    (x : String) (hx : x ≠ b.BlockHeight) :
    kvGet s1 ("block::" ++ x) = kvGet s ("block::" ++ x) := by
  obtain ⟨s4, hs, rfl⟩ := applyBlock_decompose h
  rw [kvGet_kvSet_ne _ _ _ _ (by
        intro e
        have := HasPrefix_append "bkhash::" b.BlockHash
        rw [← e, HasPrefix_append_clash _ _ _ (by decide)] at this
        exact Bool.noConfusion this),
    kvGet_kvSet_ne _ _ _ _ (fun e => hx (append_left_cancel_str e)),
    kvGet_kvSet_ne _ _ _ _ (by
        intro e
        have := HasPrefix_append "block::" x
        rw [e] at this
        exact Bool.noConfusion ((by decide : HasPrefix "latestblock" "block::" = false) ▸ this)),
    Steps_frame hs _ (not_Touched_block x)]

theorem applyBlock_own_block {s s1 : Store} {b : HookBlock} (h : applyBlock s b = .ok s1) :
    kvGet s1 ("block::" ++ b.BlockHeight) = some (Val.block b) := by
  obtain ⟨s4, hs, rfl⟩ := applyBlock_decompose h
  rw [kvGet_kvSet_ne _ _ _ _ (by
        intro e
        have := HasPrefix_append "bkhash::" b.BlockHash
        rw [← e, HasPrefix_append_clash _ _ _ (by decide)] at this
        exact Bool.noConfusion this),
    kvGet_kvSet_self]

/-- After a run of blocks with pairwise different heights, every `block::<h>` of the run
holds its block. -/
theorem applyBlocks_blocks (bs : List HookBlock) {s s1 : Store}
    (h : applyBlocks bs s = .ok s1)
    (hd : bs.Pairwise (fun a b => a.BlockHeight ≠ b.BlockHeight)) :
    ∀ b ∈ bs, kvGet s1 ("block::" ++ b.BlockHeight) = some (Val.block b) := by
  induction bs generalizing s with
  | nil => intro b hb; cases hb
  | cons b0 rest ih =>
    unfold applyBlocks at h
    split at h
    · cases h
    rename_i s2 h2
    have hd' := List.pairwise_cons.mp hd
    have frame : ∀ (l : List HookBlock) (t t1 : Store), applyBlocks l t = .ok t1 →
        (∀ c ∈ l, b0.BlockHeight ≠ c.BlockHeight) →
        kvGet t1 ("block::" ++ b0.BlockHeight) = kvGet t ("block::" ++ b0.BlockHeight) := by
      intro l
      induction l with
      | nil => intro t t1 ht _; cases ht; rfl
      | cons c cs ihc =>
        intro t t1 ht hne
        unfold applyBlocks at ht
        split at ht
        · cases ht
        rename_i t2 hc
        rw [ihc t2 t1 ht (fun c' hc' => hne c' (List.mem_cons_of_mem _ hc')),
          applyBlock_frame_block hc _ (hne c (List.mem_cons_self _ _))]
    intro b hb
    rcases List.mem_cons.mp hb with e | hmem
    · subst e
      rw [frame rest s2 s1 h hd'.1, applyBlock_own_block h2]
    · exact ih h hd'.2 b hmem

theorem gapLoop_eq_map (current : Int) (fuel : Nat) (h : Int)
    (hf : (current - h).toNat ≤ fuel) :
    gapLoop current fuel h
      = (List.range (current - h).toNat).map (fun i : Nat => emptyBlock (h + (i : Int))) := by
  induction fuel generalizing h with
  | zero =>
    have h0 : (current - h).toNat = 0 := Nat.le_zero.mp hf
    simp [gapLoop, h0]
  | succ n ih =>
    unfold gapLoop
    by_cases hlt : h < current
    · have hstep : (current - h).toNat = (current - (h + 1)).toNat + 1 := by omega
      rw [if_pos hlt, ih (h + 1) (by omega), hstep, List.range_succ_eq_map]
      simp only [List.map_cons, List.map_map, Nat.cast_zero, add_zero]
      congr 1
      apply List.map_congr_left
      intro i _
      simp only [Function.comp, Nat.cast_succ]
      congr 1
      ring
    · have h0 : (current - h).toNat = 0 := by omega
      rw [if_neg hlt, h0]
      rfl

theorem gap_blocks_pairwise (fb : HookBlock) (L H : Int) (hH : Atoi fb.BlockHeight = some H) :
    ((List.range (H - (L + 1)).toNat).map (fun i : Nat => emptyBlock (L + 1 + (i : Int)))
      ++ [fb]).Pairwise (fun a b => a.BlockHeight ≠ b.BlockHeight) := by
  rw [List.pairwise_append]
  refine ⟨?_, List.pairwise_singleton _ _, ?_⟩
  · rw [List.pairwise_map]
    refine List.Pairwise.imp ?_ (List.pairwise_lt_range _)
    intro i j hij e
    have := intToDec_injective (show intToDec (L + 1 + (i : Int)) = intToDec (L + 1 + (j : Int))
      from e)
    omega
  · intro a ha b hb
    rw [List.mem_singleton] at hb
    subst hb
    obtain ⟨i, hi, rfl⟩ := List.mem_map.mp ha
    rw [List.mem_range] at hi
    intro e
    have h1 : SetString10 (intToDec (L + 1 + (i : Int))) = some H := by
      have : (emptyBlock (L + 1 + (i : Int))).BlockHeight = intToDec (L + 1 + (i : Int)) := rfl
      rw [← this, e]
      exact (Atoi_eq_SetString10 hH).1
    rw [SetString10_intToDec] at h1
    have := Option.some.inj h1
    omega

/-- The effect of an admitted event of height `H` on a store whose latest height is `L < H`. -/
theorem WriteBlock_gap_core (s s1 : Store) (e : HookBlock) (l : String) (L H : Int)
    (hl : kvGet s "latestblock" = some (Val.raw l)) (hL : Atoi l = some L)
    (hH : Atoi e.BlockHeight = some H) (hlt : L < H)
    (hok : WriteBlock s e = (.ok (), s1)) :
    kvGet s1 "latestblock" = some (Val.raw e.BlockHeight) ∧
    (∀ h : Int, L < h → h < H →
      kvGet s1 ("block::" ++ intToDec h) = some (Val.block
        { BlockHeight := intToDec h, BlockHash := NO_INSCRIPTION_BLOCK_HASH, Timestamp := 0,
          Inscriptions := [], Transfers := [] })) ∧
    kvGet s1 ("block::" ++ e.BlockHeight) = some (Val.block (filterBlockData s e)) := by
  have hcont : checkBlockContinuity s (filterBlockData s e) = .ok () := by
    have hnle : ¬ H ≤ L := by omega
    simp [checkBlockContinuity, hl, asRaw, hL, filterBlockData, hH, hnle]
  have hfill : fillMissingBlocks s (filterBlockData s e)
      = .ok (gapLoop H (H - L - 1).toNat (L + 1) ++ [filterBlockData s e]) := by
    simp [fillMissingBlocks, hl, asRaw, hL, filterBlockData, hH]
  unfold WriteBlock writeBlockTxn at hok
  rw [hcont, hfill] at hok
  dsimp only at hok
  cases happ : applyBlocks (gapLoop H (H - L - 1).toNat (L + 1) ++ [filterBlockData s e]) s with
  | error er => rw [happ] at hok; cases hok
  | ok s2 =>
    rw [happ] at hok
    have hs : s2 = s1 := by
      have := congrArg Prod.snd hok
      exact this
    subst hs
    have hgap : gapLoop H (H - L - 1).toNat (L + 1)
        = (List.range (H - (L + 1)).toNat).map (fun i : Nat => emptyBlock (L + 1 + (i : Int))) :=
      gapLoop_eq_map H _ (L + 1) (by omega)
    rw [hgap] at happ
    have hblocks := applyBlocks_blocks _ happ
      (gap_blocks_pairwise (filterBlockData s e) L H (by simpa [filterBlockData] using hH))
    refine ⟨applyBlocks_latest _ (filterBlockData s e) _ _ happ, ?_, ?_⟩
    · intro h h1 h2
      have hmem : emptyBlock h ∈ (List.range (H - (L + 1)).toNat).map
          (fun i : Nat => emptyBlock (L + 1 + (i : Int))) ++ [filterBlockData s e] := by
        apply List.mem_append_left
        refine List.mem_map.mpr ⟨(h - (L + 1)).toNat, List.mem_range.mpr (by omega), ?_⟩
        congr 1
        omega
      exact hblocks _ hmem
    · exact hblocks (filterBlockData s e) (List.mem_append_right _ (List.mem_singleton_self _))

/-- C9: on a store whose `latestblock` is `L`, a block event of height `H > L` on which
`WriteBlock` succeeds leaves `latestblock` at the event's height, a placeholder block (hash
`NO_INSCRIPTION_BLOCK_HASH`, no inscriptions, no transfers) at `block::<h>` for every
`L < h < H`, and the event with its filtered transfers at `block::<H>`. -/
theorem WriteBlock_fills_gap (s s1 : Store) (e : HookBlock) (l : String) (L H : Int)
    (hl : kvGet s "latestblock" = some (Val.raw l)) (hL : Atoi l = some L)
    (hH : Atoi e.BlockHeight = some H) (hlt : L < H)
    (hok : WriteBlock s e = (.ok (), s1)) :
    kvGet s1 "latestblock" = some (Val.raw e.BlockHeight) ∧
    (∀ h : Int, L < h → h < H →
      kvGet s1 ("block::" ++ intToDec h) = some (Val.block
        { BlockHeight := intToDec h, BlockHash := NO_INSCRIPTION_BLOCK_HASH, Timestamp := 0,
          Inscriptions := [], Transfers := [] })) ∧
    kvGet s1 ("block::" ++ e.BlockHeight) = some (Val.block (filterBlockData s e)) :=
  WriteBlock_gap_core s s1 e l L H hl hL hH hlt hok

/-- Witness for C9: latest height 100, event 103 creates `block::101`, `block::102`,
`block::103`. -/
theorem WriteBlock_fills_gap_witness :
    kvGet (writeBlocks [negAmtBlock1] []) "latestblock" = some (Val.raw "100") ∧
    Atoi "100" = some 100 ∧ Atoi gapBlock.BlockHeight = some 103 ∧ (100 : Int) < 103 ∧
    WriteBlock (writeBlocks [negAmtBlock1] []) gapBlock
      = (.ok (), writeBlocks [negAmtBlock1, gapBlock] []) ∧
    (kvGet (writeBlocks [negAmtBlock1, gapBlock] []) "latestblock"
        = some (Val.raw gapBlock.BlockHeight) ∧
      (∀ h : Int, 100 < h → h < 103 →
        kvGet (writeBlocks [negAmtBlock1, gapBlock] []) ("block::" ++ intToDec h)
          = some (Val.block
            { BlockHeight := intToDec h, BlockHash := NO_INSCRIPTION_BLOCK_HASH, Timestamp := 0,
              Inscriptions := [], Transfers := [] })) ∧
      kvGet (writeBlocks [negAmtBlock1, gapBlock] []) ("block::" ++ gapBlock.BlockHeight)
        = some (Val.block (filterBlockData (writeBlocks [negAmtBlock1] []) gapBlock))) :=
  ⟨by decide, by decide, by decide, by decide, by rfl,
    WriteBlock_fills_gap _ _ gapBlock "100" 100 103 (by decide) (by decide) (by decide)
      (by decide) (by rfl)⟩

/-! ## Dense heights -/

/-- C8 (counterexample): on the empty store a first event of height 2 is applied successfully
and leaves `latestblock = 2` while `block::0` and `block::1` do not exist; and after a call
that fails (the block following the "negative beg" genesis) `latestblock` stays at 100
although height 101 was supplied. -/
theorem writeBlocks_not_dense_from_zero :
    (allSucceed [lateStartBlock] [] = true ∧
      kvGet (writeBlocks [lateStartBlock] []) "latestblock" = some (Val.raw "2") ∧
      kvGet (writeBlocks [lateStartBlock] []) "block::0" = none ∧
      kvGet (writeBlocks [lateStartBlock] []) "block::1" = none) ∧
    ((WriteBlock (writeBlocks [negBegBlock] []) negBegNext).1.isOk = false ∧
      kvGet (writeBlocks [negBegBlock, negBegNext] []) "latestblock" = some (Val.raw "100")) := by
  decide

theorem not_Deletable_block (x : String) : ¬ Deletable ("block::" ++ x) :=
  fun h => not_Touched_block x (Deletable_touched h)

theorem applyBlocks_keeps (bs : List HookBlock) {s s1 : Store} (h : applyBlocks bs s = .ok s1)
    (k : String) (hk : ¬ Deletable k) (hp : kvGet s k ≠ none) : kvGet s1 k ≠ none := by
  induction bs generalizing s with
  | nil => cases h; exact hp
  | cons b rest ih =>
    unfold applyBlocks at h
    split at h
    · cases h
    rename_i s2 h2
    exact ih h (applyBlock_keeps h2 k hk hp)

/-- A successful call that is not a duplicate-height drop. -/
theorem WriteBlock_ok_not_dropped {s : Store} {e : HookBlock}
    (hc : checkBlockContinuity s (filterBlockData s e) = .ok ())
    (hok : (WriteBlock s e).1.isOk = true) :
    ∃ blocks, fillMissingBlocks s (filterBlockData s e) = .ok blocks ∧
      applyBlocks blocks s = .ok (WriteBlock s e).2 ∧
      WriteBlock s e = (.ok (), (WriteBlock s e).2) := by
  unfold WriteBlock writeBlockTxn at hok ⊢
  rw [hc] at hok ⊢
  dsimp only at hok ⊢
  cases hfill : fillMissingBlocks s (filterBlockData s e) with
  | error er => rw [hfill] at hok; exact absurd hok (by simp [Except.isOk, Except.toBool])
  | ok blocks =>
    rw [hfill] at hok
    dsimp only at hok ⊢
    cases happ : applyBlocks blocks s with
    | error er => rw [happ] at hok; exact absurd hok (by simp [Except.isOk, Except.toBool])
    | ok s2 => exact ⟨blocks, rfl, happ, rfl⟩

theorem DenseFrom_first (e : HookBlock) (h0 : Int) (hh : e.BlockHeight = intToDec h0)
    (hr : -9223372036854775808 ≤ h0 ∧ h0 ≤ 9223372036854775807)
    (hok : (WriteBlock [] e).1.isOk = true) : DenseFrom (WriteBlock [] e).2 h0 h0 := by
  have hc : checkBlockContinuity [] (filterBlockData [] e) = .ok () := rfl
  obtain ⟨blocks, hfill, happ, _⟩ := WriteBlock_ok_not_dropped hc hok
  have hb : blocks = [] ++ [filterBlockData [] e] := by
    have : fillMissingBlocks [] (filterBlockData [] e) = .ok [filterBlockData [] e] := rfl
    rw [this] at hfill
    exact (Except.ok.inj hfill).symm
  rw [hb] at happ
  refine ⟨?_, hr, ?_⟩
  · have := applyBlocks_latest _ _ _ _ happ
    rw [this]
    show some (Val.raw e.BlockHeight) = _
    rw [hh]
  · intro h h1 h2
    have he : h = h0 := by omega
    subst he
    have := applyBlocks_blocks _ happ (List.pairwise_singleton _ _) (filterBlockData [] e)
      (List.mem_singleton_self _)
    have hkey : (filterBlockData [] e).BlockHeight = intToDec h := hh
    rw [hkey] at this
    rw [this]
    exact Option.some_ne_none _

theorem DenseFrom_step (s : Store) (e : HookBlock) (lo cur h1 : Int) (hd : DenseFrom s lo cur)
    (hh : e.BlockHeight = intToDec h1) (hlt : cur < h1)
    (hr : -9223372036854775808 ≤ h1 ∧ h1 ≤ 9223372036854775807)
    (hok : (WriteBlock s e).1.isOk = true) : DenseFrom (WriteBlock s e).2 lo h1 := by
  obtain ⟨hlat, hcr, hblocks⟩ := hd
  have hL : Atoi (intToDec cur) = some cur := Atoi_intToDec cur hcr.1 hcr.2
  have hH : Atoi e.BlockHeight = some h1 := by rw [hh]; exact Atoi_intToDec h1 hr.1 hr.2
  have hc : checkBlockContinuity s (filterBlockData s e) = .ok () := by
    have hnle : ¬ h1 ≤ cur := by omega
    simp [checkBlockContinuity, hlat, asRaw, hL, filterBlockData, hH, hnle]
  obtain ⟨blocks, hfill, happ, hwb⟩ := WriteBlock_ok_not_dropped hc hok
  obtain ⟨g1, g2, g3⟩ := WriteBlock_gap_core s _ e (intToDec cur) cur h1 hlat hL hH hlt hwb
  refine ⟨by rw [g1, hh], hr, ?_⟩
  intro h a1 a2
  by_cases hcase : h ≤ cur
  · exact applyBlocks_keeps _ happ _ (not_Deletable_block _) (hblocks h a1 hcase)
  · by_cases hcase2 : h < h1
    · rw [g2 h (by omega) hcase2]
      exact Option.some_ne_none _
    · have he : h = h1 := by omega
      subst he
      rw [← hh, g3]
      exact Option.some_ne_none _

theorem DenseFrom_run (evs : List HookBlock) (hs : List Int) (s : Store) (lo cur : Int)
    (hd : DenseFrom s lo cur)
    (hev : List.Forall₂ (fun (b : HookBlock) (h : Int) => b.BlockHeight = intToDec h ∧
      -9223372036854775808 ≤ h ∧ h ≤ 9223372036854775807) evs hs)
    (hinc : List.Chain (· < ·) cur hs)
    (hok : allSucceed evs s = true) :
    DenseFrom (writeBlocks evs s) lo ((cur :: hs).getLast (List.cons_ne_nil _ _)) := by
  induction hev generalizing s cur with
  | nil => simpa [writeBlocks] using hd
  | @cons b h bs hs' hbh _ ih =>
    simp only [allSucceed, Bool.and_eq_true] at hok
    rw [List.chain_cons] at hinc
    have := ih (WriteBlock s b).2 h
      (DenseFrom_step s b lo cur h hd hbh.1 hinc.1 hbh.2 hok.1) hinc.2 hok.2
    simpa [writeBlocks, List.getLast_cons] using this

/-- C8 (amended): for block events whose heights are strictly increasing 64-bit integers in
decimal text, applied in order to the empty store with every `WriteBlock` call succeeding,
`latestblock` is the last (highest) height and `block::<h>` exists for every `h` from the
first supplied height up to it. -/
theorem writeBlocks_dense_from_first (e0 : HookBlock) (evs : List HookBlock) (h0 : Int)
    (hs : List Int)
    (hev : List.Forall₂ (fun (b : HookBlock) (h : Int) => b.BlockHeight = intToDec h ∧
      -9223372036854775808 ≤ h ∧ h ≤ 9223372036854775807) (e0 :: evs) (h0 :: hs))
    (hinc : List.Chain (· < ·) h0 hs)
    (hok : allSucceed (e0 :: evs) [] = true) :
    kvGet (writeBlocks (e0 :: evs) []) "latestblock"
      = some (Val.raw (intToDec ((h0 :: hs).getLast (List.cons_ne_nil _ _)))) ∧
    ∀ h : Int, h0 ≤ h → h ≤ (h0 :: hs).getLast (List.cons_ne_nil _ _) →
      kvGet (writeBlocks (e0 :: evs) []) ("block::" ++ intToDec h) ≠ none := by
  rw [List.forall₂_cons] at hev
  simp only [allSucceed, Bool.and_eq_true] at hok
  have h1 := DenseFrom_first e0 h0 hev.1.1 hev.1.2 hok.1
  have h2 := DenseFrom_run evs hs _ h0 h0 h1 hev.2 hinc hok.2
  exact ⟨h2.1, h2.2.2⟩

/-- Witness for C8 (amended): heights 100 and 103 on the empty store. -/
theorem writeBlocks_dense_from_first_witness :
    List.Forall₂ (fun (b : HookBlock) (h : Int) => b.BlockHeight = intToDec h ∧
      -9223372036854775808 ≤ h ∧ h ≤ 9223372036854775807)
      (negAmtBlock1 :: [gapBlock]) (100 :: [103]) ∧
    List.Chain (· < ·) (100 : Int) [103] ∧
    allSucceed (negAmtBlock1 :: [gapBlock]) [] = true ∧
    (kvGet (writeBlocks (negAmtBlock1 :: [gapBlock]) []) "latestblock"
      = some (Val.raw (intToDec (((100 : Int) :: [103]).getLast (List.cons_ne_nil _ _)))) ∧
    ∀ h : Int, 100 ≤ h → h ≤ ((100 : Int) :: [103]).getLast (List.cons_ne_nil _ _) →
      kvGet (writeBlocks (negAmtBlock1 :: [gapBlock]) []) ("block::" ++ intToDec h) ≠ none) :=
  have hev : List.Forall₂ (fun (b : HookBlock) (h : Int) => b.BlockHeight = intToDec h ∧
      -9223372036854775808 ≤ h ∧ h ≤ 9223372036854775807)
      (negAmtBlock1 :: [gapBlock]) (100 :: [103]) :=
    List.Forall₂.cons (by decide) (List.Forall₂.cons (by decide) List.Forall₂.nil)
  have hinc : List.Chain (· < ·) (100 : Int) [103] :=
    List.Chain.cons (by decide) List.Chain.nil
  ⟨hev, hinc, by decide,
    writeBlocks_dense_from_first negAmtBlock1 [gapBlock] 100 [103] hev hinc (by decide)⟩

/-! ## Cap invariant: primitive steps -/

theorem mem_kvSet {s : Store} {k : String} {v : Val} {x : String × Val}
    (h : x ∈ kvSet s k v) : x = (k, v) ∨ x ∈ s := by
  induction s with
  | nil =>
    simp only [kvSet, List.mem_singleton] at h
    exact Or.inl h
  | cons hd tl ih =>
    obtain ⟨k1, v1⟩ := hd
    unfold kvSet at h
    by_cases h1 : k = k1
    · rw [if_pos h1] at h
      rcases List.mem_cons.mp h with e | e
      · exact Or.inl e
      · exact Or.inr (List.mem_cons_of_mem _ e)
    · rw [if_neg h1] at h
      by_cases h2 : keyLt k.data k1.data = true
      · rw [if_pos h2] at h
        rcases List.mem_cons.mp h with e | e
        · exact Or.inl e
        · exact Or.inr e
      · rw [if_neg h2] at h
        rcases List.mem_cons.mp h with e | e
        · exact Or.inr (e ▸ List.mem_cons_self _ _)
        · rcases ih e with e2 | e2
          · exact Or.inl e2
          · exact Or.inr (List.mem_cons_of_mem _ e2)

theorem mem_kvDelete {s : Store} {k : String} {x : String × Val}
    (h : x ∈ kvDelete s k) : x ∈ s := by
  unfold kvDelete at h
  exact (List.mem_filter.mp h).1

theorem kvGet_mem {s : Store} {k : String} {v : Val} (h : kvGet s k = some v) :
    (k, v) ∈ s := by
  induction s with
  | nil => simp [kvGet] at h
  | cons hd tl ih =>
    obtain ⟨k1, v1⟩ := hd
    unfold kvGet at h
    by_cases h1 : k = k1
    · rw [if_pos h1] at h
      cases h
      subst h1
      exact List.mem_cons_self _ _
    · rw [if_neg h1] at h
      exact List.mem_cons_of_mem _ (ih h)

theorem mem_kvScan {s : Store} {pre : String} {x : String × Val} (h : x ∈ kvScan s pre) :
    x ∈ s := by
  unfold kvScan at h
  exact (List.mem_filter.mp h).1

theorem not_IndexKey_inscr (x : String) : ¬ IndexKey ("inscr::" ++ x) := by
  intro h
  rcases h with h | h | h <;>
    · rw [HasPrefix_append_clash _ _ _ (by decide)] at h
      exact Bool.noConfusion h

theorem IndexKey_append {a : String} (b : String) (h : IndexKey a) : IndexKey (a ++ b) := by
  rcases h with h | h | h
  · exact Or.inl (HasPrefix_append_left _ _ _ h)
  · exact Or.inr (Or.inl (HasPrefix_append_left _ _ _ h))
  · exact Or.inr (Or.inr (HasPrefix_append_left _ _ _ h))

theorem RawSteps_trans {a b c : Store} (h1 : RawSteps a b) (h2 : RawSteps b c) :
    RawSteps a c := by
  induction h2 with
  | refl => exact h1
  | set k v _ hk ih => exact RawSteps.set k v ih hk
  | del k _ hk ih => exact RawSteps.del k ih hk

theorem RawSteps_frame {s s1 : Store} (h : RawSteps s s1) (k : String) (hk : ¬ IndexKey k) :
    kvGet s1 k = kvGet s k := by
  induction h with
  | refl => rfl
  | set k1 v _ hk1 ih =>
    rw [kvGet_kvSet_ne _ _ _ _ (fun e => hk (by rw [e]; exact hk1)), ih]
  | del k1 _ hk1 ih =>
    rw [kvGet_kvDelete_ne _ _ _ (fun e => hk (by rw [e]; exact hk1)), ih]

theorem RawSteps_inscr {s s1 : Store} (h : RawSteps s s1) (x : String) :
    kvGet s1 ("inscr::" ++ x) = kvGet s ("inscr::" ++ x) :=
  RawSteps_frame h _ (not_IndexKey_inscr x)

theorem RawSteps_genesis_mem {s s1 : Store} (h : RawSteps s s1) (k : String)
    (g : Mrc721GenesisData) (hm : (k, Val.genesis g) ∈ s1) : (k, Val.genesis g) ∈ s := by
  induction h with
  | refl => exact hm
  | set k1 v _ _ ih =>
    rcases mem_kvSet hm with e | e
    · cases e
    · exact ih e
  | del k1 _ _ ih => exact ih (mem_kvDelete hm)

/-- A genesis record stays good when the lookups of `inscr::` keys are unchanged. -/
theorem GoodGenesis_of_inscr_eq {s s1 : Store} {g : Mrc721GenesisData}
    (hf : kvGet s1 ("inscr::" ++ g.ID) = kvGet s ("inscr::" ++ g.ID))
    (hg : GoodGenesis s g) : GoodGenesis s1 g := by
  obtain ⟨h1, h2, h3⟩ := hg
  refine ⟨h1, by rw [hf]; exact h2, ?_⟩
  intro insc c proto m hi
  rw [hf] at hi
  exact h3 insc c proto m hi

theorem CountInv_of_RawSteps {s s1 : Store} (h : RawSteps s s1) (hinv : CountInv s) :
    CountInv s1 := by
  intro k g hm
  exact GoodGenesis_of_inscr_eq (RawSteps_inscr h g.ID) (hinv k g (RawSteps_genesis_mem h k g hm))

theorem NoGenesisOf_of_RawSteps {s s1 : Store} (h : RawSteps s s1) {id : String}
    (hn : NoGenesisOf s id) : NoGenesisOf s1 id :=
  fun k g hm => hn k g (RawSteps_genesis_mem h k g hm)

/-- P1: writing a raw, block or lottery value keeps the invariant. -/
theorem CountInv_set_other {s : Store} (k : String) (v : Val)
    (hv : ∀ g, v ≠ Val.genesis g) (hi : ∀ i, v ≠ Val.inscr i) (hinv : CountInv s) :
    CountInv (kvSet s k v) := by
  intro k1 g hm
  rcases mem_kvSet hm with e | e
  · cases e
    exact absurd rfl (hv g)
  · obtain ⟨h1, h2, h3⟩ := hinv k1 g e
    refine ⟨h1, kvGet_kvSet_ne_none _ _ _ _ h2, ?_⟩
    intro insc c proto m hlook
    by_cases hk : "inscr::" ++ g.ID = k
    · rw [hk, kvGet_kvSet_self] at hlook
      exact absurd (Option.some.inj hlook) (hi insc)
    · rw [kvGet_kvSet_ne _ _ _ _ hk] at hlook
      exact h3 insc c proto m hlook

/-- P3: writing an inscription record keeps the invariant when no genesis record refers to
it, or when it only replaces a record with the same payload. -/
theorem CountInv_set_inscr {s : Store} (id : String) (i : HookInscription)
    (h : NoGenesisOf s id ∨
      ∃ i0, kvGet s ("inscr::" ++ id) = some (Val.inscr i0) ∧ i0.ContentByte = i.ContentByte)
    (hinv : CountInv s) : CountInv (kvSet s ("inscr::" ++ id) (Val.inscr i)) := by
  intro k1 g hm
  rcases mem_kvSet hm with e | e
  · cases e
  · obtain ⟨h1, h2, h3⟩ := hinv k1 g e
    refine ⟨h1, kvGet_kvSet_ne_none _ _ _ _ h2, ?_⟩
    intro insc c proto m hlook hc
    by_cases hk : g.ID = id
    · rcases h with hno | ⟨i0, hi0, hcont⟩
      · exact absurd hk (hno k1 g e)
      · rw [hk, kvGet_kvSet_self] at hlook
        cases hlook
        rw [← hk] at hi0
        exact h3 i0 c proto m hi0 (hcont.trans hc)
    · have hne : "inscr::" ++ g.ID ≠ "inscr::" ++ id := fun e2 => hk (append_left_cancel_str e2)
      rw [kvGet_kvSet_ne _ _ _ _ hne] at hlook
      exact h3 insc c proto m hlook hc

/-- P4: writing a good genesis record at an index key keeps the invariant. -/
theorem CountInv_set_genesis {s : Store} (k : String) (g : Mrc721GenesisData)
    (hk : IndexKey k) (hg : GoodGenesis s g) (hinv : CountInv s) :
    CountInv (kvSet s k (Val.genesis g)) := by
  have hframe : ∀ x, kvGet (kvSet s k (Val.genesis g)) ("inscr::" ++ x)
      = kvGet s ("inscr::" ++ x) := by
    intro x
    exact kvGet_kvSet_ne _ _ _ _ (fun e => not_IndexKey_inscr x (by rw [e]; exact hk))
  intro k1 g1 hm
  rcases mem_kvSet hm with e | e
  · cases e
    exact GoodGenesis_of_inscr_eq (hframe _) hg
  · exact GoodGenesis_of_inscr_eq (hframe _) (hinv k1 g1 e)

/-- P2: deleting an index key keeps the invariant. -/
theorem CountInv_delete {s : Store} (k : String) (hk : IndexKey k) (hinv : CountInv s) :
    CountInv (kvDelete s k) :=
  CountInv_of_RawSteps (RawSteps.del k (RawSteps.refl s) hk) hinv

/-! ## Cap invariant: the phases -/

theorem addNewMrc721_raw {s s1 : Store} {inscr : HookInscription} {d : MRC721Protocol}
    {n : Int} (h : addNewMrc721 s inscr d n = .ok s1) : RawSteps s s1 := by
  unfold addNewMrc721 at h
  simp only [bind, Except.bind, pure, Except.pure] at h
  repeat' split at h
  all_goals
    cases h
    repeat (first
      | exact RawSteps.refl _
      | refine RawSteps.set _ _ ?_ (by repeat (first | exact (by decide) | apply IndexKey_append)))

theorem asGenesis_ok {v : Val} {g : Mrc721GenesisData} (h : asGenesis v = .ok g) :
    v = Val.genesis g := by
  cases v <;> simp [asGenesis] at h
  rw [h]

theorem asInscr_ok {v : Val} {i : HookInscription} (h : asInscr v = .ok i) :
    v = Val.inscr i := by
  cases v <;> simp [asInscr] at h
  rw [h]

theorem writeMrc721_inv {s s1 : Store} {block : HookBlock} {inscr : HookInscription}
    {d : MRC721Protocol} (hinv : CountInv s)
    (hp : kvGet s ("inscr::" ++ inscr.ID) ≠ none)
    (hc : ∀ (insc : HookInscription) (c : Content) (proto : MRC721Protocol) (m : Int),
      kvGet s ("inscr::" ++ inscr.ID) = some (Val.inscr insc) → insc.ContentByte = some c →
      ParseMRC721Protocol c = .ok proto → Atoi proto.Miner.Max = some m → 1 ≤ m)
    (h : writeMrc721 s block inscr d = .ok s1) : CountInv s1 := by
  unfold writeMrc721 at h
  simp only [bind, Except.bind, pure, Except.pure] at h
  split at h
  · split at h
    · cases h; exact hinv
    · split at h
      · cases h
      · rename_i geninscMax _
        have h2 : CountInv (kvSet
            (kvSet s ("mrc721::geninsc::" ++ d.Miner.GetUpperName)
              (Val.genesis
                { ID := inscr.ID, Number := inscr.Number, Name := d.Miner.GetUpperName,
                  PrevName := d.Miner.Name, BlockHeight := block.BlockHeight,
                  GenesisAddress := inscr.Address, InscriptionsCount := 1,
                  InscriptionsMax := geninscMax, PrizePoolTokens := "0",
                  TotalMinedTokens := "0", TotalPrizePoolTokens := "0",
                  Tick := d.Token.GetLowerTick, PrevTick := d.Token.Tick,
                  GenesisBlockHeight := block.BlockHeight, GenesisTimestamp := block.Timestamp,
                  EndID := "", EndBlockHeight := "", EndTimestamp := 0, TotalPrizeRound := 0,
                  TotalBurn := "0" }))
            ("mrc20::geninsc::" ++ d.Token.GetLowerTick) (Val.raw d.Miner.GetUpperName)) := by
          refine CountInv_set_other _ _ (fun g e => by cases e) (fun i e => by cases e) ?_
          refine CountInv_set_genesis _ _ (IndexKey_append _ (by decide)) ?_ hinv
          exact ⟨le_refl _, hp, fun insc c proto m a b c1 e => hc insc c proto m a b c1 e⟩
        split at h
        · cases h; exact h2
        · rename_i s3 heq
          cases h
          exact CountInv_of_RawSteps (addNewMrc721_raw heq) h2
  · rename_i item hitem
    split at h
    · cases h
    · rename_i g hg
      have hgm := hinv _ _ (kvGet_mem (by rw [hitem, asGenesis_ok hg]))
      split at h
      · cases h
      · rename_i item2 hitem2
        split at h
        · cases h
        · rename_i existing hex
          split at h
          · cases h
          · split at h
            · cases h; exact hinv
            · split at h
              · cases h
              · rename_i firstMrc721 hfirst
                split at h
                · cases h
                · rename_i maxInscriptions hmax
                  split at h
                  · cases h; exact hinv
                  · rename_i hlt
                    split at h
                    · cases h; exact hinv
                    · rename_i s2 hadd
                      cases h
                      have hraw := addNewMrc721_raw hadd
                      refine CountInv_set_genesis _ _ (IndexKey_append _ (by decide)) ?_
                        (CountInv_of_RawSteps hraw hinv)
                      refine GoodGenesis_of_inscr_eq (s := s) (RawSteps_inscr hraw _) ?_
                      refine ⟨by have := hgm.1; show (1 : Int) ≤ g.InscriptionsCount + 1; omega,
                        hgm.2.1, ?_⟩
                      intro insc c proto m hk hcb hpar hat
                      show g.InscriptionsCount + 1 ≤ m
                      rw [hitem2, asInscr_ok hex] at hk
                      cases hk
                      unfold contentOf at hfirst
                      rw [hcb] at hfirst
                      simp only at hfirst
                      rw [hpar] at hfirst
                      cases hfirst
                      rw [hat] at hmax
                      cases hmax
                      omega

theorem dropWhile_isSpace_id (l : List Char) (h : ∀ c ∈ l, isSpace c = false) :
    l.dropWhile isSpace = l := by
  cases l with
  | nil => rfl
  | cons a t => simp [List.dropWhile, h a (List.mem_cons_self _ _)]

theorem TrimSpace_id (x : String) (h : ∀ c ∈ x.data, isSpace c = false) : TrimSpace x = x := by
  unfold TrimSpace
  rw [dropWhile_isSpace_id _ h, dropWhile_isSpace_id _ (fun c hc => h c (List.mem_reverse.mp hc)),
    List.reverse_reverse]

theorem digitVal_not_space {c : Char} {d : Nat} (h : digitVal c = some d) :
    isSpace c = false := by
  unfold digitVal at h
  repeat' split at h
  all_goals first | (subst_vars; decide) | cases h

theorem digitsVal_not_space :
    ∀ (cs : List Char) (acc n : Nat), digitsVal cs acc = some n → ∀ c ∈ cs, isSpace c = false
  | [], _, _, _, c, hc => by cases hc
  | a :: t, acc, n, h, c, hc => by
    unfold digitsVal at h
    split at h
    · rename_i d hd
      rcases List.mem_cons.mp hc with e | e
      · rw [e]; exact digitVal_not_space hd
      · exact digitsVal_not_space t _ n h c e
    · cases h

theorem parseNatDec_not_space {cs : List Char} {n : Nat} (h : parseNatDec cs = some n) :
    ∀ c ∈ cs, isSpace c = false := by
  unfold parseNatDec at h
  split at h
  · cases h
  · exact digitsVal_not_space _ _ _ h

theorem SetString10_not_space {x : String} {v : Int} (h : SetString10 x = some v) :
    ∀ c ∈ x.data, isSpace c = false := by
  unfold SetString10 at h
  split at h
  · rename_i cs hcs
    cases hp : parseNatDec cs with
    | none => rw [hp] at h; cases h
    | some n =>
      intro c hc
      rw [hcs] at hc
      rcases List.mem_cons.mp hc with e | e
      · rw [e]; decide
      · exact parseNatDec_not_space hp c e
  · rename_i cs hcs
    cases hp : parseNatDec cs with
    | none => rw [hp] at h; cases h
    | some n =>
      intro c hc
      rw [hcs] at hc
      rcases List.mem_cons.mp hc with e | e
      · rw [e]; decide
      · exact parseNatDec_not_space hp c e
  · cases hp : parseNatDec x.data with
    | none => rw [hp] at h; cases h
    | some n => exact parseNatDec_not_space hp

theorem TrimSpace_of_SetString10 {x : String} {v : Int} (h : SetString10 x = some v) :
    TrimSpace x = x :=
  TrimSpace_id x (SetString10_not_space h)

theorem validateMiner_max {mi : Miner} (h : validateMiner mi = true) :
    ∃ v, SetString10 mi.Max = some v ∧ 1 ≤ v := by
  unfold validateMiner at h
  split at h
  · cases h
  · rename_i mx hmx
    split at h
    · cases h
    · rename_i hb
      exact ⟨mx, hmx, by omega⟩

/-- The `miner.max` of a payload that passed validation parses to at least 1. -/
theorem validated_max_pos {data : Content} {t : String} {proto : MRC721Protocol} {m : Int}
    (hv : ValidateProtocolData data = some t) (ht : t ≠ "mrc-20")
    (hp : ParseMRC721Protocol data = .ok proto) (hm : Atoi proto.Miner.Max = some m) :
    1 ≤ m := by
  cases data with
  | html name id src root => simp [ParseMRC721Protocol] at hp
  | svg ns wf name id body => simp [ParseMRC721Protocol] at hp
  | other body root => simp [ParseMRC721Protocol] at hp
  | json p a b body root =>
    unfold ValidateProtocolData at hv
    simp only at hv
    split at hv
    · split at hv
      · rename_i hval
        cases a with
        | none => simp [validateMRC721Data] at hval
        | some q =>
          have hmi : validateMiner q.Miner = true := by
            by_contra hn
            unfold validateMRC721Data at hval
            simp only at hval
            split at hval
            · cases hval
            · split at hval
              · cases hval
              · split at hval
                · cases hval
                · rename_i hx
                  simp only [Bool.not_eq_true, Bool.not_eq_false_eq_eq_true, Bool.not_eq_eq_eq_not,
                    Bool.not_true, Bool.not_false] at hx
                  first | exact hn hx | simp_all
          obtain ⟨v, hv1, hv2⟩ := validateMiner_max hmi
          unfold ParseMRC721Protocol at hp
          simp only at hp
          cases hp
          simp only at hm
          split at hm
          · simp only at hm
            have : Atoi "13263" = some 13263 := by decide
            rw [this] at hm
            cases hm
            decide
          · simp only at hm
            rw [TrimSpace_of_SetString10 hv1] at hm
            have := (Atoi_eq_SetString10 hm).1
            rw [hv1] at this
            cases this
            exact hv2
      · cases hv
    · split at hv
      · split at hv
        · cases hv; exact absurd rfl ht
        · cases hv
      · cases hv

theorem writeMrc20_inv {s s1 : Store} {inscr : HookInscription} {d : MRC20Protocol}
    (hinv : CountInv s) (hn : NoGenesisOf s inscr.ID) (h : writeMrc20 s inscr d = .ok s1) :
    CountInv s1 := by
  unfold writeMrc20 at h
  dsimp only at h
  repeat' split at h
  all_goals first
    | (cases h; done)
    | (cases h; exact hinv)
    | (cases h
       refine CountInv_of_RawSteps ?_ hinv
       repeat (first
         | exact RawSteps.refl _
         | refine RawSteps.set _ _ ?_ (by repeat (first | exact (by decide) | apply IndexKey_append)))
       done)
    | (cases h
       have hr : ∀ (a b c e : String),
           RawSteps s (kvSet (kvSet (kvSet (kvSet s
             ("mrc20::balance::" ++ inscr.Address ++ "::" ++ d.Tick) (Val.raw a))
             ("mrc20::name_inscr::" ++ d.Tick ++ "::" ++ inscr.ID) (Val.raw b))
             ("mrc20::addr_inscr::" ++ inscr.Address ++ "::" ++ inscr.ID) (Val.raw c))
             ("mrc20::inscr_addr::" ++ inscr.ID ++ "::" ++ inscr.Address) (Val.raw e)) := by
         intro a b c e
         repeat (first
           | exact RawSteps.refl _
           | refine RawSteps.set _ _ ?_ (by repeat (first | exact (by decide) | apply IndexKey_append)))
       exact CountInv_set_inscr _ _ (Or.inl (NoGenesisOf_of_RawSteps (hr _ _ _ _) hn))
         (CountInv_of_RawSteps (hr _ _ _ _) hinv))

theorem NoGenesisOf_of_absent {s : Store} {id : String} (hinv : CountInv s)
    (h : kvGet s ("inscr::" ++ id) = none) : NoGenesisOf s id := by
  intro k g hm e
  have := (hinv k g hm).2.1
  rw [e] at this
  exact this h

theorem addInscription_inv {s s1 : Store} {block : HookBlock} {i : HookInscription}
    (hinv : CountInv s) (h : addInscription s block i = .ok s1) : CountInv s1 := by
  unfold addInscription at h
  dsimp only at h
  split at h
  · cases h
  · rename_i habs
    have hn := NoGenesisOf_of_absent hinv habs
    have h1 : CountInv (kvSet s ("inscr::" ++ i.ID) (Val.inscr i)) :=
      CountInv_set_inscr _ _ (Or.inl hn) hinv
    have h2 : CountInv (kvSet (kvSet s ("inscr::" ++ i.ID) (Val.inscr i))
        ("inscr::number::" ++ intToDec i.Number) (Val.raw i.ID)) :=
      CountInv_set_other _ _ (fun g e => by cases e) (fun j e => by cases e) h1
    have hn2 : NoGenesisOf (kvSet (kvSet s ("inscr::" ++ i.ID) (Val.inscr i))
        ("inscr::number::" ++ intToDec i.Number) (Val.raw i.ID)) i.ID := by
      intro k g hm
      rcases mem_kvSet hm with e | hm1
      · cases e
      · rcases mem_kvSet hm1 with e | hm2
        · cases e
        · exact hn k g hm2
    have hp2 : kvGet (kvSet (kvSet s ("inscr::" ++ i.ID) (Val.inscr i))
        ("inscr::number::" ++ intToDec i.Number) (Val.raw i.ID)) ("inscr::" ++ i.ID) ≠ none :=
      kvGet_kvSet_ne_none _ _ _ _ (by rw [kvGet_kvSet_self]; exact Option.some_ne_none _)
    have hi2 : ∀ insc, kvGet (kvSet (kvSet s ("inscr::" ++ i.ID) (Val.inscr i))
        ("inscr::number::" ++ intToDec i.Number) (Val.raw i.ID)) ("inscr::" ++ i.ID)
          = some (Val.inscr insc) → insc = i := by
      intro insc hk
      by_cases e : "inscr::" ++ i.ID = "inscr::number::" ++ intToDec i.Number
      · rw [← e, kvGet_kvSet_self] at hk
        cases hk
      · rw [kvGet_kvSet_ne _ _ _ _ e, kvGet_kvSet_self] at hk
        cases hk
        rfl
    split at h
    · cases h; exact h2
    · rename_i data hdata
      split at h
      · cases h; exact h2
      · rename_i t hval
        have hcan : t ≠ "mrc-20" →
            ∀ (insc : HookInscription) (c : Content) (proto : MRC721Protocol) (m : Int),
            kvGet (kvSet (kvSet s ("inscr::" ++ i.ID) (Val.inscr i))
              ("inscr::number::" ++ intToDec i.Number) (Val.raw i.ID)) ("inscr::" ++ i.ID)
              = some (Val.inscr insc) → insc.ContentByte = some c →
            ParseMRC721Protocol c = .ok proto → Atoi proto.Miner.Max = some m → 1 ≤ m := by
          intro ht insc c proto m hk hcb hpar hat
          rw [hi2 insc hk, hdata] at hcb
          cases hcb
          exact validated_max_pos hval ht hpar hat
        split at h
        · rename_i ht
          split at h
          · cases h; exact h2
          · exact writeMrc721_inv h2 hp2 (hcan (by rw [ht]; decide)) h
        · split at h
          · rename_i ht
            split at h
            · split at h
              · cases h
              · cases h; exact h2
            · exact writeMrc721_inv h2 hp2 (hcan (by rw [ht]; decide)) h
          · split at h
            · rename_i ht
              split at h
              · split at h
                · cases h
                · cases h; exact h2
              · exact writeMrc721_inv h2 hp2 (hcan (by rw [ht]; decide)) h
            · split at h
              · split at h
                · cases h; exact h2
                · exact writeMrc20_inv h2 hn2 h
              · cases h; exact h2

theorem addInscriptions_inv (block : HookBlock) :
    ∀ (l : List HookInscription) (s s1 : Store), CountInv s →
      addInscriptions block l s = .ok s1 → CountInv s1
  | [], s, s1, hinv, h => by
    unfold addInscriptions at h
    cases h
    exact hinv
  | i :: rest, s, s1, hinv, h => by
    unfold addInscriptions at h
    split at h
    · cases h
    · rename_i s2 h2
      exact addInscriptions_inv block rest s2 s1 (addInscription_inv hinv h2) h

theorem IndexKey_of_firstUnder_721 {s : Store} {x : String}
    (h : ¬ (firstUnder s ("mrc721::inscr_addr::" ++ x ++ "::")).2 = "") :
    IndexKey (firstUnder s ("mrc721::inscr_addr::" ++ x ++ "::")).1 :=
  Or.inl (HasPrefix_trans (HasPrefix_of_append (HasPrefix_of_append
    (firstUnder_key _ _ h))) (by decide))

theorem IndexKey_of_firstUnder_20 {s : Store} {x : String}
    (h : ¬ (firstUnder s ("mrc20::inscr_addr::" ++ x ++ "::")).2 = "") :
    IndexKey (firstUnder s ("mrc20::inscr_addr::" ++ x ++ "::")).1 :=
  Or.inr (Or.inl (HasPrefix_trans (HasPrefix_of_append (HasPrefix_of_append
    (firstUnder_key _ _ h))) (by decide)))

theorem transfer721_inv {s s1 : Store} {t : HookTransfer} {a : String}
    (hinv : CountInv s) (h : transfer721 s t a = .ok s1) : CountInv s1 := by
  unfold transfer721 at h
  dsimp only at h
  split at h
  · cases h; exact hinv
  · rename_i hne
    have hr : RawSteps s (kvSet (kvDelete (kvSet (kvDelete s
        (firstUnder s ("mrc721::inscr_addr::" ++ t.ID ++ "::")).1)
        ("mrc721::inscr_addr::" ++ t.ID ++ "::" ++ a) (Val.raw ""))
        ("mrc721::addr_inscr::" ++ (firstUnder s ("mrc721::inscr_addr::" ++ t.ID ++ "::")).2
          ++ "::" ++ t.ID))
        ("mrc721::addr_inscr::" ++ a ++ "::" ++ t.ID) (Val.raw "")) := by
      refine RawSteps.set _ _ ?_ (by repeat (first | exact (by decide) | apply IndexKey_append))
      refine RawSteps.del _ ?_ (by repeat (first | exact (by decide) | apply IndexKey_append))
      refine RawSteps.set _ _ ?_ (by repeat (first | exact (by decide) | apply IndexKey_append))
      exact RawSteps.del _ (RawSteps.refl _) (IndexKey_of_firstUnder_721 hne)
    split at h
    · cases h
    · split at h
      · cases h
      · rename_i item hitem
        split at h
        · cases h
        · rename_i hook hhook
          cases h
          refine CountInv_set_inscr _ _ (Or.inr ⟨hook, ?_, rfl⟩) (CountInv_of_RawSteps hr hinv)
          rw [hitem, asInscr_ok hhook]

theorem transfer20_raw {s s1 : Store} {t : HookTransfer} {a : String}
    (h : transfer20 s t a = .ok s1) : RawSteps s s1 := by
  unfold transfer20 at h
  dsimp only at h
  repeat' split at h
  all_goals
    cases h
    repeat (first
      | exact RawSteps.refl _
      | refine RawSteps.set _ _ ?_ (by repeat (first | exact (by decide) | apply IndexKey_append))
      | refine RawSteps.del _ ?_ (IndexKey_of_firstUnder_20 (by assumption))
      | refine RawSteps.del _ ?_ (by repeat (first | exact (by decide) | apply IndexKey_append)))

theorem addTransfer_inv {s s1 : Store} {t : HookTransfer}
    (hinv : CountInv s) (h : addTransfer s t = .ok s1) : CountInv s1 := by
  unfold addTransfer at h
  repeat' split at h
  all_goals
    first
    | cases h; done
    | cases h; exact hinv
    | exact CountInv_of_RawSteps (transfer20_raw h) (transfer721_inv hinv (by assumption))

theorem addTransfers_inv :
    ∀ (l : List HookTransfer) (s s1 : Store), CountInv s →
      addTransfers l s = .ok s1 → CountInv s1
  | [], s, s1, hinv, h => by
    unfold addTransfers at h
    cases h
    exact hinv
  | i :: rest, s, s1, hinv, h => by
    unfold addTransfers at h
    split at h
    · cases h
    · rename_i s2 h2
      exact addTransfers_inv rest s2 s1 (addTransfer_inv hinv h2) h

theorem creditMiner_raw {s s1 : Store} {m : Mrc721MinerData}
    (h : creditMiner s m = .ok s1) : RawSteps s s1 := by
  unfold creditMiner at h
  dsimp only at h
  repeat' split at h
  all_goals
    cases h
    repeat (first
      | exact RawSteps.refl _
      | refine RawSteps.set _ _ ?_ (by repeat (first | exact (by decide) | apply IndexKey_append)))

theorem creditMiners_raw :
    ∀ (l : List Mrc721MinerData) (s s1 : Store), creditMiners l s = .ok s1 → RawSteps s s1
  | [], s, s1, h => by
    unfold creditMiners at h
    cases h
    exact RawSteps.refl _
  | i :: rest, s, s1, h => by
    unfold creditMiners at h
    split at h
    · cases h
    · rename_i s2 h2
      exact RawSteps_trans (creditMiner_raw h2) (creditMiners_raw rest s2 s1 h)

theorem updateGenesisMined_fields {g u : Mrc721GenesisData} {c : MiningRewardCalculation}
    (h : updateGenesisMined g c = .ok u) :
    u.ID = g.ID ∧ u.InscriptionsCount = g.InscriptionsCount := by
  unfold updateGenesisMined at h
  simp only [bind, Except.bind, pure, Except.pure] at h
  repeat' split at h
  all_goals
    cases h
    first | done | exact ⟨rfl, rfl⟩

theorem GoodGenesis_congr {s : Store} {g u : Mrc721GenesisData} (h1 : u.ID = g.ID)
    (h2 : u.InscriptionsCount = g.InscriptionsCount) (hg : GoodGenesis s g) :
    GoodGenesis s u := by
  unfold GoodGenesis at hg ⊢
  rw [h1, h2]
  exact hg

theorem inscr_frame_set (s : Store) (k : String) (v : Val) (hk : IndexKey k) (x : String) :
    kvGet (kvSet s k v) ("inscr::" ++ x) = kvGet s ("inscr::" ++ x) :=
  kvGet_kvSet_ne _ _ _ _ (fun e => not_IndexKey_inscr x (by rw [e]; exact hk))

theorem mineCollection_inv {s s1 : Store} {block : HookBlock} {key : String} {val : Val}
    (hinv : CountInv s) (hg : ∀ g, asGenesis val = .ok g → GoodGenesis s g)
    (h : mineCollection s block key val = .ok s1) :
    CountInv s1 ∧ ∀ x, kvGet s1 ("inscr::" ++ x) = kvGet s ("inscr::" ++ x) := by
  unfold mineCollection at h
  simp only [bind, Except.bind, pure, Except.pure] at h
  repeat' split at h
  all_goals first
    | (cases h; done)
    | (cases h; exact ⟨hinv, fun _ => rfl⟩)
    | (cases h
       have hraw := creditMiners_raw _ _ _ (by assumption)
       have hu := updateGenesisMined_fields (by assumption)
       have hgood := hg _ (by assumption)
       refine ⟨CountInv_set_genesis _ _ (IndexKey_append _ (by decide))
         (GoodGenesis_of_inscr_eq (RawSteps_inscr hraw _) (GoodGenesis_congr hu.1 hu.2 hgood))
         (CountInv_of_RawSteps hraw hinv), fun x => ?_⟩
       rw [inscr_frame_set _ _ _ (IndexKey_append _ (by decide))]
       exact RawSteps_inscr hraw x)

theorem mineCollections_inv (block : HookBlock) :
    ∀ (l : List (String × Val)) (s s1 : Store), CountInv s →
      (∀ k v g, (k, v) ∈ l → asGenesis v = .ok g → GoodGenesis s g) →
      mineCollections block l s = .ok s1 →
      CountInv s1 ∧ ∀ x, kvGet s1 ("inscr::" ++ x) = kvGet s ("inscr::" ++ x)
  | [], s, s1, hinv, _, h => by
    unfold mineCollections at h
    cases h
    exact ⟨hinv, fun _ => rfl⟩
  | (k, v) :: rest, s, s1, hinv, hl, h => by
    unfold mineCollections at h
    split at h
    · cases h
    · rename_i s2 h2
      have h3 := mineCollection_inv hinv (fun g e => hl k v g (List.mem_cons_self _ _) e) h2
      have h4 := mineCollections_inv block rest s2 s1 h3.1
        (fun k1 v1 g hm e => GoodGenesis_of_inscr_eq (h3.2 _)
          (hl k1 v1 g (List.mem_cons_of_mem _ hm) e)) h
      exact ⟨h4.1, fun x => (h4.2 x).trans (h3.2 x)⟩

theorem scan_good {s : Store} (hinv : CountInv s) (pre : String) :
    ∀ k v g, (k, v) ∈ kvScan s pre → asGenesis v = .ok g → GoodGenesis s g := by
  intro k v g hm e
  have := mem_kvScan hm
  rw [asGenesis_ok e] at this
  exact hinv k g this

theorem lotteryCollection_inv {s s1 : Store} {block : HookBlock} {key : String} {val : Val}
    (hinv : CountInv s) (hg : ∀ g, asGenesis val = .ok g → GoodGenesis s g)
    (h : lotteryCollection s block key val = .ok s1) :
    CountInv s1 ∧ ∀ x, kvGet s1 ("inscr::" ++ x) = kvGet s ("inscr::" ++ x) := by
  unfold lotteryCollection at h
  simp only [bind, Except.bind, pure, Except.pure] at h
  repeat' split at h
  all_goals first
    | (cases h; done)
    | (cases h; exact ⟨hinv, fun _ => rfl⟩)
    | (cases h
       have hgood := hg _ (by assumption)
       have hk1 : ∀ a b : String, IndexKey ("mrc20::balance::" ++ a ++ "::" ++ b) :=
         fun a b => by repeat (first | exact (by decide) | apply IndexKey_append)
       have hk2 : ∀ a : String, IndexKey ("mrc721::geninsc::" ++ a) :=
         fun a => by repeat (first | exact (by decide) | apply IndexKey_append)
       have hk3 : ∀ a b : String, IndexKey ("lottery::mrc721::" ++ a ++ "::" ++ b) :=
         fun a b => by repeat (first | exact (by decide) | apply IndexKey_append)
       refine ⟨CountInv_set_other _ _ (fun g e => by cases e) (fun j e => by cases e)
         (CountInv_set_genesis _ _ (hk2 _)
           (GoodGenesis_of_inscr_eq (inscr_frame_set _ _ _ (hk1 _ _) _)
             (GoodGenesis_congr rfl rfl hgood))
           (CountInv_set_other _ _ (fun g e => by cases e) (fun j e => by cases e) hinv)),
         fun x => ?_⟩
       rw [inscr_frame_set _ _ _ (hk3 _ _), inscr_frame_set _ _ _ (hk2 _),
         inscr_frame_set _ _ _ (hk1 _ _)])

theorem lotteryCollections_inv (block : HookBlock) :
    ∀ (l : List (String × Val)) (s s1 : Store), CountInv s →
      (∀ k v g, (k, v) ∈ l → asGenesis v = .ok g → GoodGenesis s g) →
      lotteryCollections block l s = .ok s1 →
      CountInv s1 ∧ ∀ x, kvGet s1 ("inscr::" ++ x) = kvGet s ("inscr::" ++ x)
  | [], s, s1, hinv, _, h => by
    unfold lotteryCollections at h
    cases h
    exact ⟨hinv, fun _ => rfl⟩
  | (k, v) :: rest, s, s1, hinv, hl, h => by
    unfold lotteryCollections at h
    split at h
    · cases h
    · rename_i s2 h2
      have h3 := lotteryCollection_inv hinv (fun g e => hl k v g (List.mem_cons_self _ _) e) h2
      have h4 := lotteryCollections_inv block rest s2 s1 h3.1
        (fun k1 v1 g hm e => GoodGenesis_of_inscr_eq (h3.2 _)
          (hl k1 v1 g (List.mem_cons_of_mem _ hm) e)) h
      exact ⟨h4.1, fun x => (h4.2 x).trans (h3.2 x)⟩

theorem applyBlock_inv {s s1 : Store} {block : HookBlock} (hinv : CountInv s)
    (h : applyBlock s block = .ok s1) : CountInv s1 := by
  unfold applyBlock at h
  simp only [bind, Except.bind, pure, Except.pure] at h
  split at h
  · cases h
  · rename_i a ha
    split at h
    · cases h
    · rename_i b hb
      split at h
      · cases h
      · rename_i c hc
        split at h
        · cases h
        · rename_i d hd
          cases h
          have h1 := addInscriptions_inv block _ _ _ hinv ha
          have h2 := addTransfers_inv _ _ _ h1 hb
          have h3 := (mineCollections_inv block _ _ _ h2 (scan_good h2 _) hc).1
          have h4 : CountInv d := by
            unfold lotteryWithBlockHash at hd
            split at hd
            · cases hd; exact h3
            · exact (lotteryCollections_inv block _ _ _ h3 (scan_good h3 _) hd).1
          exact CountInv_set_other _ _ (fun g e => by cases e) (fun j e => by cases e)
            (CountInv_set_other _ _ (fun g e => by cases e) (fun j e => by cases e)
              (CountInv_set_other _ _ (fun g e => by cases e) (fun j e => by cases e) h4))

theorem applyBlocks_inv :
    ∀ (l : List HookBlock) (s s1 : Store), CountInv s → applyBlocks l s = .ok s1 → CountInv s1
  | [], s, s1, hinv, h => by
    unfold applyBlocks at h
    cases h
    exact hinv
  | b :: rest, s, s1, hinv, h => by
    unfold applyBlocks at h
    split at h
    · cases h
    · rename_i s2 h2
      exact applyBlocks_inv rest s2 s1 (applyBlock_inv hinv h2) h

theorem WriteBlock_inv (s : Store) (e : HookBlock) (hinv : CountInv s) :
    CountInv (WriteBlock s e).2 := by
  unfold WriteBlock writeBlockTxn
  repeat' split
  all_goals first
    | exact hinv
    | (rename_i heq
       repeat' split at heq
       all_goals first
         | (cases heq; done)
         | (cases heq; exact applyBlocks_inv _ _ _ hinv (by assumption)))

theorem Reachable_CountInv {s : Store} (hr : Reachable s) : CountInv s := by
  induction hr with
  | empty => intro k g hm; cases hm
  | step s e _ ih => exact WriteBlock_inv s e ih

/-! ## Inscription cap -/

theorem Reachable_writeBlocks :
    ∀ (l : List HookBlock) (s : Store), Reachable s → Reachable (writeBlocks l s)
  | [], _, h => h
  | b :: rest, s, h => Reachable_writeBlocks rest _ (Reachable.step s b h)

theorem writeMrc721_at_cap_core {s : Store} {g : Mrc721GenesisData} {existing : HookInscription}
    {c : Content} {canon : MRC721Protocol} {m : Int} (block : HookBlock)
    (inscr : HookInscription) (d : MRC721Protocol)
    (hg : kvGet s ("mrc721::geninsc::" ++ d.Miner.GetUpperName) = some (Val.genesis g))
    (he : kvGet s ("inscr::" ++ g.ID) = some (Val.inscr existing))
    (hc : existing.ContentByte = some c) (hp : ParseMRC721Protocol c = .ok canon)
    (hm : Atoi canon.Miner.Max = some m) (hcap : m ≤ g.InscriptionsCount)
    (hcb : inscr.ContentByte ≠ none) : writeMrc721 s block inscr d = .ok s := by
  obtain ⟨cb, hcb2⟩ := Option.ne_none_iff_exists'.mp hcb
  unfold writeMrc721
  simp only [bind, Except.bind, pure, Except.pure]
  rw [hg]
  simp only [asGenesis]
  rw [he]
  simp only [asInscr, IsEqual721Data, contentOf, hc, hcb2, bind, Except.bind, pure, Except.pure]
  split
  · rename_i e heq
    repeat' split at heq
    all_goals cases heq
  · split
    · rfl
    · rw [hp]
      simp only [hm]
      rw [if_pos (ge_iff_le.mpr hcap)]

/-- C5. In every store reachable by `WriteBlock` calls, a genesis record's
`inscriptions_count` is at least 1 and at most the `miner.max` of the protocol parsed from
the collection's genesis inscription; and when the count has reached that `miner.max`, a
mint attempt for the collection (`writeMrc721`) returns the store unchanged, so neither the
genesis record nor any membership index is written. -/
theorem inscriptions_count_within_max (s : Store) (hr : Reachable s) (name : String)
    (g : Mrc721GenesisData)
    (hg : kvGet s ("mrc721::geninsc::" ++ name) = some (Val.genesis g)) :
    1 ≤ g.InscriptionsCount ∧
    ∀ (existing : HookInscription) (c : Content) (canon : MRC721Protocol) (m : Int),
      kvGet s ("inscr::" ++ g.ID) = some (Val.inscr existing) →
      existing.ContentByte = some c →
      ParseMRC721Protocol c = .ok canon →
      Atoi canon.Miner.Max = some m →
      g.InscriptionsCount ≤ m ∧
      (m ≤ g.InscriptionsCount →
        ∀ (block : HookBlock) (inscr : HookInscription) (d : MRC721Protocol),
          d.Miner.GetUpperName = name → inscr.ContentByte ≠ none →
          writeMrc721 s block inscr d = .ok s) := by
  have hgood := Reachable_CountInv hr _ g (kvGet_mem hg)
  refine ⟨hgood.1, fun existing c canon m he hc hp hm => ⟨hgood.2.2 existing c canon m he hc hp hm, ?_⟩⟩
  intro hcap block inscr d hd hcb
  exact writeMrc721_at_cap_core block inscr d (by rw [hd]; exact hg) he hc hp hm hcap hcb

theorem inscriptions_count_within_max_witness :
    allSucceed capBlocks [] = true ∧
    kvGet capStore "mrc721::geninsc::DEMO" = some (Val.genesis capGenesis) ∧
    (1 : Int) ≤ capGenesis.InscriptionsCount ∧ capGenesis.InscriptionsCount ≤ 3 ∧
    writeMrc721 capStore (mkBlock "105" "af" [] [])
      (mkInscription "m5" 6 "B" (genesisContent capProtocol)) capProtocol = .ok capStore :=
  have hg : kvGet capStore ("mrc721::geninsc::" ++ "DEMO") = some (Val.genesis capGenesis) := by
    decide
  have h := inscriptions_count_within_max capStore
    (Reachable_writeBlocks capBlocks [] Reachable.empty) "DEMO" capGenesis hg
  have h2 := h.2 (mkInscription "g0" 1 "A" (genesisContent capProtocol))
    (genesisContent capProtocol) capProtocol 3 (by decide) rfl rfl (by decide)
  ⟨by decide, hg, h.1, h2.1, h2.2 (by decide) _ _ _ (by decide) (by decide)⟩

/-! ## Sorted stores -/

theorem keyLt_irrefl : ∀ a : List Char, keyLt a a = false
  | [] => rfl
  | c :: cs => by simp [keyLt, keyLt_irrefl cs]

theorem keyLt_trans : ∀ a b c : List Char, keyLt a b = true → keyLt b c = true →
    keyLt a c = true
  | [], [], _, h, _ => by simp [keyLt] at h
  | [], _ :: _, [], _, h => by simp [keyLt] at h
  | [], _ :: _, _ :: _, _, _ => by simp [keyLt]
  | _ :: _, [], _, h, _ => by simp [keyLt] at h
  | _ :: _, _ :: _, [], _, h => by simp [keyLt] at h
  | x :: xs, y :: ys, z :: zs, h1, h2 => by
    simp only [keyLt] at h1 h2 ⊢
    by_cases hxy : x.toNat < y.toNat
    · by_cases hyz : y.toNat < z.toNat
      · rw [if_pos (by omega)]
      · rw [if_neg hyz] at h2
        by_cases eyz : y = z
        · subst eyz
          rw [if_pos hxy]
        · rw [if_neg eyz] at h2
          cases h2
    · rw [if_neg hxy] at h1
      by_cases exy : x = y
      · subst exy
        rw [if_pos rfl] at h1
        by_cases hyz : x.toNat < z.toNat
        · rw [if_pos hyz]
        · rw [if_neg hyz] at h2 ⊢
          by_cases exz : x = z
          · subst exz
            rw [if_pos rfl] at h2 ⊢
            exact keyLt_trans xs ys zs h1 h2
          · rw [if_neg exz] at h2
            cases h2
      · rw [if_neg exy] at h1
        cases h1

theorem keyLt_total : ∀ a b : List Char, a ≠ b → keyLt a b = false → keyLt b a = true
  | [], [], h, _ => absurd rfl h
  | [], _ :: _, _, h => by simp [keyLt] at h
  | _ :: _, [], _, _ => by simp [keyLt]
  | x :: xs, y :: ys, hne, h => by
    simp only [keyLt] at h ⊢
    by_cases hxy : x.toNat < y.toNat
    · rw [if_pos hxy] at h
      cases h
    · rw [if_neg hxy] at h
      by_cases exy : x = y
      · subst exy
        rw [if_pos rfl] at h
        rw [if_neg hxy, if_pos rfl]
        exact keyLt_total xs ys (fun e => hne (by rw [e])) h
      · have : y.toNat < x.toNat := by
          have hn : x.toNat ≠ y.toNat := fun e => exy (by
            have := congrArg Char.ofNat e
            simpa [Char.ofNat_toNat] using this)
          omega
        rw [if_pos this]

theorem data_ne_of_ne {a b : String} (h : a ≠ b) : a.data ≠ b.data :=
  fun e => h (String.ext e)

theorem kvSet_sorted (k : String) (v : Val) :
    ∀ s : Store, StoreSorted s → StoreSorted (kvSet s k v)
  | [], _ => List.pairwise_singleton _ _
  | (k1, v1) :: rest, hs => by
    unfold StoreSorted at hs ⊢
    rw [List.pairwise_cons] at hs
    unfold kvSet
    by_cases e : k = k1
    · rw [if_pos e]
      subst e
      exact List.pairwise_cons.mpr ⟨hs.1, hs.2⟩
    · rw [if_neg e]
      by_cases hlt : keyLt k.data k1.data = true
      · rw [if_pos hlt]
        refine List.pairwise_cons.mpr ⟨?_, List.pairwise_cons.mpr hs⟩
        intro x hx
        rcases List.mem_cons.mp hx with rfl | hx
        · exact hlt
        · exact keyLt_trans _ _ _ hlt (hs.1 x hx)
      · rw [if_neg hlt]
        refine List.pairwise_cons.mpr ⟨?_, kvSet_sorted k v rest hs.2⟩
        intro x hx
        rcases mem_kvSet hx with rfl | hx
        · exact keyLt_total _ _ (data_ne_of_ne e) (by simpa using hlt)
        · exact hs.1 x hx

theorem kvDelete_sorted (k : String) (s : Store) (hs : StoreSorted s) :
    StoreSorted (kvDelete s k) :=
  List.Pairwise.filter _ hs

theorem Steps_sorted {s s1 : Store} (h : Steps s s1) (hs : StoreSorted s) : StoreSorted s1 := by
  induction h with
  | refl => exact hs
  | set k v _ _ ih => exact kvSet_sorted k v _ ih
  | del k _ _ ih => exact kvDelete_sorted k _ ih

theorem kvGet_of_mem : ∀ (s : Store) (k : String) (v : Val), StoreSorted s → (k, v) ∈ s →
    kvGet s k = some v
  | [], _, _, _, hm => by cases hm
  | (k1, v1) :: rest, k, v, hs, hm => by
    unfold StoreSorted at hs
    rw [List.pairwise_cons] at hs
    unfold kvGet
    rcases List.mem_cons.mp hm with e | hm1
    · cases e
      rw [if_pos rfl]
    · by_cases e : k = k1
      · subst e
        have := hs.1 _ hm1
        rw [keyLt_irrefl] at this
        cases this
      · rw [if_neg e]
        exact kvGet_of_mem rest k v hs.2 hm1

theorem applyBlock_sorted {s s1 : Store} {b : HookBlock} (h : applyBlock s b = .ok s1)
    (hs : StoreSorted s) : StoreSorted s1 := by
  obtain ⟨s4, h4, rfl⟩ := applyBlock_decompose h
  exact kvSet_sorted _ _ _ (kvSet_sorted _ _ _ (kvSet_sorted _ _ _ (Steps_sorted h4 hs)))

theorem applyBlocks_sorted :
    ∀ (l : List HookBlock) (s s1 : Store), StoreSorted s → applyBlocks l s = .ok s1 →
      StoreSorted s1
  | [], s, s1, hs, h => by
    unfold applyBlocks at h
    cases h
    exact hs
  | b :: rest, s, s1, hs, h => by
    unfold applyBlocks at h
    split at h
    · cases h
    · rename_i s2 h2
      exact applyBlocks_sorted rest s2 s1 (applyBlock_sorted h2 hs) h

/-! ## Per-address cap: invariants -/

theorem Quiet_append {a : String} (b : String) (h : Quiet a) : Quiet (a ++ b) := by
  unfold Quiet at h ⊢
  rw [List.any_eq_true] at h ⊢
  obtain ⟨p, hp, h1⟩ := h
  exact ⟨p, hp, HasPrefix_append_left _ _ _ h1⟩

theorem HasPrefix_clash {k p r : String} (h : HasPrefix k p = true)
    (hc : clash p.data r.data = true) : HasPrefix k r = false := by
  unfold HasPrefix at h ⊢
  obtain ⟨x, hx⟩ := List.isPrefixOf_iff_prefix.mp h
  rw [← hx]
  exact isPrefixOf_clash _ _ _ hc

theorem Quiet_not_Relevant {k : String} (h : Quiet k) : ¬ Relevant k := by
  unfold Quiet at h
  rw [List.any_eq_true] at h
  obtain ⟨p, hp, h1⟩ := h
  have hall : ∀ q ∈ quietPrefixes, clash q.data "inscr::".data = true ∧
      clash q.data "mrc721::geninsc::".data = true ∧
      clash q.data "mrc721::addr_num::".data = true := by decide
  obtain ⟨c1, c2, c3⟩ := hall p hp
  intro hr
  rcases hr with hr | hr | hr
  · rw [HasPrefix_clash h1 c1] at hr; cases hr
  · rw [HasPrefix_clash h1 c2] at hr; cases hr
  · rw [HasPrefix_clash h1 c3] at hr; cases hr

theorem QSteps_trans {a b c : Store} (h1 : QSteps a b) (h2 : QSteps b c) : QSteps a c := by
  induction h2 with
  | refl => exact h1
  | set k v _ hk ih => exact QSteps.set k v ih hk
  | del k _ hk ih => exact QSteps.del k ih hk

theorem QSteps_agree {s s1 : Store} (h : QSteps s s1) : Agree s s1 := by
  induction h with
  | refl => exact fun _ _ => rfl
  | set k v _ hk ih =>
    intro k2 hr
    rw [kvGet_kvSet_ne _ _ _ _ (fun e => Quiet_not_Relevant hk (by rw [← e]; exact hr))]
    exact ih k2 hr
  | del k _ hk ih =>
    intro k2 hr
    rw [kvGet_kvDelete_ne _ _ _ (fun e => Quiet_not_Relevant hk (by rw [← e]; exact hr))]
    exact ih k2 hr

theorem Agree_trans {a b c : Store} (h1 : Agree a b) (h2 : Agree b c) : Agree a c :=
  fun k hr => (h2 k hr).trans (h1 k hr)

theorem Relevant_inscr (x : String) : Relevant ("inscr::" ++ x) :=
  Or.inl (HasPrefix_append _ _)

theorem Relevant_geninsc (x : String) : Relevant ("mrc721::geninsc::" ++ x) :=
  Or.inr (Or.inl (HasPrefix_append _ _))

theorem Relevant_addrnum (U a : String) : Relevant ("mrc721::addr_num::" ++ U ++ "::" ++ a) :=
  Or.inr (Or.inr (HasPrefix_append_left _ _ _ (HasPrefix_append_left _ _ _
    (HasPrefix_append _ _))))

theorem Canon_congr {s s1 : Store} {id : String} {proto : MRC721Protocol}
    (hf : kvGet s1 ("inscr::" ++ id) = kvGet s ("inscr::" ++ id)) (h : Canon s1 id proto) :
    Canon s id proto := by
  obtain ⟨insc, c, h1, h2, h3⟩ := h
  exact ⟨insc, c, by rw [← hf]; exact h1, h2, h3⟩

theorem GoodColl_mono {s s1 : Store} {U : String} {g : Mrc721GenesisData}
    (hp : kvGet s ("inscr::" ++ g.ID) ≠ none → kvGet s1 ("inscr::" ++ g.ID) ≠ none)
    (hc : ∀ proto, Canon s1 g.ID proto → Canon s g.ID proto) (h : GoodColl s U g) :
    GoodColl s1 U g :=
  ⟨hp h.1, fun proto hcan => h.2 proto (hc proto hcan)⟩

theorem LimOK_mono {s s1 : Store} {g : Mrc721GenesisData} {n : Int}
    (hc : ∀ proto, Canon s1 g.ID proto → Canon s g.ID proto) (h : LimOK s g n) :
    LimOK s1 g n :=
  fun proto l hcan hl => h proto l (hc proto hcan) hl

theorem GoodColl_agree {s s1 : Store} (ha : Agree s s1) {U : String} {g : Mrc721GenesisData}
    (h : GoodColl s U g) : GoodColl s1 U g :=
  GoodColl_mono (fun hp => by rw [ha _ (Relevant_inscr _)]; exact hp)
    (fun _ hc => Canon_congr (ha _ (Relevant_inscr _)) hc) h

theorem LimOK_agree {s s1 : Store} (ha : Agree s s1) {g : Mrc721GenesisData} {n : Int}
    (h : LimOK s g n) : LimOK s1 g n :=
  LimOK_mono (fun _ hc => Canon_congr (ha _ (Relevant_inscr _)) hc) h

theorem CollInv_agree {s s1 : Store} (ha : Agree s s1) (h : CollInv s) : CollInv s1 := by
  intro U g hg
  rw [ha _ (Relevant_geninsc U)] at hg
  exact GoodColl_agree ha (h U g hg)

theorem AddrInv_agree {s s1 : Store} (ha : Agree s s1) (h : AddrInv s) : AddrInv s1 := by
  intro U a v hnc hk
  rw [ha _ (Relevant_addrnum U a)] at hk
  obtain ⟨hp, n, hv, h1, h2, hl⟩ := h U a v hnc hk
  refine ⟨by rw [ha _ (Relevant_geninsc U)]; exact hp, n, hv, h1, h2, fun g hg => ?_⟩
  rw [ha _ (Relevant_geninsc U)] at hg
  exact LimOK_agree ha (hl g hg)

theorem key_ne_of_clash {a x b y : String} (h : clash a.data b.data = true) :
    a ++ x ≠ b ++ y := by
  intro e
  have h1 := HasPrefix_append_clash a x b h
  rw [e, HasPrefix_append] at h1
  cases h1

theorem split_last_colon : ∀ (l1 l2 a a0 : List Char), ':' ∉ a → ':' ∉ a0 →
    l1 ++ ':' :: ':' :: a = l2 ++ ':' :: ':' :: a0 → l1 = l2 ∧ a = a0
  | [], [], a, a0, _, _, h => by
    simp only [List.nil_append, List.cons.injEq, true_and] at h
    exact ⟨rfl, h⟩
  | [], c :: t, a, a0, ha, _, h => by
    exfalso
    simp only [List.nil_append, List.cons_append, List.cons.injEq] at h
    obtain ⟨_, h2⟩ := h
    cases t with
    | nil =>
      simp only [List.nil_append, List.cons.injEq, true_and] at h2
      exact ha (by rw [h2]; exact List.mem_cons_self _ _)
    | cons c2 t2 =>
      simp only [List.cons_append, List.cons.injEq] at h2
      exact ha (by rw [h2.2]; simp)
  | c :: t, [], a, a0, _, ha0, h => by
    exfalso
    simp only [List.nil_append, List.cons_append, List.cons.injEq] at h
    obtain ⟨_, h2⟩ := h
    cases t with
    | nil =>
      simp only [List.nil_append, List.cons.injEq, true_and] at h2
      exact ha0 (by rw [← h2]; exact List.mem_cons_self _ _)
    | cons c2 t2 =>
      simp only [List.cons_append, List.cons.injEq] at h2
      exact ha0 (by rw [← h2.2]; simp)
  | c :: t, c0 :: t0, a, a0, ha, ha0, h => by
    simp only [List.cons_append, List.cons.injEq] at h
    obtain ⟨h1, h2⟩ := h
    obtain ⟨e1, e2⟩ := split_last_colon t t0 a a0 ha ha0 h2
    exact ⟨by rw [h1, e1], e2⟩

/-- With colon-free last components, a key `family ++ U ++ "::" ++ a` determines `U`, `a`. -/
theorem key_split_last {p U a U0 a0 : String} (ha : NoColon a) (ha0 : NoColon a0)
    (h : p ++ U ++ "::" ++ a = p ++ U0 ++ "::" ++ a0) : U = U0 ∧ a = a0 := by
  have h1 : (p ++ U ++ "::" ++ a).data = (p ++ U0 ++ "::" ++ a0).data := by rw [h]
  simp only [String.data_append, List.append_assoc] at h1
  have h2 := List.append_cancel_left h1
  have h3 := split_last_colon U.data U0.data a.data a0.data ha ha0 h2
  exact ⟨String.ext h3.1, String.ext h3.2⟩

theorem geninsc_ne_inscr (U x : String) : "inscr::" ++ x ≠ "mrc721::geninsc::" ++ U :=
  key_ne_of_clash (by decide)

theorem addrnum_ne_inscr (U a x : String) :
    "inscr::" ++ x ≠ "mrc721::addr_num::" ++ U ++ "::" ++ a := by
  intro e
  have h1 : HasPrefix ("mrc721::addr_num::" ++ U ++ "::" ++ a) "mrc721::addr_num::" = true :=
    HasPrefix_append_left _ _ _ (HasPrefix_append_left _ _ _ (HasPrefix_append _ _))
  rw [← e, HasPrefix_append_clash _ _ _ (by decide)] at h1
  cases h1

theorem addrnum_ne_geninsc (U a x : String) :
    "mrc721::geninsc::" ++ x ≠ "mrc721::addr_num::" ++ U ++ "::" ++ a := by
  intro e
  have h1 : HasPrefix ("mrc721::addr_num::" ++ U ++ "::" ++ a) "mrc721::addr_num::" = true :=
    HasPrefix_append_left _ _ _ (HasPrefix_append_left _ _ _ (HasPrefix_append _ _))
  rw [← e, HasPrefix_append_clash _ _ _ (by decide)] at h1
  cases h1

/-- Writing under `inscr::` keeps the invariants when an inscription record that replaces
another keeps its payload, or belongs to no collection as genesis inscription. -/
theorem inv_set_inscr_key {s : Store} (K : String) (v : Val)
    (hK : HasPrefix K "inscr::" = true)
    (hv : ∀ x insc, K = "inscr::" ++ x → v = Val.inscr insc →
      NoRec s x ∨ ∃ i0, kvGet s ("inscr::" ++ x) = some (Val.inscr i0) ∧
        i0.ContentByte = insc.ContentByte)
    (hc : CollInv s) (ha : AddrInv s) : CollInv (kvSet s K v) ∧ AddrInv (kvSet s K v) := by
  have hgen : ∀ U, kvGet (kvSet s K v) ("mrc721::geninsc::" ++ U)
      = kvGet s ("mrc721::geninsc::" ++ U) := fun U =>
    kvGet_kvSet_ne _ _ _ _ (fun e => by
      rw [← e, HasPrefix_append_clash _ _ _ (by decide)] at hK; cases hK)
  have hnum : ∀ U a, kvGet (kvSet s K v) ("mrc721::addr_num::" ++ U ++ "::" ++ a)
      = kvGet s ("mrc721::addr_num::" ++ U ++ "::" ++ a) := fun U a =>
    kvGet_kvSet_ne _ _ _ _ (fun e => by
      have h1 : HasPrefix ("mrc721::addr_num::" ++ U ++ "::" ++ a) "inscr::" = false := by
        rw [String.append_assoc, String.append_assoc]
        exact HasPrefix_append_clash _ _ _ (by decide)
      rw [e, hK] at h1; cases h1)
  have hcan : ∀ U g, kvGet s ("mrc721::geninsc::" ++ U) = some (Val.genesis g) →
      ∀ proto, Canon (kvSet s K v) g.ID proto → Canon s g.ID proto := by
    intro U g hg proto ⟨insc, c, h1, h2, h3⟩
    by_cases e : "inscr::" ++ g.ID = K
    · rw [← e, kvGet_kvSet_self] at h1
      rcases hv g.ID insc e.symm (Option.some.inj h1) with hn | ⟨i0, hi0, hcb⟩
      · exact absurd rfl (hn U g hg)
      · exact ⟨i0, c, hi0, by rw [hcb]; exact h2, h3⟩
    · rw [kvGet_kvSet_ne _ _ _ _ e] at h1
      exact ⟨insc, c, h1, h2, h3⟩
  constructor
  · intro U g hg
    rw [hgen] at hg
    exact GoodColl_mono (fun hp => kvGet_kvSet_ne_none _ _ _ _ hp) (hcan U g hg) (hc U g hg)
  · intro U a v1 hnc hk
    rw [hnum] at hk
    obtain ⟨hp, n, hv1, h1, h2, hl⟩ := ha U a v1 hnc hk
    refine ⟨by rw [hgen]; exact hp, n, hv1, h1, h2, fun g hg => ?_⟩
    rw [hgen] at hg
    exact LimOK_mono (hcan U g hg) (hl g hg)

/-- Writing a genesis record keeps the invariants when the record is good for the name and
the counts stored for the name respect its canonical limit. -/
theorem inv_set_geninsc {s : Store} (U0 : String) (g0 : Mrc721GenesisData)
    (hg0 : GoodColl s U0 g0)
    (he : ∀ a v n, NoColon a → kvGet s ("mrc721::addr_num::" ++ U0 ++ "::" ++ a) = some v →
      v = Val.raw (intToDec n) → LimOK s g0 n)
    (hc : CollInv s) (ha : AddrInv s) :
    CollInv (kvSet s ("mrc721::geninsc::" ++ U0) (Val.genesis g0)) ∧
      AddrInv (kvSet s ("mrc721::geninsc::" ++ U0) (Val.genesis g0)) := by
  have hins : ∀ x, kvGet (kvSet s ("mrc721::geninsc::" ++ U0) (Val.genesis g0)) ("inscr::" ++ x)
      = kvGet s ("inscr::" ++ x) := fun x =>
    kvGet_kvSet_ne _ _ _ _ (geninsc_ne_inscr U0 x)
  have hnum : ∀ U a, kvGet (kvSet s ("mrc721::geninsc::" ++ U0) (Val.genesis g0))
      ("mrc721::addr_num::" ++ U ++ "::" ++ a)
      = kvGet s ("mrc721::addr_num::" ++ U ++ "::" ++ a) := fun U a =>
    kvGet_kvSet_ne _ _ _ _ (fun e => addrnum_ne_geninsc U a U0 e.symm)
  have hrec : ∀ U g, kvGet (kvSet s ("mrc721::geninsc::" ++ U0) (Val.genesis g0))
      ("mrc721::geninsc::" ++ U) = some (Val.genesis g) →
      (U = U0 ∧ g = g0) ∨ (U ≠ U0 ∧ kvGet s ("mrc721::geninsc::" ++ U) = some (Val.genesis g)) := by
    intro U g hg
    by_cases e : U = U0
    · subst e
      rw [kvGet_kvSet_self] at hg
      cases hg
      exact Or.inl ⟨rfl, rfl⟩
    · rw [kvGet_kvSet_ne _ _ _ _ (fun e2 => e (append_left_cancel_str e2))] at hg
      exact Or.inr ⟨e, hg⟩
  constructor
  · intro U g hg
    rcases hrec U g hg with ⟨rfl, rfl⟩ | ⟨_, hg1⟩
    · exact GoodColl_mono (fun hp => by rw [hins]; exact hp)
        (fun _ h => Canon_congr (hins _) h) hg0
    · exact GoodColl_mono (fun hp => by rw [hins]; exact hp)
        (fun _ h => Canon_congr (hins _) h) (hc U g hg1)
  · intro U a v1 hnc hk
    rw [hnum] at hk
    obtain ⟨hp, n, hv1, h1, h2, hl⟩ := ha U a v1 hnc hk
    refine ⟨kvGet_kvSet_ne_none _ _ _ _ hp, n, hv1, h1, h2, fun g hg => ?_⟩
    rcases hrec U g hg with ⟨rfl, rfl⟩ | ⟨_, hg1⟩
    · exact LimOK_mono (fun _ h => Canon_congr (hins _) h) (he a v1 n hnc hk hv1)
    · exact LimOK_mono (fun _ h => Canon_congr (hins _) h) (hl g hg1)

/-- Writing a per-address count keeps the invariants when the count is between 1 and the
canonical limit and the collection exists. -/
theorem inv_set_addrnum {s : Store} (U0 a0 : String) (n0 : Int) (hnc0 : NoColon a0)
    (h1 : 1 ≤ n0) (h2 : n0 ≤ 9223372036854775807)
    (hp0 : kvGet s ("mrc721::geninsc::" ++ U0) ≠ none)
    (hl0 : ∀ g, kvGet s ("mrc721::geninsc::" ++ U0) = some (Val.genesis g) → LimOK s g n0)
    (hc : CollInv s) (ha : AddrInv s) :
    CollInv (kvSet s ("mrc721::addr_num::" ++ U0 ++ "::" ++ a0) (Val.raw (intToDec n0))) ∧
      AddrInv (kvSet s ("mrc721::addr_num::" ++ U0 ++ "::" ++ a0) (Val.raw (intToDec n0))) := by
  have hins : ∀ x, kvGet (kvSet s ("mrc721::addr_num::" ++ U0 ++ "::" ++ a0)
      (Val.raw (intToDec n0))) ("inscr::" ++ x) = kvGet s ("inscr::" ++ x) := fun x =>
    kvGet_kvSet_ne _ _ _ _ (addrnum_ne_inscr U0 a0 x)
  have hgen : ∀ U, kvGet (kvSet s ("mrc721::addr_num::" ++ U0 ++ "::" ++ a0)
      (Val.raw (intToDec n0))) ("mrc721::geninsc::" ++ U)
      = kvGet s ("mrc721::geninsc::" ++ U) := fun U =>
    kvGet_kvSet_ne _ _ _ _ (addrnum_ne_geninsc U0 a0 U)
  constructor
  · intro U g hg
    rw [hgen] at hg
    exact GoodColl_mono (fun hp => by rw [hins]; exact hp)
      (fun _ h => Canon_congr (hins _) h) (hc U g hg)
  · intro U a v1 hnc hk
    by_cases e : "mrc721::addr_num::" ++ U ++ "::" ++ a = "mrc721::addr_num::" ++ U0 ++ "::" ++ a0
    · obtain ⟨eU, _⟩ := key_split_last hnc hnc0 e
      subst eU
      rw [e, kvGet_kvSet_self] at hk
      cases hk
      refine ⟨by rw [hgen]; exact hp0, n0, rfl, h1, h2, fun g hg => ?_⟩
      rw [hgen] at hg
      exact LimOK_mono (fun _ h => Canon_congr (hins _) h) (hl0 g hg)
    · rw [kvGet_kvSet_ne _ _ _ _ e] at hk
      obtain ⟨hp, n, hv1, h3, h4, hl⟩ := ha U a v1 hnc hk
      refine ⟨by rw [hgen]; exact hp, n, hv1, h3, h4, fun g hg => ?_⟩
      rw [hgen] at hg
      exact LimOK_mono (fun _ h => Canon_congr (hins _) h) (hl g hg)

/-! ## Per-address cap: inscription phase -/

theorem Canon_unique {s : Store} {id : String} {p q : MRC721Protocol}
    (h1 : Canon s id p) (h2 : Canon s id q) : p = q := by
  obtain ⟨i1, c1, a1, b1, e1⟩ := h1
  obtain ⟨i2, c2, a2, b2, e2⟩ := h2
  rw [a1] at a2
  cases a2
  rw [b1] at b2
  cases b2
  rw [e1] at e2
  cases e2
  rfl

theorem GoodColl_ID {s : Store} {U : String} {g g1 : Mrc721GenesisData} (h : g1.ID = g.ID)
    (hg : GoodColl s U g) : GoodColl s U g1 := by
  unfold GoodColl at hg ⊢
  rw [h]
  exact hg

theorem LimOK_ID {s : Store} {g g1 : Mrc721GenesisData} {n : Int} (h : g1.ID = g.ID)
    (hg : LimOK s g n) : LimOK s g1 n := by
  unfold LimOK at hg ⊢
  rw [h]
  exact hg

/-- The store after `addNewMrc721` agrees with the store before on inscription and genesis
keys. -/
theorem addNewMrc721_inv6 {s s1 : Store} {inscr : HookInscription} {d : MRC721Protocol}
    {cnt : Int} (hnc : NoColon inscr.Address)
    (hp0 : kvGet s ("mrc721::geninsc::" ++ d.Miner.GetUpperName) ≠ none)
    (hl0 : ∀ g, kvGet s ("mrc721::geninsc::" ++ d.Miner.GetUpperName) = some (Val.genesis g) →
      ∀ proto, Canon s g.ID proto → proto.Miner.Lim = d.Miner.Lim)
    (hc : CollInv s) (ha : AddrInv s) (h : addNewMrc721 s inscr d cnt = .ok s1) :
    (CollInv s1 ∧ AddrInv s1) ∧
      (∀ x, kvGet s1 ("inscr::" ++ x) = kvGet s ("inscr::" ++ x)) ∧
      (∀ U, kvGet s1 ("mrc721::geninsc::" ++ U) = kvGet s ("mrc721::geninsc::" ++ U)) := by
  have tail : ∀ (n0 : Int) (a b c e f : String), 1 ≤ n0 → n0 ≤ 9223372036854775807 →
      (∀ g, kvGet s ("mrc721::geninsc::" ++ d.Miner.GetUpperName) = some (Val.genesis g) →
        LimOK s g n0) →
      s1 = kvSet (kvSet (kvSet (kvSet (kvSet (kvSet s
        ("mrc721::addr_num::" ++ d.Miner.GetUpperName ++ "::" ++ inscr.Address)
          (Val.raw (intToDec n0)))
        ("mrc721::name_inscr::" ++ d.Miner.GetUpperName ++ "::" ++ inscr.ID) (Val.raw a))
        ("mrc721::addr_inscr::" ++ inscr.Address ++ "::" ++ inscr.ID) (Val.raw b))
        ("mrc721::inscr_addr::" ++ inscr.ID ++ "::" ++ inscr.Address) (Val.raw c))
        ("mrc721::count_inscr::" ++ d.Miner.GetUpperName ++ "::" ++ e) (Val.raw inscr.ID))
        ("mrc721::inscr_count::" ++ d.Miner.GetUpperName ++ "::" ++ inscr.ID) (Val.raw f) →
      (CollInv s1 ∧ AddrInv s1) ∧
      (∀ x, kvGet s1 ("inscr::" ++ x) = kvGet s ("inscr::" ++ x)) ∧
      (∀ U, kvGet s1 ("mrc721::geninsc::" ++ U) = kvGet s ("mrc721::geninsc::" ++ U)) := by
    intro n0 a b c e f h1 h2 hl hs
    have hq : QSteps (kvSet s
        ("mrc721::addr_num::" ++ d.Miner.GetUpperName ++ "::" ++ inscr.Address)
          (Val.raw (intToDec n0))) s1 := by
      rw [hs]
      repeat (first
        | exact QSteps.refl _
        | refine QSteps.set _ _ ?_ (by repeat (first | exact (by decide) | apply Quiet_append)))
    have hag := QSteps_agree hq
    have hi := inv_set_addrnum d.Miner.GetUpperName inscr.Address n0 hnc h1 h2 hp0 hl hc ha
    refine ⟨⟨CollInv_agree hag hi.1, AddrInv_agree hag hi.2⟩, fun x => ?_, fun U => ?_⟩
    · rw [hag _ (Relevant_inscr x)]
      exact kvGet_kvSet_ne _ _ _ _ (addrnum_ne_inscr _ _ x)
    · rw [hag _ (Relevant_geninsc U)]
      exact kvGet_kvSet_ne _ _ _ _ (addrnum_ne_geninsc _ _ U)
  unfold addNewMrc721 at h
  simp only [bind, Except.bind, pure, Except.pure] at h
  split at h
  · refine tail 1 _ _ _ _ _ (le_refl _) (by decide) ?_ (Except.ok.inj h).symm
    intro g hg proto l hcan hl
    exact ((hc _ g hg).2 proto hcan).2 l hl
  · rename_i item hitem
    split at h
    · cases h
    · rename_i txt htxt
      split at h
      · cases h
      · rename_i count hcount
        split at h
        · cases h
        · rename_i lim hlim
          split at h
          · rename_i hlt
            obtain ⟨_, n, hv, hn1, _, _⟩ := ha _ _ _ hnc hitem
            have hraw : item = Val.raw txt := by
              cases item <;> simp [asRaw] at htxt
              rw [htxt]
            rw [hraw] at hv
            cases hv
            have hcn := (Atoi_eq_SetString10 hcount).1
            rw [SetString10_intToDec] at hcn
            have e : n = count := Option.some.inj hcn
            subst e
            have hlr := (Atoi_eq_SetString10 hlim).2.2
            refine tail (n + 1) _ _ _ _ _ (by omega) (by omega) ?_ (Except.ok.inj h).symm
            intro g hg proto l hcan hl
            rw [hl0 g hg proto hcan, hlim] at hl
            cases hl
            omega
          · cases h

theorem Quiet_mrc20 (x : String) : Quiet ("mrc20::geninsc::" ++ x) :=
  Quiet_append _ (by decide)

theorem entry_LimOK {s : Store} (ha : AddrInv s) {U a : String} {v : Val} {n : Int}
    {g : Mrc721GenesisData} (hnc : NoColon a)
    (hk : kvGet s ("mrc721::addr_num::" ++ U ++ "::" ++ a) = some v)
    (hv : v = Val.raw (intToDec n))
    (hg : kvGet s ("mrc721::geninsc::" ++ U) = some (Val.genesis g)) : LimOK s g n := by
  obtain ⟨_, n1, hv1, _, _, hl⟩ := ha U a v hnc hk
  rw [hv] at hv1
  have e : n = n1 := intToDec_injective (Val.raw.inj hv1)
  rw [e]
  exact hl g hg

theorem writeMrc721_inv6 {s s1 : Store} {block : HookBlock} {inscr : HookInscription}
    {d : MRC721Protocol} (hnc : NoColon inscr.Address)
    (hp : kvGet s ("inscr::" ++ inscr.ID) ≠ none)
    (hA : ∀ proto, Canon s inscr.ID proto →
      proto = d ∧ ∀ l, Atoi proto.Miner.Lim = some l → 1 ≤ l)
    (hB : ∀ g existing canon,
      kvGet s ("mrc721::geninsc::" ++ d.Miner.GetUpperName) = some (Val.genesis g) →
      kvGet s ("inscr::" ++ g.ID) = some (Val.inscr existing) →
      IsEqual721Data existing inscr = .ok true → Canon s g.ID canon →
      canon.Miner.Lim = d.Miner.Lim)
    (hc : CollInv s) (ha : AddrInv s)
    (h : writeMrc721 s block inscr d = .ok s1) : CollInv s1 ∧ AddrInv s1 := by
  unfold writeMrc721 at h
  simp only [bind, Except.bind, pure, Except.pure] at h
  split at h
  · rename_i hnone
    split at h
    · cases h; exact ⟨hc, ha⟩
    · split at h
      · cases h
      · rename_i geninscMax _
        have h1 := inv_set_geninsc d.Miner.GetUpperName
          { ID := inscr.ID, Number := inscr.Number, Name := d.Miner.GetUpperName,
            PrevName := d.Miner.Name, BlockHeight := block.BlockHeight,
            GenesisAddress := inscr.Address, InscriptionsCount := 1,
            InscriptionsMax := geninscMax, PrizePoolTokens := "0",
            TotalMinedTokens := "0", TotalPrizePoolTokens := "0",
            Tick := d.Token.GetLowerTick, PrevTick := d.Token.Tick,
            GenesisBlockHeight := block.BlockHeight, GenesisTimestamp := block.Timestamp,
            EndID := "", EndBlockHeight := "", EndTimestamp := 0, TotalPrizeRound := 0,
            TotalBurn := "0" }
          ⟨hp, fun proto hcan => ⟨by rw [(hA proto hcan).1], (hA proto hcan).2⟩⟩
          (fun a v n hnca hk _ => absurd hnone (ha _ a v hnca hk).1) hc ha
        have hag0 : ∀ s0 : Store, Agree s0 (kvSet s0 ("mrc20::geninsc::" ++ d.Token.GetLowerTick)
            (Val.raw d.Miner.GetUpperName)) := fun s0 =>
          QSteps_agree (QSteps.set _ _ (QSteps.refl s0) (Quiet_mrc20 _))
        have hag := hag0 (kvSet s ("mrc721::geninsc::" ++ d.Miner.GetUpperName)
          (Val.genesis
          { ID := inscr.ID, Number := inscr.Number, Name := d.Miner.GetUpperName,
            PrevName := d.Miner.Name, BlockHeight := block.BlockHeight,
            GenesisAddress := inscr.Address, InscriptionsCount := 1,
            InscriptionsMax := geninscMax, PrizePoolTokens := "0",
            TotalMinedTokens := "0", TotalPrizePoolTokens := "0",
            Tick := d.Token.GetLowerTick, PrevTick := d.Token.Tick,
            GenesisBlockHeight := block.BlockHeight, GenesisTimestamp := block.Timestamp,
            EndID := "", EndBlockHeight := "", EndTimestamp := 0, TotalPrizeRound := 0,
            TotalBurn := "0" }))
        have h2 := And.intro (CollInv_agree hag h1.1) (AddrInv_agree hag h1.2)
        split at h
        · cases h; exact h2
        · rename_i s3 hadd
          cases h
          refine (addNewMrc721_inv6 hnc ?_ ?_ h2.1 h2.2 hadd).1
          · rw [hag _ (Relevant_geninsc _), kvGet_kvSet_self]
            exact Option.some_ne_none _
          · intro g hg proto hcan
            rw [hag _ (Relevant_geninsc _), kvGet_kvSet_self] at hg
            cases hg
            have hcan2 : Canon s inscr.ID proto :=
              Canon_congr (by
                rw [hag _ (Relevant_inscr _)]
                exact kvGet_kvSet_ne _ _ _ _ (geninsc_ne_inscr _ _)) hcan
            rw [(hA proto hcan2).1]
  · rename_i item hitem
    split at h
    · cases h
    · rename_i g hg
      have hrec : kvGet s ("mrc721::geninsc::" ++ d.Miner.GetUpperName) = some (Val.genesis g) := by
        rw [hitem, asGenesis_ok hg]
      split at h
      · cases h
      · rename_i item2 hitem2
        split at h
        · cases h
        · rename_i existing hex
          have hex2 : kvGet s ("inscr::" ++ g.ID) = some (Val.inscr existing) := by
            rw [hitem2, asInscr_ok hex]
          split at h
          · cases h
          · rename_i eq heq
            split at h
            · cases h; exact ⟨hc, ha⟩
            · rename_i hne
              have heq2 : IsEqual721Data existing inscr = .ok true := by
                rw [heq]
                cases eq
                · exact absurd rfl hne
                · rfl
              split at h
              · cases h
              · rename_i firstMrc721 hfirst
                split at h
                · cases h
                · rename_i maxInscriptions hmax
                  split at h
                  · cases h; exact ⟨hc, ha⟩
                  · rename_i hlt
                    split at h
                    · cases h; exact ⟨hc, ha⟩
                    · rename_i s2 hadd
                      cases h
                      obtain ⟨⟨hc2, ha2⟩, hfi, hfg⟩ := addNewMrc721_inv6 hnc
                        (by rw [hrec]; exact Option.some_ne_none _)
                        (fun g2 hg2 proto hcan => by
                          rw [hrec] at hg2
                          cases hg2
                          exact hB g existing proto hrec hex2 heq2 hcan) hc ha hadd
                      have hrec2 : kvGet s2 ("mrc721::geninsc::" ++ d.Miner.GetUpperName)
                          = some (Val.genesis g) := by rw [hfg]; exact hrec
                      exact inv_set_geninsc _ _ (GoodColl_ID (g := g) rfl (hc2 _ g hrec2))
                        (fun a v n hnca hk hv =>
                          LimOK_ID (g := g) rfl (entry_LimOK ha2 hnca hk hv hrec2)) hc2 ha2

theorem NoRec_agree {s s1 : Store} (hag : Agree s s1) {id : String} (h : NoRec s id) :
    NoRec s1 id := by
  intro U g hg
  rw [hag _ (Relevant_geninsc U)] at hg
  exact h U g hg

theorem NoRec_of_absent {s : Store} {id : String} (hc : CollInv s)
    (h : kvGet s ("inscr::" ++ id) = none) : NoRec s id := by
  intro U g hg e
  have := (hc U g hg).1
  rw [e] at this
  exact this h

theorem writeMrc20_inv6 {s s1 : Store} {inscr : HookInscription} {d : MRC20Protocol}
    (hn : NoRec s inscr.ID) (hc : CollInv s) (ha : AddrInv s)
    (h : writeMrc20 s inscr d = .ok s1) : CollInv s1 ∧ AddrInv s1 := by
  have hq : ∀ s0, QSteps s s0 → CollInv s0 ∧ AddrInv s0 := fun s0 hq =>
    ⟨CollInv_agree (QSteps_agree hq) hc, AddrInv_agree (QSteps_agree hq) ha⟩
  have hi : ∀ s0, QSteps s s0 →
      CollInv (kvSet s0 ("inscr::" ++ inscr.ID) (Val.inscr inscr)) ∧
      AddrInv (kvSet s0 ("inscr::" ++ inscr.ID) (Val.inscr inscr)) := fun s0 hq0 =>
    inv_set_inscr_key _ _ (HasPrefix_append _ _)
      (fun x insc e _ => Or.inl (by
        rw [← append_left_cancel_str e]
        exact NoRec_agree (QSteps_agree hq0) hn)) (hq s0 hq0).1 (hq s0 hq0).2
  unfold writeMrc20 at h
  dsimp only at h
  repeat' split at h
  all_goals first
    | (cases h; done)
    | (cases h; exact ⟨hc, ha⟩)
    | (cases h
       refine hi _ ?_
       repeat (first
         | exact QSteps.refl _
         | refine QSteps.set _ _ ?_ (by repeat (first | exact (by decide) | apply Quiet_append))))
    | (cases h
       refine hq _ ?_
       repeat (first
         | exact QSteps.refl _
         | refine QSteps.set _ _ ?_ (by repeat (first | exact (by decide) | apply Quiet_append))))

theorem validateMiner_lim {mi : Miner} (h : validateMiner mi = true) :
    ∃ v, SetString10 mi.Lim = some v ∧ 1 ≤ v := by
  unfold validateMiner at h
  split at h
  · cases h
  · split at h
    · cases h
    · split at h
      · cases h
      · rename_i lim hlim
        split at h
        · cases h
        · rename_i hb
          exact ⟨lim, hlim, by omega⟩

theorem validate_json {p : String} {a : Option MRC721Protocol} {b : Option MRC20Protocol}
    {body : String × String} {root : Option (String × String)} {t : String}
    (hv : ValidateProtocolData (Content.json p a b body root) = some t) (ht : t ≠ "mrc-20") :
    ∃ q, a = some q ∧ validateMiner q.Miner = true := by
  unfold ValidateProtocolData at hv
  simp only at hv
  split at hv
  · split at hv
    · rename_i hval
      cases a with
      | none => simp [validateMRC721Data] at hval
      | some q =>
        refine ⟨q, rfl, ?_⟩
        by_contra hn
        unfold validateMRC721Data at hval
        simp only at hval
        split at hval
        · cases hval
        · split at hval
          · cases hval
          · split at hval
            · cases hval
            · rename_i hx
              simp only [Bool.not_eq_true, Bool.not_eq_false_eq_eq_true, Bool.not_eq_eq_eq_not,
                Bool.not_true, Bool.not_false] at hx
              first | exact hn hx | simp_all
    · cases hv
  · split at hv
    · split at hv
      · cases hv; exact absurd rfl ht
      · cases hv
    · cases hv

/-- The `miner.lim` of a payload that passed validation parses to at least 1. -/
theorem validated_lim_pos {data : Content} {t : String} {proto : MRC721Protocol} {l : Int}
    (hv : ValidateProtocolData data = some t) (ht : t ≠ "mrc-20")
    (hp : ParseMRC721Protocol data = .ok proto) (hl : Atoi proto.Miner.Lim = some l) :
    1 ≤ l := by
  cases data with
  | html name id src root => simp [ParseMRC721Protocol] at hp
  | svg ns wf name id body => simp [ParseMRC721Protocol] at hp
  | other body root => simp [ParseMRC721Protocol] at hp
  | json p a b body root =>
    obtain ⟨q, rfl, hmi⟩ := validate_json hv ht
    obtain ⟨v, hv1, hv2⟩ := validateMiner_lim hmi
    unfold ParseMRC721Protocol at hp
    simp only at hp
    cases hp
    simp only at hl
    split at hl
    · simp only at hl
      have : Atoi "100" = some 100 := by decide
      rw [this] at hl
      cases hl
      decide
    · simp only at hl
      rw [TrimSpace_of_SetString10 hv1] at hl
      have := (Atoi_eq_SetString10 hl).1
      rw [hv1] at this
      cases this
      exact hv2

theorem tagFree_fails {i : HookInscription} {data : Content} {d : MRC721Protocol}
    (h : tagFree i = true) (hcb : i.ContentByte = some data)
    (hd : ParseMRC721Protocol data = .ok d) :
    (HtmlToNameID data).isOk = false ∧ (SvgToNameID data).isOk = false := by
  unfold tagFree at h
  simp only [hcb, hd] at h
  simpa [Except.isOk, Except.toBool] using h

/-- A JSON mint on which `HtmlToNameID` and `SvgToNameID` fail is accepted as a member only
when its `miner.lim` text equals the canonical one. -/
theorem IsEqual721Data_json_lim {existing inscr : HookInscription} {data : Content}
    {d canon : MRC721Protocol} {c : Content}
    (hcb : inscr.ContentByte = some data) (hd : ParseMRC721Protocol data = .ok d)
    (hec : existing.ContentByte = some c) (hcan : ParseMRC721Protocol c = .ok canon)
    (hh : (HtmlToNameID data).isOk = false) (hx : (SvgToNameID data).isOk = false)
    (heq : IsEqual721Data existing inscr = .ok true) : canon.Miner.Lim = d.Miner.Lim := by
  unfold IsEqual721Data at heq
  simp only [contentOf, hcb, hec, bind, Except.bind, pure, Except.pure] at heq
  split at heq
  · rename_i hb
    unfold IsEqual721DataByte at hb
    rw [hcan, hd] at hb
    simp only at hb
    split at hb
    · cases hb
    · rename_i hne
      by_contra hlim
      exact hne (Or.inr (Or.inr (Or.inr (Or.inl hlim))))
  · rw [hcan] at heq
    simp only at heq
    cases h1 : HtmlToNameID data with
    | ok r =>
      rw [h1] at hh
      cases hh
    | error e1 =>
      cases h2 : SvgToNameID data with
      | ok r =>
        rw [h2] at hx
        cases hx
      | error e2 =>
        simp only [h1, h2] at heq
        cases heq

theorem parseCarrier_canon {s : Store} {nameID : Except String (String × String)}
    {d : MRC721Protocol} (h : parseCarrierProtocol s nameID = .ok d) :
    ∃ nm g, kvGet s ("mrc721::geninsc::" ++ nm) = some (Val.genesis g) ∧ Canon s g.ID d := by
  unfold parseCarrierProtocol at h
  simp only [bind, Except.bind, pure, Except.pure] at h
  split at h
  · cases h
  · split at h
    · cases h
    · rename_i item hitem
      split at h
      · cases h
      · rename_i g hg
        split at h
        · cases h
        · rename_i item2 hitem2
          split at h
          · cases h
          · rename_i hook hhook
            split at h
            · cases h
            · rename_i c hcon
              refine ⟨_, g, by rw [hitem, asGenesis_ok hg], hook, c,
                by rw [hitem2, asInscr_ok hhook], ?_, h⟩
              unfold contentOf at hcon
              split at hcon
              · rename_i c1 hc1
                cases hcon
                exact hc1
              · cases hcon

theorem carrier_lim {s : Store} (hc : CollInv s) {nameID : Except String (String × String)}
    {d canon : MRC721Protocol} {g : Mrc721GenesisData}
    (hd : parseCarrierProtocol s nameID = .ok d)
    (hrec : kvGet s ("mrc721::geninsc::" ++ d.Miner.GetUpperName) = some (Val.genesis g))
    (hcan : Canon s g.ID canon) : canon.Miner.Lim = d.Miner.Lim := by
  obtain ⟨nm, gX, hX, hcX⟩ := parseCarrier_canon hd
  have hnm := ((hc nm gX hX).2 d hcX).1
  rw [hnm, hX] at hrec
  cases hrec
  rw [Canon_unique hcan hcX]

theorem parse_ok_kind {data : Content} {proto : MRC721Protocol} {t : String}
    (hp : ParseMRC721Protocol data = .ok proto) (hv : ValidateProtocolData data = some t) :
    t = "mrc-721" ∨ t = "mrc-20" := by
  cases data with
  | html name id src root => simp [ParseMRC721Protocol] at hp
  | svg ns wf name id body => simp [ParseMRC721Protocol] at hp
  | other body root => simp [ParseMRC721Protocol] at hp
  | json p a b body root =>
    unfold ValidateProtocolData at hv
    simp only at hv
    repeat' split at hv
    all_goals first
      | (cases hv; exact Or.inl rfl)
      | (cases hv; exact Or.inr rfl)
      | cases hv

theorem addInscription_inv6 {s s1 : Store} {block : HookBlock} {i : HookInscription}
    (hnc : NoColon i.Address) (hpl : tagFree i = true) (hc : CollInv s) (ha : AddrInv s)
    (h : addInscription s block i = .ok s1) : CollInv s1 ∧ AddrInv s1 := by
  unfold addInscription at h
  dsimp only at h
  split at h
  · cases h
  · rename_i habs
    have hn := NoRec_of_absent hc habs
    have h1 := inv_set_inscr_key (s := s) ("inscr::" ++ i.ID) (Val.inscr i)
      (HasPrefix_append _ _)
      (fun x insc e _ => Or.inl (by rw [← append_left_cancel_str e]; exact hn)) hc ha
    have h2 := inv_set_inscr_key (s := kvSet s ("inscr::" ++ i.ID) (Val.inscr i))
      ("inscr::number::" ++ intToDec i.Number) (Val.raw i.ID)
      (HasPrefix_append_left _ _ _ (by decide)) (fun x insc _ e => by cases e) h1.1 h1.2
    have hgen : ∀ U, kvGet (kvSet (kvSet s ("inscr::" ++ i.ID) (Val.inscr i))
        ("inscr::number::" ++ intToDec i.Number) (Val.raw i.ID)) ("mrc721::geninsc::" ++ U)
        = kvGet s ("mrc721::geninsc::" ++ U) := by
      intro U
      rw [kvGet_kvSet_ne _ _ _ _ (key_ne_of_clash (by decide)),
        kvGet_kvSet_ne _ _ _ _ (fun e => geninsc_ne_inscr U i.ID e.symm)]
    have hn2 : NoRec (kvSet (kvSet s ("inscr::" ++ i.ID) (Val.inscr i))
        ("inscr::number::" ++ intToDec i.Number) (Val.raw i.ID)) i.ID := by
      intro U g hg
      rw [hgen] at hg
      exact hn U g hg
    have hp2 : kvGet (kvSet (kvSet s ("inscr::" ++ i.ID) (Val.inscr i))
        ("inscr::number::" ++ intToDec i.Number) (Val.raw i.ID)) ("inscr::" ++ i.ID) ≠ none :=
      kvGet_kvSet_ne_none _ _ _ _ (by rw [kvGet_kvSet_self]; exact Option.some_ne_none _)
    have hi2 : ∀ insc, kvGet (kvSet (kvSet s ("inscr::" ++ i.ID) (Val.inscr i))
        ("inscr::number::" ++ intToDec i.Number) (Val.raw i.ID)) ("inscr::" ++ i.ID)
          = some (Val.inscr insc) → insc = i := by
      intro insc hk
      by_cases e : "inscr::" ++ i.ID = "inscr::number::" ++ intToDec i.Number
      · rw [← e, kvGet_kvSet_self] at hk
        cases hk
      · rw [kvGet_kvSet_ne _ _ _ _ e, kvGet_kvSet_self] at hk
        cases hk
        rfl
    split at h
    · cases h; exact h2
    · rename_i data hdata
      have hcanon : ∀ proto, Canon (kvSet (kvSet s ("inscr::" ++ i.ID) (Val.inscr i))
          ("inscr::number::" ++ intToDec i.Number) (Val.raw i.ID)) i.ID proto →
          ParseMRC721Protocol data = .ok proto := by
        intro proto ⟨insc, c, a1, a2, a3⟩
        rw [hi2 insc a1, hdata] at a2
        cases a2
        exact a3
      split at h
      · cases h; exact h2
      · rename_i t hval
        split at h
        · rename_i ht
          split at h
          · cases h; exact h2
          · rename_i d hd
            refine writeMrc721_inv6 hnc hp2 ?_ ?_ h2.1 h2.2 h
            · intro proto hcan
              have hpar := hcanon proto hcan
              rw [hd] at hpar
              cases hpar
              exact ⟨rfl, fun l hl => validated_lim_pos hval (by rw [ht]; decide) hd hl⟩
            · intro g existing canon _ _ heq ⟨insc, c, a1, a2, a3⟩
              rename_i hex
              rw [hex] at a1
              cases a1
              exact IsEqual721Data_json_lim hdata hd a2 a3 (tagFree_fails hpl hdata hd).1
                (tagFree_fails hpl hdata hd).2 heq
        · split at h
          · rename_i ht
            split at h
            · split at h
              · cases h
              · cases h; exact h2
            · rename_i d hd
              refine writeMrc721_inv6 hnc hp2 ?_ ?_ h2.1 h2.2 h
              · intro proto hcan
                rcases parse_ok_kind (hcanon proto hcan) hval with e | e
                · rw [ht] at e; exact absurd e (by decide)
                · rw [ht] at e; exact absurd e (by decide)
              · intro g existing canon hrec _ _ hcan
                exact carrier_lim h2.1 hd hrec hcan
          · split at h
            · rename_i ht
              split at h
              · split at h
                · cases h
                · cases h; exact h2
              · rename_i d hd
                refine writeMrc721_inv6 hnc hp2 ?_ ?_ h2.1 h2.2 h
                · intro proto hcan
                  rcases parse_ok_kind (hcanon proto hcan) hval with e | e
                  · rw [ht] at e; exact absurd e (by decide)
                  · rw [ht] at e; exact absurd e (by decide)
                · intro g existing canon hrec _ _ hcan
                  exact carrier_lim h2.1 hd hrec hcan
            · split at h
              · split at h
                · cases h; exact h2
                · exact writeMrc20_inv6 hn2 h2.1 h2.2 h
              · cases h; exact h2

theorem addInscriptions_inv6 (block : HookBlock) :
    ∀ (l : List HookInscription) (s s1 : Store),
      (∀ i ∈ l, NoColon i.Address ∧ tagFree i = true) →
      CollInv s → AddrInv s → addInscriptions block l s = .ok s1 → CollInv s1 ∧ AddrInv s1
  | [], s, s1, _, hc, ha, h => by
    unfold addInscriptions at h
    cases h
    exact ⟨hc, ha⟩
  | i :: rest, s, s1, hl, hc, ha, h => by
    unfold addInscriptions at h
    split at h
    · cases h
    · rename_i s2 h2
      have h3 := addInscription_inv6 (hl i (List.mem_cons_self _ _)).1
        (hl i (List.mem_cons_self _ _)).2 hc ha h2
      exact addInscriptions_inv6 block rest s2 s1
        (fun j hj => hl j (List.mem_cons_of_mem _ hj)) h3.1 h3.2 h

/-! ## Per-address cap: transfers, mining, lottery -/

theorem Quiet_of_prefix {k p : String} (hp : p ∈ quietPrefixes) (h : HasPrefix k p = true) :
    Quiet k := by
  unfold Quiet
  rw [List.any_eq_true]
  exact ⟨p, hp, h⟩

theorem Quiet_of_firstUnder_721 {s : Store} {x : String}
    (h : ¬ (firstUnder s ("mrc721::inscr_addr::" ++ x ++ "::")).2 = "") :
    Quiet (firstUnder s ("mrc721::inscr_addr::" ++ x ++ "::")).1 :=
  Quiet_of_prefix (p := "mrc721::inscr_addr::") (by decide)
    (HasPrefix_of_append (HasPrefix_of_append (firstUnder_key _ _ h)))

theorem Quiet_of_firstUnder_20 {s : Store} {x : String}
    (h : ¬ (firstUnder s ("mrc20::inscr_addr::" ++ x ++ "::")).2 = "") :
    Quiet (firstUnder s ("mrc20::inscr_addr::" ++ x ++ "::")).1 :=
  Quiet_of_prefix (p := "mrc20::") (by decide)
    (HasPrefix_trans (HasPrefix_of_append (HasPrefix_of_append (firstUnder_key _ _ h)))
      (by decide))

theorem transfer721_inv6 {s s1 : Store} {t : HookTransfer} {a : String}
    (hc : CollInv s) (ha : AddrInv s) (h : transfer721 s t a = .ok s1) :
    CollInv s1 ∧ AddrInv s1 := by
  unfold transfer721 at h
  dsimp only at h
  split at h
  · cases h; exact ⟨hc, ha⟩
  · rename_i hne
    have hq : QSteps s (kvSet (kvDelete (kvSet (kvDelete s
        (firstUnder s ("mrc721::inscr_addr::" ++ t.ID ++ "::")).1)
        ("mrc721::inscr_addr::" ++ t.ID ++ "::" ++ a) (Val.raw ""))
        ("mrc721::addr_inscr::" ++ (firstUnder s ("mrc721::inscr_addr::" ++ t.ID ++ "::")).2
          ++ "::" ++ t.ID))
        ("mrc721::addr_inscr::" ++ a ++ "::" ++ t.ID) (Val.raw "")) := by
      refine QSteps.set _ _ ?_ (by repeat (first | exact (by decide) | apply Quiet_append))
      refine QSteps.del _ ?_ (by repeat (first | exact (by decide) | apply Quiet_append))
      refine QSteps.set _ _ ?_ (by repeat (first | exact (by decide) | apply Quiet_append))
      exact QSteps.del _ (QSteps.refl _) (Quiet_of_firstUnder_721 hne)
    have hag := QSteps_agree hq
    split at h
    · cases h
    · split at h
      · cases h
      · rename_i item hitem
        split at h
        · cases h
        · rename_i hook hhook
          cases h
          refine inv_set_inscr_key _ _ (HasPrefix_append _ _) ?_ (CollInv_agree hag hc)
            (AddrInv_agree hag ha)
          intro x insc e ev
          refine Or.inr ⟨hook, ?_, ?_⟩
          · rw [← append_left_cancel_str e, hitem, asInscr_ok hhook]
          · rw [← Val.inscr.inj ev]

theorem transfer20_q {s s1 : Store} {t : HookTransfer} {a : String}
    (h : transfer20 s t a = .ok s1) : QSteps s s1 := by
  unfold transfer20 at h
  dsimp only at h
  repeat' split at h
  all_goals
    cases h
    repeat (first
      | exact QSteps.refl _
      | refine QSteps.set _ _ ?_ (by repeat (first | exact (by decide) | apply Quiet_append))
      | refine QSteps.del _ ?_ (Quiet_of_firstUnder_20 (by assumption))
      | refine QSteps.del _ ?_ (by repeat (first | exact (by decide) | apply Quiet_append)))

theorem addTransfer_inv6 {s s1 : Store} {t : HookTransfer}
    (hc : CollInv s) (ha : AddrInv s) (h : addTransfer s t = .ok s1) :
    CollInv s1 ∧ AddrInv s1 := by
  have fin : ∀ (sa : Store) (a : String), transfer721 s t a = .ok sa →
      transfer20 sa t a = .ok s1 → CollInv s1 ∧ AddrInv s1 := by
    intro sa a h1 h2
    have h3 := transfer721_inv6 hc ha h1
    have hag := QSteps_agree (transfer20_q h2)
    exact ⟨CollInv_agree hag h3.1, AddrInv_agree hag h3.2⟩
  unfold addTransfer at h
  repeat' split at h
  all_goals
    first
    | cases h; done
    | cases h; exact ⟨hc, ha⟩
    | exact fin _ _ (by assumption) h

theorem addTransfers_inv6 :
    ∀ (l : List HookTransfer) (s s1 : Store), CollInv s → AddrInv s →
      addTransfers l s = .ok s1 → CollInv s1 ∧ AddrInv s1
  | [], s, s1, hc, ha, h => by
    unfold addTransfers at h
    cases h
    exact ⟨hc, ha⟩
  | i :: rest, s, s1, hc, ha, h => by
    unfold addTransfers at h
    split at h
    · cases h
    · rename_i s2 h2
      have h3 := addTransfer_inv6 hc ha h2
      exact addTransfers_inv6 rest s2 s1 h3.1 h3.2 h

theorem creditMiner_q {s s1 : Store} {m : Mrc721MinerData}
    (h : creditMiner s m = .ok s1) : QSteps s s1 := by
  unfold creditMiner at h
  dsimp only at h
  repeat' split at h
  all_goals
    cases h
    repeat (first
      | exact QSteps.refl _
      | refine QSteps.set _ _ ?_ (by repeat (first | exact (by decide) | apply Quiet_append)))

theorem creditMiners_q :
    ∀ (l : List Mrc721MinerData) (s s1 : Store), creditMiners l s = .ok s1 → QSteps s s1
  | [], s, s1, h => by
    unfold creditMiners at h
    cases h
    exact QSteps.refl _
  | i :: rest, s, s1, h => by
    unfold creditMiners at h
    split at h
    · cases h
    · rename_i s2 h2
      exact QSteps_trans (creditMiner_q h2) (creditMiners_q rest s2 s1 h)

theorem AgreeIA_refl (s : Store) : AgreeIA s s := ⟨fun _ => rfl, fun _ _ => rfl⟩

theorem AgreeIA_trans {a b c : Store} (h1 : AgreeIA a b) (h2 : AgreeIA b c) : AgreeIA a c :=
  ⟨fun x => (h2.1 x).trans (h1.1 x), fun U x => (h2.2 U x).trans (h1.2 U x)⟩

theorem AgreeIA_of_Agree {s s1 : Store} (h : Agree s s1) : AgreeIA s s1 :=
  ⟨fun x => h _ (Relevant_inscr x), fun U a => h _ (Relevant_addrnum U a)⟩

theorem AgreeIA_set_geninsc (s : Store) (U : String) (v : Val) :
    AgreeIA s (kvSet s ("mrc721::geninsc::" ++ U) v) :=
  ⟨fun x => kvGet_kvSet_ne _ _ _ _ (geninsc_ne_inscr U x),
   fun U1 a => kvGet_kvSet_ne _ _ _ _ (fun e => addrnum_ne_geninsc U1 a U e.symm)⟩

theorem SnapOK_agree {s s1 : Store} (hag : AgreeIA s s1) {key : String} {val : Val}
    (h : SnapOK s key val) : SnapOK s1 key val := by
  intro g hg
  obtain ⟨h1, h2⟩ := h g hg
  refine ⟨GoodColl_mono (fun hp => by rw [hag.1]; exact hp)
    (fun _ hcan => Canon_congr (hag.1 _) hcan) h1, fun a v n hnc hk hv => ?_⟩
  rw [hag.2] at hk
  exact LimOK_mono (fun _ hcan => Canon_congr (hag.1 _) hcan) (h2 a v n hnc hk hv)

/-- Writing back a snapshot record (same genesis inscription) after quiet steps. -/
theorem inv_writeback {s sC : Store} {key : String} {val : Val} {g u : Mrc721GenesisData}
    (hc : CollInv s) (ha : AddrInv s) (hsnap : SnapOK s key val) (hg : asGenesis val = .ok g)
    (hu : u.ID = g.ID) (hq : QSteps s sC) :
    (CollInv (kvSet sC ("mrc721::geninsc::" ++ dropPre key "mrc721::geninsc::") (Val.genesis u)) ∧
      AddrInv (kvSet sC ("mrc721::geninsc::" ++ dropPre key "mrc721::geninsc::")
        (Val.genesis u))) ∧
    AgreeIA s (kvSet sC ("mrc721::geninsc::" ++ dropPre key "mrc721::geninsc::")
      (Val.genesis u)) := by
  have hag := QSteps_agree hq
  have hs2 := SnapOK_agree (AgreeIA_of_Agree hag) hsnap g hg
  exact ⟨inv_set_geninsc _ _ (GoodColl_ID hu hs2.1)
    (fun a v n hnc hk hv => LimOK_ID hu (hs2.2 a v n hnc hk hv))
    (CollInv_agree hag hc) (AddrInv_agree hag ha),
    AgreeIA_trans (AgreeIA_of_Agree hag) (AgreeIA_set_geninsc _ _ _)⟩

theorem mineCollection_inv6 {s s1 : Store} {block : HookBlock} {key : String} {val : Val}
    (hc : CollInv s) (ha : AddrInv s) (hsnap : SnapOK s key val)
    (h : mineCollection s block key val = .ok s1) :
    (CollInv s1 ∧ AddrInv s1) ∧ AgreeIA s s1 := by
  unfold mineCollection at h
  simp only [bind, Except.bind, pure, Except.pure] at h
  repeat' split at h
  all_goals first
    | (cases h; done)
    | (cases h; exact ⟨⟨hc, ha⟩, AgreeIA_refl _⟩)
    | (cases h
       exact inv_writeback hc ha hsnap (by assumption)
         (updateGenesisMined_fields (by assumption)).1 (creditMiners_q _ _ _ (by assumption)))

theorem mineCollections_inv6 (block : HookBlock) :
    ∀ (l : List (String × Val)) (s s1 : Store), CollInv s → AddrInv s →
      (∀ k v, (k, v) ∈ l → SnapOK s k v) →
      mineCollections block l s = .ok s1 → (CollInv s1 ∧ AddrInv s1) ∧ AgreeIA s s1
  | [], s, s1, hc, ha, _, h => by
    unfold mineCollections at h
    cases h
    exact ⟨⟨hc, ha⟩, AgreeIA_refl _⟩
  | (k, v) :: rest, s, s1, hc, ha, hl, h => by
    unfold mineCollections at h
    split at h
    · cases h
    · rename_i s2 h2
      have h3 := mineCollection_inv6 hc ha (hl k v (List.mem_cons_self _ _)) h2
      have h4 := mineCollections_inv6 block rest s2 s1 h3.1.1 h3.1.2
        (fun k1 v1 hm => SnapOK_agree h3.2 (hl k1 v1 (List.mem_cons_of_mem _ hm))) h
      exact ⟨h4.1, AgreeIA_trans h3.2 h4.2⟩

theorem inv_lottery_write {s : Store} {key : String} {val : Val} {g : Mrc721GenesisData}
    (hc : CollInv s) (ha : AddrInv s) (hsnap : SnapOK s key val) (hg : asGenesis val = .ok g)
    (p : String) (r : Int) (a b c e : String) (v w : Val) :
    (CollInv (kvSet (kvSet (kvSet s ("mrc20::balance::" ++ a ++ "::" ++ b) v)
        ("mrc721::geninsc::" ++ dropPre key "mrc721::geninsc::")
        (Val.genesis { g with PrizePoolTokens := p, TotalPrizeRound := r }))
        ("lottery::mrc721::" ++ c ++ "::" ++ e) w) ∧
      AddrInv (kvSet (kvSet (kvSet s ("mrc20::balance::" ++ a ++ "::" ++ b) v)
        ("mrc721::geninsc::" ++ dropPre key "mrc721::geninsc::")
        (Val.genesis { g with PrizePoolTokens := p, TotalPrizeRound := r }))
        ("lottery::mrc721::" ++ c ++ "::" ++ e) w)) ∧
    AgreeIA s (kvSet (kvSet (kvSet s ("mrc20::balance::" ++ a ++ "::" ++ b) v)
        ("mrc721::geninsc::" ++ dropPre key "mrc721::geninsc::")
        (Val.genesis { g with PrizePoolTokens := p, TotalPrizeRound := r }))
        ("lottery::mrc721::" ++ c ++ "::" ++ e) w) := by
  have hk1 : QSteps s (kvSet s ("mrc20::balance::" ++ a ++ "::" ++ b) v) :=
    QSteps.set _ _ (QSteps.refl _) (by repeat (first | exact (by decide) | apply Quiet_append))
  have hk3 : ∀ s0 : Store, Agree s0 (kvSet s0 ("lottery::mrc721::" ++ c ++ "::" ++ e) w) :=
    fun s0 => QSteps_agree (QSteps.set _ _ (QSteps.refl _)
      (by repeat (first | exact (by decide) | apply Quiet_append)))
  have hw := inv_writeback (u := { g with PrizePoolTokens := p, TotalPrizeRound := r })
    hc ha hsnap hg rfl hk1
  exact ⟨⟨CollInv_agree (hk3 _) hw.1.1, AddrInv_agree (hk3 _) hw.1.2⟩,
    AgreeIA_trans hw.2 (AgreeIA_of_Agree (hk3 _))⟩

theorem lotteryCollection_inv6 {s s1 : Store} {block : HookBlock} {key : String} {val : Val}
    (hc : CollInv s) (ha : AddrInv s) (hsnap : SnapOK s key val)
    (h : lotteryCollection s block key val = .ok s1) :
    (CollInv s1 ∧ AddrInv s1) ∧ AgreeIA s s1 := by
  unfold lotteryCollection at h
  simp only [bind, Except.bind, pure, Except.pure] at h
  repeat' split at h
  all_goals first
    | (cases h; done)
    | (cases h; exact ⟨⟨hc, ha⟩, AgreeIA_refl _⟩)
    | (cases h
       exact inv_lottery_write hc ha hsnap (by assumption) _ _ _ _ _ _ _ _)

theorem lotteryCollections_inv6 (block : HookBlock) :
    ∀ (l : List (String × Val)) (s s1 : Store), CollInv s → AddrInv s →
      (∀ k v, (k, v) ∈ l → SnapOK s k v) →
      lotteryCollections block l s = .ok s1 → (CollInv s1 ∧ AddrInv s1) ∧ AgreeIA s s1
  | [], s, s1, hc, ha, _, h => by
    unfold lotteryCollections at h
    cases h
    exact ⟨⟨hc, ha⟩, AgreeIA_refl _⟩
  | (k, v) :: rest, s, s1, hc, ha, hl, h => by
    unfold lotteryCollections at h
    split at h
    · cases h
    · rename_i s2 h2
      have h3 := lotteryCollection_inv6 hc ha (hl k v (List.mem_cons_self _ _)) h2
      have h4 := lotteryCollections_inv6 block rest s2 s1 h3.1.1 h3.1.2
        (fun k1 v1 hm => SnapOK_agree h3.2 (hl k1 v1 (List.mem_cons_of_mem _ hm))) h
      exact ⟨h4.1, AgreeIA_trans h3.2 h4.2⟩

theorem HasPrefix_dropPre {k p : String} (h : HasPrefix k p = true) : p ++ dropPre k p = k := by
  unfold HasPrefix at h
  obtain ⟨x, hx⟩ := List.isPrefixOf_iff_prefix.mp h
  apply String.ext
  rw [String.data_append]
  unfold dropPre
  simp only
  rw [← hx, List.drop_left]

theorem scan_snap {s : Store} (hs : StoreSorted s) (hc : CollInv s) (ha : AddrInv s) :
    ∀ k v, (k, v) ∈ kvScan s "mrc721::geninsc::" → SnapOK s k v := by
  intro k v hm g hg
  have hk := kvGet_of_mem s k v hs (mem_kvScan hm)
  have hpre := HasPrefix_dropPre (kvScan_mem_HasPrefix hm)
  simp only at hpre
  rw [← hpre, asGenesis_ok hg] at hk
  exact ⟨hc _ g hk, fun a v1 n hnc hk1 hv => entry_LimOK ha hnc hk1 hv hk⟩

/-! ## Per-address cap: blocks -/

theorem applyBlock_inv6 {s s1 : Store} {block : HookBlock} (hw : MintsPlain block)
    (hs : StoreSorted s) (hc : CollInv s) (ha : AddrInv s)
    (h : applyBlock s block = .ok s1) : CollInv s1 ∧ AddrInv s1 := by
  unfold applyBlock at h
  simp only [bind, Except.bind, pure, Except.pure] at h
  split at h
  · cases h
  · rename_i a ha1
    split at h
    · cases h
    · rename_i b hb
      split at h
      · cases h
      · rename_i c hc1
        split at h
        · cases h
        · rename_i d hd
          cases h
          have sa := Steps_sorted (addInscriptions_steps _ ha1) hs
          have sb := Steps_sorted (addTransfers_steps _ hb) sa
          have sc := Steps_sorted (mineCollections_steps _ _ hc1) sb
          have h1 := addInscriptions_inv6 block _ _ _ hw hc ha ha1
          have h2 := addTransfers_inv6 _ _ _ h1.1 h1.2 hb
          have h3 := (mineCollections_inv6 block _ _ _ h2.1 h2.2 (scan_snap sb h2.1 h2.2) hc1).1
          have h4 : CollInv d ∧ AddrInv d := by
            unfold lotteryWithBlockHash at hd
            split at hd
            · cases hd; exact h3
            · exact (lotteryCollections_inv6 block _ _ _ h3.1 h3.2 (scan_snap sc h3.1 h3.2) hd).1
          have hq : QSteps d (kvSet (kvSet (kvSet d "latestblock" (Val.raw block.BlockHeight))
              ("block::" ++ block.BlockHeight) (Val.block block))
              ("bkhash::" ++ block.BlockHash) (Val.raw block.BlockHeight)) := by
            repeat (first
              | exact QSteps.refl _
              | refine QSteps.set _ _ ?_ (by repeat (first | exact (by decide) | apply Quiet_append)))
          exact ⟨CollInv_agree (QSteps_agree hq) h4.1, AddrInv_agree (QSteps_agree hq) h4.2⟩

theorem applyBlocks_inv6 :
    ∀ (l : List HookBlock) (s s1 : Store), (∀ b ∈ l, MintsPlain b) → StoreSorted s →
      CollInv s → AddrInv s → applyBlocks l s = .ok s1 → CollInv s1 ∧ AddrInv s1
  | [], s, s1, _, _, hc, ha, h => by
    unfold applyBlocks at h
    cases h
    exact ⟨hc, ha⟩
  | b :: rest, s, s1, hl, hs, hc, ha, h => by
    unfold applyBlocks at h
    split at h
    · cases h
    · rename_i s2 h2
      have h3 := applyBlock_inv6 (hl b (List.mem_cons_self _ _)) hs hc ha h2
      exact applyBlocks_inv6 rest s2 s1 (fun x hx => hl x (List.mem_cons_of_mem _ hx))
        (applyBlock_sorted h2 hs) h3.1 h3.2 h

theorem gapLoop_plain (current : Int) :
    ∀ (fuel : Nat) (h : Int), ∀ b ∈ gapLoop current fuel h, b.Inscriptions = []
  | 0, _, b, hb => by simp [gapLoop] at hb
  | fuel + 1, h, b, hb => by
    unfold gapLoop at hb
    split at hb
    · rcases List.mem_cons.mp hb with e | e
      · rw [e]; rfl
      · exact gapLoop_plain current fuel (h + 1) b e
    · cases hb

theorem fillMissingBlocks_plain {s : Store} {block : HookBlock} {blocks : List HookBlock}
    (hw : MintsPlain block) (h : fillMissingBlocks s block = .ok blocks) :
    ∀ b ∈ blocks, MintsPlain b := by
  unfold fillMissingBlocks at h
  repeat' split at h
  all_goals first
    | (cases h; done)
    | (cases h
       intro b hb
       rcases List.mem_append.mp hb with e | e
       · intro i hi
         rw [gapLoop_plain _ _ _ b e] at hi
         cases hi
       · rw [List.mem_singleton.mp e]
         exact hw)
    | (cases h
       intro b hb
       rw [List.mem_singleton.mp hb]
       exact hw)

theorem WriteBlock_inv6 (s : Store) (e : HookBlock) (hw : MintsPlain e)
    (hs : StoreSorted s) (hc : CollInv s) (ha : AddrInv s) :
    StoreSorted (WriteBlock s e).2 ∧ CollInv (WriteBlock s e).2 ∧ AddrInv (WriteBlock s e).2 := by
  have hw2 : MintsPlain (filterBlockData s e) := hw
  unfold WriteBlock writeBlockTxn
  repeat' split
  all_goals first
    | exact ⟨hs, hc, ha⟩
    | (rename_i heq
       repeat' split at heq
       all_goals first
         | (cases heq; done)
         | (cases heq
            have hb := fillMissingBlocks_plain hw2 (by assumption)
            exact ⟨applyBlocks_sorted _ _ _ hs (by assumption),
              applyBlocks_inv6 _ _ _ hb hs hc ha (by assumption)⟩))

theorem ReachableBy_inv6 {s : Store} (hr : ReachableBy MintsPlain s) :
    StoreSorted s ∧ CollInv s ∧ AddrInv s := by
  induction hr with
  | empty =>
    exact ⟨List.Pairwise.nil, (fun U g hg => by cases hg), (fun U a v _ hk => by cases hk)⟩
  | step s e _ hw ih => exact WriteBlock_inv6 s e hw ih.1 ih.2.1 ih.2.2

/-! ## Per-address cap -/

theorem ReachableBy_writeBlocks {P : HookBlock → Prop} :
    ∀ (l : List HookBlock) (s : Store), (∀ b ∈ l, P b) → ReachableBy P s →
      ReachableBy P (writeBlocks l s)
  | [], _, _, h => h
  | b :: rest, s, hl, h =>
    ReachableBy_writeBlocks rest _ (fun x hx => hl x (List.mem_cons_of_mem _ hx))
      (ReachableBy.step s b h (hl b (List.mem_cons_self _ _)))

theorem parseCarrier_ok {s : Store} {nm id : String} {d : MRC721Protocol}
    (h : parseCarrierProtocol s (.ok (nm, id)) = .ok d) :
    ∃ g, kvGet s ("mrc721::geninsc::" ++ nm) = some (Val.genesis g) ∧ Canon s g.ID d := by
  unfold parseCarrierProtocol at h
  simp only [bind, Except.bind, pure, Except.pure] at h
  split at h
  · cases h
  · rename_i item hitem
    split at h
    · cases h
    · rename_i g hg
      split at h
      · cases h
      · rename_i item2 hitem2
        split at h
        · cases h
        · rename_i hook hhook
          split at h
          · cases h
          · rename_i c hcon
            refine ⟨g, by rw [hitem, asGenesis_ok hg], hook, c,
              by rw [hitem2, asInscr_ok hhook], ?_, h⟩
            unfold contentOf at hcon
            split at hcon
            · rename_i c1 hc1
              cases hcon
              exact hc1
            · cases hcon

theorem addNewMrc721_at_lim {s : Store} {inscr : HookInscription} {d : MRC721Protocol}
    {n l cnt : Int}
    (hk : kvGet s ("mrc721::addr_num::" ++ d.Miner.GetUpperName ++ "::" ++ inscr.Address)
      = some (Val.raw (intToDec n)))
    (hn : Atoi (intToDec n) = some n) (hl : Atoi d.Miner.Lim = some l) (hln : l ≤ n) :
    addNewMrc721 s inscr d cnt = .error "inscription limit reached" := by
  unfold addNewMrc721
  simp only [bind, Except.bind, pure, Except.pure, hk, asRaw, hn, hl]
  rw [if_neg (by omega)]

theorem writeMrc721_at_lim_core {s : Store} (hinv : CollInv s) {block : HookBlock}
    {inscr : HookInscription} {d canon : MRC721Protocol} {data : Content} {n l m : Int}
    (hk : kvGet s ("mrc721::addr_num::" ++ d.Miner.GetUpperName ++ "::" ++ inscr.Address)
      = some (Val.raw (intToDec n)))
    (hn : Atoi (intToDec n) = some n)
    (hcanon : parseCarrierProtocol s (.ok (d.Miner.GetUpperName, "")) = .ok canon)
    (hm : Atoi canon.Miner.Max = some m) (hl : Atoi canon.Miner.Lim = some l) (hln : l ≤ n)
    (hcb : inscr.ContentByte = some data)
    (hd : (ParseMRC721Protocol data = .ok d ∧ (HtmlToNameID data).isOk = false ∧
        (SvgToNameID data).isOk = false) ∨
      ∃ nameID, parseCarrierProtocol s nameID = .ok d) :
    writeMrc721 s block inscr d = .ok s := by
  obtain ⟨g, hg, existing, c, he, hc, hp⟩ := parseCarrier_ok hcanon
  unfold writeMrc721
  simp only [bind, Except.bind, pure, Except.pure]
  rw [hg]
  simp only [asGenesis]
  rw [he]
  simp only [asInscr]
  cases hb : IsEqual721Data existing inscr with
  | error e =>
    exfalso
    unfold IsEqual721Data at hb
    simp only [contentOf, hc, hcb, bind, Except.bind, pure, Except.pure] at hb
    repeat' split at hb
    all_goals cases hb
  | ok b =>
    simp only
    cases b with
    | false => simp
    | true =>
      simp only [Bool.not_true, Bool.false_eq_true, if_false, contentOf, hc, hp, hm]
      split
      · rfl
      · have hlim : canon.Miner.Lim = d.Miner.Lim := by
          rcases hd with ⟨hd, hh, hx⟩ | ⟨nameID, hd⟩
          · exact IsEqual721Data_json_lim hcb hd hc hp hh hx hb
          · exact carrier_lim hinv hd hg ⟨existing, c, he, hc, hp⟩
        rw [addNewMrc721_at_lim hk hn (by rw [← hlim]; exact hl) hln]

/-- Collection names are not validated and may contain `::`: after `C` has minted twice in
collection `A::B` (`lim = 2`), the key `mrc721::addr_num::A::B::C`, which is also the key of
collection `A` (`lim = 1`) and address `B::C`, holds the count 2. -/
theorem addr_num_exceeds_lim_on_colon_key :
    allSucceed colonBlocks [] = true ∧
    kvGet colonStore ("mrc721::addr_num::" ++ "A" ++ "::" ++ "B::C") = some (Val.raw "2") ∧
    (parseCarrierProtocol colonStore (.ok ("A", ""))).toOption.map (fun p => p.Miner.Lim)
      = some "1" := by
  decide

/-- Where the per-address cap does hold. In every store reachable by `WriteBlock` calls on
events whose inscription owners contain no colon and whose MRC-721 JSON payloads carry no
`body` or `svg` collection tag, the value stored at `mrc721::addr_num::<NAME>::<addr>` for a
colon-free address is the decimal text of a count `n ≥ 1` that does not exceed the `miner.lim`
of the collection's canonical protocol; and when that count has reached the canonical
`miner.lim`, a mint of the collection by that address (its protocol taken from such a JSON
payload or from the carrier's collection) makes `writeMrc721` return the store unchanged. -/
theorem addr_num_within_lim (s : Store) (hr : ReachableBy MintsPlain s) (name addr : String)
    (v : Val) (ha : NoColon addr)
    (hk : kvGet s ("mrc721::addr_num::" ++ name ++ "::" ++ addr) = some v) :
    ∃ n : Int, v = Val.raw (intToDec n) ∧ Atoi (intToDec n) = some n ∧ 1 ≤ n ∧
      ∀ (canon : MRC721Protocol) (l : Int),
        parseCarrierProtocol s (.ok (name, "")) = .ok canon →
        Atoi canon.Miner.Lim = some l →
        n ≤ l ∧
        (l ≤ n → ∀ (block : HookBlock) (inscr : HookInscription) (d : MRC721Protocol)
            (data : Content) (m : Int),
          inscr.Address = addr → d.Miner.GetUpperName = name →
          inscr.ContentByte = some data →
          ((ParseMRC721Protocol data = .ok d ∧ (HtmlToNameID data).isOk = false ∧
              (SvgToNameID data).isOk = false) ∨
            ∃ nameID, parseCarrierProtocol s nameID = .ok d) →
          Atoi canon.Miner.Max = some m →
          writeMrc721 s block inscr d = .ok s) := by
  obtain ⟨_, hc, hai⟩ := ReachableBy_inv6 hr
  obtain ⟨_, n, hv, h1, h2, hl⟩ := hai name addr v ha hk
  have hn : Atoi (intToDec n) = some n := Atoi_intToDec n (by omega) h2
  refine ⟨n, hv, hn, h1, fun canon l hcanon hlim => ?_⟩
  obtain ⟨g, hg, hcan⟩ := parseCarrier_ok hcanon
  refine ⟨hl g hg canon l hcan hlim, ?_⟩
  intro hln block inscr d data m hia hdn hcb hd hm
  subst hia
  subst hdn
  rw [hv] at hk
  exact writeMrc721_at_lim_core hc hk hn hcanon hm hlim hln hcb hd

theorem addr_num_within_lim_witness :
    kvGet limStore ("mrc721::addr_num::" ++ "DEMO" ++ "::" ++ "A") = some (Val.raw "2") ∧
    (∃ n : Int, Val.raw "2" = Val.raw (intToDec n) ∧ 1 ≤ n ∧ n ≤ 2) ∧
    writeMrc721 limStore (mkBlock "102" "ac" [] [])
      (mkInscription "m2" 3 "A" (genesisContent capProtocol)) capProtocol = .ok limStore :=
  have hk : kvGet limStore ("mrc721::addr_num::" ++ "DEMO" ++ "::" ++ "A")
      = some (Val.raw "2") := by decide
  have h := addr_num_within_lim limStore
    (ReachableBy_writeBlocks (capBlocks.take 2) [] (by decide) ReachableBy.empty)
    "DEMO" "A" (Val.raw "2") (by decide) hk
  have hcanon : parseCarrierProtocol limStore (.ok ("DEMO", "")) = .ok capProtocol := rfl
  match h with
  | ⟨n, hv, _, h1, h2⟩ =>
    have hn2 : n = 2 := intToDec_injective (Val.raw.inj hv).symm
    ⟨hk, ⟨n, hv, h1, (h2 capProtocol 2 hcanon (by decide)).1⟩,
      (h2 capProtocol 2 hcanon (by decide)).2 (by rw [hn2]) _ _ capProtocol
        (genesisContent capProtocol) 3 rfl (by decide) rfl (Or.inl ⟨rfl, rfl, rfl⟩) (by decide)⟩

/-- C6 (a tagged JSON mint is counted against its own `lim`). Collection `demo` is deployed
with `max = 3`, `lim = 2`, and `A` holds two members, so the count at
`mrc721::addr_num::DEMO::A` equals the canonical `lim`. The document of block 102 is a valid
MRC-721 JSON payload with `lim = 3` whose text also contains `<body name=demo mrc-721=g0>`:
it differs from the genesis payload, yet `IsEqual721Data` accepts it through `HtmlToNameID`,
and `addNewMrc721` compares the count with the document's own `lim`. The mint is admitted:
the count becomes 3, above the canonical `lim` of 2, the membership index of `m2` is written
and `inscriptions_count` goes from 2 to 3. The same mint with the genesis payload (block 102
of "mint up to cap") is refused. -/
theorem tagged_mint_exceeds_lim :
    ValidateProtocolData tagContent = some "mrc-721" ∧
    (ParseMRC721Protocol tagContent).toOption = some tagProtocol ∧
    IsEqual721DataByte (genesisContent capProtocol) tagContent = false ∧
    (HtmlToNameID tagContent).toOption = some ("demo", "g0") ∧
    (IsEqual721Data (mkInscription "g0" 1 "A" (genesisContent capProtocol))
      (mkInscription "m2" 3 "A" tagContent)).toOption = some true ∧
    kvGet limStore "mrc721::addr_num::DEMO::A" = some (Val.raw "2") ∧
    (parseCarrierProtocol limStore (.ok ("DEMO", ""))).toOption.map (fun p => p.Miner.Lim)
      = some "2" ∧
    allSucceed tagBlocks [] = true ∧
    kvGet tagStore "mrc721::addr_num::DEMO::A" = some (Val.raw "3") ∧
    (parseCarrierProtocol tagStore (.ok ("DEMO", ""))).toOption.map (fun p => p.Miner.Lim)
      = some "2" ∧
    kvGet limStore "mrc721::name_inscr::DEMO::m2" = none ∧
    kvGet tagStore "mrc721::name_inscr::DEMO::m2" ≠ none ∧
    kvGet tagStore "mrc721::inscr_addr::m2::A" ≠ none ∧
    ((kvGet limStore "mrc721::geninsc::DEMO").map (fun v =>
      match v with
      | Val.genesis g => g.InscriptionsCount
      | _ => 0)) = some 2 ∧
    ((kvGet tagStore "mrc721::geninsc::DEMO").map (fun v =>
      match v with
      | Val.genesis g => g.InscriptionsCount
      | _ => 0)) = some 3 ∧
    kvGet (writeBlocks (capBlocks.take 3) []) "mrc721::addr_num::DEMO::A"
      = some (Val.raw "2") ∧
    kvGet (writeBlocks (capBlocks.take 3) []) "mrc721::name_inscr::DEMO::m2" = none := by
  decide

/-! ## Owner indexes: invariant -/

theorem OwnQuiet_append {a : String} (b : String) (h : OwnQuiet a) : OwnQuiet (a ++ b) := by
  unfold OwnQuiet at h ⊢
  rw [List.any_eq_true] at h ⊢
  obtain ⟨p, hp, h1⟩ := h
  exact ⟨p, hp, HasPrefix_append_left _ _ _ h1⟩

theorem OwnSettable_append {a : String} (b : String) (h : OwnSettable a) :
    OwnSettable (a ++ b) := by
  rcases h with h | h
  · exact Or.inl (OwnQuiet_append b h)
  · exact Or.inr (HasPrefix_append_left _ _ _ h)

theorem OwnQuiet_not_OwnKey {k : String} (h : OwnQuiet k) : ¬ OwnKey k := by
  unfold OwnQuiet at h
  rw [List.any_eq_true] at h
  obtain ⟨p, hp, h1⟩ := h
  have hall : ∀ q ∈ ownQuietPrefixes, clash q.data "mrc721::inscr_addr::".data = true ∧
      clash q.data "mrc721::addr_inscr::".data = true ∧
      clash q.data "mrc721::name_inscr::".data = true := by decide
  obtain ⟨c1, c2, c3⟩ := hall p hp
  intro hr
  rcases hr with hr | hr | hr
  · rw [HasPrefix_clash h1 c1] at hr; cases hr
  · rw [HasPrefix_clash h1 c2] at hr; cases hr
  · rw [HasPrefix_clash h1 c3] at hr; cases hr

theorem OwnQuiet_not_inscr {k : String} (h : OwnQuiet k) : HasPrefix k "inscr::" = false := by
  unfold OwnQuiet at h
  rw [List.any_eq_true] at h
  obtain ⟨p, hp, h1⟩ := h
  have hall : ∀ q ∈ ownQuietPrefixes, clash q.data "inscr::".data = true := by decide
  exact HasPrefix_clash h1 (hall p hp)

theorem OwnSettable_not_OwnKey {k : String} (h : OwnSettable k) : ¬ OwnKey k := by
  rcases h with h | h
  · exact OwnQuiet_not_OwnKey h
  · intro hr
    rcases hr with hr | hr | hr
    · rw [HasPrefix_clash h (by decide)] at hr; cases hr
    · rw [HasPrefix_clash h (by decide)] at hr; cases hr
    · rw [HasPrefix_clash h (by decide)] at hr; cases hr

theorem OwnAgree_refl (s : Store) : OwnAgree s s := ⟨fun _ _ => rfl, fun _ h => h⟩

theorem OwnAgree_trans {a b c : Store} (h1 : OwnAgree a b) (h2 : OwnAgree b c) :
    OwnAgree a c :=
  ⟨fun k hk => (h2.1 k hk).trans (h1.1 k hk), fun x hx => h2.2 x (h1.2 x hx)⟩

theorem OSteps_trans {a b c : Store} (h1 : OSteps a b) (h2 : OSteps b c) : OSteps a c := by
  induction h2 with
  | refl => exact h1
  | set k v _ hk ih => exact OSteps.set k v ih hk
  | del k _ hk ih => exact OSteps.del k ih hk

theorem OSteps_agree {s s1 : Store} (h : OSteps s s1) : OwnAgree s s1 := by
  induction h with
  | refl => exact OwnAgree_refl _
  | set k v _ hk ih =>
    refine ⟨fun k2 hr => ?_, fun x hx => kvGet_kvSet_ne_none _ _ _ _ (ih.2 x hx)⟩
    rw [kvGet_kvSet_ne _ _ _ _ (fun e => OwnSettable_not_OwnKey hk (by rw [← e]; exact hr))]
    exact ih.1 k2 hr
  | del k _ hk ih =>
    refine ⟨fun k2 hr => ?_, fun x hx => ?_⟩
    · rw [kvGet_kvDelete_ne _ _ _ (fun e => OwnQuiet_not_OwnKey hk (by rw [← e]; exact hr))]
      exact ih.1 k2 hr
    · rw [kvGet_kvDelete_ne _ _ _ (fun e => by
        have := OwnQuiet_not_inscr hk
        rw [← e, HasPrefix_append] at this
        cases this)]
      exact ih.2 x hx

theorem OwnKey_IA (id a : String) : OwnKey ("mrc721::inscr_addr::" ++ id ++ "::" ++ a) :=
  Or.inl (HasPrefix_append_left _ _ _ (HasPrefix_append_left _ _ _ (HasPrefix_append _ _)))

theorem OwnKey_AI (a id : String) : OwnKey ("mrc721::addr_inscr::" ++ a ++ "::" ++ id) :=
  Or.inr (Or.inl (HasPrefix_append_left _ _ _ (HasPrefix_append_left _ _ _
    (HasPrefix_append _ _))))

theorem OwnKey_NI (nm id : String) : OwnKey ("mrc721::name_inscr::" ++ nm ++ "::" ++ id) :=
  Or.inr (Or.inr (HasPrefix_append_left _ _ _ (HasPrefix_append_left _ _ _
    (HasPrefix_append _ _))))

theorem OwnOK_agree {s s1 : Store} (hag : OwnAgree s s1) {id : String} (h : OwnOK s id) :
    OwnOK s1 id := by
  obtain ⟨h1, h2, h3, h4⟩ := h
  refine ⟨fun a b ha hb => ?_, fun a => ?_, fun ⟨nm, hm⟩ => ?_, fun ⟨a, ha⟩ => ?_⟩
  · rw [hag.1 _ (OwnKey_IA _ _)] at ha hb
    exact h1 a b ha hb
  · rw [hag.1 _ (OwnKey_IA _ _), hag.1 _ (OwnKey_AI _ _)]
    exact h2 a
  · rw [hag.1 _ (OwnKey_NI _ _)] at hm
    obtain ⟨a, ha⟩ := h3 ⟨nm, hm⟩
    exact ⟨a, by rw [hag.1 _ (OwnKey_IA _ _)]; exact ha⟩
  · rw [hag.1 _ (OwnKey_IA _ _)] at ha
    exact hag.2 _ (h4 ⟨a, ha⟩)

theorem OwnInv_agree {s s1 : Store} (hag : OwnAgree s s1) (h : OwnInv s) : OwnInv s1 :=
  fun id hid => OwnOK_agree hag (h id hid)

theorem OwnInv_osteps {s s1 : Store} (hq : OSteps s s1) (h : OwnInv s) : OwnInv s1 :=
  OwnInv_agree (OSteps_agree hq) h

/-! ## Owner indexes: mint and transfer -/

theorem pres_set (s : Store) (k k2 : String) (v : Val) :
    kvGet (kvSet s k v) k2 ≠ none ↔ (k2 = k ∨ kvGet s k2 ≠ none) := by
  by_cases e : k2 = k
  · subst e
    rw [kvGet_kvSet_self]
    simp
  · rw [kvGet_kvSet_ne _ _ _ _ e]
    simp [e]

theorem pres_del (s : Store) (k k2 : String) :
    kvGet (kvDelete s k) k2 ≠ none ↔ (k2 ≠ k ∧ kvGet s k2 ≠ none) := by
  by_cases e : k2 = k
  · subst e
    rw [kvGet_kvDelete_self]
    simp
  · rw [kvGet_kvDelete_ne _ _ _ e]
    simp [e]

theorem split_first_colon : ∀ (l1 l2 r1 r2 : List Char), ':' ∉ l1 → ':' ∉ l2 →
    l1 ++ ':' :: r1 = l2 ++ ':' :: r2 → l1 = l2 ∧ r1 = r2
  | [], [], _, _, _, _, h => by
    simp only [List.nil_append, List.cons.injEq, true_and] at h
    exact ⟨rfl, h⟩
  | [], c :: t, _, _, _, h2, h => by
    exfalso
    simp only [List.nil_append, List.cons_append, List.cons.injEq] at h
    exact h2 (by rw [← h.1]; exact List.mem_cons_self _ _)
  | c :: t, [], _, _, h1, _, h => by
    exfalso
    simp only [List.nil_append, List.cons_append, List.cons.injEq] at h
    exact h1 (by rw [h.1]; exact List.mem_cons_self _ _)
  | c :: t, c0 :: t0, r1, r2, h1, h2, h => by
    simp only [List.cons_append, List.cons.injEq] at h
    obtain ⟨e1, e2⟩ := split_first_colon t t0 r1 r2
      (fun hm => h1 (List.mem_cons_of_mem _ hm)) (fun hm => h2 (List.mem_cons_of_mem _ hm)) h.2
    exact ⟨by rw [h.1, e1], e2⟩

/-- With colon-free first components, a key `family ++ id ++ "::" ++ a` determines both. -/
theorem key_split_first {p id a id0 a0 : String} (h1 : NoColon id) (h2 : NoColon id0)
    (h : p ++ id ++ "::" ++ a = p ++ id0 ++ "::" ++ a0) : id = id0 ∧ a = a0 := by
  have h3 : (p ++ id ++ "::" ++ a).data = (p ++ id0 ++ "::" ++ a0).data := by rw [h]
  simp only [String.data_append, List.append_assoc] at h3
  have h4 := List.append_cancel_left h3
  have h5 := split_first_colon id.data id0.data (':' :: a.data) (':' :: a0.data) h1 h2 h4
  exact ⟨String.ext h5.1, String.ext (List.cons.inj h5.2).2⟩

theorem IA_eq_iff {id a id0 a0 : String} (h1 : NoColon id) (h2 : NoColon id0) :
    "mrc721::inscr_addr::" ++ id ++ "::" ++ a = "mrc721::inscr_addr::" ++ id0 ++ "::" ++ a0
      ↔ id = id0 ∧ a = a0 :=
  ⟨key_split_first h1 h2, fun ⟨e1, e2⟩ => by rw [e1, e2]⟩

theorem AI_eq_iff {id a id0 a0 : String} (h1 : NoColon id) (h2 : NoColon id0) :
    "mrc721::addr_inscr::" ++ a ++ "::" ++ id = "mrc721::addr_inscr::" ++ a0 ++ "::" ++ id0
      ↔ id = id0 ∧ a = a0 :=
  ⟨fun h => (key_split_last h1 h2 h).symm, fun ⟨e1, e2⟩ => by rw [e1, e2]⟩

theorem NI_eq_iff {id a id0 a0 : String} (h1 : NoColon id) (h2 : NoColon id0) :
    "mrc721::name_inscr::" ++ a ++ "::" ++ id = "mrc721::name_inscr::" ++ a0 ++ "::" ++ id0
      ↔ id = id0 ∧ a = a0 :=
  ⟨fun h => (key_split_last h1 h2 h).symm, fun ⟨e1, e2⟩ => by rw [e1, e2]⟩

theorem fam_ne {p q : String} (h : clash p.data q.data = true) (a b c d : String) :
    p ++ a ++ "::" ++ b ≠ q ++ c ++ "::" ++ d := by
  rw [String.append_assoc, String.append_assoc, String.append_assoc, String.append_assoc]
  exact key_ne_of_clash h

theorem fam_ne_inscr {p : String} (h : clash p.data "inscr::".data = true) (a b x : String) :
    "inscr::" ++ x ≠ p ++ a ++ "::" ++ b := by
  rw [String.append_assoc, String.append_assoc]
  exact fun e => key_ne_of_clash h e.symm

/-- The three writes of the mint bookkeeping keep the owner invariant when the inscription
is stored and has no owner key yet. -/
theorem own_mint {s : Store} (id0 addr0 U : String) (v1 v2 v3 : Val) (hid : NoColon id0)
    (hp : kvGet s ("inscr::" ++ id0) ≠ none)
    (hfresh : ∀ a, kvGet s ("mrc721::inscr_addr::" ++ id0 ++ "::" ++ a) = none)
    (hinv : OwnInv s) :
    OwnInv (kvSet (kvSet (kvSet s ("mrc721::name_inscr::" ++ U ++ "::" ++ id0) v1)
      ("mrc721::addr_inscr::" ++ addr0 ++ "::" ++ id0) v2)
      ("mrc721::inscr_addr::" ++ id0 ++ "::" ++ addr0) v3) := by
  intro id hnc
  obtain ⟨h1, h2, h3, h4⟩ := hinv id hnc
  have eIA : ∀ a, kvGet (kvSet (kvSet (kvSet s ("mrc721::name_inscr::" ++ U ++ "::" ++ id0) v1)
      ("mrc721::addr_inscr::" ++ addr0 ++ "::" ++ id0) v2)
      ("mrc721::inscr_addr::" ++ id0 ++ "::" ++ addr0) v3)
      ("mrc721::inscr_addr::" ++ id ++ "::" ++ a) ≠ none ↔
      ((id = id0 ∧ a = addr0) ∨ kvGet s ("mrc721::inscr_addr::" ++ id ++ "::" ++ a) ≠ none) := by
    intro a
    rw [pres_set, IA_eq_iff hnc hid, kvGet_kvSet_ne _ _ _ _ (fam_ne (by decide) _ _ _ _),
      kvGet_kvSet_ne _ _ _ _ (fam_ne (by decide) _ _ _ _)]
  have eAI : ∀ a, kvGet (kvSet (kvSet (kvSet s ("mrc721::name_inscr::" ++ U ++ "::" ++ id0) v1)
      ("mrc721::addr_inscr::" ++ addr0 ++ "::" ++ id0) v2)
      ("mrc721::inscr_addr::" ++ id0 ++ "::" ++ addr0) v3)
      ("mrc721::addr_inscr::" ++ a ++ "::" ++ id) ≠ none ↔
      ((id = id0 ∧ a = addr0) ∨ kvGet s ("mrc721::addr_inscr::" ++ a ++ "::" ++ id) ≠ none) := by
    intro a
    rw [kvGet_kvSet_ne _ _ _ _ (fam_ne (by decide) _ _ _ _), pres_set, AI_eq_iff hnc hid,
      kvGet_kvSet_ne _ _ _ _ (fam_ne (by decide) _ _ _ _)]
  have eNI : ∀ nm, kvGet (kvSet (kvSet (kvSet s ("mrc721::name_inscr::" ++ U ++ "::" ++ id0) v1)
      ("mrc721::addr_inscr::" ++ addr0 ++ "::" ++ id0) v2)
      ("mrc721::inscr_addr::" ++ id0 ++ "::" ++ addr0) v3)
      ("mrc721::name_inscr::" ++ nm ++ "::" ++ id) ≠ none ↔
      ((id = id0 ∧ nm = U) ∨ kvGet s ("mrc721::name_inscr::" ++ nm ++ "::" ++ id) ≠ none) := by
    intro nm
    rw [kvGet_kvSet_ne _ _ _ _ (fam_ne (by decide) _ _ _ _),
      kvGet_kvSet_ne _ _ _ _ (fam_ne (by decide) _ _ _ _), pres_set, NI_eq_iff hnc hid]
  have eIN : kvGet (kvSet (kvSet (kvSet s ("mrc721::name_inscr::" ++ U ++ "::" ++ id0) v1)
      ("mrc721::addr_inscr::" ++ addr0 ++ "::" ++ id0) v2)
      ("mrc721::inscr_addr::" ++ id0 ++ "::" ++ addr0) v3) ("inscr::" ++ id)
      = kvGet s ("inscr::" ++ id) := by
    rw [kvGet_kvSet_ne _ _ _ _ (fam_ne_inscr (by decide) _ _ _),
      kvGet_kvSet_ne _ _ _ _ (fam_ne_inscr (by decide) _ _ _),
      kvGet_kvSet_ne _ _ _ _ (fam_ne_inscr (by decide) _ _ _)]
  by_cases e : id = id0
  · subst e
    have hf : ∀ a, ¬ kvGet s ("mrc721::inscr_addr::" ++ id ++ "::" ++ a) ≠ none :=
      fun a h => h (hfresh a)
    have hf2 : ∀ a, ¬ kvGet s ("mrc721::addr_inscr::" ++ a ++ "::" ++ id) ≠ none :=
      fun a h => hf a ((h2 a).mp h)
    refine ⟨fun a b ha hb => ?_, fun a => ?_, fun _ => ⟨addr0, (eIA addr0).mpr (Or.inl ⟨rfl, rfl⟩)⟩,
      fun _ => by rw [eIN]; exact hp⟩
    · rcases (eIA a).mp ha with ⟨_, ea⟩ | ha1
      · rcases (eIA b).mp hb with ⟨_, eb⟩ | hb1
        · rw [ea, eb]
        · exact absurd hb1 (hf b)
      · exact absurd ha1 (hf a)
    · rw [eIA, eAI]
      constructor
      · rintro (h | h)
        · exact Or.inl h
        · exact absurd h (hf2 a)
      · rintro (h | h)
        · exact Or.inl h
        · exact absurd h (hf a)
  · have n1 : ∀ a : String, ¬ (id = id0 ∧ a = addr0) := fun a h => e h.1
    have n2 : ∀ a : String, ¬ (id = id0 ∧ a = U) := fun a h => e h.1
    refine ⟨fun a b ha hb => ?_, fun a => ?_, fun ⟨nm, hm⟩ => ?_, fun ⟨a, ha⟩ => ?_⟩
    · rw [eIA, or_iff_right (n1 _)] at ha hb
      exact h1 a b ha hb
    · rw [eIA, eAI, or_iff_right (n1 _), or_iff_right (n1 _)]
      exact h2 a
    · rw [eNI, or_iff_right (n2 _)] at hm
      obtain ⟨a, ha⟩ := h3 ⟨nm, hm⟩
      exact ⟨a, by rw [eIA, or_iff_right (n1 _)]; exact ha⟩
    · rw [eIA, or_iff_right (n1 _)] at ha
      rw [eIN]
      exact h4 ⟨a, ha⟩

/-- The four index writes of an MRC-721 transfer keep the owner invariant. -/
theorem own_transfer {s : Store} (id0 old dst : String) (v w : Val) (hid : NoColon id0)
    (hold : kvGet s ("mrc721::inscr_addr::" ++ id0 ++ "::" ++ old) ≠ none)
    (hinv : OwnInv s) :
    OwnInv (kvSet (kvDelete (kvSet (kvDelete s ("mrc721::inscr_addr::" ++ id0 ++ "::" ++ old))
      ("mrc721::inscr_addr::" ++ id0 ++ "::" ++ dst) v)
      ("mrc721::addr_inscr::" ++ old ++ "::" ++ id0))
      ("mrc721::addr_inscr::" ++ dst ++ "::" ++ id0) w) := by
  intro id hnc
  obtain ⟨h1, h2, h3, h4⟩ := hinv id hnc
  have eIA : ∀ a, kvGet (kvSet (kvDelete (kvSet (kvDelete s
      ("mrc721::inscr_addr::" ++ id0 ++ "::" ++ old))
      ("mrc721::inscr_addr::" ++ id0 ++ "::" ++ dst) v)
      ("mrc721::addr_inscr::" ++ old ++ "::" ++ id0))
      ("mrc721::addr_inscr::" ++ dst ++ "::" ++ id0) w)
      ("mrc721::inscr_addr::" ++ id ++ "::" ++ a) ≠ none ↔
      ((id = id0 ∧ a = dst) ∨ (¬ (id = id0 ∧ a = old) ∧
        kvGet s ("mrc721::inscr_addr::" ++ id ++ "::" ++ a) ≠ none)) := by
    intro a
    rw [kvGet_kvSet_ne _ _ _ _ (fam_ne (by decide) _ _ _ _),
      kvGet_kvDelete_ne _ _ _ (fam_ne (by decide) _ _ _ _), pres_set, pres_del,
      IA_eq_iff hnc hid, Ne, IA_eq_iff hnc hid]
  have eAI : ∀ a, kvGet (kvSet (kvDelete (kvSet (kvDelete s
      ("mrc721::inscr_addr::" ++ id0 ++ "::" ++ old))
      ("mrc721::inscr_addr::" ++ id0 ++ "::" ++ dst) v)
      ("mrc721::addr_inscr::" ++ old ++ "::" ++ id0))
      ("mrc721::addr_inscr::" ++ dst ++ "::" ++ id0) w)
      ("mrc721::addr_inscr::" ++ a ++ "::" ++ id) ≠ none ↔
      ((id = id0 ∧ a = dst) ∨ (¬ (id = id0 ∧ a = old) ∧
        kvGet s ("mrc721::addr_inscr::" ++ a ++ "::" ++ id) ≠ none)) := by
    intro a
    rw [pres_set, pres_del, AI_eq_iff hnc hid, Ne, AI_eq_iff hnc hid,
      kvGet_kvSet_ne _ _ _ _ (fam_ne (by decide) _ _ _ _),
      kvGet_kvDelete_ne _ _ _ (fam_ne (by decide) _ _ _ _)]
  have eNI : ∀ nm, kvGet (kvSet (kvDelete (kvSet (kvDelete s
      ("mrc721::inscr_addr::" ++ id0 ++ "::" ++ old))
      ("mrc721::inscr_addr::" ++ id0 ++ "::" ++ dst) v)
      ("mrc721::addr_inscr::" ++ old ++ "::" ++ id0))
      ("mrc721::addr_inscr::" ++ dst ++ "::" ++ id0) w)
      ("mrc721::name_inscr::" ++ nm ++ "::" ++ id)
      = kvGet s ("mrc721::name_inscr::" ++ nm ++ "::" ++ id) := by
    intro nm
    rw [kvGet_kvSet_ne _ _ _ _ (fam_ne (by decide) _ _ _ _),
      kvGet_kvDelete_ne _ _ _ (fam_ne (by decide) _ _ _ _),
      kvGet_kvSet_ne _ _ _ _ (fam_ne (by decide) _ _ _ _),
      kvGet_kvDelete_ne _ _ _ (fam_ne (by decide) _ _ _ _)]
  have eIN : kvGet (kvSet (kvDelete (kvSet (kvDelete s
      ("mrc721::inscr_addr::" ++ id0 ++ "::" ++ old))
      ("mrc721::inscr_addr::" ++ id0 ++ "::" ++ dst) v)
      ("mrc721::addr_inscr::" ++ old ++ "::" ++ id0))
      ("mrc721::addr_inscr::" ++ dst ++ "::" ++ id0) w) ("inscr::" ++ id)
      = kvGet s ("inscr::" ++ id) := by
    rw [kvGet_kvSet_ne _ _ _ _ (fam_ne_inscr (by decide) _ _ _),
      kvGet_kvDelete_ne _ _ _ (fam_ne_inscr (by decide) _ _ _),
      kvGet_kvSet_ne _ _ _ _ (fam_ne_inscr (by decide) _ _ _),
      kvGet_kvDelete_ne _ _ _ (fam_ne_inscr (by decide) _ _ _)]
  by_cases e : id = id0
  · subst e
    have hu : ∀ a, kvGet s ("mrc721::inscr_addr::" ++ id ++ "::" ++ a) ≠ none → a = old :=
      fun a h => h1 a old h hold
    have key : ∀ a, ((id = id ∧ a = dst) ∨ (¬ (id = id ∧ a = old) ∧
        kvGet s ("mrc721::inscr_addr::" ++ id ++ "::" ++ a) ≠ none)) ↔ a = dst := by
      intro a
      constructor
      · rintro (h | ⟨hn, h⟩)
        · exact h.2
        · exact absurd ⟨rfl, hu a h⟩ hn
      · exact fun h => Or.inl ⟨rfl, h⟩
    refine ⟨fun a b ha hb => ?_, fun a => ?_, fun _ => ⟨dst, (eIA dst).mpr (Or.inl ⟨rfl, rfl⟩)⟩,
      fun _ => by rw [eIN]; exact h4 ⟨old, hold⟩⟩
    · rw [eIA, key] at ha hb
      rw [ha, hb]
    · rw [eIA, eAI, h2 a]
  · have n1 : ∀ a : String, ¬ (id = id0 ∧ a = dst) := fun a h => e h.1
    have n2 : ∀ a : String, ¬ (id = id0 ∧ a = old) := fun a h => e h.1
    have sIA : ∀ a, kvGet (kvSet (kvDelete (kvSet (kvDelete s
        ("mrc721::inscr_addr::" ++ id0 ++ "::" ++ old))
        ("mrc721::inscr_addr::" ++ id0 ++ "::" ++ dst) v)
        ("mrc721::addr_inscr::" ++ old ++ "::" ++ id0))
        ("mrc721::addr_inscr::" ++ dst ++ "::" ++ id0) w)
        ("mrc721::inscr_addr::" ++ id ++ "::" ++ a) ≠ none ↔
        kvGet s ("mrc721::inscr_addr::" ++ id ++ "::" ++ a) ≠ none := by
      intro a
      rw [eIA, or_iff_right (n1 _), and_iff_right (n2 _)]
    refine ⟨fun a b ha hb => ?_, fun a => ?_, fun ⟨nm, hm⟩ => ?_, fun ⟨a, ha⟩ => ?_⟩
    · rw [sIA] at ha hb
      exact h1 a b ha hb
    · rw [sIA, eAI, or_iff_right (n1 _), and_iff_right (n2 _)]
      exact h2 a
    · rw [eNI] at hm
      obtain ⟨a, ha⟩ := h3 ⟨nm, hm⟩
      exact ⟨a, by rw [sIA]; exact ha⟩
    · rw [sIA] at ha
      rw [eIN]
      exact h4 ⟨a, ha⟩

theorem kvGet_ne_none_of_mem : ∀ (s : Store) (k : String) (v : Val), (k, v) ∈ s →
    kvGet s k ≠ none
  | [], _, _, hm => by cases hm
  | (k1, v1) :: rest, k, v, hm => by
    unfold kvGet
    by_cases e : k = k1
    · rw [if_pos e]
      exact Option.some_ne_none _
    · rw [if_neg e]
      rcases List.mem_cons.mp hm with e1 | hm1
      · cases e1
        exact absurd rfl e
      · exact kvGet_ne_none_of_mem rest k v hm1

theorem firstUnder_spec (s : Store) (pre : String) (h : ¬ (firstUnder s pre).2 = "") :
    (firstUnder s pre).1 = pre ++ (firstUnder s pre).2 ∧ kvGet s (firstUnder s pre).1 ≠ none := by
  unfold firstUnder at h ⊢
  cases hscan : kvScan s pre with
  | nil => rw [hscan] at h; exact absurd rfl h
  | cons kv rest =>
    have hm : kv ∈ kvScan s pre := by rw [hscan]; exact List.mem_cons_self _ _
    obtain ⟨k, v⟩ := kv
    simp only
    exact ⟨(HasPrefix_dropPre (kvScan_mem_HasPrefix hm)).symm,
      kvGet_ne_none_of_mem s k v (mem_kvScan hm)⟩

theorem transfer721_inv7 {s s1 : Store} {t : HookTransfer} {a : String} (hid : NoColon t.ID)
    (hinv : OwnInv s) (h : transfer721 s t a = .ok s1) : OwnInv s1 := by
  unfold transfer721 at h
  dsimp only at h
  split at h
  · cases h; exact hinv
  · rename_i hne
    obtain ⟨hkey, hpres⟩ := firstUnder_spec s _ hne
    rw [hkey] at hpres
    have h4 := own_transfer t.ID (firstUnder s ("mrc721::inscr_addr::" ++ t.ID ++ "::")).2 a
      (Val.raw "") (Val.raw "") hid hpres hinv
    rw [← hkey] at h4
    split at h
    · cases h
    · split at h
      · cases h
      · split at h
        · cases h
        · cases h
          exact OwnInv_osteps (OSteps.set _ _ (OSteps.refl _)
            (Or.inr (HasPrefix_append _ _))) h4

/-! ## Owner indexes: the phases -/

theorem OwnSettable_of_firstUnder_20 {s : Store} {x : String}
    (h : ¬ (firstUnder s ("mrc20::inscr_addr::" ++ x ++ "::")).2 = "") :
    OwnQuiet (firstUnder s ("mrc20::inscr_addr::" ++ x ++ "::")).1 := by
  unfold OwnQuiet
  rw [List.any_eq_true]
  exact ⟨"mrc20::", by decide, HasPrefix_trans (HasPrefix_of_append (HasPrefix_of_append
    (firstUnder_key _ _ h))) (by decide)⟩

theorem transfer20_o {s s1 : Store} {t : HookTransfer} {a : String}
    (h : transfer20 s t a = .ok s1) : OSteps s s1 := by
  unfold transfer20 at h
  dsimp only at h
  repeat' split at h
  all_goals
    cases h
    repeat (first
      | exact OSteps.refl _
      | refine OSteps.set _ _ ?_ (by repeat (first | exact (by decide) | apply OwnSettable_append))
      | refine OSteps.del _ ?_ (OwnSettable_of_firstUnder_20 (by assumption))
      | refine OSteps.del _ ?_ (by repeat (first | exact (by decide) | apply OwnQuiet_append)))

theorem writeMrc20_o {s s1 : Store} {inscr : HookInscription} {d : MRC20Protocol}
    (h : writeMrc20 s inscr d = .ok s1) : OSteps s s1 := by
  unfold writeMrc20 at h
  dsimp only at h
  repeat' split at h
  all_goals
    cases h
    repeat (first
      | exact OSteps.refl _
      | refine OSteps.set _ _ ?_ (by repeat (first | exact (by decide) | apply OwnSettable_append)))

theorem creditMiner_o {s s1 : Store} {m : Mrc721MinerData}
    (h : creditMiner s m = .ok s1) : OSteps s s1 := by
  unfold creditMiner at h
  dsimp only at h
  repeat' split at h
  all_goals
    cases h
    repeat (first
      | exact OSteps.refl _
      | refine OSteps.set _ _ ?_ (by repeat (first | exact (by decide) | apply OwnSettable_append)))

theorem creditMiners_o :
    ∀ (l : List Mrc721MinerData) (s s1 : Store), creditMiners l s = .ok s1 → OSteps s s1
  | [], s, s1, h => by
    unfold creditMiners at h
    cases h
    exact OSteps.refl _
  | i :: rest, s, s1, h => by
    unfold creditMiners at h
    split at h
    · cases h
    · rename_i s2 h2
      exact OSteps_trans (creditMiner_o h2) (creditMiners_o rest s2 s1 h)

theorem mineCollection_o {s s1 : Store} {block : HookBlock} {key : String} {val : Val}
    (h : mineCollection s block key val = .ok s1) : OSteps s s1 := by
  unfold mineCollection at h
  simp only [bind, Except.bind, pure, Except.pure] at h
  repeat' split at h
  all_goals
    cases h
    repeat (first
      | exact OSteps.refl _
      | exact creditMiners_o _ _ _ (by assumption)
      | refine OSteps.set _ _ ?_ (by repeat (first | exact (by decide) | apply OwnSettable_append)))

theorem mineCollections_o (block : HookBlock) :
    ∀ (l : List (String × Val)) (s s1 : Store), mineCollections block l s = .ok s1 →
      OSteps s s1
  | [], s, s1, h => by
    unfold mineCollections at h
    cases h
    exact OSteps.refl _
  | (k, v) :: rest, s, s1, h => by
    unfold mineCollections at h
    split at h
    · cases h
    · rename_i s2 h2
      exact OSteps_trans (mineCollection_o h2) (mineCollections_o block rest s2 s1 h)

theorem lotteryCollection_o {s s1 : Store} {block : HookBlock} {key : String} {val : Val}
    (h : lotteryCollection s block key val = .ok s1) : OSteps s s1 := by
  unfold lotteryCollection at h
  simp only [bind, Except.bind, pure, Except.pure] at h
  repeat' split at h
  all_goals
    cases h
    repeat (first
      | exact OSteps.refl _
      | refine OSteps.set _ _ ?_ (by repeat (first | exact (by decide) | apply OwnSettable_append)))

theorem lotteryCollections_o (block : HookBlock) :
    ∀ (l : List (String × Val)) (s s1 : Store), lotteryCollections block l s = .ok s1 →
      OSteps s s1
  | [], s, s1, h => by
    unfold lotteryCollections at h
    cases h
    exact OSteps.refl _
  | (k, v) :: rest, s, s1, h => by
    unfold lotteryCollections at h
    split at h
    · cases h
    · rename_i s2 h2
      exact OSteps_trans (lotteryCollection_o h2) (lotteryCollections_o block rest s2 s1 h)

theorem addNewMrc721_inv7 {s s1 : Store} {inscr : HookInscription} {d : MRC721Protocol}
    {cnt : Int} (hid : NoColon inscr.ID) (hp : kvGet s ("inscr::" ++ inscr.ID) ≠ none)
    (hfresh : ∀ a, kvGet s ("mrc721::inscr_addr::" ++ inscr.ID ++ "::" ++ a) = none)
    (hinv : OwnInv s) (h : addNewMrc721 s inscr d cnt = .ok s1) : OwnInv s1 := by
  have tail : ∀ (v0 : Val) (a b c e f : String),
      s1 = kvSet (kvSet (kvSet (kvSet (kvSet (kvSet s
        ("mrc721::addr_num::" ++ d.Miner.GetUpperName ++ "::" ++ inscr.Address) v0)
        ("mrc721::name_inscr::" ++ d.Miner.GetUpperName ++ "::" ++ inscr.ID) (Val.raw a))
        ("mrc721::addr_inscr::" ++ inscr.Address ++ "::" ++ inscr.ID) (Val.raw b))
        ("mrc721::inscr_addr::" ++ inscr.ID ++ "::" ++ inscr.Address) (Val.raw c))
        ("mrc721::count_inscr::" ++ d.Miner.GetUpperName ++ "::" ++ e) (Val.raw inscr.ID))
        ("mrc721::inscr_count::" ++ d.Miner.GetUpperName ++ "::" ++ inscr.ID) (Val.raw f) →
      OwnInv s1 := by
    intro v0 a b c e f hs
    have hq0 : OSteps s (kvSet s
        ("mrc721::addr_num::" ++ d.Miner.GetUpperName ++ "::" ++ inscr.Address) v0) :=
      OSteps.set _ _ (OSteps.refl _)
        (by repeat (first | exact (by decide) | apply OwnSettable_append))
    have hag := OSteps_agree hq0
    have hm := own_mint inscr.ID inscr.Address d.Miner.GetUpperName (Val.raw a) (Val.raw b)
      (Val.raw c) hid (hag.2 _ hp)
      (fun x => by rw [hag.1 _ (OwnKey_IA _ _)]; exact hfresh x) (OwnInv_agree hag hinv)
    rw [hs]
    refine OwnInv_osteps ?_ hm
    repeat (first
      | exact OSteps.refl _
      | refine OSteps.set _ _ ?_ (by repeat (first | exact (by decide) | apply OwnSettable_append)))
  unfold addNewMrc721 at h
  simp only [bind, Except.bind, pure, Except.pure] at h
  repeat' split at h
  all_goals first
    | (cases h; done)
    | exact tail _ _ _ _ _ _ (Except.ok.inj h).symm

theorem writeMrc721_inv7 {s s1 : Store} {block : HookBlock} {inscr : HookInscription}
    {d : MRC721Protocol} (hid : NoColon inscr.ID)
    (hp : kvGet s ("inscr::" ++ inscr.ID) ≠ none)
    (hfresh : ∀ a, kvGet s ("mrc721::inscr_addr::" ++ inscr.ID ++ "::" ++ a) = none)
    (hinv : OwnInv s) (h : writeMrc721 s block inscr d = .ok s1) : OwnInv s1 := by
  have pre : ∀ s0, OSteps s s0 → ∀ s2 cnt, addNewMrc721 s0 inscr d cnt = .ok s2 → OwnInv s2 := by
    intro s0 hq s2 cnt hadd
    have hag := OSteps_agree hq
    exact addNewMrc721_inv7 hid (hag.2 _ hp)
      (fun x => by rw [hag.1 _ (OwnKey_IA _ _)]; exact hfresh x) (OwnInv_agree hag hinv) hadd
  have qg : ∀ (s0 : Store) (U : String) (v : Val),
      OSteps s0 (kvSet s0 ("mrc721::geninsc::" ++ U) v) := fun s0 U v =>
    OSteps.set _ _ (OSteps.refl _) (Or.inl (OwnQuiet_append _ (by decide)))
  have qt : ∀ (s0 : Store) (U : String) (v : Val),
      OSteps s0 (kvSet s0 ("mrc20::geninsc::" ++ U) v) := fun s0 U v =>
    OSteps.set _ _ (OSteps.refl _) (Or.inl (OwnQuiet_append _ (by decide)))
  unfold writeMrc721 at h
  simp only [bind, Except.bind, pure, Except.pure] at h
  repeat' split at h
  all_goals first
    | (cases h; done)
    | (cases h; exact hinv)
    | (cases h
       exact OwnInv_osteps (OSteps_trans (qg _ _ _) (qt _ _ _)) hinv)
    | (cases h
       exact pre _ (OSteps_trans (qg _ _ _) (qt _ _ _)) _ _ (by assumption))
    | (cases h
       exact OwnInv_osteps (qg _ _ _) (pre _ (OSteps.refl _) _ _ (by assumption)))

theorem addInscription_inv7 {s s1 : Store} {block : HookBlock} {i : HookInscription}
    (hid : NoColon i.ID) (hinv : OwnInv s) (h : addInscription s block i = .ok s1) :
    OwnInv s1 := by
  unfold addInscription at h
  dsimp only at h
  split at h
  · cases h
  · rename_i habs
    have hq : OSteps s (kvSet (kvSet s ("inscr::" ++ i.ID) (Val.inscr i))
        ("inscr::number::" ++ intToDec i.Number) (Val.raw i.ID)) :=
      OSteps.set _ _ (OSteps.set _ _ (OSteps.refl _) (Or.inr (HasPrefix_append _ _)))
        (Or.inr (HasPrefix_append_left _ _ _ (by decide)))
    have hag := OSteps_agree hq
    have h2 := OwnInv_agree hag hinv
    have hp2 : kvGet (kvSet (kvSet s ("inscr::" ++ i.ID) (Val.inscr i))
        ("inscr::number::" ++ intToDec i.Number) (Val.raw i.ID)) ("inscr::" ++ i.ID) ≠ none :=
      kvGet_kvSet_ne_none _ _ _ _ (by rw [kvGet_kvSet_self]; exact Option.some_ne_none _)
    have hfresh : ∀ a, kvGet (kvSet (kvSet s ("inscr::" ++ i.ID) (Val.inscr i))
        ("inscr::number::" ++ intToDec i.Number) (Val.raw i.ID))
        ("mrc721::inscr_addr::" ++ i.ID ++ "::" ++ a) = none := by
      intro a
      rw [hag.1 _ (OwnKey_IA _ _)]
      by_contra hc
      exact (hinv i.ID hid).2.2.2 ⟨a, hc⟩ habs
    repeat' split at h
    all_goals first
      | (cases h; done)
      | (cases h; exact h2)
      | exact writeMrc721_inv7 hid hp2 hfresh h2 h
      | exact OwnInv_osteps (writeMrc20_o h) h2

theorem addInscriptions_inv7 (block : HookBlock) :
    ∀ (l : List HookInscription) (s s1 : Store), (∀ i ∈ l, NoColon i.ID) →
      OwnInv s → addInscriptions block l s = .ok s1 → OwnInv s1
  | [], s, s1, _, hinv, h => by
    unfold addInscriptions at h
    cases h
    exact hinv
  | i :: rest, s, s1, hl, hinv, h => by
    unfold addInscriptions at h
    split at h
    · cases h
    · rename_i s2 h2
      exact addInscriptions_inv7 block rest s2 s1
        (fun j hj => hl j (List.mem_cons_of_mem _ hj))
        (addInscription_inv7 (hl i (List.mem_cons_self _ _)) hinv h2) h

theorem addTransfer_inv7 {s s1 : Store} {t : HookTransfer} (hid : NoColon t.ID)
    (hinv : OwnInv s) (h : addTransfer s t = .ok s1) : OwnInv s1 := by
  have fin : ∀ (sa : Store) (a : String), transfer721 s t a = .ok sa →
      transfer20 sa t a = .ok s1 → OwnInv s1 := fun sa a h1 h2 =>
    OwnInv_osteps (transfer20_o h2) (transfer721_inv7 hid hinv h1)
  unfold addTransfer at h
  repeat' split at h
  all_goals
    first
    | cases h; done
    | cases h; exact hinv
    | exact fin _ _ (by assumption) h

theorem addTransfers_inv7 :
    ∀ (l : List HookTransfer) (s s1 : Store), (∀ t ∈ l, NoColon t.ID) → OwnInv s →
      addTransfers l s = .ok s1 → OwnInv s1
  | [], s, s1, _, hinv, h => by
    unfold addTransfers at h
    cases h
    exact hinv
  | i :: rest, s, s1, hl, hinv, h => by
    unfold addTransfers at h
    split at h
    · cases h
    · rename_i s2 h2
      exact addTransfers_inv7 rest s2 s1 (fun j hj => hl j (List.mem_cons_of_mem _ hj))
        (addTransfer_inv7 (hl i (List.mem_cons_self _ _)) hinv h2) h

theorem applyBlock_inv7 {s s1 : Store} {block : HookBlock} (hw : PlainIds block)
    (hinv : OwnInv s) (h : applyBlock s block = .ok s1) : OwnInv s1 := by
  unfold applyBlock at h
  simp only [bind, Except.bind, pure, Except.pure] at h
  split at h
  · cases h
  · rename_i a ha1
    split at h
    · cases h
    · rename_i b hb
      split at h
      · cases h
      · rename_i c hc1
        split at h
        · cases h
        · rename_i d hd
          cases h
          have h1 := addInscriptions_inv7 block _ _ _ hw.1 hinv ha1
          have h2 := addTransfers_inv7 _ _ _ hw.2 h1 hb
          have h3 := OwnInv_osteps (mineCollections_o block _ _ _ hc1) h2
          have h4 : OwnInv d := by
            unfold lotteryWithBlockHash at hd
            split at hd
            · cases hd; exact h3
            · exact OwnInv_osteps (lotteryCollections_o block _ _ _ hd) h3
          refine OwnInv_osteps ?_ h4
          repeat (first
            | exact OSteps.refl _
            | refine OSteps.set _ _ ?_
                (by repeat (first | exact (by decide) | apply OwnSettable_append)))

theorem applyBlocks_inv7 :
    ∀ (l : List HookBlock) (s s1 : Store), (∀ b ∈ l, PlainIds b) → OwnInv s →
      applyBlocks l s = .ok s1 → OwnInv s1
  | [], s, s1, _, hinv, h => by
    unfold applyBlocks at h
    cases h
    exact hinv
  | b :: rest, s, s1, hl, hinv, h => by
    unfold applyBlocks at h
    split at h
    · cases h
    · rename_i s2 h2
      exact applyBlocks_inv7 rest s2 s1 (fun x hx => hl x (List.mem_cons_of_mem _ hx))
        (applyBlock_inv7 (hl b (List.mem_cons_self _ _)) hinv h2) h

theorem gapLoop_no_transfers (current : Int) :
    ∀ (fuel : Nat) (h : Int), ∀ b ∈ gapLoop current fuel h, b.Transfers = []
  | 0, _, b, hb => by simp [gapLoop] at hb
  | fuel + 1, h, b, hb => by
    unfold gapLoop at hb
    split at hb
    · rcases List.mem_cons.mp hb with e | e
      · rw [e]; rfl
      · exact gapLoop_no_transfers current fuel (h + 1) b e
    · cases hb

theorem fillMissingBlocks_ids {s : Store} {block : HookBlock} {blocks : List HookBlock}
    (hw : PlainIds block) (h : fillMissingBlocks s block = .ok blocks) :
    ∀ b ∈ blocks, PlainIds b := by
  have hgap : ∀ cur fuel h0, ∀ b ∈ gapLoop cur fuel h0, PlainIds b := by
    intro cur fuel h0 b hb
    refine ⟨fun i hi => ?_, fun t ht => ?_⟩
    · rw [gapLoop_plain _ _ _ b hb] at hi
      cases hi
    · rw [gapLoop_no_transfers _ _ _ b hb] at ht
      cases ht
  unfold fillMissingBlocks at h
  repeat' split at h
  all_goals first
    | (cases h; done)
    | (cases h
       intro b hb
       rcases List.mem_append.mp hb with e | e
       · exact hgap _ _ _ b e
       · rw [List.mem_singleton.mp e]
         exact hw)
    | (cases h
       intro b hb
       rw [List.mem_singleton.mp hb]
       exact hw)

theorem filterBlockData_ids {s : Store} {e : HookBlock} (hw : PlainIds e) :
    PlainIds (filterBlockData s e) :=
  ⟨hw.1, fun t ht => hw.2 t (List.mem_filter.mp ht).1⟩

theorem WriteBlock_inv7 (s : Store) (e : HookBlock) (hw : PlainIds e) (hinv : OwnInv s) :
    OwnInv (WriteBlock s e).2 := by
  have hw2 := filterBlockData_ids (s := s) hw
  unfold WriteBlock writeBlockTxn
  repeat' split
  all_goals first
    | exact hinv
    | (rename_i heq
       repeat' split at heq
       all_goals first
         | (cases heq; done)
         | (cases heq
            have hb := fillMissingBlocks_ids hw2 (by assumption)
            exact applyBlocks_inv7 _ _ _ hb hinv (by assumption)))

theorem ReachableBy_inv7 {s : Store} (hr : ReachableBy PlainIds s) : OwnInv s := by
  induction hr with
  | empty =>
    intro id _
    exact ⟨fun a b ha _ => absurd rfl ha, fun a => ⟨fun h => absurd rfl h, fun h => absurd rfl h⟩,
      fun ⟨_, h⟩ => absurd rfl h, fun ⟨_, h⟩ => absurd rfl h⟩
  | step s e _ hw ih => exact WriteBlock_inv7 s e hw ih

/-! ## Owner indexes -/

/-- C7, counterexample. Inscription ids are not checked for `::`: with members `x` (owner
`B`) and `x::y` (owner `A`), the store holds two keys of the form
`mrc721::inscr_addr::x::<addr>`, for `addr = B` and for `addr = y::A`. -/
theorem two_owner_keys_on_colon_id :
    allSucceed colonIdBlocks [] = true ∧
    kvGet colonIdStore ("mrc721::name_inscr::" ++ "DEMO" ++ "::" ++ "x") ≠ none ∧
    kvGet colonIdStore ("mrc721::inscr_addr::" ++ "x" ++ "::" ++ "B") ≠ none ∧
    kvGet colonIdStore ("mrc721::inscr_addr::" ++ "x" ++ "::" ++ "y::A") ≠ none := by
  decide

/-- C7, amended. In every store reachable by `WriteBlock` calls on events whose inscription
ids and transfer ids contain no colon, every colon-free inscription id that is a member of a
collection (it has a `mrc721::name_inscr::<NAME>::<id>` key) has exactly one key
`mrc721::inscr_addr::<id>::<addr>`, and a key `mrc721::addr_inscr::<a>::<id>` exists if and
only if `a` is that `addr`. -/
theorem owner_index_unique (s : Store) (hr : ReachableBy PlainIds s) (id name : String)
    (hid : NoColon id)
    (hm : kvGet s ("mrc721::name_inscr::" ++ name ++ "::" ++ id) ≠ none) :
    ∃ addr, kvGet s ("mrc721::inscr_addr::" ++ id ++ "::" ++ addr) ≠ none ∧
      (∀ a, kvGet s ("mrc721::inscr_addr::" ++ id ++ "::" ++ a) ≠ none → a = addr) ∧
      ∀ a, kvGet s ("mrc721::addr_inscr::" ++ a ++ "::" ++ id) ≠ none ↔ a = addr := by
  obtain ⟨h1, h2, h3, _⟩ := ReachableBy_inv7 hr id hid
  obtain ⟨addr, ha⟩ := h3 ⟨name, hm⟩
  refine ⟨addr, ha, fun a h => h1 a addr h ha, fun a => ?_⟩
  rw [h2 a]
  exact ⟨fun h => h1 a addr h ha, fun e => by rw [e]; exact ha⟩

theorem owner_index_unique_witness :
    allSucceed ownBlocks [] = true ∧
    kvGet ownStore ("mrc721::inscr_addr::" ++ "m1" ++ "::" ++ "B") ≠ none ∧
    kvGet ownStore ("mrc721::inscr_addr::" ++ "m1" ++ "::" ++ "A") = none ∧
    ∃ addr, kvGet ownStore ("mrc721::inscr_addr::" ++ "m1" ++ "::" ++ addr) ≠ none ∧
      (∀ a, kvGet ownStore ("mrc721::inscr_addr::" ++ "m1" ++ "::" ++ a) ≠ none → a = addr) ∧
      ∀ a, kvGet ownStore ("mrc721::addr_inscr::" ++ a ++ "::" ++ "m1") ≠ none ↔ a = addr :=
  ⟨by decide, by decide, by decide,
    owner_index_unique ownStore
      (ReachableBy_writeBlocks ownBlocks [] (by decide) ReachableBy.empty)
      "m1" "DEMO" (by decide) (by decide)⟩

/-! ## Proportional shares -/

theorem foldl_add_eq_sum {α : Type} (f : α → Int) :
    ∀ (l : List α) (a : Int), l.foldl (fun acc m => acc + f m) a = a + (l.map f).sum
  | [], a => by simp
  | x :: xs, a => by
    simp only [List.foldl_cons, List.map_cons, List.sum_cons]
    rw [foldl_add_eq_sum f xs]
    ring

theorem share_sum_bounds (M S : Int) (hS : 0 < S) :
    ∀ l : List Mrc721MinerData,
      S * (l.map (fun m => M * m.Power / S)).sum ≤ M * (l.map (fun m => m.Power)).sum ∧
      M * (l.map (fun m => m.Power)).sum
        ≤ S * (l.map (fun m => M * m.Power / S)).sum + (l.length : Int) * (S - 1)
  | [] => by simp
  | x :: xs => by
    obtain ⟨h1, h2⟩ := share_sum_bounds M S hS xs
    simp only [List.map_cons, List.sum_cons, List.length_cons, Nat.cast_add, Nat.cast_one]
    have e := Int.ediv_add_emod (M * x.Power) S
    have r0 := Int.emod_nonneg (M * x.Power) (ne_of_gt hS)
    have r1 := Int.emod_lt_of_pos (M * x.Power) hS
    constructor
    · nlinarith
    · nlinarith

/-- C11. When the total power `S` is positive and the amount `M` is at least the number of
miners, `powerRewards` sets every miner's `MinedAmount` to the decimal text of
`floor(M * p / S)` and returns the residual `M - Σ floor(M * p / S)`, which is at least 0
and less than the number of miners. -/
theorem powerRewards_proportional (M : Int) (miners : List Mrc721MinerData)
    (hS : 0 < (miners.map (fun m => m.Power)).sum) (hM : (miners.length : Int) ≤ M) :
    (powerRewards M miners).2 = miners.map (fun m =>
      { m with
        MinedAmount := intToDec (⌊((M * m.Power : ℤ) : ℚ) /
          (((miners.map (fun m => m.Power)).sum : ℤ) : ℚ)⌋) }) ∧
    (powerRewards M miners).1 = M - (miners.map (fun m =>
        ⌊((M * m.Power : ℤ) : ℚ) / (((miners.map (fun m => m.Power)).sum : ℤ) : ℚ)⌋)).sum ∧
    0 ≤ (powerRewards M miners).1 ∧ (powerRewards M miners).1 < (miners.length : Int) := by
  have hfl : ∀ m : Mrc721MinerData,
      ⌊((M * m.Power : ℤ) : ℚ) / (((miners.map (fun m => m.Power)).sum : ℤ) : ℚ)⌋
        = M * m.Power / (miners.map (fun m => m.Power)).sum :=
    fun m => floor_div_pos _ _ hS
  simp only [hfl]
  have hlen : 0 < miners.length := by
    cases miners with
    | nil => simp at hS
    | cons x xs => simp
  have hM0 : M ≠ 0 := by omega
  have hfold : miners.foldl (fun acc m => acc + m.Power) 0
      = (miners.map (fun m => m.Power)).sum := by
    rw [foldl_add_eq_sum (fun m : Mrc721MinerData => m.Power)]
    simp
  have hres : (powerRewards M miners).1 = M - (miners.map (fun m =>
      M * m.Power / (miners.map (fun m => m.Power)).sum)).sum ∧
      (powerRewards M miners).2 = miners.map (fun m =>
        { m with MinedAmount := intToDec (M * m.Power / (miners.map (fun m => m.Power)).sum) }) := by
    unfold powerRewards
    rw [if_neg hM0]
    simp only [hfold]
    rw [if_neg (ne_of_gt hS), if_pos (ge_iff_le.mpr hM)]
    simp only
    rw [foldl_add_eq_sum (fun m : Mrc721MinerData =>
      M * m.Power / (miners.map (fun m => m.Power)).sum)]
    simp
  obtain ⟨b1, b2⟩ := share_sum_bounds M _ hS miners
  refine ⟨hres.2, hres.1, ?_, ?_⟩
  · rw [hres.1]
    have : (miners.map (fun m => m.Power)).sum
        * (miners.map (fun m => M * m.Power / (miners.map (fun m => m.Power)).sum)).sum
        ≤ (miners.map (fun m => m.Power)).sum * M := by linarith
    have := le_of_mul_le_mul_left this hS
    linarith
  · rw [hres.1]
    have hl : (0 : Int) < (miners.length : Int) := by exact_mod_cast hlen
    have : (miners.map (fun m => m.Power)).sum
        * (M - (miners.map (fun m => M * m.Power / (miners.map (fun m => m.Power)).sum)).sum)
        < (miners.map (fun m => m.Power)).sum * (miners.length : Int) := by nlinarith
    exact lt_of_mul_lt_mul_left this hS.le

theorem powerRewards_proportional_witness :
    (powerRewards 1000 threeMiners).2.map (fun m => m.MinedAmount) = ["285", "428", "285"] ∧
    (powerRewards 1000 threeMiners).1 = 2 ∧
    0 ≤ (powerRewards 1000 threeMiners).1 ∧
    (powerRewards 1000 threeMiners).1 < (threeMiners.length : Int) :=
  have h := powerRewards_proportional 1000 threeMiners (by decide) (by decide)
  ⟨by decide, by decide, h.2.2.1, h.2.2.2⟩

/-! ## Scarce amounts -/

theorem minerLess_iff (a b : Mrc721MinerData) : minerLess a b = true ↔ MinerBefore a b := by
  unfold minerLess MinerBefore
  by_cases h : a.Power = b.Power
  · simp [h]
  · simp [h]

theorem MinerBefore_trans {a b c : Mrc721MinerData} (h1 : MinerBefore a b)
    (h2 : MinerBefore b c) : MinerBefore a c := by
  unfold MinerBefore at *
  omega

theorem MinerBefore_total {a b : Mrc721MinerData}
    (hne : a.InscriptionsNumber ≠ b.InscriptionsNumber) (h : ¬ MinerBefore a b) :
    MinerBefore b a := by
  unfold MinerBefore at *
  omega

theorem insertMiner_perm (m : Mrc721MinerData) :
    ∀ l : List Mrc721MinerData, (insertMiner m l).Perm (m :: l)
  | [] => List.Perm.refl _
  | x :: xs => by
    unfold insertMiner
    split
    · exact ((insertMiner_perm m xs).cons x).trans (List.Perm.swap m x xs)
    · exact List.Perm.refl _

theorem sortMiners_perm : ∀ l : List Mrc721MinerData, (sortMiners l).Perm l
  | [] => List.Perm.refl _
  | x :: xs => by
    unfold sortMiners
    exact (insertMiner_perm x (sortMiners xs)).trans ((sortMiners_perm xs).cons x)

theorem insertMiner_sorted (m : Mrc721MinerData) :
    ∀ l : List Mrc721MinerData, (∀ x ∈ l, m.InscriptionsNumber ≠ x.InscriptionsNumber) →
      l.Pairwise MinerBefore → (insertMiner m l).Pairwise MinerBefore
  | [], _, _ => List.pairwise_singleton _ _
  | x :: xs, hne, hs => by
    rw [List.pairwise_cons] at hs
    unfold insertMiner
    split
    · rename_i hlt
      refine List.pairwise_cons.mpr ⟨fun y hy => ?_, insertMiner_sorted m xs
        (fun y hy => hne y (List.mem_cons_of_mem _ hy)) hs.2⟩
      rcases List.mem_cons.mp ((insertMiner_perm m xs).subset hy) with e | e
      · rw [e]; exact (minerLess_iff _ _).mp hlt
      · exact hs.1 y e
    · rename_i hlt
      have hmx : MinerBefore m x :=
        MinerBefore_total (fun e => hne x (List.mem_cons_self _ _) e.symm)
          (fun h => hlt ((minerLess_iff _ _).mpr h))
      refine List.pairwise_cons.mpr ⟨fun y hy => ?_, List.pairwise_cons.mpr hs⟩
      rcases List.mem_cons.mp hy with e | e
      · rw [e]; exact hmx
      · exact MinerBefore_trans hmx (hs.1 y e)

theorem sortMiners_sorted : ∀ l : List Mrc721MinerData,
    (l.map (fun m => m.InscriptionsNumber)).Nodup → (sortMiners l).Pairwise MinerBefore
  | [], _ => List.Pairwise.nil
  | x :: xs, hn => by
    simp only [List.map_cons, List.nodup_cons] at hn
    unfold sortMiners
    refine insertMiner_sorted x _ (fun y hy e => ?_) (sortMiners_sorted xs hn.2)
    exact hn.1 (by
      rw [e]
      exact List.mem_map_of_mem _ ((sortMiners_perm xs).subset hy))

theorem awardLoop_take : ∀ (l : List Mrc721MinerData) (k : Nat), 0 < k → k ≤ l.length →
    awardLoop l (k : Int) = ((l.take k).map (fun m => m.InscriptionsID), 0)
  | [], k, h0, hk => by simp at hk; omega
  | m :: rest, k + 1, _, hk => by
    unfold awardLoop
    simp only [Nat.cast_add, Nat.cast_one, add_sub_cancel_right, List.take_succ_cons,
      List.map_cons]
    by_cases hk0 : k = 0
    · subst hk0
      simp
    · have hne : ¬ ((k : Int) = 0) := by exact_mod_cast hk0
      rw [if_neg hne]
      rw [awardLoop_take rest k (Nat.pos_of_ne_zero hk0) (by simpa using hk)]

/-- C12. When the total power is positive, the miners have pairwise distinct inscription
numbers (and, being a map, distinct ids) and `0 < M < number of miners`, `powerRewards` sets
`MinedAmount` to `"1"` for exactly the first `M` miners of the order (power descending,
inscription number ascending), leaves every other miner as it was, and returns residual 0;
the order is the sorted permutation of the miners. -/
theorem powerRewards_scarce (M : Int) (miners : List Mrc721MinerData)
    (hS : 0 < (miners.map (fun m => m.Power)).sum) (hM0 : 0 < M)
    (hM : M < (miners.length : Int))
    (hnum : (miners.map (fun m => m.InscriptionsNumber)).Nodup)
    (hid : (miners.map (fun m => m.InscriptionsID)).Nodup) :
    (powerRewards M miners).1 = 0 ∧
    (powerRewards M miners).2 = miners.map (fun m =>
      if m ∈ (sortMiners miners).take M.toNat then { m with MinedAmount := "1" } else m) ∧
    (sortMiners miners).Perm miners ∧ (sortMiners miners).Pairwise MinerBefore := by
  have hperm := sortMiners_perm miners
  have hfold : miners.foldl (fun acc m => acc + m.Power) 0
      = (miners.map (fun m => m.Power)).sum := by
    rw [foldl_add_eq_sum (fun m : Mrc721MinerData => m.Power)]
    simp
  have hk : (M.toNat : Int) = M := Int.toNat_of_nonneg hM0.le
  have haw : awardLoop (sortMiners miners) M
      = (((sortMiners miners).take M.toNat).map (fun m => m.InscriptionsID), 0) := by
    have := awardLoop_take (sortMiners miners) M.toNat (by omega)
      (by rw [hperm.length_eq]; omega)
    rw [hk] at this
    exact this
  have hpr : powerRewards M miners = (0, miners.map (fun m =>
      if m.InscriptionsID ∈ ((sortMiners miners).take M.toNat).map (fun m => m.InscriptionsID)
      then { m with MinedAmount := "1" } else m)) := by
    unfold powerRewards
    rw [if_neg (ne_of_gt hM0)]
    simp only [hfold]
    rw [if_neg (ne_of_gt hS), if_neg (by omega)]
    simp only [haw]
  refine ⟨by rw [hpr], ?_, hperm, sortMiners_sorted miners hnum⟩
  rw [hpr]
  simp only
  apply List.map_congr_left
  intro m hm
  have hmem : m.InscriptionsID ∈
      ((sortMiners miners).take M.toNat).map (fun m => m.InscriptionsID) ↔
      m ∈ (sortMiners miners).take M.toNat := by
    constructor
    · intro h
      obtain ⟨m1, hm1, e⟩ := List.mem_map.mp h
      have hm1s : m1 ∈ miners := hperm.subset (List.mem_of_mem_take hm1)
      have : m1 = m := List.inj_on_of_nodup_map hid hm1s hm e
      rw [← this]
      exact hm1
    · exact fun h => List.mem_map_of_mem _ h
  by_cases h : m ∈ (sortMiners miners).take M.toNat
  · rw [if_pos h, if_pos (hmem.mpr h)]
  · rw [if_neg h, if_neg (fun h1 => h (hmem.mp h1))]

theorem powerRewards_scarce_witness :
    (powerRewards 2 threeMiners).1 = 0 ∧
    (powerRewards 2 threeMiners).2.map (fun m => m.MinedAmount) = ["1", "1", "0"] ∧
    (sortMiners threeMiners).map (fun m => m.InscriptionsID) = ["m1", "g0", "m3"] ∧
    (powerRewards 2 threeMiners).2 = threeMiners.map (fun m =>
      if m ∈ (sortMiners threeMiners).take (2 : Int).toNat then { m with MinedAmount := "1" }
      else m) :=
  have h := powerRewards_scarce 2 threeMiners (by decide) (by decide) (by decide)
    (by decide) (by decide)
  ⟨h.1, by decide, by decide, h.2.1⟩

/-! ## Two equal miners -/

/-- C13, counterexample. With two miners of equal power and `per_block = 1` the amount is
below the number of miners, so `powerRewards` takes its one-token-each branch: the first
miner in order receives 1 and the residual is 0 (not 0 each with residual 1). -/
theorem two_equal_miners_one_token :
    (powerRewards 1 twoMiners).1 = 0 ∧
    (powerRewards 1 twoMiners).2.map (fun m => m.MinedAmount) = ["1", "0"] := by
  decide

/-- C13, amended. For two miners of equal positive power: every amount `per_block ≥ 2` gives
each miner `floor(per_block / 2)` and leaves the residual `per_block mod 2`; for
`per_block = 1` the miner with the smaller inscription number receives 1, the other miner is
untouched and the residual is 0. -/
theorem powerRewards_two_equal (a b : Mrc721MinerData) (hp : a.Power = b.Power)
    (hpos : 0 < a.Power) :
    (∀ M : Int, 2 ≤ M →
      powerRewards M [a, b] =
        (M % 2, [{ a with MinedAmount := intToDec (⌊((M : ℤ) : ℚ) / 2⌋) },
                 { b with MinedAmount := intToDec (⌊((M : ℤ) : ℚ) / 2⌋) }])) ∧
    (a.InscriptionsNumber < b.InscriptionsNumber → a.InscriptionsID ≠ b.InscriptionsID →
      powerRewards 1 [a, b] = (0, [{ a with MinedAmount := "1" }, b])) ∧
    (b.InscriptionsNumber < a.InscriptionsNumber → a.InscriptionsID ≠ b.InscriptionsID →
      powerRewards 1 [a, b] = (0, [a, { b with MinedAmount := "1" }])) := by
  have hsum : (0 : Int) + a.Power + b.Power ≠ 0 := by omega
  refine ⟨fun M hM => ?_, fun hn hid => ?_, fun hn hid => ?_⟩
  · have hfl : ⌊((M : ℤ) : ℚ) / 2⌋ = M / 2 := by
      have := floor_div_pos M 2 (by decide)
      simpa using this
    have hd : ∀ p : Int, 0 < p → M * p / (0 + p + p) = M / 2 := by
      intro p h
      have : (0 : Int) + p + p = 2 * p := by ring
      rw [this]
      exact Int.mul_ediv_mul_of_pos_left M 2 h
    unfold powerRewards
    rw [if_neg (by omega)]
    simp only [List.foldl_cons, List.foldl_nil, List.length_cons, List.length_nil,
      List.map_cons, List.map_nil]
    rw [if_neg hsum, if_pos (by simp; omega)]
    rw [hfl, ← hp, hd a.Power hpos]
    simp only [Prod.mk.injEq, and_true]
    omega
  · have hless : minerLess b a = false := by
      unfold minerLess
      rw [if_pos hp.symm]
      simp only [decide_eq_false_iff_not]
      omega
    unfold powerRewards
    rw [if_neg (by decide)]
    simp only [List.foldl_cons, List.foldl_nil, List.length_cons, List.length_nil,
      List.map_cons, List.map_nil]
    rw [if_neg hsum, if_neg (by simp)]
    simp only [sortMiners, insertMiner, hless, awardLoop]
    simp [hid.symm]
  · have hless : minerLess b a = true := by
      unfold minerLess
      rw [if_pos hp.symm]
      simp only [decide_eq_true_eq]
      omega
    unfold powerRewards
    rw [if_neg (by decide)]
    simp only [List.foldl_cons, List.foldl_nil, List.length_cons, List.length_nil,
      List.map_cons, List.map_nil]
    rw [if_neg hsum, if_neg (by simp)]
    simp only [sortMiners, insertMiner, hless, awardLoop]
    simp [hid]

theorem powerRewards_two_equal_witness :
    powerRewards 125 twoMiners
      = (1, twoMiners.map (fun m => { m with MinedAmount := "62" })) ∧
    (∀ M : Int, 2 ≤ M →
      (powerRewards M twoMiners).1 = M % 2) :=
  have h := powerRewards_two_equal
    { InscriptionsID := "g0", InscriptionsNumber := 1, Address := "A", BurnNum := "0",
      Tick := "demo", MinedAmount := "0", Power := 1000 }
    { InscriptionsID := "m1", InscriptionsNumber := 2, Address := "B", BurnNum := "0",
      Tick := "demo", MinedAmount := "0", Power := 1000 } rfl (by decide)
  ⟨by decide, fun M hM => by
    have := h.1 M hM
    exact congrArg Prod.fst this⟩

/-! ## Burn power and block hashes -/

/-- C14: a member that was never burned on gets the power 1400, not 1000, when
`burn.unit = 10` and `burn.boost = 0.100`: the miner map's default burn text `"0"` is read
with `SetBytes`, which gives 48. A recorded burn amount of 50 gives 1500. -/
theorem unburned_member_power_is_boosted :
    allSucceed burnBlocks [] = true ∧
    kvGet burnStore "mrc721::burn::g0" = none ∧
    kvGet burnStore "mrc721::inscr_power::g0" = some (Val.raw (bigBytes 1400)) ∧
    SetBytes "0" = 48 ∧
    (applyBurnPower (SetString10 "10") (stringToPercentageBigInt "0.100") [burnedMiner]).toOption
      = some [{ burnedMiner with Power := 1500 }] := by
  decide

theorem digitsValBase_hex : ∀ (cs : List Char) (acc : Nat),
    (∀ c ∈ cs, (hexVal c).isSome = true) →
    digitsValBase hexVal 16 cs acc
      = some (cs.foldl (fun a c => a * 16 + (hexVal c).getD 0) acc)
  | [], _, _ => rfl
  | c :: cs, acc, h => by
    have hc := h c (List.mem_cons_self _ _)
    obtain ⟨d, hd⟩ := Option.isSome_iff_exists.mp hc
    have hlt : d < 16 := by
      unfold hexVal at hd
      split at hd
      · rename_i d0 hd0
        cases hd
        unfold digitVal at hd0
        repeat' split at hd0
        all_goals first | (cases hd0; omega) | cases hd0
      · repeat' split at hd
        all_goals first | (cases hd; omega) | cases hd
    unfold digitsValBase
    simp only [hd, hlt, if_true, List.foldl_cons, Option.getD_some]
    exact digitsValBase_hex cs _ (fun x hx => h x (List.mem_cons_of_mem _ hx))

theorem SetString16_hex (cs : List Char) (h : IsHex cs) :
    SetString16 ⟨cs⟩ = some (hexValue cs : Int) := by
  obtain ⟨hne, hall⟩ := h
  have hp : parseNatBase 16 cs = some (hexValue cs) := by
    unfold parseNatBase
    cases cs with
    | nil => exact absurd rfl hne
    | cons c rest => exact digitsValBase_hex _ 0 hall
  cases cs with
  | nil => exact absurd rfl hne
  | cons c rest =>
    have hc := hall c (List.mem_cons_self _ _)
    have h1 : c ≠ '-' := by
      intro e
      rw [e] at hc
      revert hc
      decide
    have h2 : c ≠ '+' := by
      intro e
      rw [e] at hc
      revert hc
      decide
    unfold SetString16
    split
    · rename_i cs1 heq
      simp only [List.cons.injEq] at heq
      exact absurd heq.1 h1
    · rename_i cs1 heq
      simp only [List.cons.injEq] at heq
      exact absurd heq.1 h2
    · rw [hp]
      rfl

theorem convertHashToBigInt_hex (cs : List Char) (h : IsHex cs) (limit : Int) (hl : 1 ≤ limit) :
    convertHashToBigInt ⟨cs⟩ limit = .ok ((hexValue cs : Int) % limit) ∧
    convertHashToBigInt ⟨'0' :: 'x' :: cs⟩ limit = .ok ((hexValue cs : Int) % limit) ∧
    0 ≤ (hexValue cs : Int) % limit ∧ (hexValue cs : Int) % limit < limit ∧
    ∀ hash : String, convertHashToBigInt hash 0 = .error "convertHashToBigInt limit = 0" := by
  have h0 : limit ≠ 0 := by omega
  refine ⟨?_, ?_, Int.emod_nonneg _ h0, Int.emod_lt_of_pos _ (by omega), fun hash => ?_⟩
  · unfold convertHashToBigInt
    rw [if_neg h0]
    by_cases h1 : limit = 1
    · rw [if_pos h1, h1]
      simp
    · rw [if_neg h1]
      have hs : ∀ x : String, x = ⟨cs⟩ →
          (match SetString16 x with
            | none => (Except.error "invalid hash format" : Except String Int)
            | some hashInt => Except.ok (hashInt % limit))
          = .ok ((hexValue cs : Int) % limit) := by
        intro x hx
        rw [hx, SetString16_hex cs h]
      apply hs
      show (match cs with
          | '0' :: 'x' :: rest => (⟨rest⟩ : String)
          | _ => ⟨cs⟩) = ⟨cs⟩
      split
      · rename_i rest
        have hc : (hexVal 'x').isSome = true := h.2 'x' (by simp)
        exact absurd hc (by decide)
      · rfl
  · unfold convertHashToBigInt
    rw [if_neg h0]
    by_cases h1 : limit = 1
    · rw [if_pos h1, h1]
      simp
    · rw [if_neg h1]
      simp only [SetString16_hex cs h]
  · unfold convertHashToBigInt
    rw [if_pos rfl]

/-! ## Lottery -/

theorem lotteryCollection_draw_core {s : Store} {block : HookBlock} {key : String}
    {g : Mrc721GenesisData} {hook : HookInscription} {c : Content} {proto : MRC721Protocol}
    {ltry : Lottery} {gh ch iv roll luck P bal : Int} {luckID : String}
    (hpool : g.PrizePoolTokens ≠ "0")
    (hk : kvGet s ("inscr::" ++ g.ID) = some (Val.inscr hook))
    (hc : hook.ContentByte = some c) (hp : ParseMRC721Protocol c = .ok proto)
    (hl : proto.Ltry = some ltry)
    (hgh : SetString10 g.BlockHeight = some gh) (hch : SetString10 block.BlockHeight = some ch)
    (hne : ch - gh ≠ 0) (hiv : SetString10 ltry.Intvl = some iv) (hiv0 : iv ≠ 0)
    (hmod : Int.tmod (ch - gh) iv = 0)
    (hroll : convertHashToBigInt block.BlockHash 1000 = .ok roll)
    (hwin : roll ≤ stringToPercentageBigInt ltry.Winp)
    (hluck : convertHashToBigInt block.BlockHash g.InscriptionsCount = .ok luck)
    (hP : SetString10 g.PrizePoolTokens = some P)
    (hid : kvGet s ("mrc721::count_inscr::" ++ dropPre key "mrc721::geninsc::" ++ "::"
      ++ intToDec luck) = some (Val.raw luckID))
    (haddr : (firstUnder s ("mrc721::inscr_addr::" ++ luckID ++ "::")).2 ≠ "")
    (hbal : lotteryBalance s ("mrc20::balance::"
      ++ (firstUnder s ("mrc721::inscr_addr::" ++ luckID ++ "::")).2 ++ "::"
      ++ proto.Token.Tick) = some bal) :
    lotteryCollection s block key (Val.genesis g)
      = .ok (drawResult s block (dropPre key "mrc721::geninsc::") g ltry proto.Token.Tick luckID
          (firstUnder s ("mrc721::inscr_addr::" ++ luckID ++ "::")).2 bal P
          (P * stringToPercentageBigInt ltry.Dist / 1000)) := by
  unfold lotteryCollection
  simp only [bind, Except.bind, pure, Except.pure, asGenesis, hpool, if_false, hk, asInscr,
    contentOf, hc, hp, hl, need, hgh, hch, hne, hiv, hiv0, hmod, ne_eq, not_true_eq_false,
    hroll, hluck, hP, hid, asRaw, haddr, gt_iff_lt, not_lt.mpr hwin]
  unfold lotteryBalance at hbal
  unfold drawResult
  split at hbal
  · rename_i hnone
    cases hbal
    simp only [hnone]
    rfl
  · rename_i txt hsome
    simp only [hsome, asRaw, hbal]
  · cases hbal

theorem validateLottery_intvl {l : Lottery} (h : validateLottery l = true) :
    ∃ iv, SetString10 l.Intvl = some iv ∧ 1 ≤ iv := by
  unfold validateLottery at h
  repeat' split at h
  all_goals first
    | (cases h; done)
    | (rename_i iv hiv hr
       exact ⟨iv, hiv, by omega⟩)

theorem lotteryCollection_skip {s : Store} {block : HookBlock} {key : String}
    {g : Mrc721GenesisData} {hook : HookInscription} {c : Content} {proto : MRC721Protocol}
    {gh ch roll : Int}
    (hk : kvGet s ("inscr::" ++ g.ID) = some (Val.inscr hook))
    (hc : hook.ContentByte = some c) (hp : ParseMRC721Protocol c = .ok proto)
    (hv : ∀ l, proto.Ltry = some l → validateLottery l = true)
    (hgh : SetString10 g.BlockHeight = some gh) (hch : SetString10 block.BlockHeight = some ch)
    (hroll : convertHashToBigInt block.BlockHash 1000 = .ok roll)
    (hno : ¬ (g.PrizePoolTokens ≠ "0" ∧ ∃ l iv, proto.Ltry = some l ∧
      SetString10 l.Intvl = some iv ∧ ch - gh ≠ 0 ∧ Int.tmod (ch - gh) iv = 0 ∧
      roll ≤ stringToPercentageBigInt l.Winp)) :
    lotteryCollection s block key (Val.genesis g) = .ok s := by
  unfold lotteryCollection
  by_cases h0 : g.PrizePoolTokens = "0"
  · simp only [bind, Except.bind, pure, Except.pure, asGenesis, h0, if_true]
  · cases hl : proto.Ltry with
    | none =>
      simp only [bind, Except.bind, pure, Except.pure, asGenesis, h0, if_false, hk, asInscr,
        contentOf, hc, hp, hl]
    | some l =>
      obtain ⟨iv, hiv, hiv1⟩ := validateLottery_intvl (hv l hl)
      have hiv0 : iv ≠ 0 := by omega
      by_cases h1 : ch - gh = 0
      · simp only [bind, Except.bind, pure, Except.pure, asGenesis, h0, if_false, hk, asInscr,
          contentOf, hc, hp, hl, need, hgh, hch, h1, if_true]
      · by_cases h2 : Int.tmod (ch - gh) iv = 0
        · have h3 : ¬ roll ≤ stringToPercentageBigInt l.Winp := fun h3 =>
            hno ⟨h0, l, iv, hl, hiv, h1, h2, h3⟩
          simp only [bind, Except.bind, pure, Except.pure, asGenesis, h0, if_false, hk, asInscr,
            contentOf, hc, hp, hl, need, hgh, hch, h1, hiv, hiv0, h2, ne_eq,
            not_true_eq_false, hroll, gt_iff_lt, not_le.mp h3, if_true]
        · simp only [bind, Except.bind, pure, Except.pure, asGenesis, h0, if_false, hk, asInscr,
            contentOf, hc, hp, hl, need, hgh, hch, h1, hiv, hiv0, h2, ne_eq,
            not_false_eq_true, if_true]

theorem fam_ne_short {p q : String} (h : clash p.data q.data = true) (a b c : String) :
    p ++ a ++ "::" ++ b ≠ q ++ c := by
  rw [String.append_assoc, String.append_assoc]
  exact key_ne_of_clash h

theorem drawResult_reads (s : Store) (block : HookBlock) (name : String)
    (g : Mrc721GenesisData) (ltry : Lottery) (tick luckID addr : String) (bal P a : Int) :
    kvGet (drawResult s block name g ltry tick luckID addr bal P a)
        ("mrc20::balance::" ++ addr ++ "::" ++ tick) = some (Val.raw (intToDec (bal + a))) ∧
    kvGet (drawResult s block name g ltry tick luckID addr bal P a)
        ("mrc721::geninsc::" ++ name)
      = some (Val.genesis { g with PrizePoolTokens := intToDec (P - a),
                                   TotalPrizeRound := g.TotalPrizeRound + 1 }) ∧
    kvGet (drawResult s block name g ltry tick luckID addr bal P a)
        ("lottery::mrc721::" ++ name ++ "::" ++ intToDec (g.TotalPrizeRound + 1))
      = some (Val.lottery
          { BlockHeight := block.BlockHeight, BlockHash := block.BlockHash,
            BlockTimestamp := block.Timestamp, Address := addr, InscriptionID := luckID,
            Number := 0, Mrc721name := name, WinAmount := intToDec a,
            JackpotAccum := g.PrizePoolTokens, Round := g.TotalPrizeRound + 1,
            Winp := ltry.Winp, Dist := ltry.Dist }) ∧
    ∀ k, k ≠ "mrc20::balance::" ++ addr ++ "::" ++ tick → k ≠ "mrc721::geninsc::" ++ name →
      k ≠ "lottery::mrc721::" ++ name ++ "::" ++ intToDec (g.TotalPrizeRound + 1) →
      kvGet (drawResult s block name g ltry tick luckID addr bal P a) k = kvGet s k := by
  have h1 : "mrc20::balance::" ++ addr ++ "::" ++ tick ≠ "mrc721::geninsc::" ++ name :=
    fam_ne_short (by decide) _ _ _
  have h2 : "mrc20::balance::" ++ addr ++ "::" ++ tick
      ≠ "lottery::mrc721::" ++ name ++ "::" ++ intToDec (g.TotalPrizeRound + 1) :=
    fam_ne (by decide) _ _ _ _
  have h3 : "mrc721::geninsc::" ++ name
      ≠ "lottery::mrc721::" ++ name ++ "::" ++ intToDec (g.TotalPrizeRound + 1) :=
    fun e => fam_ne_short (p := "lottery::mrc721::") (q := "mrc721::geninsc::") (by decide)
      _ _ _ e.symm
  unfold drawResult
  refine ⟨?_, ?_, ?_, ?_⟩
  · rw [kvGet_kvSet_ne _ _ _ _ h2, kvGet_kvSet_ne _ _ _ _ h1, kvGet_kvSet_self]
  · rw [kvGet_kvSet_ne _ _ _ _ h3, kvGet_kvSet_self]
  · rw [kvGet_kvSet_self]
  · intro k k1 k2 k3
    rw [kvGet_kvSet_ne _ _ _ _ k3, kvGet_kvSet_ne _ _ _ _ k2, kvGet_kvSet_ne _ _ _ _ k1]

/-- C16 (a due draw that pays nothing). The collection of the scenario "lost owner" fulfils
every listed condition at block 101 (hash `ab` is not the zero sentinel, the pool holds 500,
the protocol has an `ltry` section with interval 1 and winp 1.000, one block has passed
since genesis, the roll 171 is at most 1000), yet the lottery does not change the store: the
winning inscription was admitted with an empty owner address, the draw returns
`no luck address found` and the block is rejected. In the scenario "second collection" the
collection `DEMO` has the owner `A` and the same record, and its own draw at block 101
succeeds; the draw of `ZZZ` then fails in the same way, the block is rejected, and `DEMO`
keeps its pool of 500 and its round counter 0. -/
theorem draw_fails_without_owner :
    drawBlock.BlockHash ≠ NO_INSCRIPTION_BLOCK_HASH ∧
    kvGet lostStore "mrc721::geninsc::DEMO"
      = some (Val.genesis { lotteryGenesis with GenesisAddress := "" }) ∧
    lotteryGenesis.PrizePoolTokens ≠ "0" ∧
    kvGet lostStore "inscr::g0"
      = some (Val.inscr (mkInscription "g0" 1 "" (genesisContent lotteryProtocol))) ∧
    ParseMRC721Protocol (genesisContent lotteryProtocol) = .ok lotteryProtocol ∧
    lotteryProtocol.Ltry
      = some { Pool := "0.500", Intvl := "1", Winp := "1.000", Dist := "0.600" } ∧
    SetString10 drawBlock.BlockHeight = some 101 ∧
    SetString10 lotteryGenesis.BlockHeight = some 100 ∧
    (0 : Int) < 101 - 100 ∧ ((101 - 100 : Int) % 1 = 0) ∧
    convertHashToBigInt drawBlock.BlockHash 1000 = .ok 171 ∧
    (171 : Int) ≤ stringToPercentageBigInt "1.000" ∧
    lotteryWithBlockHash lostStore drawBlock = .error "no luck address found" ∧
    WriteBlock lostStore drawBlock = (.error "no luck address found", lostStore) ∧
    kvGet pairStore "mrc721::geninsc::DEMO" = some (Val.genesis lotteryGenesis) ∧
    firstUnder pairStore "mrc721::inscr_addr::g0::" = ("mrc721::inscr_addr::g0::A", "A") ∧
    (lotteryCollection pairStore drawBlock "mrc721::geninsc::DEMO"
      (Val.genesis lotteryGenesis)).isOk = true ∧
    errorOf (lotteryWithBlockHash pairStore drawBlock) = some "no luck address found" ∧
    errorOf (WriteBlock pairStore drawBlock).1 = some "no luck address found" ∧
    (WriteBlock pairStore drawBlock).2 = pairStore :=
  ⟨by decide, by decide, by decide, by decide, by rfl, by decide, by decide, by decide,
    by decide, by decide, by rfl, by decide, by rfl, by rfl, by decide, by decide, by decide,
    by decide, by decide, by decide⟩

/-- When a draw pays. For a store whose only collection is `key` with a validated lottery
section, a block whose hash is hexadecimal and whose height is not below the genesis height,
and a winning inscription whose owner and balance resolve: `lotteryWithBlockHash` returns a
store, and that store differs from the input exactly when the hash is not the zero
sentinel, the pool text is not `0`, the protocol has an `ltry` section, at least one block
has passed since genesis, the number of blocks since genesis is a multiple of `ltry.intvl`,
and `hash mod 1000` is at most the winp permille. A winp of `1.000` admits every roll, and
a synthesized gap-fill block never changes the store. -/
theorem lottery_pays_iff {s : Store} {block : HookBlock} {key : String}
    {g : Mrc721GenesisData} {hook : HookInscription} {c : Content} {proto : MRC721Protocol}
    {gh ch P bal : Int} {cs : List Char} {luckID : String}
    (hscan : kvScan s "mrc721::geninsc::" = [(key, Val.genesis g)])
    (hg : kvGet s key = some (Val.genesis g))
    (hk : kvGet s ("inscr::" ++ g.ID) = some (Val.inscr hook))
    (hc : hook.ContentByte = some c) (hp : ParseMRC721Protocol c = .ok proto)
    (hv : ∀ l, proto.Ltry = some l → validateLottery l = true)
    (hgh : SetString10 g.BlockHeight = some gh) (hch : SetString10 block.BlockHeight = some ch)
    (hle : gh ≤ ch)
    (hx : IsHex cs) (hh : block.BlockHash = ⟨cs⟩ ∨ block.BlockHash = ⟨'0' :: 'x' :: cs⟩)
    (hcnt : 1 ≤ g.InscriptionsCount)
    (hP : SetString10 g.PrizePoolTokens = some P)
    (hid : kvGet s ("mrc721::count_inscr::" ++ dropPre key "mrc721::geninsc::" ++ "::"
      ++ intToDec ((hexValue cs : Int) % g.InscriptionsCount)) = some (Val.raw luckID))
    (haddr : (firstUnder s ("mrc721::inscr_addr::" ++ luckID ++ "::")).2 ≠ "")
    (hbal : lotteryBalance s ("mrc20::balance::"
      ++ (firstUnder s ("mrc721::inscr_addr::" ++ luckID ++ "::")).2 ++ "::"
      ++ proto.Token.Tick) = some bal) :
    (∃ s1, lotteryWithBlockHash s block = .ok s1 ∧
      (s1 ≠ s ↔
        (block.BlockHash ≠ NO_INSCRIPTION_BLOCK_HASH ∧ g.PrizePoolTokens ≠ "0" ∧
          ∃ l iv, proto.Ltry = some l ∧ SetString10 l.Intvl = some iv ∧ 0 < ch - gh ∧
            (ch - gh) % iv = 0 ∧
            (hexValue cs : Int) % 1000 ≤ stringToPercentageBigInt l.Winp))) ∧
    (hexValue cs : Int) % 1000 ≤ stringToPercentageBigInt "1.000" ∧
    ∀ (h : Int) (s0 : Store), lotteryWithBlockHash s0 (emptyBlock h) = .ok s0 := by
  have hmem : (key, Val.genesis g) ∈ kvScan s "mrc721::geninsc::" := by
    rw [hscan]
    exact List.mem_singleton_self _
  have hkey : "mrc721::geninsc::" ++ dropPre key "mrc721::geninsc::" = key :=
    HasPrefix_dropPre (kvScan_mem_HasPrefix hmem)
  have hroll : convertHashToBigInt block.BlockHash 1000 = .ok ((hexValue cs : Int) % 1000) := by
    rcases hh with e | e
    · rw [e]
      exact (convertHashToBigInt_hex cs hx 1000 (by decide)).1
    · rw [e]
      exact (convertHashToBigInt_hex cs hx 1000 (by decide)).2.1
  have hluck : convertHashToBigInt block.BlockHash g.InscriptionsCount
      = .ok ((hexValue cs : Int) % g.InscriptionsCount) := by
    rcases hh with e | e
    · rw [e]
      exact (convertHashToBigInt_hex cs hx _ hcnt).1
    · rw [e]
      exact (convertHashToBigInt_hex cs hx _ hcnt).2.1
  have hgap : ∀ (h : Int) (s0 : Store), lotteryWithBlockHash s0 (emptyBlock h) = .ok s0 := by
    intro h s0
    exact if_pos rfl
  have hw : (hexValue cs : Int) % 1000 ≤ stringToPercentageBigInt "1.000" := by
    have e : stringToPercentageBigInt "1.000" = 1000 := by decide
    rw [e]
    exact le_of_lt (Int.emod_lt_of_pos _ (by decide))
  refine ⟨?_, hw, hgap⟩
  by_cases hs : block.BlockHash = NO_INSCRIPTION_BLOCK_HASH
  · refine ⟨s, ?_, fun h => absurd rfl h, fun h => absurd hs h.1⟩
    unfold lotteryWithBlockHash
    rw [if_pos hs]
  · have hrun : lotteryWithBlockHash s block = lotteryCollection s block key (Val.genesis g) := by
      unfold lotteryWithBlockHash
      rw [if_neg hs, hscan]
      unfold lotteryCollections
      cases lotteryCollection s block key (Val.genesis g) <;> rfl
    by_cases hcond : g.PrizePoolTokens ≠ "0" ∧ ∃ l iv, proto.Ltry = some l ∧
        SetString10 l.Intvl = some iv ∧ ch - gh ≠ 0 ∧ Int.tmod (ch - gh) iv = 0 ∧
        (hexValue cs : Int) % 1000 ≤ stringToPercentageBigInt l.Winp
    · obtain ⟨h0, l, iv, hl, hiv, h1, h2, h3⟩ := hcond
      obtain ⟨iv1, hiv1, hpos⟩ := validateLottery_intvl (hv l hl)
      rw [hiv] at hiv1
      cases hiv1
      have hd := lotteryCollection_draw_core h0 hk hc hp hl hgh hch h1 hiv (by omega) h2 hroll
        h3 hluck hP hid haddr hbal
      refine ⟨_, hrun.trans hd, fun _ => ⟨hs, h0, l, iv, hl, hiv, by omega, ?_, h3⟩, fun _ e => ?_⟩
      · rw [← Int.tmod_eq_emod (by omega) (by omega)]
        exact h2
      · have hr := (drawResult_reads s block (dropPre key "mrc721::geninsc::") g l
          proto.Token.Tick luckID (firstUnder s ("mrc721::inscr_addr::" ++ luckID ++ "::")).2
          bal P (P * stringToPercentageBigInt l.Dist / 1000)).2.1
        rw [e, hkey, hg] at hr
        have hr2 := congrArg Mrc721GenesisData.TotalPrizeRound
          (Val.genesis.inj (Option.some.inj hr))
        simp only at hr2
        omega
    · have hd : lotteryCollection s block key (Val.genesis g) = .ok s :=
        lotteryCollection_skip hk hc hp hv hgh hch hroll hcond
      refine ⟨s, hrun.trans hd, fun h => absurd rfl h, fun h => absurd ?_ hcond⟩
      obtain ⟨_, h0, l, iv, hl, hiv, h1, h2, h3⟩ := h
      obtain ⟨iv1, hiv1, hpos⟩ := validateLottery_intvl (hv l hl)
      rw [hiv] at hiv1
      cases hiv1
      refine ⟨h0, l, iv, hl, hiv, by omega, ?_, h3⟩
      rw [Int.tmod_eq_emod (by omega) (by omega)]
      exact h2

theorem lottery_pays_iff_witness :
    (∃ s1, lotteryWithBlockHash lotteryStore drawBlock = .ok s1 ∧
      (s1 ≠ lotteryStore ↔
        (drawBlock.BlockHash ≠ NO_INSCRIPTION_BLOCK_HASH ∧
          lotteryGenesis.PrizePoolTokens ≠ "0" ∧
          ∃ l iv, lotteryProtocol.Ltry = some l ∧ SetString10 l.Intvl = some iv ∧
            (0 : Int) < 101 - 100 ∧ ((101 : Int) - 100) % iv = 0 ∧
            (hexValue "ab".data : Int) % 1000 ≤ stringToPercentageBigInt l.Winp))) ∧
    (hexValue "ab".data : Int) % 1000 ≤ stringToPercentageBigInt "1.000" ∧
    ∀ (h : Int) (s0 : Store), lotteryWithBlockHash s0 (emptyBlock h) = .ok s0 :=
  @lottery_pays_iff lotteryStore drawBlock "mrc721::geninsc::DEMO" lotteryGenesis lotteryHook
    (genesisContent lotteryProtocol) lotteryProtocol 100 101 500 500 "ab".data "g0"
    (by decide) (by decide) (by decide) (by decide) (by rfl) (by decide) (by decide)
    (by decide) (by decide) (by decide) (Or.inl rfl) (by decide) (by decide) (by decide)
    (by decide) (by decide)

/-- C17. For a non-empty hexadecimal hash `cs`, with or without a leading `0x`, and a limit
of at least 1, `convertHashToBigInt` returns the value of the hash modulo the limit, a number
in `[0, limit)`; for limit 0 it returns an error whatever the hash. A lottery draw on such a
hash rolls `hash mod 1000` against winp and pays the inscription stored at
`mrc721::count_inscr::<NAME>::<hash mod inscriptions_count>`: both numbers come from the
whole hash. -/
theorem convertHashToBigInt_mod (cs : List Char) (h : IsHex cs) (limit : Int) (hl : 1 ≤ limit) :
    convertHashToBigInt ⟨cs⟩ limit = .ok ((hexValue cs : Int) % limit) ∧
    convertHashToBigInt ⟨'0' :: 'x' :: cs⟩ limit = .ok ((hexValue cs : Int) % limit) ∧
    0 ≤ (hexValue cs : Int) % limit ∧ (hexValue cs : Int) % limit < limit ∧
    (∀ hash : String, convertHashToBigInt hash 0 = .error "convertHashToBigInt limit = 0") ∧
    ∀ (s : Store) (block : HookBlock) (key : String) (g : Mrc721GenesisData)
      (hook : HookInscription) (c : Content) (proto : MRC721Protocol) (ltry : Lottery)
      (gh ch iv P bal : Int) (luckID : String),
      (block.BlockHash = ⟨cs⟩ ∨ block.BlockHash = ⟨'0' :: 'x' :: cs⟩) →
      g.PrizePoolTokens ≠ "0" →
      kvGet s ("inscr::" ++ g.ID) = some (Val.inscr hook) →
      hook.ContentByte = some c → ParseMRC721Protocol c = .ok proto →
      proto.Ltry = some ltry →
      SetString10 g.BlockHeight = some gh → SetString10 block.BlockHeight = some ch →
      ch - gh ≠ 0 → SetString10 ltry.Intvl = some iv → iv ≠ 0 → Int.tmod (ch - gh) iv = 0 →
      (hexValue cs : Int) % 1000 ≤ stringToPercentageBigInt ltry.Winp →
      1 ≤ g.InscriptionsCount →
      SetString10 g.PrizePoolTokens = some P →
      kvGet s ("mrc721::count_inscr::" ++ dropPre key "mrc721::geninsc::" ++ "::"
        ++ intToDec ((hexValue cs : Int) % g.InscriptionsCount)) = some (Val.raw luckID) →
      (firstUnder s ("mrc721::inscr_addr::" ++ luckID ++ "::")).2 ≠ "" →
      lotteryBalance s ("mrc20::balance::"
        ++ (firstUnder s ("mrc721::inscr_addr::" ++ luckID ++ "::")).2 ++ "::"
        ++ proto.Token.Tick) = some bal →
      lotteryCollection s block key (Val.genesis g)
        = .ok (drawResult s block (dropPre key "mrc721::geninsc::") g ltry proto.Token.Tick
            luckID (firstUnder s ("mrc721::inscr_addr::" ++ luckID ++ "::")).2 bal P
            (P * stringToPercentageBigInt ltry.Dist / 1000)) := by
  obtain ⟨h1, h2, h3, h4, h5⟩ := convertHashToBigInt_hex cs h limit hl
  refine ⟨h1, h2, h3, h4, h5, ?_⟩
  intro s block key g hook c proto ltry gh ch iv P bal luckID hh h0 hk hc hp hlt hgh hch hne hiv
    hiv0 hmod hwin hcnt hP hid haddr hbal
  have hroll : convertHashToBigInt block.BlockHash 1000 = .ok ((hexValue cs : Int) % 1000) := by
    rcases hh with e | e
    · rw [e]
      exact (convertHashToBigInt_hex cs h 1000 (by decide)).1
    · rw [e]
      exact (convertHashToBigInt_hex cs h 1000 (by decide)).2.1
  have hluck : convertHashToBigInt block.BlockHash g.InscriptionsCount
      = .ok ((hexValue cs : Int) % g.InscriptionsCount) := by
    rcases hh with e | e
    · rw [e]
      exact (convertHashToBigInt_hex cs h _ hcnt).1
    · rw [e]
      exact (convertHashToBigInt_hex cs h _ hcnt).2.1
  exact lotteryCollection_draw_core h0 hk hc hp hlt hgh hch hne hiv hiv0 hmod hroll hwin hluck
    hP hid haddr hbal

theorem convertHashToBigInt_mod_witness :
    IsHex "1f4".data ∧ (1 : Int) ≤ 3 ∧
    convertHashToBigInt "1f4" 3 = .ok ((hexValue "1f4".data : Int) % 3) ∧
    convertHashToBigInt "0x1f4" 3 = .ok ((hexValue "1f4".data : Int) % 3) ∧
    (hexValue "1f4".data : Int) % 3 = 2 ∧
    (hexValue "ab".data : Int) % 1000 = 171 ∧
    lotteryCollection lotteryStore drawBlock "mrc721::geninsc::DEMO" (Val.genesis lotteryGenesis)
      = .ok (drawResult lotteryStore drawBlock "DEMO" lotteryGenesis
          { Pool := "0.500", Intvl := "1", Winp := "1.000", Dist := "0.600" } "demo" "g0" "A"
          500 500 300) :=
  ⟨by decide, by decide, (convertHashToBigInt_mod "1f4".data (by decide) 3 (by decide)).1,
    (convertHashToBigInt_mod "1f4".data (by decide) 3 (by decide)).2.1, by decide, by decide,
    (convertHashToBigInt_mod "ab".data (by decide) 1000 (by decide)).2.2.2.2.2
      lotteryStore drawBlock "mrc721::geninsc::DEMO" lotteryGenesis lotteryHook
      (genesisContent lotteryProtocol) lotteryProtocol
      { Pool := "0.500", Intvl := "1", Winp := "1.000", Dist := "0.600" } 100 101 1 500 500 "g0"
      (Or.inl rfl) (by decide) (by decide) (by decide) (by rfl) (by decide) (by decide)
      (by decide) (by decide) (by decide) (by decide) (by decide) (by decide) (by decide)
      (by decide) (by decide) (by decide) (by decide)⟩

/-- C18 (a draw on a negative pool). The payload of the scenario "negative pool"
(`beg = -10`) passes validation and both blocks are accepted; mining leaves the pool at
`-10`, and the winning draw of block 101 pays `-6` and leaves `prize_pool_tokens = -4`: the
pool after the draw is below zero. -/
theorem negative_pool_stays_negative :
    validateMRC721Data (some negPoolProtocol) = true ∧
    allSucceed negPoolBlocks [] = true ∧
    ((kvGet (writeBlocks negPoolBlocks []) "mrc721::geninsc::DEMO").map (fun v =>
        match v with
        | Val.genesis g => (g.PrizePoolTokens, g.TotalPrizeRound)
        | _ => ("", 0))) = some ("-4", 1) ∧
    ((kvGet (writeBlocks negPoolBlocks []) "lottery::mrc721::DEMO::1").map (fun v =>
        match v with
        | Val.lottery l => (l.JackpotAccum, l.WinAmount, l.Dist)
        | _ => ("", "", ""))) = some ("-10", "-6", "0.600") ∧
    SetString10 "-4" = some (-4) := by
  decide

/-- The payout on a pool that is not negative. On a winning draw with pre-draw pool `P ≥ 0`
and dist permille `d` in `[0, 1000]` the payout is `a = ⌊P * d / 1000⌋` with `0 ≤ a ≤ P`;
afterwards the genesis record differs from the old one only in `prize_pool_tokens = P - a`
and a round counter one higher, the winner's balance has grown by `a`, and the only lottery
key written is `lottery::mrc721::<NAME>::<new round>`, whose record has win amount `a` and
as accumulated jackpot the pre-draw pool text. -/
theorem lottery_payout {s : Store} {block : HookBlock} {key : String}
    {g : Mrc721GenesisData} {hook : HookInscription} {c : Content} {proto : MRC721Protocol}
    {ltry : Lottery} {gh ch iv roll luck P bal : Int} {luckID : String}
    (hpool : g.PrizePoolTokens ≠ "0")
    (hk : kvGet s ("inscr::" ++ g.ID) = some (Val.inscr hook))
    (hc : hook.ContentByte = some c) (hp : ParseMRC721Protocol c = .ok proto)
    (hl : proto.Ltry = some ltry)
    (hgh : SetString10 g.BlockHeight = some gh) (hch : SetString10 block.BlockHeight = some ch)
    (hne : ch - gh ≠ 0) (hiv : SetString10 ltry.Intvl = some iv) (hiv0 : iv ≠ 0)
    (hmod : Int.tmod (ch - gh) iv = 0)
    (hroll : convertHashToBigInt block.BlockHash 1000 = .ok roll)
    (hwin : roll ≤ stringToPercentageBigInt ltry.Winp)
    (hluck : convertHashToBigInt block.BlockHash g.InscriptionsCount = .ok luck)
    (hP : SetString10 g.PrizePoolTokens = some P)
    (hid : kvGet s ("mrc721::count_inscr::" ++ dropPre key "mrc721::geninsc::" ++ "::"
      ++ intToDec luck) = some (Val.raw luckID))
    (haddr : (firstUnder s ("mrc721::inscr_addr::" ++ luckID ++ "::")).2 ≠ "")
    (hbal : lotteryBalance s ("mrc20::balance::"
      ++ (firstUnder s ("mrc721::inscr_addr::" ++ luckID ++ "::")).2 ++ "::"
      ++ proto.Token.Tick) = some bal)
    (hP0 : 0 ≤ P) (hd0 : 0 ≤ stringToPercentageBigInt ltry.Dist)
    (hd1 : stringToPercentageBigInt ltry.Dist ≤ 1000) :
    ∃ (s1 : Store) (a : Int),
      lotteryCollection s block key (Val.genesis g) = .ok s1 ∧
      a = ⌊((P * stringToPercentageBigInt ltry.Dist : Int) : ℚ) / 1000⌋ ∧
      0 ≤ a ∧ 0 ≤ P - a ∧
      kvGet s1 ("mrc721::geninsc::" ++ dropPre key "mrc721::geninsc::")
        = some (Val.genesis { g with PrizePoolTokens := intToDec (P - a),
                                     TotalPrizeRound := g.TotalPrizeRound + 1 }) ∧
      kvGet s1 ("mrc20::balance::"
          ++ (firstUnder s ("mrc721::inscr_addr::" ++ luckID ++ "::")).2 ++ "::"
          ++ proto.Token.Tick) = some (Val.raw (intToDec (bal + a))) ∧
      kvGet s1 ("lottery::mrc721::" ++ dropPre key "mrc721::geninsc::" ++ "::"
          ++ intToDec (g.TotalPrizeRound + 1))
        = some (Val.lottery
            { BlockHeight := block.BlockHeight, BlockHash := block.BlockHash,
              BlockTimestamp := block.Timestamp,
              Address := (firstUnder s ("mrc721::inscr_addr::" ++ luckID ++ "::")).2,
              InscriptionID := luckID, Number := 0,
              Mrc721name := dropPre key "mrc721::geninsc::", WinAmount := intToDec a,
              JackpotAccum := g.PrizePoolTokens, Round := g.TotalPrizeRound + 1,
              Winp := ltry.Winp, Dist := ltry.Dist }) ∧
      ∀ k, HasPrefix k "lottery::" = true →
        k ≠ "lottery::mrc721::" ++ dropPre key "mrc721::geninsc::" ++ "::"
          ++ intToDec (g.TotalPrizeRound + 1) →
        kvGet s1 k = kvGet s k := by
  have hd := lotteryCollection_draw_core hpool hk hc hp hl hgh hch hne hiv hiv0 hmod hroll hwin
    hluck hP hid haddr hbal
  obtain ⟨r1, r2, r3, r4⟩ := drawResult_reads s block (dropPre key "mrc721::geninsc::") g ltry
    proto.Token.Tick luckID (firstUnder s ("mrc721::inscr_addr::" ++ luckID ++ "::")).2 bal P
    (P * stringToPercentageBigInt ltry.Dist / 1000)
  have ha0 : 0 ≤ P * stringToPercentageBigInt ltry.Dist / 1000 :=
    Int.ediv_nonneg (mul_nonneg hP0 hd0) (by decide)
  have ha1 : P * stringToPercentageBigInt ltry.Dist / 1000 ≤ P := by
    have h1 : P * stringToPercentageBigInt ltry.Dist ≤ P * 1000 :=
      mul_le_mul_of_nonneg_left hd1 hP0
    have h2 := Int.ediv_le_ediv (by decide : (0 : Int) < 1000) h1
    rwa [Int.mul_ediv_cancel _ (by decide : (1000 : Int) ≠ 0)] at h2
  refine ⟨_, P * stringToPercentageBigInt ltry.Dist / 1000, hd,
    (floor_div_thousand _).symm, ha0, by omega, r2, r1, r3, ?_⟩
  intro k hk1 hk2
  refine r4 k ?_ ?_ hk2
  · intro e
    rw [e, String.append_assoc, String.append_assoc,
      HasPrefix_append_clash _ _ _ (by decide)] at hk1
    cases hk1
  · intro e
    rw [e, HasPrefix_append_clash _ _ _ (by decide)] at hk1
    cases hk1

theorem lottery_payout_witness :
    ∃ (s1 : Store) (a : Int),
      lotteryCollection lotteryStore drawBlock "mrc721::geninsc::DEMO" (Val.genesis lotteryGenesis)
        = .ok s1 ∧
      a = ⌊((500 * 600 : Int) : ℚ) / 1000⌋ ∧ a = 300 ∧
      kvGet s1 "mrc721::geninsc::DEMO"
        = some (Val.genesis { lotteryGenesis with PrizePoolTokens := "200",
                                                  TotalPrizeRound := 1 }) ∧
      kvGet s1 "mrc20::balance::A::demo" = some (Val.raw "800") ∧
      ((kvGet s1 "lottery::mrc721::DEMO::1").map (fun v =>
        match v with
        | Val.lottery l => (l.JackpotAccum, l.WinAmount, l.InscriptionID)
        | _ => ("", "", ""))) = some ("500", "300", "g0") := by
  obtain ⟨s1, a, h1, h2, _, _, h5, h6, h7, _⟩ :=
    @lottery_payout lotteryStore drawBlock "mrc721::geninsc::DEMO" lotteryGenesis lotteryHook
      (genesisContent lotteryProtocol) lotteryProtocol
      { Pool := "0.500", Intvl := "1", Winp := "1.000", Dist := "0.600" } 100 101 1 171 0
      500 500 "g0"
      (by decide) (by decide) (by decide) (by rfl) (by decide) (by decide) (by decide)
      (by decide) (by decide) (by decide) (by decide) (by rfl) (by decide) (by rfl)
      (by decide) (by decide) (by decide) (by decide) (by decide) (by decide) (by decide)
  have hd : stringToPercentageBigInt "0.600" = 600 := by decide
  have ha : a = 300 := by
    rw [h2, floor_div_thousand]
    show 500 * stringToPercentageBigInt "0.600" / 1000 = 300
    rw [hd]
    decide
  subst ha
  refine ⟨s1, 300, h1, ?_, rfl, ?_, ?_, ?_⟩
  · rw [floor_div_thousand]
    decide
  · rw [show "mrc721::geninsc::DEMO"
        = "mrc721::geninsc::" ++ dropPre "mrc721::geninsc::DEMO" "mrc721::geninsc::" by decide, h5]
    decide
  · rw [show "mrc20::balance::A::demo" = "mrc20::balance::"
        ++ (firstUnder lotteryStore ("mrc721::inscr_addr::" ++ "g0" ++ "::")).2 ++ "::"
        ++ lotteryProtocol.Token.Tick by decide, h6]
    decide
  · rw [show "lottery::mrc721::DEMO::1" = "lottery::mrc721::"
        ++ dropPre "mrc721::geninsc::DEMO" "mrc721::geninsc::" ++ "::"
        ++ intToDec (lotteryGenesis.TotalPrizeRound + 1) by decide, h7]
    decide

/-! ## Transfer filter -/

theorem checkPrefixInDB_eq_keyUnder (s : Store) (pre : String) :
    checkPrefixInDB s pre = keyUnder s pre := by
  unfold checkPrefixInDB keyUnder kvScan
  induction s with
  | nil => rfl
  | cons kv rest ih =>
    rw [List.filter_cons, List.any_cons]
    cases h : HasPrefix kv.1 pre with
    | true => simp
    | false => simpa using ih

theorem keyUnder_iff (s : Store) (pre : String) :
    keyUnder s pre = true ↔ ∃ k v, (k, v) ∈ s ∧ HasPrefix k pre = true := by
  unfold keyUnder
  rw [List.any_eq_true]
  constructor
  · rintro ⟨⟨k, v⟩, hm, hp⟩
    exact ⟨k, v, hm, hp⟩
  · rintro ⟨k, v, hm, hp⟩
    exact ⟨(k, v), hm, hp⟩

theorem addTransfer_unknown (s : Store) (t : HookTransfer)
    (h1 : kvScan s ("mrc721::inscr_addr::" ++ t.ID ++ "::") = [])
    (h2 : kvScan s ("mrc20::inscr_addr::" ++ t.ID ++ "::") = []) :
    addTransfer s t = .ok s := by
  have e1 : ∀ a, transfer721 s t a = .ok s := by
    intro a
    unfold transfer721 firstUnder
    rw [h1]
    rfl
  have e2 : ∀ a, transfer20 s t a = .ok s := by
    intro a
    unfold transfer20 firstUnder
    rw [h2]
    rfl
  unfold addTransfer
  split
  · rw [e1]
    exact e2 _
  · split
    · rw [e1]
      exact e2 _
    · rfl

/-- C19 (a transfer of an unknown id is kept). In the store of the scenario "mint up to
cap" no owner key exists for the id `m` (neither `mrc721::inscr_addr::m::<addr>` nor
`mrc20::inscr_addr::m::<addr>`), yet `filterBlockData` keeps the transfer of `m`: the filter
looks for keys that start with `mrc721::inscr_addr::m`, without the separator, and `m` is a
proper prefix of the stored id `m1`. The transfer of `zz` is dropped, the one of `m` stays
in the block record written at `block::105`. -/
theorem prefix_transfer_is_kept :
    kvScan capStore "mrc721::inscr_addr::m::" = [] ∧
    kvScan capStore "mrc20::inscr_addr::m::" = [] ∧
    kvGet capStore "mrc721::inscr_addr::m1::A" ≠ none ∧
    (filterBlockData capStore prefixBlock).Transfers
      = [mkTransfer "m" "B", mkTransfer "m1" "B"] ∧
    (WriteBlock capStore prefixBlock).1.isOk = true ∧
    kvGet (WriteBlock capStore prefixBlock).2 "block::105"
      = some (Val.block (mkBlock "105" "af" [] [mkTransfer "m" "B", mkTransfer "m1" "B"])) := by
  decide

/-- What the filter keeps. `filterBlockData` returns a block with the same height, hash,
timestamp and inscriptions whose transfers are, in input order, exactly those input
transfers `t` for which some stored key starts with `mrc721::inscr_addr::<t.id>` or
`mrc20::inscr_addr::<t.id>` (no separator after the id). Every transfer of an inscription
that has an owner key is kept; a kept transfer whose id has no owner key under `<t.id>::`
is ignored by the transfer writer. -/
theorem filterBlockData_keeps_prefix_matches (s : Store) (block : HookBlock) :
    (filterBlockData s block).BlockHeight = block.BlockHeight ∧
    (filterBlockData s block).BlockHash = block.BlockHash ∧
    (filterBlockData s block).Timestamp = block.Timestamp ∧
    (filterBlockData s block).Inscriptions = block.Inscriptions ∧
    (filterBlockData s block).Transfers = block.Transfers.filter (fun t =>
      keyUnder s ("mrc721::inscr_addr::" ++ t.ID) || keyUnder s ("mrc20::inscr_addr::" ++ t.ID)) ∧
    List.Sublist (filterBlockData s block).Transfers block.Transfers ∧
    (∀ t, t ∈ (filterBlockData s block).Transfers ↔
      t ∈ block.Transfers ∧ ∃ k v, (k, v) ∈ s ∧
        (HasPrefix k ("mrc721::inscr_addr::" ++ t.ID) = true ∨
          HasPrefix k ("mrc20::inscr_addr::" ++ t.ID) = true)) ∧
    (∀ t ∈ block.Transfers, ∀ addr : String,
      (kvGet s ("mrc721::inscr_addr::" ++ t.ID ++ "::" ++ addr) ≠ none ∨
        kvGet s ("mrc20::inscr_addr::" ++ t.ID ++ "::" ++ addr) ≠ none) →
      t ∈ (filterBlockData s block).Transfers) ∧
    (∀ t : HookTransfer, kvScan s ("mrc721::inscr_addr::" ++ t.ID ++ "::") = [] →
      kvScan s ("mrc20::inscr_addr::" ++ t.ID ++ "::") = [] → addTransfer s t = .ok s) := by
  have hT : (filterBlockData s block).Transfers = block.Transfers.filter (fun t =>
      keyUnder s ("mrc721::inscr_addr::" ++ t.ID) || keyUnder s ("mrc20::inscr_addr::" ++ t.ID)) := by
    unfold filterBlockData
    simp only [checkPrefixInDB_eq_keyUnder]
  have hmem : ∀ t, t ∈ (filterBlockData s block).Transfers ↔
      t ∈ block.Transfers ∧ ∃ k v, (k, v) ∈ s ∧
        (HasPrefix k ("mrc721::inscr_addr::" ++ t.ID) = true ∨
          HasPrefix k ("mrc20::inscr_addr::" ++ t.ID) = true) := by
    intro t
    rw [hT, List.mem_filter, Bool.or_eq_true, keyUnder_iff, keyUnder_iff]
    constructor
    · rintro ⟨hm, ⟨k, v, h1, h2⟩ | ⟨k, v, h1, h2⟩⟩
      · exact ⟨hm, k, v, h1, Or.inl h2⟩
      · exact ⟨hm, k, v, h1, Or.inr h2⟩
    · rintro ⟨hm, k, v, h1, h2 | h2⟩
      · exact ⟨hm, Or.inl ⟨k, v, h1, h2⟩⟩
      · exact ⟨hm, Or.inr ⟨k, v, h1, h2⟩⟩
  refine ⟨rfl, rfl, rfl, rfl, hT, ?_, hmem, ?_, addTransfer_unknown s⟩
  · rw [hT]
    exact List.filter_sublist _
  · intro t ht addr h
    rw [hmem]
    refine ⟨ht, ?_⟩
    rcases h with h | h
    · cases hv : kvGet s ("mrc721::inscr_addr::" ++ t.ID ++ "::" ++ addr) with
      | none => exact absurd hv h
      | some v =>
        exact ⟨_, v, kvGet_mem hv, Or.inl (HasPrefix_append_left _ _ _
          (HasPrefix_append _ _))⟩
    · cases hv : kvGet s ("mrc20::inscr_addr::" ++ t.ID ++ "::" ++ addr) with
      | none => exact absurd hv h
      | some v =>
        exact ⟨_, v, kvGet_mem hv, Or.inr (HasPrefix_append_left _ _ _
          (HasPrefix_append _ _))⟩

theorem filterBlockData_keeps_prefix_matches_witness :
    (filterBlockData capStore prefixBlock).Transfers
      = prefixBlock.Transfers.filter (fun t =>
          keyUnder capStore ("mrc721::inscr_addr::" ++ t.ID) ||
          keyUnder capStore ("mrc20::inscr_addr::" ++ t.ID)) ∧
    prefixBlock.Transfers.filter (fun t =>
          keyUnder capStore ("mrc721::inscr_addr::" ++ t.ID) ||
          keyUnder capStore ("mrc20::inscr_addr::" ++ t.ID))
      = [mkTransfer "m" "B", mkTransfer "m1" "B"] ∧
    addTransfer capStore (mkTransfer "m" "B") = .ok capStore :=
  ⟨(filterBlockData_keeps_prefix_matches capStore prefixBlock).2.2.2.2.1, by decide,
    (filterBlockData_keeps_prefix_matches capStore prefixBlock).2.2.2.2.2.2.2.2
      (mkTransfer "m" "B") (by decide) (by decide)⟩

/-! ## Pending MRC-20 transfers -/

theorem kvGet_kvSet (s : Store) (k : String) (v : Val) (k2 : String) :
    kvGet (kvSet s k v) k2 = if k2 = k then some v else kvGet s k2 := by
  by_cases h : k2 = k
  · rw [if_pos h, h, kvGet_kvSet_self]
  · rw [if_neg h, kvGet_kvSet_ne _ _ _ _ h]

theorem kvGet_kvDelete (s : Store) (k k2 : String) :
    kvGet (kvDelete s k) k2 = if k2 = k then none else kvGet s k2 := by
  by_cases h : k2 = k
  · rw [if_pos h, h, kvGet_kvDelete_self]
  · rw [if_neg h, kvGet_kvDelete_ne _ _ _ h]

theorem kvScan_kvSet_miss (k : String) (v : Val) (pre : String) (h : HasPrefix k pre = false) :
    ∀ s : Store, kvScan (kvSet s k v) pre = kvScan s pre
  | [] => by
    simp [kvSet, kvScan, h]
  | (k1, v1) :: rest => by
    have ih := kvScan_kvSet_miss k v pre h rest
    unfold kvScan at ih ⊢
    unfold kvSet
    by_cases e : k = k1
    · rw [if_pos e]
      subst e
      simp [List.filter_cons, h]
    · rw [if_neg e]
      split
      · simp [List.filter_cons, h]
      · rw [List.filter_cons, List.filter_cons, ih]

theorem kvScan_kvSet_single (k : String) (v : Val) (pre : String) (h : HasPrefix k pre = true) :
    ∀ s : Store, kvScan s pre = [] → kvScan (kvSet s k v) pre = [(k, v)]
  | [], _ => by
    simp [kvSet, kvScan, h]
  | (k1, v1) :: rest, h0 => by
    unfold kvScan at h0
    rw [List.filter_cons] at h0
    have hk1 : HasPrefix k1 pre = false := by
      cases hp : HasPrefix k1 pre with
      | false => rfl
      | true => simp [hp] at h0
    simp only [hk1] at h0
    have ih := kvScan_kvSet_single k v pre h rest h0
    have h0r : List.filter (fun kv => HasPrefix kv.1 pre) rest = [] := h0
    unfold kvScan at ih ⊢
    unfold kvSet
    by_cases e : k = k1
    · rw [if_pos e]
      simp [List.filter_cons, h, h0r]
    · rw [if_neg e]
      split
      · simp [List.filter_cons, h, hk1, h0r]
      · rw [List.filter_cons]
        simp only [hk1]
        exact ih

theorem dropPre_append (p x : String) : dropPre (p ++ x) p = x := by
  unfold dropPre
  rw [String.data_append, List.drop_left]

theorem HasPrefix_miss {a p : String} (h : clash a.data p.data = true) (x y : String) :
    HasPrefix (a ++ x) (p ++ y) = false := by
  cases hp : HasPrefix (a ++ x) (p ++ y) with
  | false => rfl
  | true =>
    have h1 := HasPrefix_of_append hp
    rw [HasPrefix_append_clash _ _ _ h] at h1
    cases h1

theorem natToDecAux_head : ∀ (fuel n : Nat) (acc : List Char), 0 < n → n < fuel →
    ∃ d rest, 1 ≤ d ∧ d < 10 ∧ natToDecAux fuel n acc = digitChar d :: rest
  | 0, _, _, _, hf => absurd hf (Nat.not_lt_zero _)
  | f + 1, n, acc, hn, hf => by
    unfold natToDecAux
    by_cases h10 : n < 10
    · rw [if_pos h10]
      exact ⟨n, acc, hn, h10, rfl⟩
    · rw [if_neg h10]
      exact natToDecAux_head f (n / 10) _ (by omega) (by omega)

theorem UnmarshalText_natToDec (n : Nat) :
    parseNatBase0 (natToDec n).data = some n := by
  by_cases h0 : n = 0
  · subst h0
    rfl
  · obtain ⟨d, rest, hd1, hd2, he⟩ := natToDecAux_head (n + 1) n [] (by omega) (by omega)
    have hp := parseNatDec_natToDec n
    have hdata : (natToDec n).data = digitChar d :: rest := he
    rw [hdata] at hp ⊢
    have hc : digitChar d ≠ '0' := by
      interval_cases d <;> decide
    unfold parseNatBase0
    split
    · rename_i heq
      simp only [List.cons.injEq] at heq
      exact absurd heq.1 hc
    · rename_i c2 r2 heq
      simp only [List.cons.injEq] at heq
      exact absurd heq.1 hc
    · exact hp

theorem UnmarshalText_intToDec (v : Int) : UnmarshalText (intToDec v) = some v := by
  cases v with
  | ofNat n =>
    have hb := UnmarshalText_natToDec n
    have hp := parseNatDec_natToDec n
    unfold intToDec UnmarshalText
    cases hd : (natToDec n).data with
    | nil => rw [hd] at hp; cases hp
    | cons c cs =>
      rw [hd] at hp hb
      have hs := parseNatDec_head c cs n hp
      split
      · rename_i cs1 heq
        simp only [List.cons.injEq] at heq
        exact absurd heq.1 hs.1
      · rename_i cs1 heq
        simp only [List.cons.injEq] at heq
        exact absurd heq.1 hs.2
      · rw [hb]
        rfl
  | negSucc n =>
    have hb := UnmarshalText_natToDec (n + 1)
    simp only [intToDec, UnmarshalText, hb, Option.map_some']
    rfl

theorem setStringInPlace_of {x : String} {v : Int} (h : SetString10 x = some v) :
    setStringInPlace x = v := by
  unfold setStringInPlace
  rw [h]

theorem balance_key_inj {a b t : String}
    (h : "mrc20::balance::" ++ a ++ "::" ++ t = "mrc20::balance::" ++ b ++ "::" ++ t) :
    a = b := by
  have h1 := congrArg String.data h
  simp only [String.data_append, List.append_assoc, List.append_cancel_left_eq,
    List.append_cancel_right_eq] at h1
  exact String.ext h1

theorem balance_ne {k : String} (hk : HasPrefix k "mrc20::balance::" = true) {q : String}
    (hq : clash q.data "mrc20::balance::".data = true) (x : String) : k ≠ q ++ x := by
  intro e
  rw [e, HasPrefix_append_clash _ _ _ hq] at hk
  cases hk

theorem addInscription_pending {s : Store} {block : HookBlock} {inscr : HookInscription}
    {p : MRC20Protocol} {c : Content} {b amt : Int} {v : Val}
    (hfresh : kvGet s ("inscr::" ++ inscr.ID) = none)
    (hcontent : inscr.ContentByte = some c)
    (hkind : ValidateProtocolData c = some "mrc-20")
    (hparse : ParseMRC20Protocol c = .ok p)
    (hop : p.Op = "transfer")
    (hreg : kvGet s ("mrc20::geninsc::" ++ p.Tick) = some v)
    (hbalA : kvGet s ("mrc20::balance::" ++ inscr.Address ++ "::" ++ p.Tick)
      = some (Val.raw (intToDec b)))
    (hamt : SetString10 p.Amt = some amt) (h1 : amt ≤ b) :
    addInscription s block inscr = .ok (pendingStore s inscr p.Tick (b - amt)) := by
  have hg2 : kvGet (kvSet (kvSet s ("inscr::" ++ inscr.ID) (Val.inscr inscr))
      ("inscr::number::" ++ intToDec inscr.Number) (Val.raw inscr.ID))
      ("mrc20::geninsc::" ++ p.Tick) = some v := by
    rw [kvGet_kvSet_ne _ _ _ _ (key_ne_of_clash (by decide)),
      kvGet_kvSet_ne _ _ _ _ (key_ne_of_clash (by decide))]
    exact hreg
  have hb2 : kvGet (kvSet (kvSet s ("inscr::" ++ inscr.ID) (Val.inscr inscr))
      ("inscr::number::" ++ intToDec inscr.Number) (Val.raw inscr.ID))
      ("mrc20::balance::" ++ inscr.Address ++ "::" ++ p.Tick)
      = some (Val.raw (intToDec b)) := by
    rw [kvGet_kvSet_ne _ _ _ _ (fam_ne_short (by decide) _ _ _),
      kvGet_kvSet_ne _ _ _ _ (fam_ne_short (by decide) _ _ _)]
    exact hbalA
  unfold addInscription
  simp only [hfresh, hcontent, hkind, if_true, hparse]
  unfold writeMrc20
  rw [if_pos hop]
  simp only [hg2, hb2, asRaw, setStringInPlace_of (SetString10_intToDec b),
    setStringInPlace_of hamt, gt_iff_lt, not_lt.mpr h1, if_false]
  rfl

theorem balance_ne3 {k : String} (hk : HasPrefix k "mrc20::balance::" = true) {q : String}
    (hq : clash q.data "mrc20::balance::".data = true) (a b : String) :
    k ≠ q ++ a ++ "::" ++ b := by
  rw [String.append_assoc, String.append_assoc]
  exact balance_ne hk hq _

theorem HasPrefix_miss1 {a p : String} (h : clash a.data p.data = true) (x y : String) :
    HasPrefix (a ++ x) (p ++ y ++ "::") = false := by
  rw [String.append_assoc]
  exact HasPrefix_miss h _ _

theorem HasPrefix_miss3 {a p : String} (h : clash a.data p.data = true) (x1 x2 y : String) :
    HasPrefix (a ++ x1 ++ "::" ++ x2) (p ++ y ++ "::") = false := by
  rw [String.append_assoc, String.append_assoc, String.append_assoc]
  exact HasPrefix_miss h _ _

theorem pendingStore_reads (s : Store) (inscr : HookInscription) (tick : String) (nb : Int) :
    kvGet (pendingStore s inscr tick nb) ("mrc20::balance::" ++ inscr.Address ++ "::" ++ tick)
      = some (Val.raw (intToDec nb)) ∧
    kvGet (pendingStore s inscr tick nb) ("mrc20::name_inscr::" ++ tick ++ "::" ++ inscr.ID)
      = some (Val.raw "") ∧
    kvGet (pendingStore s inscr tick nb)
      ("mrc20::addr_inscr::" ++ inscr.Address ++ "::" ++ inscr.ID) = some (Val.raw "") ∧
    kvGet (pendingStore s inscr tick nb)
      ("mrc20::inscr_addr::" ++ inscr.ID ++ "::" ++ inscr.Address) = some (Val.raw "") ∧
    kvGet (pendingStore s inscr tick nb) ("inscr::" ++ inscr.ID) = some (Val.inscr inscr) ∧
    ∀ k, HasPrefix k "mrc20::balance::" = true →
      k ≠ "mrc20::balance::" ++ inscr.Address ++ "::" ++ tick →
      kvGet (pendingStore s inscr tick nb) k = kvGet s k := by
  unfold pendingStore
  refine ⟨?_, ?_, ?_, ?_, ?_, ?_⟩
  · rw [kvGet_kvSet_ne _ _ _ _ (fam_ne_short (by decide) _ _ _),
      kvGet_kvSet_ne _ _ _ _ (fam_ne (by decide) _ _ _ _),
      kvGet_kvSet_ne _ _ _ _ (fam_ne (by decide) _ _ _ _),
      kvGet_kvSet_ne _ _ _ _ (fam_ne (by decide) _ _ _ _), kvGet_kvSet_self]
  · rw [kvGet_kvSet_ne _ _ _ _ (fam_ne_short (by decide) _ _ _),
      kvGet_kvSet_ne _ _ _ _ (fam_ne (by decide) _ _ _ _),
      kvGet_kvSet_ne _ _ _ _ (fam_ne (by decide) _ _ _ _), kvGet_kvSet_self]
  · rw [kvGet_kvSet_ne _ _ _ _ (fam_ne_short (by decide) _ _ _),
      kvGet_kvSet_ne _ _ _ _ (fam_ne (by decide) _ _ _ _), kvGet_kvSet_self]
  · rw [kvGet_kvSet_ne _ _ _ _ (fam_ne_short (by decide) _ _ _), kvGet_kvSet_self]
  · rw [kvGet_kvSet_self]
  · intro k hk hne
    rw [kvGet_kvSet_ne _ _ _ _ (balance_ne hk (by decide) _),
      kvGet_kvSet_ne _ _ _ _ (balance_ne3 hk (by decide) _ _),
      kvGet_kvSet_ne _ _ _ _ (balance_ne3 hk (by decide) _ _),
      kvGet_kvSet_ne _ _ _ _ (balance_ne3 hk (by decide) _ _),
      kvGet_kvSet_ne _ _ _ _ hne,
      kvGet_kvSet_ne _ _ _ _ (balance_ne hk (by decide) _),
      kvGet_kvSet_ne _ _ _ _ (balance_ne hk (by decide) _)]

theorem pendingStore_scans (s : Store) (inscr : HookInscription) (tick : String) (nb : Int) :
    kvScan (pendingStore s inscr tick nb) ("mrc721::inscr_addr::" ++ inscr.ID ++ "::")
      = kvScan s ("mrc721::inscr_addr::" ++ inscr.ID ++ "::") ∧
    (kvScan s ("mrc20::inscr_addr::" ++ inscr.ID ++ "::") = [] →
      kvScan (pendingStore s inscr tick nb) ("mrc20::inscr_addr::" ++ inscr.ID ++ "::")
        = [("mrc20::inscr_addr::" ++ inscr.ID ++ "::" ++ inscr.Address, Val.raw "")]) := by
  unfold pendingStore
  refine ⟨?_, fun h0 => ?_⟩
  · rw [kvScan_kvSet_miss _ _ _ (HasPrefix_miss1 (by decide) _ _),
      kvScan_kvSet_miss _ _ _ (HasPrefix_miss3 (by decide) _ _ _),
      kvScan_kvSet_miss _ _ _ (HasPrefix_miss3 (by decide) _ _ _),
      kvScan_kvSet_miss _ _ _ (HasPrefix_miss3 (by decide) _ _ _),
      kvScan_kvSet_miss _ _ _ (HasPrefix_miss3 (by decide) _ _ _),
      kvScan_kvSet_miss _ _ _ (HasPrefix_miss1 (by decide) _ _),
      kvScan_kvSet_miss _ _ _ (HasPrefix_miss1 (by decide) _ _)]
  · rw [kvScan_kvSet_miss _ _ _ (HasPrefix_miss1 (by decide) _ _)]
    apply kvScan_kvSet_single _ _ _ (HasPrefix_append _ _)
    rw [kvScan_kvSet_miss _ _ _ (HasPrefix_miss3 (by decide) _ _ _),
      kvScan_kvSet_miss _ _ _ (HasPrefix_miss3 (by decide) _ _ _),
      kvScan_kvSet_miss _ _ _ (HasPrefix_miss3 (by decide) _ _ _),
      kvScan_kvSet_miss _ _ _ (HasPrefix_miss1 (by decide) _ _),
      kvScan_kvSet_miss _ _ _ (HasPrefix_miss1 (by decide) _ _)]
    exact h0

theorem settledStore_reads (s1 : Store) (id A B tick : String) (nb : Int) :
    kvGet (settledStore s1 id A B tick nb) ("mrc20::balance::" ++ B ++ "::" ++ tick)
      = some (Val.raw (intToDec nb)) ∧
    kvGet (settledStore s1 id A B tick nb) ("mrc20::name_inscr::" ++ tick ++ "::" ++ id)
      = none ∧
    kvGet (settledStore s1 id A B tick nb) ("mrc20::addr_inscr::" ++ A ++ "::" ++ id) = none ∧
    kvGet (settledStore s1 id A B tick nb) ("mrc20::inscr_addr::" ++ id ++ "::" ++ A) = none ∧
    ∀ k, HasPrefix k "mrc20::balance::" = true → k ≠ "mrc20::balance::" ++ B ++ "::" ++ tick →
      kvGet (settledStore s1 id A B tick nb) k = kvGet s1 k := by
  unfold settledStore
  refine ⟨?_, ?_, ?_, ?_, ?_⟩
  · rw [kvGet_kvDelete_ne _ _ _ (fam_ne (by decide) _ _ _ _),
      kvGet_kvDelete_ne _ _ _ (fam_ne (by decide) _ _ _ _),
      kvGet_kvDelete_ne _ _ _ (fam_ne (by decide) _ _ _ _), kvGet_kvSet_self]
  · rw [kvGet_kvDelete_ne _ _ _ (fam_ne (by decide) _ _ _ _),
      kvGet_kvDelete_ne _ _ _ (fam_ne (by decide) _ _ _ _), kvGet_kvDelete_self]
  · rw [kvGet_kvDelete_ne _ _ _ (fam_ne (by decide) _ _ _ _), kvGet_kvDelete_self]
  · rw [kvGet_kvDelete_self]
  · intro k hk hne
    rw [kvGet_kvDelete_ne _ _ _ (balance_ne3 hk (by decide) _ _),
      kvGet_kvDelete_ne _ _ _ (balance_ne3 hk (by decide) _ _),
      kvGet_kvDelete_ne _ _ _ (balance_ne3 hk (by decide) _ _),
      kvGet_kvSet_ne _ _ _ _ hne]

theorem addTransfer_settles {s : Store} {inscr : HookInscription} {p : MRC20Protocol}
    {c : Content} {t : HookTransfer} {nb amt bB : Int}
    (hcontent : inscr.ContentByte = some c)
    (hparse : ParseMRC20Protocol c = .ok p)
    (hamt : SetString10 p.Amt = some amt)
    (ht1 : t.ID = inscr.ID) (ht2 : t.TransferType = "transferred")
    (hA : inscr.Address ≠ "") (hAB : t.ToAddress ≠ inscr.Address)
    (hno721 : kvScan s ("mrc721::inscr_addr::" ++ inscr.ID ++ "::") = [])
    (hno20 : kvScan s ("mrc20::inscr_addr::" ++ inscr.ID ++ "::") = [])
    (hbalB : (kvGet s ("mrc20::balance::" ++ t.ToAddress ++ "::" ++ p.Tick) = none ∧ bB = 0) ∨
      kvGet s ("mrc20::balance::" ++ t.ToAddress ++ "::" ++ p.Tick)
        = some (Val.raw (intToDec bB))) :
    addTransfer (pendingStore s inscr p.Tick nb) t
      = .ok (settledStore (pendingStore s inscr p.Tick nb) inscr.ID inscr.Address t.ToAddress
          p.Tick (bB + amt)) := by
  obtain ⟨_, _, _, _, rI, rO⟩ := pendingStore_reads s inscr p.Tick nb
  obtain ⟨sc1, sc2⟩ := pendingStore_scans s inscr p.Tick nb
  have h721 : transfer721 (pendingStore s inscr p.Tick nb) t t.ToAddress
      = .ok (pendingStore s inscr p.Tick nb) := by
    unfold transfer721 firstUnder
    rw [ht1, sc1, hno721]
    rfl
  have hfu : firstUnder (pendingStore s inscr p.Tick nb)
      ("mrc20::inscr_addr::" ++ inscr.ID ++ "::")
      = ("mrc20::inscr_addr::" ++ inscr.ID ++ "::" ++ inscr.Address, inscr.Address) := by
    unfold firstUnder
    rw [sc2 hno20]
    simp only [dropPre_append]
  have hB : kvGet (pendingStore s inscr p.Tick nb)
      ("mrc20::balance::" ++ t.ToAddress ++ "::" ++ p.Tick)
      = kvGet s ("mrc20::balance::" ++ t.ToAddress ++ "::" ++ p.Tick) :=
    rO _ (HasPrefix_append_left _ _ _ (HasPrefix_append_left _ _ _ (HasPrefix_append _ _)))
      (fun e => hAB (balance_key_inj e))
  unfold addTransfer
  rw [if_pos ht2, h721]
  simp only
  unfold transfer20
  rw [ht1, hfu]
  simp only [hA, if_false, rI, asInscr, contentOf, hcontent, bind, Except.bind, hparse, hB]
  rcases hbalB with ⟨h, e⟩ | h
  · subst e
    simp only [h, hamt]
    rfl
  · simp only [h, asRaw, UnmarshalText_intToDec, hamt]
    rfl

/-- The transfer between non-empty addresses. In a store where tick `p.Tick` is registered
and a non-empty address `A` holds the balance `b`, the reveal by `A` of a valid, not yet
stored MRC-20 transfer inscription of `amt ∈ [0, b]` is accepted: `A` has `b - amt` and the
three pending keys exist. When that inscription is then sent to a different address `B`
holding `bB` (0 when `B` has no balance key), `B` has `bB + amt`, `A` still has `b - amt`,
the three pending keys are gone and every other balance key is as before the reveal, so the
balances of the tick add up to the same total. -/
theorem mrc20_transfer_moves_amount {s : Store} {block : HookBlock} {inscr : HookInscription}
    {p : MRC20Protocol} {c : Content} {t : HookTransfer} {b amt bB : Int} {v : Val}
    (hfresh : kvGet s ("inscr::" ++ inscr.ID) = none)
    (hcontent : inscr.ContentByte = some c)
    (hkind : ValidateProtocolData c = some "mrc-20")
    (hparse : ParseMRC20Protocol c = .ok p)
    (hop : p.Op = "transfer")
    (hreg : kvGet s ("mrc20::geninsc::" ++ p.Tick) = some v)
    (hbalA : kvGet s ("mrc20::balance::" ++ inscr.Address ++ "::" ++ p.Tick)
      = some (Val.raw (intToDec b)))
    (hamt : SetString10 p.Amt = some amt) (h0 : 0 ≤ amt) (h1 : amt ≤ b)
    (hA : inscr.Address ≠ "")
    (ht1 : t.ID = inscr.ID) (ht2 : t.TransferType = "transferred")
    (hAB : t.ToAddress ≠ inscr.Address)
    (hno721 : kvScan s ("mrc721::inscr_addr::" ++ inscr.ID ++ "::") = [])
    (hno20 : kvScan s ("mrc20::inscr_addr::" ++ inscr.ID ++ "::") = [])
    (hbalB : (kvGet s ("mrc20::balance::" ++ t.ToAddress ++ "::" ++ p.Tick) = none ∧ bB = 0) ∨
      kvGet s ("mrc20::balance::" ++ t.ToAddress ++ "::" ++ p.Tick)
        = some (Val.raw (intToDec bB))) :
    ∃ s1 s2 : Store,
      addInscription s block inscr = .ok s1 ∧
      kvGet s1 ("mrc20::balance::" ++ inscr.Address ++ "::" ++ p.Tick)
        = some (Val.raw (intToDec (b - amt))) ∧
      0 ≤ b - amt ∧ b - amt ≤ b ∧
      kvGet s1 ("mrc20::name_inscr::" ++ p.Tick ++ "::" ++ inscr.ID) ≠ none ∧
      kvGet s1 ("mrc20::addr_inscr::" ++ inscr.Address ++ "::" ++ inscr.ID) ≠ none ∧
      kvGet s1 ("mrc20::inscr_addr::" ++ inscr.ID ++ "::" ++ inscr.Address) ≠ none ∧
      addTransfer s1 t = .ok s2 ∧
      kvGet s2 ("mrc20::balance::" ++ t.ToAddress ++ "::" ++ p.Tick)
        = some (Val.raw (intToDec (bB + amt))) ∧
      kvGet s2 ("mrc20::balance::" ++ inscr.Address ++ "::" ++ p.Tick)
        = some (Val.raw (intToDec (b - amt))) ∧
      kvGet s2 ("mrc20::name_inscr::" ++ p.Tick ++ "::" ++ inscr.ID) = none ∧
      kvGet s2 ("mrc20::addr_inscr::" ++ inscr.Address ++ "::" ++ inscr.ID) = none ∧
      kvGet s2 ("mrc20::inscr_addr::" ++ inscr.ID ++ "::" ++ inscr.Address) = none ∧
      (b - amt) + (bB + amt) = b + bB ∧
      ∀ k, HasPrefix k "mrc20::balance::" = true →
        k ≠ "mrc20::balance::" ++ inscr.Address ++ "::" ++ p.Tick →
        k ≠ "mrc20::balance::" ++ t.ToAddress ++ "::" ++ p.Tick →
        kvGet s2 k = kvGet s k := by
  obtain ⟨rA, rN, rD, rJ, _, rO⟩ := pendingStore_reads s inscr p.Tick (b - amt)
  obtain ⟨qB, qN, qD, qJ, qO⟩ := settledStore_reads (pendingStore s inscr p.Tick (b - amt))
    inscr.ID inscr.Address t.ToAddress p.Tick (bB + amt)
  have hpre : HasPrefix ("mrc20::balance::" ++ inscr.Address ++ "::" ++ p.Tick)
      "mrc20::balance::" = true :=
    HasPrefix_append_left _ _ _ (HasPrefix_append_left _ _ _ (HasPrefix_append _ _))
  refine ⟨_, _, addInscription_pending hfresh hcontent hkind hparse hop hreg hbalA hamt h1,
    rA, by omega, by omega, ?_, ?_, ?_,
    addTransfer_settles hcontent hparse hamt ht1 ht2 hA hAB hno721 hno20 hbalB,
    qB, ?_, qN, qD, qJ, by ring, ?_⟩
  · rw [rN]
    exact Option.some_ne_none _
  · rw [rD]
    exact Option.some_ne_none _
  · rw [rJ]
    exact Option.some_ne_none _
  · rw [qO _ hpre (fun e => hAB (balance_key_inj e).symm)]
    exact rA
  · intro k hk hkA hkB
    rw [qO k hk hkB]
    exact rO k hk hkA

theorem mrc20_transfer_moves_amount_witness :
    ∃ s1 s2 : Store,
      addInscription sendStore (mkBlock "101" "ab" [sendInscription] []) sendInscription
        = .ok s1 ∧
      kvGet s1 "mrc20::balance::A::demo" = some (Val.raw "50") ∧
      kvGet s1 "mrc20::inscr_addr::t0::A" ≠ none ∧
      addTransfer s1 (mkTransfer "t0" "B") = .ok s2 ∧
      kvGet s2 "mrc20::balance::B::demo" = some (Val.raw "50") ∧
      kvGet s2 "mrc20::balance::A::demo" = some (Val.raw "50") ∧
      kvGet s2 "mrc20::inscr_addr::t0::A" = none := by
  obtain ⟨s1, s2, h1, h2, _, _, _, _, h7, h8, h9, h10, _, _, h13, _, _⟩ :=
    @mrc20_transfer_moves_amount sendStore (mkBlock "101" "ab" [sendInscription] [])
      sendInscription sendPayload (Content.json "mrc-20" none (some sendPayload) ("", "") none)
      (mkTransfer "t0" "B") 100 50 0 (Val.raw "DEMO")
      (by decide) (by decide) (by decide) (by rfl) (by decide) (by decide) (by decide)
      (by decide) (by decide) (by decide) (by decide) (by decide) (by decide) (by decide)
      (by decide) (by decide) (Or.inl ⟨by decide, rfl⟩)
  exact ⟨s1, s2, h1, h2, h7, h8, h9, h10, h13⟩

/-! ## Mining step -/

theorem toNat_ofNat_small (n : Nat) (h : n < 256) : (Char.ofNat n).toNat = n := by
  have hv : n.isValidChar := Or.inl (by omega)
  unfold Char.ofNat
  rw [dif_pos hv]
  unfold Char.ofNatAux Char.toNat
  simp only [UInt32.toNat]
  simp [BitVec.toNat_ofNatLt]

theorem bytesAux_spec (fuel n : Nat) (acc : List Char) (hf : n < fuel) :
    ∃ ds : List Char, bytesAux fuel n acc = ds ++ acc ∧
      ∀ a : Nat, ds.foldl (fun acc c => acc * 256 + c.toNat) a = a * 256 ^ ds.length + n := by
  induction fuel generalizing n acc with
  | zero => exact absurd hf (Nat.not_lt_zero _)
  | succ f ih =>
    unfold bytesAux
    by_cases h0 : n = 0
    · rw [if_pos h0]
      exact ⟨[], rfl, fun a => by simp [h0]⟩
    · rw [if_neg h0]
      have hlt : n / 256 < f := by omega
      obtain ⟨ds, hds, hval⟩ := ih (n / 256) (Char.ofNat (n % 256) :: acc) hlt
      refine ⟨ds ++ [Char.ofNat (n % 256)], ?_, ?_⟩
      · rw [hds]
        simp
      · intro a
        rw [List.foldl_append, hval]
        simp only [List.foldl_cons, List.foldl_nil, List.length_append, List.length_singleton,
          toNat_ofNat_small _ (Nat.mod_lt _ (by decide : 0 < 256))]
        rw [pow_succ]
        have := Nat.div_add_mod n 256
        nlinarith [this]

theorem SetBytes_bigBytes (x : Int) (hx : 0 ≤ x) : SetBytes (bigBytes x) = x := by
  obtain ⟨ds, hds, hval⟩ := bytesAux_spec (x.natAbs + 1) x.natAbs [] (Nat.lt_succ_self _)
  unfold SetBytes bigBytes
  simp only [hds, List.append_nil, hval, zero_mul, zero_add]
  omega

theorem SetBytes_nonneg (b : String) : 0 ≤ SetBytes b := by
  unfold SetBytes
  exact Int.ofNat_nonneg _

theorem RawAt_set {s : Store} (h : RawAt s) (k : String) (b : String) :
    RawAt (kvSet s k (Val.raw b)) := by
  intro k2 v hk hp
  rw [kvGet_kvSet] at hk
  by_cases e : k2 = k
  · rw [if_pos e] at hk
    cases hk
    exact ⟨b, rfl⟩
  · rw [if_neg e] at hk
    exact h k2 v hk hp

theorem RawAt_set_other {s : Store} (h : RawAt s) (k : String) (v : Val)
    (h1 : HasPrefix k "mrc20::balance::" = false)
    (h2 : HasPrefix k "mrc721::inscr_miner::" = false) :
    RawAt (kvSet s k v) := by
  intro k2 v2 hk hp
  rw [kvGet_kvSet] at hk
  by_cases e : k2 = k
  · subst e
    rcases hp with hp | hp
    · rw [h1] at hp
      cases hp
    · rw [h2] at hp
      cases hp
  · rw [if_neg e] at hk
    exact h k2 v2 hk hp

theorem minerTotal_eq {s : Store} (h : RawAt s) (id : String) :
    (match kvGet s ("mrc721::inscr_miner::" ++ id) with
      | some item => (asRaw item).map SetBytes
      | none => (.ok 0 : Except String Int)) = .ok (minerTotal s id) := by
  unfold minerTotal
  cases hk : kvGet s ("mrc721::inscr_miner::" ++ id) with
  | none => rfl
  | some v =>
    obtain ⟨b, hb⟩ := h _ v hk (Or.inr (HasPrefix_append _ _))
    subst hb
    rfl

theorem balanceValue_eq {s : Store} (h : RawAt s) (addr tick : String) :
    (match kvGet s ("mrc20::balance::" ++ addr ++ "::" ++ tick) with
      | some item => (asRaw item).map setStringInPlace
      | none => (.ok 0 : Except String Int)) = .ok (balanceValue s addr tick) := by
  unfold balanceValue
  cases hk : kvGet s ("mrc20::balance::" ++ addr ++ "::" ++ tick) with
  | none => rfl
  | some v =>
    obtain ⟨b, hb⟩ := h _ v hk
      (Or.inl (HasPrefix_append_left _ _ _ (HasPrefix_append_left _ _ _ (HasPrefix_append _ _))))
    subst hb
    rfl

theorem miner_key_inj {a b : String}
    (h : "mrc721::inscr_miner::" ++ a = "mrc721::inscr_miner::" ++ b) : a = b := by
  have h1 := congrArg String.data h
  simp only [String.data_append, List.append_cancel_left_eq] at h1
  exact String.ext h1

theorem creditMiner_effect {s : Store} (hraw : RawAt s) (m : Mrc721MinerData) (a : Int)
    (ha : SetString10 m.MinedAmount = some a) (h0 : 0 ≤ a) :
    ∃ s1, creditMiner s m = .ok s1 ∧ RawAt s1 ∧
      (∀ id, minerTotal s1 id
        = minerTotal s id + (if m.InscriptionsID = id then a else 0)) ∧
      (∀ addr, balanceValue s1 addr m.Tick
        = balanceValue s addr m.Tick + (if m.Address = addr then a else 0)) := by
  refine ⟨kvSet
      (kvSet (kvSet s ("mrc721::inscr_miner::" ++ m.InscriptionsID)
          (Val.raw (bigBytes (minerTotal s m.InscriptionsID + a))))
        ("mrc721::inscr_power::" ++ m.InscriptionsID) (Val.raw (bigBytes m.Power)))
      ("mrc20::balance::" ++ m.Address ++ "::" ++ m.Tick)
      (Val.raw (intToDec (balanceValue s m.Address m.Tick + a))), ?_, ?_, ?_, ?_⟩
  · have e1 : ("mrc20::balance::" ++ m.Address ++ "::" ++ m.Tick
        = "mrc721::inscr_power::" ++ m.InscriptionsID) = False :=
      eq_false (fam_ne_short (by decide) _ _ _)
    have e2 : ("mrc20::balance::" ++ m.Address ++ "::" ++ m.Tick
        = "mrc721::inscr_miner::" ++ m.InscriptionsID) = False :=
      eq_false (fam_ne_short (by decide) _ _ _)
    unfold creditMiner minerTotal balanceValue
    simp only [kvGet_kvSet, e1, e2, if_false, ha]
    cases hk : kvGet s ("mrc721::inscr_miner::" ++ m.InscriptionsID) with
    | none =>
      cases hb : kvGet s ("mrc20::balance::" ++ m.Address ++ "::" ++ m.Tick) with
      | none => rfl
      | some v =>
        obtain ⟨b, hv⟩ := hraw _ v hb (Or.inl (HasPrefix_append_left _ _ _
          (HasPrefix_append_left _ _ _ (HasPrefix_append _ _))))
        subst hv
        rfl
    | some w =>
      obtain ⟨bw, hw⟩ := hraw _ w hk (Or.inr (HasPrefix_append _ _))
      subst hw
      cases hb : kvGet s ("mrc20::balance::" ++ m.Address ++ "::" ++ m.Tick) with
      | none => rfl
      | some v =>
        obtain ⟨b, hv⟩ := hraw _ v hb (Or.inl (HasPrefix_append_left _ _ _
          (HasPrefix_append_left _ _ _ (HasPrefix_append _ _))))
        subst hv
        rfl
  · exact RawAt_set (RawAt_set (RawAt_set hraw _ _) _ _) _ _
  · intro id
    unfold minerTotal
    rw [kvGet_kvSet_ne _ _ _ _ (fun e => fam_ne_short (by decide) _ _ _ e.symm),
      kvGet_kvSet_ne _ _ _ _ (key_ne_of_clash (by decide)), kvGet_kvSet]
    by_cases e : m.InscriptionsID = id
    · subst e
      rw [if_pos rfl, if_pos rfl]
      simp only
      have hmt : 0 ≤ minerTotal s m.InscriptionsID := by
        unfold minerTotal
        split
        · exact SetBytes_nonneg _
        · exact le_refl _
      have := SetBytes_bigBytes (minerTotal s m.InscriptionsID + a) (by omega)
      unfold minerTotal at this
      exact this
    · rw [if_neg (fun h => e (miner_key_inj h).symm), if_neg e, add_zero]
  · intro addr
    unfold balanceValue
    rw [kvGet_kvSet]
    by_cases e : m.Address = addr
    · subst e
      rw [if_pos rfl, if_pos rfl]
      simp only
      have := setStringInPlace_of (SetString10_intToDec (balanceValue s m.Address m.Tick + a))
      unfold balanceValue at this
      exact this
    · rw [if_neg (fun h => e (balance_key_inj h).symm), if_neg e, add_zero,
        kvGet_kvSet_ne _ _ _ _ (fam_ne_short (by decide) _ _ _),
        kvGet_kvSet_ne _ _ _ _ (fam_ne_short (by decide) _ _ _)]

theorem creditMiners_effect (tick : String) :
    ∀ (miners : List Mrc721MinerData) (s : Store), RawAt s →
      (∀ m ∈ miners, SetString10 m.MinedAmount = some (minedOf m) ∧ 0 ≤ minedOf m ∧
        m.Tick = tick) →
      ∃ s1, creditMiners miners s = .ok s1 ∧ RawAt s1 ∧
        (∀ id, minerTotal s1 id = minerTotal s id
          + ((miners.filter (fun m => m.InscriptionsID = id)).map minedOf).sum) ∧
        (∀ addr, balanceValue s1 addr tick = balanceValue s addr tick
          + ((miners.filter (fun m => m.Address = addr)).map minedOf).sum)
  | [], s, hraw, _ => ⟨s, rfl, hraw, fun _ => by simp, fun _ => by simp⟩
  | m :: rest, s, hraw, hall => by
    obtain ⟨ha, h0, ht⟩ := hall m (List.mem_cons_self _ _)
    obtain ⟨s1, h1, hraw1, hm1, hb1⟩ := creditMiner_effect hraw m (minedOf m) ha h0
    obtain ⟨s2, h2, hraw2, hm2, hb2⟩ := creditMiners_effect tick rest s1 hraw1
      (fun x hx => hall x (List.mem_cons_of_mem _ hx))
    refine ⟨s2, ?_, hraw2, ?_, ?_⟩
    · unfold creditMiners
      rw [h1]
      exact h2
    · intro id
      rw [hm2, hm1, List.filter_cons]
      by_cases e : m.InscriptionsID = id
      · simp only [e, if_true, decide_True, List.map_cons, List.sum_cons]
        ring
      · simp [e]
    · intro addr
      rw [hb2, ← ht, hb1, List.filter_cons]
      by_cases e : m.Address = addr
      · simp only [e, if_true, decide_True, List.map_cons, List.sum_cons]
        rw [ht]
        ring
      · simp [e, ht]

theorem awardLoop_count : ∀ (l : List Mrc721MinerData) (cur : Int),
    ∃ c : Nat, c ≤ l.length ∧
      (awardLoop l cur).1 = (l.take c).map (fun m => m.InscriptionsID) ∧
      (awardLoop l cur).2 = cur - c
  | [], cur => ⟨0, le_refl _, rfl, by simp [awardLoop]⟩
  | m :: rest, cur => by
    unfold awardLoop
    by_cases h : cur - 1 = 0
    · refine ⟨1, by simp, ?_, ?_⟩
      · simp [h]
      · simp [h]
    · obtain ⟨c, hc, h1, h2⟩ := awardLoop_count rest (cur - 1)
      refine ⟨c + 1, by simpa using hc, ?_, ?_⟩
      · simp only [h, if_false, List.take_succ_cons, List.map_cons, h1]
      · simp only [h, if_false, h2]
        push_cast
        ring

theorem sum_ite_mem (r1 : List String) : ∀ l : List Mrc721MinerData,
    (l.map (fun m => if m.InscriptionsID ∈ r1 then (1 : Int) else 0)).sum
      = (((l.map (fun m => m.InscriptionsID)).filter (fun x => decide (x ∈ r1))).length : Int)
  | [] => rfl
  | m :: rest => by
    rw [List.map_cons, List.sum_cons, sum_ite_mem r1 rest, List.map_cons, List.filter_cons]
    by_cases h : m.InscriptionsID ∈ r1
    · simp only [h, if_true, decide_True, List.length_cons]
      push_cast
      ring
    · simp [h]

theorem sum_ite_single (v : Int) (a0 : String) : ∀ as : List String, as.Nodup → a0 ∈ as →
    (as.map (fun a => if a0 = a then v else 0)).sum = v
  | [], _, h => absurd h (List.not_mem_nil _)
  | a :: rest, hnd, h => by
    rw [List.nodup_cons] at hnd
    rw [List.map_cons, List.sum_cons]
    by_cases e : a0 = a
    · subst e
      have hz : (rest.map (fun a => if a0 = a then v else 0)).sum = 0 := by
        apply List.sum_eq_zero
        intro x hx
        obtain ⟨y, hy, rfl⟩ := List.mem_map.mp hx
        by_cases e2 : a0 = y
        · subst e2
          exact absurd hy hnd.1
        · rw [if_neg e2]
      rw [if_pos rfl, hz, add_zero]
    · rw [if_neg e, zero_add]
      rcases List.mem_cons.mp h with h1 | h1
      · exact absurd h1 e
      · exact sum_ite_single v a0 rest hnd.2 h1

theorem sum_fiberwise {α : Type} (key : α → String) (f : α → Int) (as : List String)
    (hnd : as.Nodup) : ∀ l : List α, (∀ m ∈ l, key m ∈ as) →
      (as.map (fun a => ((l.filter (fun m => decide (key m = a))).map f).sum)).sum
        = (l.map f).sum
  | [], _ => by simp
  | m :: rest, h => by
    have ih := sum_fiberwise key f as hnd rest (fun x hx => h x (List.mem_cons_of_mem _ hx))
    have hm := h m (List.mem_cons_self _ _)
    have e : (fun a => (((m :: rest).filter (fun x => decide (key x = a))).map f).sum)
        = (fun a => (if key m = a then f m else 0)
            + ((rest.filter (fun x => decide (key x = a))).map f).sum) := by
      funext a
      rw [List.filter_cons]
      by_cases e1 : key m = a
      · simp [e1]
      · simp [e1]
    rw [e, List.sum_map_add, ih, sum_ite_single (f m) (key m) as hnd hm, List.map_cons,
      List.sum_cons]

theorem powerRewards_sums (M : Int) (miners : List Mrc721MinerData)
    (hz : ∀ m ∈ miners, m.MinedAmount = "0") (hp : ∀ m ∈ miners, 0 ≤ m.Power)
    (hid : (miners.map (fun m => m.InscriptionsID)).Nodup) :
    (∀ m ∈ (powerRewards M miners).2,
      SetString10 m.MinedAmount = some (minedOf m) ∧ 0 ≤ minedOf m) ∧
    ((powerRewards M miners).2.map minedOf).sum = M - (powerRewards M miners).1 ∧
    (powerRewards M miners).2.map (fun m => m.InscriptionsID)
      = miners.map (fun m => m.InscriptionsID) ∧
    (powerRewards M miners).2.map (fun m => m.Address) = miners.map (fun m => m.Address) ∧
    (powerRewards M miners).2.map (fun m => m.Tick) = miners.map (fun m => m.Tick) := by
  have hzero : ∀ m ∈ miners, SetString10 m.MinedAmount = some (minedOf m) ∧ 0 ≤ minedOf m ∧
      minedOf m = 0 := by
    intro m hm
    have e : minedOf m = 0 := by
      unfold minedOf
      rw [hz m hm]
      rfl
    refine ⟨?_, by omega, e⟩
    rw [e, hz m hm]
    rfl
  have hsum0 : (miners.map minedOf).sum = 0 := by
    apply List.sum_eq_zero
    intro x hx
    obtain ⟨m, hm, rfl⟩ := List.mem_map.mp hx
    exact (hzero m hm).2.2
  unfold powerRewards
  by_cases h0 : M = 0
  · rw [if_pos h0]
    exact ⟨fun m hm => ⟨(hzero m hm).1, (hzero m hm).2.1⟩, by rw [hsum0]; simp, rfl, rfl, rfl⟩
  · rw [if_neg h0]
    simp only
    have hSsum : miners.foldl (fun acc m => acc + m.Power) 0
        = (miners.map (fun m : Mrc721MinerData => m.Power)).sum := by
      rw [foldl_add_eq_sum (fun m : Mrc721MinerData => m.Power), zero_add]
    generalize miners.foldl (fun acc m => acc + m.Power) 0 = S at hSsum ⊢
    by_cases hS : S = 0
    · rw [if_pos hS]
      exact ⟨fun m hm => ⟨(hzero m hm).1, (hzero m hm).2.1⟩, by rw [hsum0]; simp, rfl, rfl,
        rfl⟩
    · rw [if_neg hS]
      by_cases hge : M ≥ (miners.length : Int)
      · rw [if_pos hge]
        dsimp only
        have hSpos : 0 < S := by
          have h1 : 0 ≤ (miners.map (fun m : Mrc721MinerData => m.Power)).sum := by
            apply List.sum_nonneg
            intro x hx
            obtain ⟨m, hm, rfl⟩ := List.mem_map.mp hx
            exact hp m hm
          omega
        have hM : 0 ≤ M := le_trans (Int.ofNat_nonneg _) hge
        have e : (minedOf ∘ fun m : Mrc721MinerData =>
            { m with MinedAmount := intToDec (M * m.Power / S) })
            = fun m => M * m.Power / S := by
          funext m
          simp only [Function.comp, minedOf, SetString10_intToDec, Option.getD_some]
        refine ⟨?_, ?_, ?_, ?_, ?_⟩
        · intro m hm
          obtain ⟨x, hx, rfl⟩ := List.mem_map.mp hm
          have e1 := congrFun e x
          simp only [Function.comp] at e1
          rw [e1]
          exact ⟨SetString10_intToDec _,
            Int.ediv_nonneg (mul_nonneg hM (hp x hx)) (le_of_lt hSpos)⟩
        · rw [List.map_map, e,
            foldl_add_eq_sum (fun m : Mrc721MinerData => M * m.Power / S)]
          ring
        · rw [List.map_map]
          rfl
        · rw [List.map_map]
          rfl
        · rw [List.map_map]
          rfl
      · rw [if_neg hge]
        dsimp only
        obtain ⟨c, hc, h1, h2⟩ := awardLoop_count (sortMiners miners) M
        have hperm := sortMiners_perm miners
        have hlen : (sortMiners miners).length = miners.length := hperm.length_eq
        have hids : ((sortMiners miners).map (fun m => m.InscriptionsID)).Nodup :=
          (List.Perm.map _ hperm).nodup_iff.mpr hid
        have hr1nd : (awardLoop (sortMiners miners) M).1.Nodup := by
          rw [h1]
          exact List.Nodup.sublist (List.Sublist.map _ (List.take_sublist _ _)) hids
        have hr1sub : ∀ x ∈ (awardLoop (sortMiners miners) M).1,
            x ∈ miners.map (fun m => m.InscriptionsID) := by
          intro x hx
          rw [h1] at hx
          obtain ⟨m, hm, rfl⟩ := List.mem_map.mp hx
          exact List.mem_map_of_mem _ (hperm.subset (List.mem_of_mem_take hm))
        have hr1len : (awardLoop (sortMiners miners) M).1.length = c := by
          rw [h1, List.length_map, List.length_take]
          omega
        have hcount : ((miners.map (fun m => m.InscriptionsID)).filter
            (fun x => decide (x ∈ (awardLoop (sortMiners miners) M).1))).length = c := by
          rw [← hr1len]
          apply List.Perm.length_eq
          rw [List.perm_ext_iff_of_nodup (List.Nodup.filter _ hid) hr1nd]
          intro a
          rw [List.mem_filter, decide_eq_true_eq]
          exact ⟨fun h => h.2, fun h => ⟨hr1sub a h, h⟩⟩
        refine ⟨?_, ?_, ?_, ?_, ?_⟩
        · intro m hm
          obtain ⟨x, hx, rfl⟩ := List.mem_map.mp hm
          by_cases hin : x.InscriptionsID ∈ (awardLoop (sortMiners miners) M).1
          · rw [if_pos hin]
            have e1 : minedOf { x with MinedAmount := "1" } = 1 := rfl
            rw [e1]
            exact ⟨by rfl, by decide⟩
          · rw [if_neg hin]
            exact ⟨(hzero x hx).1, (hzero x hx).2.1⟩
        · rw [List.map_map]
          have e : (miners.map (minedOf ∘ fun m : Mrc721MinerData =>
              if m.InscriptionsID ∈ (awardLoop (sortMiners miners) M).1
              then { m with MinedAmount := "1" } else m))
              = miners.map (fun m =>
                if m.InscriptionsID ∈ (awardLoop (sortMiners miners) M).1 then (1 : Int)
                else 0) := by
            apply List.map_congr_left
            intro m hm
            simp only [Function.comp]
            by_cases hin : m.InscriptionsID ∈ (awardLoop (sortMiners miners) M).1
            · rw [if_pos hin, if_pos hin]
              rfl
            · rw [if_neg hin, if_neg hin]
              exact (hzero m hm).2.2
          rw [e, sum_ite_mem, hcount, h2]
          ring
        · rw [List.map_map]
          apply List.map_congr_left
          intro m _
          simp only [Function.comp]
          split <;> rfl
        · rw [List.map_map]
          apply List.map_congr_left
          intro m _
          simp only [Function.comp]
          split <;> rfl
        · rw [List.map_map]
          apply List.map_congr_left
          intro m _
          simp only [Function.comp]
          split <;> rfl

theorem buildMinerMap_facts (s : Store) (tick pre : String) : ∀ l : List (String × Val),
    (∀ m ∈ buildMinerMap s tick pre l,
      m.MinedAmount = "0" ∧ m.Power = 1000 ∧ m.Tick = tick) ∧
    List.Sublist ((buildMinerMap s tick pre l).map (fun m => m.InscriptionsID))
      (l.map (fun kv => dropPre kv.1 pre))
  | [] => ⟨fun _ h => absurd h (List.not_mem_nil _), List.Sublist.slnil⟩
  | (key, v) :: rest => by
    obtain ⟨ih1, ih2⟩ := buildMinerMap_facts s tick pre rest
    unfold buildMinerMap
    simp only
    split
    · exact ⟨ih1, ih2.cons _⟩
    · split
      · exact ⟨ih1, ih2.cons _⟩
      · refine ⟨?_, ?_⟩
        · intro m hm
          rcases List.mem_cons.mp hm with e | e
          · subst e
            exact ⟨rfl, rfl, rfl⟩
          · exact ih1 m e
        · simp only [List.map_cons]
          exact ih2.cons₂ _

theorem scan_ids_nodup {s : Store} (hs : StoreSorted s) (pre : String) :
    ((kvScan s pre).map (fun kv => dropPre kv.1 pre)).Nodup := by
  unfold StoreSorted at hs
  have h1 : (kvScan s pre).Pairwise (fun x y => keyLt x.1.data y.1.data = true) := by
    unfold kvScan
    exact hs.sublist (List.filter_sublist _)
  rw [List.Nodup, List.pairwise_map]
  refine List.Pairwise.imp_of_mem ?_ h1
  intro x y hx hy hlt e
  have ex := HasPrefix_dropPre (kvScan_mem_HasPrefix hx)
  have ey := HasPrefix_dropPre (kvScan_mem_HasPrefix hy)
  have exy : x.1 = y.1 := by rw [← ex, ← ey, e]
  rw [exy, keyLt_irrefl] at hlt
  cases hlt

theorem applyBurnPower_ok (u boost : Int) (hu : u ≠ 0) : ∀ l : List Mrc721MinerData,
    applyBurnPower (some u) boost l
      = .ok (l.map (fun m =>
          { m with Power :=
              if m.Power + SetBytes m.BurnNum / u * boost > 11000 then 11000
              else m.Power + SetBytes m.BurnNum / u * boost }))
  | [] => rfl
  | m :: rest => by
    unfold applyBurnPower
    simp only [hu, if_false, applyBurnPower_ok u boost hu rest, List.map_cons]

theorem boostedMiners_facts {proto : MRC721Protocol} (minerMap : List Mrc721MinerData)
    (hburn : ∀ bn, proto.Burn = some bn → ∃ u, SetString10 bn.Unit = some u ∧ 0 < u ∧
      0 ≤ stringToPercentageBigInt bn.Boost)
    (hmm : ∀ m ∈ minerMap, m.MinedAmount = "0" ∧ m.Power = 1000) :
    (match proto.Burn with
      | some b => applyBurnPower (SetString10 b.Unit) (stringToPercentageBigInt b.Boost) minerMap
      | none => .ok minerMap) = .ok (boostedMiners proto minerMap) ∧
    (∀ m ∈ boostedMiners proto minerMap, m.MinedAmount = "0" ∧ 0 ≤ m.Power) ∧
    (boostedMiners proto minerMap).map (fun m => m.InscriptionsID)
      = minerMap.map (fun m => m.InscriptionsID) ∧
    (boostedMiners proto minerMap).map (fun m => m.Address)
      = minerMap.map (fun m => m.Address) ∧
    (boostedMiners proto minerMap).map (fun m => m.Tick) = minerMap.map (fun m => m.Tick) := by
  unfold boostedMiners
  cases hB : proto.Burn with
  | none =>
    exact ⟨rfl, fun m hm => ⟨(hmm m hm).1, by rw [(hmm m hm).2]; decide⟩, rfl, rfl, rfl⟩
  | some b =>
    obtain ⟨u, hu, hpos, hb0⟩ := hburn b hB
    simp only [hu, Option.getD_some]
    refine ⟨applyBurnPower_ok u _ (by omega) minerMap, ?_, ?_, ?_, ?_⟩
    · intro m hm
      obtain ⟨x, hx, rfl⟩ := List.mem_map.mp hm
      refine ⟨(hmm x hx).1, ?_⟩
      have h1 : 0 ≤ SetBytes x.BurnNum / u * stringToPercentageBigInt b.Boost :=
        mul_nonneg (Int.ediv_nonneg (SetBytes_nonneg _) (le_of_lt hpos)) hb0
      have h2 := (hmm x hx).2
      simp only
      split <;> omega
    · rw [List.map_map]
      rfl
    · rw [List.map_map]
      rfl
    · rw [List.map_map]
      rfl

theorem CalculateMiningRewards_step {g : Mrc721GenesisData} {proto : MRC721Protocol}
    {height : String} {T TM TP gh ch halv beg : Int} (minerMap : List Mrc721MinerData)
    (hT : SetString10 proto.Token.Total = some T)
    (hTM : SetString10 g.TotalMinedTokens = some TM)
    (hTP : SetString10 g.TotalPrizePoolTokens = some TP)
    (hrem : 0 < T - (TM + TP))
    (hch : SetString10 height = some ch) (hgh : SetString10 g.BlockHeight = some gh)
    (hhalv : SetString10 proto.Token.Halv = some halv) (hh0 : halv ≠ 0)
    (hbeg : SetString10 proto.Token.Beg = some beg)
    (hper : perBlockOf T TM TP gh ch halv beg (stringToPercentageBigInt proto.Token.Dcr) ≠ 0)
    (hburn : ∀ bn, proto.Burn = some bn → ∃ u, SetString10 bn.Unit = some u ∧ 0 < u ∧
      0 ≤ stringToPercentageBigInt bn.Boost)
    (hmm : ∀ m ∈ minerMap, m.MinedAmount = "0" ∧ m.Power = 1000)
    (hid : (minerMap.map (fun m => m.InscriptionsID)).Nodup) :
    ∃ (res : MiningRewardCalculation) (miners : List Mrc721MinerData),
      CalculateMiningRewards height g proto minerMap = .ok (res, miners) ∧
      res.IsMiningEnd = false ∧
      res.CurrentPrizePoolAllNum = intToDec (poolSkim proto
        (perBlockOf T TM TP gh ch halv beg (stringToPercentageBigInt proto.Token.Dcr))) ∧
      res.CurrentMiningAllNum = intToDec ((miners.map minedOf).sum) ∧
      (∀ m ∈ miners, SetString10 m.MinedAmount = some (minedOf m) ∧ 0 ≤ minedOf m) ∧
      miners.map (fun m => m.InscriptionsID) = minerMap.map (fun m => m.InscriptionsID) ∧
      miners.map (fun m => m.Address) = minerMap.map (fun m => m.Address) ∧
      miners.map (fun m => m.Tick) = minerMap.map (fun m => m.Tick) := by
  obtain ⟨hb1, hb2, hb3, hb4, hb5⟩ := boostedMiners_facts minerMap hburn hmm
  have hid1 : ((boostedMiners proto minerMap).map (fun m => m.InscriptionsID)).Nodup := by
    rw [hb3]
    exact hid
  obtain ⟨hp1, hp2, hp3, hp4, hp5⟩ := powerRewards_sums
    (perBlockOf T TM TP gh ch halv beg (stringToPercentageBigInt proto.Token.Dcr)
      - poolSkim proto
        (perBlockOf T TM TP gh ch halv beg (stringToPercentageBigInt proto.Token.Dcr)))
    (boostedMiners proto minerMap) (fun m hm => (hb2 m hm).1) (fun m hm => (hb2 m hm).2) hid1
  refine ⟨MiningRewardCalculation.mk
      (intToDec (poolSkim proto
        (perBlockOf T TM TP gh ch halv beg (stringToPercentageBigInt proto.Token.Dcr))))
      (intToDec
        (perBlockOf T TM TP gh ch halv beg (stringToPercentageBigInt proto.Token.Dcr)
          - poolSkim proto
            (perBlockOf T TM TP gh ch halv beg (stringToPercentageBigInt proto.Token.Dcr))
          - (powerRewards
            (perBlockOf T TM TP gh ch halv beg (stringToPercentageBigInt proto.Token.Dcr)
              - poolSkim proto
                (perBlockOf T TM TP gh ch halv beg (stringToPercentageBigInt proto.Token.Dcr)))
            (boostedMiners proto minerMap)).1))
      false "",
    (powerRewards
      (perBlockOf T TM TP gh ch halv beg (stringToPercentageBigInt proto.Token.Dcr)
        - poolSkim proto
          (perBlockOf T TM TP gh ch halv beg (stringToPercentageBigInt proto.Token.Dcr)))
      (boostedMiners proto minerMap)).2,
    ?_, rfl, rfl, ?_, hp1, hp3.trans hb3, hp4.trans hb4, hp5.trans hb5⟩
  · unfold CalculateMiningRewards blockIssuance
    simp only [bind, Except.bind, pure, Except.pure, need, hT, hTM, hTP,
      not_lt.mpr (le_of_lt hrem), ne_of_gt hrem, if_false, hch, hgh, hhalv, hbeg, hh0]
    unfold perBlockOf at hper
    simp only [hper, if_false]
    unfold boostedMiners at hb1 ⊢
    cases hB : proto.Burn with
    | none => rfl
    | some b =>
      rw [hB] at hb1
      simp only at hb1
      simp only [hb1]
      rfl
  · show intToDec _ = intToDec _
    rw [hp2]

theorem RawAt_of_check {s : Store} (h : rawAtCheck s = true) : RawAt s := by
  intro k v hk hp
  unfold rawAtCheck at h
  rw [List.all_eq_true] at h
  have h1 := h (k, v) (kvGet_mem hk)
  have h2 : (HasPrefix k "mrc20::balance::" || HasPrefix k "mrc721::inscr_miner::") = true := by
    rcases hp with hp | hp
    · rw [hp]
      rfl
    · rw [hp]
      exact Bool.or_true _
  simp only [h2, Bool.not_true, Bool.false_or] at h1
  cases v with
  | raw b => exact ⟨b, rfl⟩
  | inscr i => cases h1
  | genesis g => cases h1
  | block b => cases h1
  | lottery l => cases h1

theorem minerTotal_set_geninsc (s : Store) (name : String) (v : Val) (id : String) :
    minerTotal (kvSet s ("mrc721::geninsc::" ++ name) v) id = minerTotal s id := by
  unfold minerTotal
  rw [kvGet_kvSet_ne _ _ _ _ (key_ne_of_clash (by decide))]

theorem balanceValue_set_geninsc (s : Store) (name : String) (v : Val) (addr tick : String) :
    balanceValue (kvSet s ("mrc721::geninsc::" ++ name) v) addr tick
      = balanceValue s addr tick := by
  unfold balanceValue
  rw [kvGet_kvSet_ne _ _ _ _ (fam_ne_short (by decide) _ _ _)]

theorem filter_id_sum (f : Mrc721MinerData → Int) : ∀ (l : List Mrc721MinerData),
    (l.map (fun m => m.InscriptionsID)).Nodup → ∀ m ∈ l,
      ((l.filter (fun x => decide (x.InscriptionsID = m.InscriptionsID))).map f).sum = f m
  | [], _, m, hm => absurd hm (List.not_mem_nil _)
  | x :: rest, hnd, m, hm => by
    rw [List.map_cons, List.nodup_cons] at hnd
    rw [List.filter_cons]
    rcases List.mem_cons.mp hm with e | e
    · subst e
      have hnil : rest.filter (fun x => decide (x.InscriptionsID = m.InscriptionsID)) = [] := by
        rw [List.filter_eq_nil_iff]
        intro y hy
        rw [decide_eq_true_eq]
        intro e2
        exact hnd.1 (e2 ▸ List.mem_map_of_mem _ hy)
      simp [hnil]
    · have hne : ¬ x.InscriptionsID = m.InscriptionsID := by
        intro e2
        exact hnd.1 (e2 ▸ List.mem_map_of_mem _ e)
      simp only [hne, decide_False, Bool.false_eq_true, if_false]
      exact filter_id_sum f rest hnd.2 m e

/-- C15. A mining step of a collection that is not ended (remaining supply positive, the
block's clamped issuance `perBlock` not zero) returns a store in which, with
`k = ⌊perBlock * pool / 1000⌋` (0 without an `ltry` section) and `miners` the miner map
after `CalculateMiningRewards`: every miner's `mrc721::inscr_miner::<id>` has grown by its
mined amount, every owner's `mrc20::balance::<owner>::<tick>` has grown by the sum of the
mined amounts of its inscriptions, the sum of the balance increases over the owners and the
sum of the `inscr_miner` increases both equal the sum of the mined amounts, which is
`CurrentMiningAllNum` and the increase of `total_mined_tokens`, and `prize_pool_tokens` and
`total_prize_pool_tokens` have each grown by `k`. -/
theorem mining_step_sums {s : Store} {block : HookBlock} {key : String}
    {g : Mrc721GenesisData} {hook : HookInscription} {c : Content} {proto : MRC721Protocol}
    {T TM TP PP gh ch halv beg : Int}
    (hs : StoreSorted s) (hraw : RawAt s)
    (hk : kvGet s ("inscr::" ++ g.ID) = some (Val.inscr hook))
    (hc : hook.ContentByte = some c) (hp : ParseMRC721Protocol c = .ok proto)
    (hnot : g.TotalMinedTokens ≠ proto.Token.Total)
    (hT : SetString10 proto.Token.Total = some T)
    (hTM : SetString10 g.TotalMinedTokens = some TM)
    (hTP : SetString10 g.TotalPrizePoolTokens = some TP)
    (hPP : SetString10 g.PrizePoolTokens = some PP)
    (hrem : 0 < T - (TM + TP))
    (hch : SetString10 block.BlockHeight = some ch)
    (hgh : SetString10 g.BlockHeight = some gh)
    (hhalv : SetString10 proto.Token.Halv = some halv) (hh0 : halv ≠ 0)
    (hbeg : SetString10 proto.Token.Beg = some beg)
    (hper : perBlockOf T TM TP gh ch halv beg (stringToPercentageBigInt proto.Token.Dcr) ≠ 0)
    (hburn : ∀ bn, proto.Burn = some bn → ∃ u, SetString10 bn.Unit = some u ∧ 0 < u ∧
      0 ≤ stringToPercentageBigInt bn.Boost) :
    ∃ (s1 : Store) (res : MiningRewardCalculation) (miners : List Mrc721MinerData) (k : Int),
      k = poolSkim proto
        (perBlockOf T TM TP gh ch halv beg (stringToPercentageBigInt proto.Token.Dcr)) ∧
      (∀ l, proto.Ltry = some l →
        k = ⌊((perBlockOf T TM TP gh ch halv beg (stringToPercentageBigInt proto.Token.Dcr)
          * stringToPercentageBigInt l.Pool : Int) : ℚ) / 1000⌋) ∧
      (proto.Ltry = none → k = 0) ∧
      CalculateMiningRewards block.BlockHeight g proto
        (buildMinerMap s g.Tick
          ("mrc721::name_inscr::" ++ dropPre key "mrc721::geninsc::" ++ "::")
          (kvScan s ("mrc721::name_inscr::" ++ dropPre key "mrc721::geninsc::" ++ "::")))
        = .ok (res, miners) ∧
      res.IsMiningEnd = false ∧
      SetString10 res.CurrentMiningAllNum = some ((miners.map minedOf).sum) ∧
      miners.map (fun m => m.InscriptionsID)
        = (buildMinerMap s g.Tick
            ("mrc721::name_inscr::" ++ dropPre key "mrc721::geninsc::" ++ "::")
            (kvScan s ("mrc721::name_inscr::" ++ dropPre key "mrc721::geninsc::" ++ "::"))).map
          (fun m => m.InscriptionsID) ∧
      miners.map (fun m => m.Address)
        = (buildMinerMap s g.Tick
            ("mrc721::name_inscr::" ++ dropPre key "mrc721::geninsc::" ++ "::")
            (kvScan s ("mrc721::name_inscr::" ++ dropPre key "mrc721::geninsc::" ++ "::"))).map
          (fun m => m.Address) ∧
      mineCollection s block key (Val.genesis g) = .ok s1 ∧
      (∀ m ∈ miners, 0 ≤ minedOf m ∧
        minerTotal s1 m.InscriptionsID = minerTotal s m.InscriptionsID + minedOf m) ∧
      (∀ addr, balanceValue s1 addr g.Tick = balanceValue s addr g.Tick
        + ((miners.filter (fun m => m.Address = addr)).map minedOf).sum) ∧
      ((miners.map (fun m => m.Address)).dedup.map
        (fun a => balanceValue s1 a g.Tick - balanceValue s a g.Tick)).sum
        = (miners.map minedOf).sum ∧
      (miners.map (fun m => minerTotal s1 m.InscriptionsID
        - minerTotal s m.InscriptionsID)).sum = (miners.map minedOf).sum ∧
      kvGet s1 ("mrc721::geninsc::" ++ dropPre key "mrc721::geninsc::")
        = some (Val.genesis { g with
            PrizePoolTokens := intToDec (PP + k),
            TotalMinedTokens := intToDec (TM + (miners.map minedOf).sum),
            TotalPrizePoolTokens := intToDec (TP + k) }) := by
  obtain ⟨hf1, hf2⟩ := buildMinerMap_facts s g.Tick
    ("mrc721::name_inscr::" ++ dropPre key "mrc721::geninsc::" ++ "::")
    (kvScan s ("mrc721::name_inscr::" ++ dropPre key "mrc721::geninsc::" ++ "::"))
  have hid := List.Nodup.sublist hf2 (scan_ids_nodup hs _)
  obtain ⟨res, miners, hcalc, hend, hcp, hcm, hmin, hids, haddrs, hticks⟩ :=
    CalculateMiningRewards_step _ hT hTM hTP hrem hch hgh hhalv hh0 hbeg hper hburn
      (fun m hm => ⟨(hf1 m hm).1, (hf1 m hm).2.1⟩) hid
  have htick : ∀ m ∈ miners, m.Tick = g.Tick := by
    intro m hm
    have h1 : m.Tick ∈ miners.map (fun m => m.Tick) := List.mem_map_of_mem _ hm
    rw [hticks] at h1
    obtain ⟨x, hx, e⟩ := List.mem_map.mp h1
    rw [← e]
    exact (hf1 x hx).2.2
  have hidm : (miners.map (fun m => m.InscriptionsID)).Nodup := by
    rw [hids]
    exact hid
  obtain ⟨s1, hcred, _, hmt, hbv⟩ := creditMiners_effect g.Tick miners s hraw
    (fun m hm => ⟨(hmin m hm).1, (hmin m hm).2, htick m hm⟩)
  have hupd : updateGenesisMined g res = .ok { g with
      PrizePoolTokens := intToDec (PP + poolSkim proto
        (perBlockOf T TM TP gh ch halv beg (stringToPercentageBigInt proto.Token.Dcr))),
      TotalMinedTokens := intToDec (TM + (miners.map minedOf).sum),
      TotalPrizePoolTokens := intToDec (TP + poolSkim proto
        (perBlockOf T TM TP gh ch halv beg (stringToPercentageBigInt proto.Token.Dcr))) } := by
    unfold updateGenesisMined
    simp only [bind, Except.bind, pure, Except.pure, need, hPP, hTM, hTP, hcp, hcm,
      SetString10_intToDec]
  have hrun : mineCollection s block key (Val.genesis g)
      = .ok (kvSet s1 ("mrc721::geninsc::" ++ dropPre key "mrc721::geninsc::") (Val.genesis
          { g with
            PrizePoolTokens := intToDec (PP + poolSkim proto
              (perBlockOf T TM TP gh ch halv beg (stringToPercentageBigInt proto.Token.Dcr))),
            TotalMinedTokens := intToDec (TM + (miners.map minedOf).sum),
            TotalPrizePoolTokens := intToDec (TP + poolSkim proto
              (perBlockOf T TM TP gh ch halv beg
                (stringToPercentageBigInt proto.Token.Dcr))) })) := by
    unfold mineCollection
    simp only [bind, Except.bind, pure, Except.pure, asGenesis, hk, asInscr, contentOf, hc, hp,
      hnot, if_false, hcalc, hend, hcred, hupd, Bool.false_eq_true]
  have hper1 : ∀ m ∈ miners,
      minerTotal s1 m.InscriptionsID = minerTotal s m.InscriptionsID + minedOf m := by
    intro m hm
    rw [hmt, filter_id_sum minedOf miners hidm m hm]
  refine ⟨_, res, miners, _, rfl, ?_, ?_, hcalc, hend, ?_, hids, haddrs, hrun, ?_, ?_, ?_, ?_,
    kvGet_kvSet_self _ _ _⟩
  · intro l hl
    unfold poolSkim
    rw [hl, floor_div_thousand]
  · intro hl
    unfold poolSkim
    rw [hl]
  · rw [hcm, SetString10_intToDec]
  · intro m hm
    rw [minerTotal_set_geninsc]
    exact ⟨(hmin m hm).2, hper1 m hm⟩
  · intro addr
    rw [balanceValue_set_geninsc]
    exact hbv addr
  · have e : (fun a => balanceValue (kvSet s1 ("mrc721::geninsc::"
          ++ dropPre key "mrc721::geninsc::") (Val.genesis
          { g with
            PrizePoolTokens := intToDec (PP + poolSkim proto
              (perBlockOf T TM TP gh ch halv beg (stringToPercentageBigInt proto.Token.Dcr))),
            TotalMinedTokens := intToDec (TM + (miners.map minedOf).sum),
            TotalPrizePoolTokens := intToDec (TP + poolSkim proto
              (perBlockOf T TM TP gh ch halv beg
                (stringToPercentageBigInt proto.Token.Dcr))) })) a g.Tick
          - balanceValue s a g.Tick)
        = (fun a => ((miners.filter (fun m => decide (m.Address = a))).map minedOf).sum) := by
      funext a
      rw [balanceValue_set_geninsc, hbv a]
      ring
    rw [e]
    exact sum_fiberwise (fun m => m.Address) minedOf _ (List.nodup_dedup _) miners
      (fun m hm => List.mem_dedup.mpr (List.mem_map_of_mem _ hm))
  · apply congrArg List.sum
    apply List.map_congr_left
    intro m hm
    rw [minerTotal_set_geninsc, hper1 m hm]
    ring

theorem mining_step_sums_witness :
    ∃ (s1 : Store) (miners : List Mrc721MinerData),
      mineCollection mineStore (mkBlock "102" "ac" [] []) "mrc721::geninsc::DEMO"
        (Val.genesis mineGenesis) = .ok s1 ∧
      perBlockOf 100000 1001 1000 100 102 10 1001 0 = 1001 ∧
      poolSkim mineProtocol 1001 = 500 ∧
      ((miners.map (fun m => m.Address)).dedup.map
        (fun a => balanceValue s1 a "demo" - balanceValue mineStore a "demo")).sum
        = (miners.map minedOf).sum ∧
      kvGet s1 "mrc721::geninsc::DEMO"
        = some (Val.genesis { mineGenesis with
            PrizePoolTokens := intToDec (1000 + 500),
            TotalMinedTokens := intToDec (1001 + (miners.map minedOf).sum),
            TotalPrizePoolTokens := intToDec (1000 + 500) }) := by
  obtain ⟨s1, res, miners, k, h1, _, _, _, _, _, _, _, h9, _, _, h12, _, h14⟩ :=
    @mining_step_sums mineStore (mkBlock "102" "ac" [] []) "mrc721::geninsc::DEMO" mineGenesis
      mineHook (genesisContent mineProtocol) mineProtocol 100000 1001 1000 1000 100 102 10 1001
      (by unfold StoreSorted; decide) (RawAt_of_check (by decide)) (by decide) (by decide)
      (by rfl) (by decide) (by decide) (by decide) (by decide) (by decide) (by decide)
      (by decide) (by decide) (by decide) (by decide) (by decide) (by decide)
      (fun _ h => Option.noConfusion h)
  have hd : stringToPercentageBigInt mineProtocol.Token.Dcr = 0 := by decide
  have hpb : perBlockOf 100000 1001 1000 100 102 10 1001 0 = 1001 := by decide
  have hk : k = 500 := by
    rw [h1, hd, hpb]
    decide
  subst hk
  exact ⟨s1, miners, h9, hpb, by decide, h12, h14⟩

/-! ## Percentage text -/

theorem permille_exact_0 : ∀ mant : Fin 2,
    (roundScaled mant.val 10 (-((0 : Nat) : Int))).map
      (fun r => toInt64 (mul1000 (F64.fin false r.1 r.2)))
      = some (((mant.val * 1000 : Nat) : Int)) := by
  decide!

theorem permille_exact_1 : ∀ mant : Fin 11,
    (roundScaled mant.val 10 (-((1 : Nat) : Int))).map
      (fun r => toInt64 (mul1000 (F64.fin false r.1 r.2)))
      = some (((mant.val * 100 : Nat) : Int)) := by
  decide!

theorem permille_exact_2 : ∀ mant : Fin 101,
    (roundScaled mant.val 10 (-((2 : Nat) : Int))).map
      (fun r => toInt64 (mul1000 (F64.fin false r.1 r.2)))
      = some (((mant.val * 10 : Nat) : Int)) := by
  decide!

theorem permille_exact_3 : ∀ mant : Fin 1001,
    (roundScaled mant.val 10 (-((3 : Nat) : Int))).map
      (fun r => toInt64 (mul1000 (F64.fin false r.1 r.2)))
      = some (((mant.val * 1 : Nat) : Int)) := by
  decide!

theorem permille_exact (frac m : Nat) (hf : frac ≤ 3) (hle : m ≤ 10 ^ frac) :
    (roundScaled m 10 (-(frac : Int))).map
      (fun r => toInt64 (mul1000 (F64.fin false r.1 r.2)))
      = some (((m * 10 ^ (3 - frac) : Nat) : Int)) := by
  interval_cases frac
  · exact permille_exact_0 ⟨m, by simpa using Nat.lt_succ_of_le hle⟩
  · exact permille_exact_1 ⟨m, by simpa using Nat.lt_succ_of_le hle⟩
  · exact permille_exact_2 ⟨m, by simpa using Nat.lt_succ_of_le hle⟩
  · exact permille_exact_3 ⟨m, by simpa using Nat.lt_succ_of_le hle⟩

theorem digit_cases {c : Char} {d : Nat} (h : digitVal c = some d) :
    c = '0' ∨ c = '1' ∨ c = '2' ∨ c = '3' ∨ c = '4' ∨ c = '5' ∨ c = '6' ∨ c = '7' ∨
      c = '8' ∨ c = '9' := by
  by_cases h0 : c = '0'
  · exact Or.inl h0
  by_cases h1 : c = '1'
  · exact Or.inr (Or.inl h1)
  by_cases h2 : c = '2'
  · exact Or.inr (Or.inr (Or.inl h2))
  by_cases h3 : c = '3'
  · exact Or.inr (Or.inr (Or.inr (Or.inl h3)))
  by_cases h4 : c = '4'
  · exact Or.inr (Or.inr (Or.inr (Or.inr (Or.inl h4))))
  by_cases h5 : c = '5'
  · exact Or.inr (Or.inr (Or.inr (Or.inr (Or.inr (Or.inl h5)))))
  by_cases h6 : c = '6'
  · exact Or.inr (Or.inr (Or.inr (Or.inr (Or.inr (Or.inr (Or.inl h6))))))
  by_cases h7 : c = '7'
  · exact Or.inr (Or.inr (Or.inr (Or.inr (Or.inr (Or.inr (Or.inr (Or.inl h7)))))))
  by_cases h8 : c = '8'
  · exact Or.inr (Or.inr (Or.inr (Or.inr (Or.inr (Or.inr (Or.inr (Or.inr (Or.inl h8))))))))
  by_cases h9 : c = '9'
  · exact Or.inr (Or.inr (Or.inr (Or.inr (Or.inr (Or.inr (Or.inr (Or.inr (Or.inr h9))))))))
  unfold digitVal at h
  rw [if_neg h0, if_neg h1, if_neg h2, if_neg h3, if_neg h4, if_neg h5, if_neg h6, if_neg h7,
    if_neg h8, if_neg h9] at h
  cases h

theorem digit_plain {c : Char} {d : Nat} (h : digitVal c = some d) :
    c ≠ '.' ∧ c ≠ '-' ∧ c ≠ '+' ∧ c ≠ 'x' ∧ c ≠ 'X' ∧ c.toLower ≠ 'i' ∧ c.toLower ≠ 'n' := by
  rcases digit_cases h with e | e | e | e | e | e | e | e | e | e <;> subst e <;> decide

theorem digitsVal_all : ∀ (l : List Char) (a v : Nat), digitsVal l a = some v →
    ∀ c ∈ l, ∃ d, digitVal c = some d
  | [], _, _, _, c, hc => absurd hc (List.not_mem_nil _)
  | x :: xs, a, v, h, c, hc => by
    unfold digitsVal at h
    cases hx : digitVal x with
    | none => rw [hx] at h; cases h
    | some d =>
      rw [hx] at h
      rcases List.mem_cons.mp hc with e | e
      · exact ⟨d, e ▸ hx⟩
      · exact digitsVal_all xs _ v h c e

theorem digitsVal_append : ∀ (l1 l2 : List Char) (a v : Nat),
    digitsVal (l1 ++ l2) a = some v →
    ∃ w, digitsVal l1 a = some w ∧ digitsVal l2 w = some v
  | [], l2, a, v, h => ⟨a, rfl, h⟩
  | x :: xs, l2, a, v, h => by
    rw [List.cons_append] at h
    cases hx : digitVal x with
    | none =>
      simp only [digitsVal, hx] at h
      cases h
    | some d =>
      simp only [digitsVal, hx] at h ⊢
      exact digitsVal_append xs l2 _ v h

theorem readMantissa_digits : ∀ (ds : List Char) (acc frac : Nat) (sawDot sawDigit : Bool)
    (rest : List Char) (v : Nat), digitsVal ds acc = some v →
    readMantissa digitVal 10 (ds ++ rest) acc frac sawDot sawDigit
      = readMantissa digitVal 10 rest v (if sawDot then frac + ds.length else frac) sawDot
          (sawDigit || !ds.isEmpty)
  | [], acc, frac, sawDot, sawDigit, rest, v, h => by
    unfold digitsVal at h
    cases h
    simp
  | c :: ds, acc, frac, sawDot, sawDigit, rest, v, h => by
    unfold digitsVal at h
    cases hc : digitVal c with
    | none => rw [hc] at h; cases h
    | some d =>
      rw [hc] at h
      have hdot := (digit_plain hc).1
      rw [List.cons_append]
      conv_lhs => rw [readMantissa]
      rw [if_neg hdot]
      simp only [hc]
      rw [readMantissa_digits ds _ _ sawDot true rest v h]
      cases sawDot
      · simp
      · simp only [if_true, List.length_cons, Bool.true_or, List.isEmpty_cons, Bool.not_false,
          Bool.or_true]
        rw [show frac + 1 + ds.length = frac + (ds.length + 1) by omega]

theorem parseFloat_decimal (cs : List Char) (m frac : Nat)
    (hall : ∀ c ∈ cs, c = '.' ∨ ∃ d, digitVal c = some d)
    (hr : readMantissa digitVal 10 cs 0 0 false false = (m, frac, true, [])) :
    ParseFloat ⟨cs⟩ = (roundScaled m 10 (-(frac : Int))).map (fun r => F64.fin false r.1 r.2) := by
  have hplain : ∀ c ∈ cs, c ≠ '-' ∧ c ≠ '+' ∧ c ≠ 'x' ∧ c ≠ 'X' ∧ c.toLower ≠ 'i' ∧
      c.toLower ≠ 'n' := by
    intro c hc
    rcases hall c hc with e | ⟨d, hd⟩
    · subst e
      decide
    · exact (digit_plain hd).2
  have hdec : parseFloatBody.decimal false cs
      = (roundScaled m 10 (-(frac : Int))).map (fun r => F64.fin false r.1 r.2) := by
    unfold parseFloatBody.decimal
    rw [hr]
  cases cs with
  | nil =>
    unfold readMantissa at hr
    simp at hr
  | cons c0 rest =>
    have h0 := hplain c0 (List.mem_cons_self _ _)
    have hbody : parseFloatBody false false (c0 :: rest) = parseFloatBody.decimal false (c0 :: rest) := by
      unfold parseFloatBody
      have hl1 : ¬ ((c0 :: rest).map Char.toLower = "inf".data ∨
          (c0 :: rest).map Char.toLower = "infinity".data) := by
        rintro (e | e)
        · simp only [List.map_cons] at e
          exact h0.2.2.2.2.1 (List.cons.inj e).1
        · simp only [List.map_cons] at e
          exact h0.2.2.2.2.1 (List.cons.inj e).1
      have hl2 : ¬ ((c0 :: rest).map Char.toLower = "nan".data) := by
        intro e
        simp only [List.map_cons] at e
        exact h0.2.2.2.2.2 (List.cons.inj e).1
      simp only [hl1, hl2, if_false]
      split
      · rename_i x r2 heq
        have hx := hplain x (by rw [heq]; simp)
        have hnx : ¬ ((x = 'x' ∨ x = 'X') ∧ r2 ≠ []) := fun h =>
          h.1.elim hx.2.2.1 hx.2.2.2.1
        rw [if_neg hnx]
      · rfl
    unfold ParseFloat
    split
    · rename_i cs1 heq
      exact absurd (List.cons.inj heq).1 h0.1
    · rename_i cs1 heq
      exact absurd (List.cons.inj heq).1 h0.2.1
    · rw [hbody, hdec]

/-- C26. For a decimal text with integer digits `ip`, fraction digits `fp` (at most 3), at
least one digit and value `m / 10^|fp|` in `[0, 1]`, `stringToPercentageBigInt` returns
exactly `⌊1000 * value⌋`, a number in `[0, 1000]`; the same holds for the text without a
point. The binary64 rounding of the parse and of the product by 1000 never moves the
result. -/
theorem stringToPercentageBigInt_exact (ip fp : List Char) (m : Nat)
    (hm : digitsVal (ip ++ fp) 0 = some m) (hne : ip ++ fp ≠ []) (hf : fp.length ≤ 3)
    (hle : m ≤ 10 ^ fp.length) :
    stringToPercentageBigInt ⟨ip ++ '.' :: fp⟩
      = ⌊(1000 : ℚ) * ((m : ℚ) / (10 : ℚ) ^ fp.length)⌋ ∧
    0 ≤ stringToPercentageBigInt ⟨ip ++ '.' :: fp⟩ ∧
    stringToPercentageBigInt ⟨ip ++ '.' :: fp⟩ ≤ 1000 ∧
    (fp = [] → stringToPercentageBigInt ⟨ip⟩ = ⌊(1000 : ℚ) * (m : ℚ)⌋) := by
  obtain ⟨w, hw1, hw2⟩ := digitsVal_append ip fp 0 m hm
  have hdig := digitsVal_all (ip ++ fp) 0 m hm
  have hsaw : (!ip.isEmpty || !fp.isEmpty) = true := by
    cases ip with
    | nil =>
      cases fp with
      | nil => exact absurd rfl hne
      | cons _ _ => rfl
    | cons _ _ => rfl
  have hr1 : readMantissa digitVal 10 (ip ++ '.' :: fp) 0 0 false false
      = (m, fp.length, true, []) := by
    rw [readMantissa_digits ip 0 0 false false _ w hw1]
    unfold readMantissa
    simp only [if_true, Bool.false_eq_true, if_false, Bool.false_or]
    have h2 := readMantissa_digits fp w 0 true (!ip.isEmpty) [] m hw2
    rw [List.append_nil] at h2
    rw [h2]
    unfold readMantissa
    simp only [if_true, zero_add, hsaw]
  have hall1 : ∀ c ∈ ip ++ '.' :: fp, c = '.' ∨ ∃ d, digitVal c = some d := by
    intro c hc
    rcases List.mem_append.mp hc with h | h
    · exact Or.inr (hdig c (List.mem_append_left _ h))
    · rcases List.mem_cons.mp h with e | e
      · exact Or.inl e
      · exact Or.inr (hdig c (List.mem_append_right _ e))
  have hval : stringToPercentageBigInt ⟨ip ++ '.' :: fp⟩ = ((m * 10 ^ (3 - fp.length) : Nat) : Int) := by
    have hp := permille_exact fp.length m hf hle
    unfold stringToPercentageBigInt
    rw [parseFloat_decimal _ m fp.length hall1 hr1]
    cases hrs : roundScaled m 10 (-(fp.length : Int)) with
    | none => rw [hrs] at hp; cases hp
    | some r =>
      rw [hrs] at hp
      simp only [Option.map_some', Option.some.injEq] at hp ⊢
      exact hp
  have hfloor : ⌊(1000 : ℚ) * ((m : ℚ) / (10 : ℚ) ^ fp.length)⌋
      = ((m * 10 ^ (3 - fp.length) : Nat) : Int) := by
    have h3 : (1000 : ℚ) = (10 : ℚ) ^ (3 - fp.length) * (10 : ℚ) ^ fp.length := by
      rw [← pow_add, Nat.sub_add_cancel hf]
      norm_num
    have hpos : (10 : ℚ) ^ fp.length ≠ 0 := pow_ne_zero _ (by norm_num)
    have e : (1000 : ℚ) * ((m : ℚ) / (10 : ℚ) ^ fp.length)
        = (((m * 10 ^ (3 - fp.length) : Nat) : Int) : ℚ) := by
      rw [h3]
      field_simp
      ring
    rw [e, Int.floor_intCast]
  have hb : m * 10 ^ (3 - fp.length) ≤ 1000 := by
    calc m * 10 ^ (3 - fp.length) ≤ 10 ^ fp.length * 10 ^ (3 - fp.length) :=
          Nat.mul_le_mul_right _ hle
      _ = 1000 := by
        rw [← pow_add, Nat.add_sub_cancel' hf]
        rfl
  refine ⟨hval.trans hfloor.symm, ?_, ?_, ?_⟩
  · rw [hval]
    exact Int.ofNat_nonneg _
  · rw [hval]
    exact_mod_cast hb
  · intro hfp
    subst hfp
    rw [List.append_nil] at hne hdig
    have hw : w = m := by
      unfold digitsVal at hw2
      exact Option.some.inj hw2
    subst hw
    have hr0 : readMantissa digitVal 10 ip 0 0 false false = (w, 0, true, []) := by
      have h2 := readMantissa_digits ip 0 0 false false [] w hw1
      rw [List.append_nil] at h2
      rw [h2]
      unfold readMantissa
      have hsaw0 : (!ip.isEmpty) = true := by
        cases ip with
        | nil => exact absurd rfl hne
        | cons _ _ => rfl
      simp [hsaw0]
    have hp := permille_exact 0 w (by decide) (by simpa using hle)
    unfold stringToPercentageBigInt
    rw [parseFloat_decimal ip w 0 (fun c hc => Or.inr (hdig c hc)) hr0]
    cases hrs : roundScaled w 10 (-((0 : Nat) : Int)) with
    | none => rw [hrs] at hp; cases hp
    | some r =>
      rw [hrs] at hp
      simp only [Option.map_some', Option.some.injEq] at hp ⊢
      rw [hp]
      have e : (1000 : ℚ) * (w : ℚ) = (((w * 10 ^ (3 - 0) : Nat) : Int) : ℚ) := by
        push_cast
        ring
      rw [e, Int.floor_intCast]

theorem stringToPercentageBigInt_exact_witness :
    digitsVal ("0".data ++ "57".data) 0 = some 57 ∧
    stringToPercentageBigInt "0.57" = ⌊(1000 : ℚ) * (((57 : Nat) : ℚ) / (10 : ℚ) ^ 2)⌋ ∧
    stringToPercentageBigInt "0.57" = 570 ∧ stringToPercentageBigInt "0.029" = 29 ∧
    stringToPercentageBigInt "1" = ⌊(1000 : ℚ) * ((1 : Nat) : ℚ)⌋ :=
  ⟨by decide,
    (stringToPercentageBigInt_exact "0".data "57".data 57 (by decide) (by decide) (by decide)
      (by decide)).1,
    by decide, by decide,
    (stringToPercentageBigInt_exact "1".data [] 1 (by decide) (by decide) (by decide)
      (by decide)).2.2.2 rfl⟩

/-! ## Burn path, readers and validation -/

/-- C21 (the code makes the drop fatal). In the store after block 100, address `B` has no
balance entry for `demo`. Its valid burn inscription makes `writeMrc20` return the error
`Key not found`; `WriteBlock` returns that error and commits nothing, although the same
block without the inscription is accepted. A burn on an unregistered tick fails the same
way. -/
theorem burn_without_balance_rejects_block :
    ValidateProtocolData (Content.json "mrc-20" none (some (burnPayload "5")) ("", "") none) = some "mrc-20" ∧
    (burnPayload "5").Insc = some "g0" ∧
    kvGet burnBaseStore "mrc20::balance::B::demo" = none ∧
    errorOf (writeMrc20 burnBaseStore (burnInscription "B" "5") (burnPayload "5"))
      = some "Key not found" ∧
    errorOf (WriteBlock burnBaseStore (mkBlock "101" "00ac" [burnInscription "B" "5"] [])).1
      = some "Key not found" ∧
    (WriteBlock burnBaseStore (mkBlock "101" "00ac" [burnInscription "B" "5"] [])).2
      = burnBaseStore ∧
    (WriteBlock burnBaseStore (mkBlock "101" "00ac" [] [])).1.isOk = true ∧
    kvGet burnBaseStore "mrc20::geninsc::none" = none ∧
    errorOf (writeMrc20 burnBaseStore (burnInscription "A" "5")
      { burnPayload "5" with Tick := "none" }) = some "Key not found" := by
  decide

/-- C22 (the code reads the decimal balance as bytes). Address `A` holds the decimal
balance `10`. The burn path reads the text with `SetBytes` (12592), so a burn of 50, more
than the balance, takes effect: the balance becomes the bytes of 12542 and the burn counter
the bytes of 50. A burn of 5 leaves the bytes of 12587, not the decimal text `5`. -/
theorem burn_reads_decimal_balance_as_bytes :
    kvGet burnBaseStore "mrc20::balance::A::demo" = some (Val.raw "10") ∧
    SetString10 "10" = some 10 ∧ SetBytes "10" = 12592 ∧
    (writeMrc20 burnBaseStore (burnInscription "A" "50") (burnPayload "50")).toOption.map
      (fun s => (kvGet s "mrc20::balance::A::demo", kvGet s "mrc721::burn::g0"))
      = some (some (Val.raw (bigBytes 12542)), some (Val.raw (bigBytes 50))) ∧
    (writeMrc20 burnBaseStore (burnInscription "A" "5") (burnPayload "5")).toOption.map
      (fun s => (kvGet s "mrc20::balance::A::demo", kvGet s "mrc721::burn::g0"))
      = some (some (Val.raw (bigBytes 12587)), some (Val.raw (bigBytes 5))) ∧
    bigBytes 12587 ≠ intToDec (10 - 5) := by
  decide

/-- C23 (the code never updates `total_burn`). The burn of 5 by `A` on tick `demo`, which is
registered to `DEMO` and whose genesis record exists, debits the sender and raises the burn
counter of `g0`, but leaves the genesis record as it was: `total_burn` is still `0`, also
after the whole block has been applied. -/
theorem burn_leaves_total_burn :
    kvGet burnBaseStore "mrc20::geninsc::demo" = some (Val.raw "DEMO") ∧
    ((kvGet burnBaseStore "mrc721::geninsc::DEMO").map (fun v =>
      match v with
      | Val.genesis g => g.TotalBurn
      | _ => "")) = some "0" ∧
    (writeMrc20 burnBaseStore (burnInscription "A" "5") (burnPayload "5")).toOption.map
      (fun s => (kvGet s "mrc721::burn::g0", kvGet s "mrc721::geninsc::DEMO"))
      = some (some (Val.raw (bigBytes 5)), kvGet burnBaseStore "mrc721::geninsc::DEMO") ∧
    (WriteBlock burnBaseStore (mkBlock "101" "00ac" [burnInscription "A" "5"] [])).1.isOk
      = true ∧
    ((kvGet (WriteBlock burnBaseStore (mkBlock "101" "00ac" [burnInscription "A" "5"] [])).2
      "mrc721::geninsc::DEMO").map (fun v =>
      match v with
      | Val.genesis g => g.TotalBurn
      | _ => "")) = some "0" ∧
    kvGet (WriteBlock burnBaseStore (mkBlock "101" "00ac" [burnInscription "A" "5"] [])).2
      "mrc721::burn::g0" = some (Val.raw (bigBytes 5)) := by
  decide

/-- C24 (the code skips a section that one side omits). `IsEqual721DataByte` reports a
payload without `ltry` equal to the protocol that has it, in both orders, and likewise for
`burn`; a mint whose payload omits `ltry` is admitted to the lottery collection
(`inscriptions_count = 2`). -/
theorem missing_section_counts_as_equal :
    lotteryProtocol.Ltry ≠ none ∧ noLtryProtocol.Ltry = none ∧
    IsEqual721DataByte (genesisContent lotteryProtocol) (genesisContent noLtryProtocol) = true ∧
    IsEqual721DataByte (genesisContent noLtryProtocol) (genesisContent lotteryProtocol) = true ∧
    burnProtocol.Burn ≠ none ∧ noBurnProtocol.Burn = none ∧
    IsEqual721DataByte (genesisContent burnProtocol) (genesisContent noBurnProtocol) = true ∧
    IsEqual721DataByte (genesisContent noBurnProtocol) (genesisContent burnProtocol) = true ∧
    allSucceed noLtryBlocks [] = true ∧
    ((kvGet (writeBlocks noLtryBlocks []) "mrc721::geninsc::DEMO").map (fun v =>
      match v with
      | Val.genesis g => g.InscriptionsCount
      | _ => 0)) = some 2 ∧
    kvGet (writeBlocks noLtryBlocks []) "mrc721::name_inscr::DEMO::m1" = some (Val.raw "") := by
  decide

/-- C25 (the code bounds `burn.unit` by `token.total`). The payload with `miner.max = 3`
and `burn.unit = 10` is accepted, because `10 <= token.total = 100000`; the payload with
`miner.max = 5`, `token.total = 1` and `burn.unit = 2` is rejected although the unit is
within `miner.max`, and is accepted once its burn section is removed. -/
theorem burn_unit_checked_against_total :
    validateMRC721Data (some burnProtocol) = true ∧
    SetString10 burnProtocol.Miner.Max = some 3 ∧
    burnProtocol.Burn.map (fun b => SetString10 b.Unit) = some (some 10) ∧
    SetString10 burnProtocol.Token.Total = some 100000 ∧
    validateMRC721Data (some smallTotalProtocol) = false ∧
    SetString10 smallTotalProtocol.Miner.Max = some 5 ∧
    smallTotalProtocol.Burn.map (fun b => SetString10 b.Unit) = some (some 2) ∧
    validateMRC721Data (some { smallTotalProtocol with Burn := none }) = true := by
  decide

/-- C27 (the code stops one round short). After the blocks 100, 101, 102 of the lottery
scenario the collection has `total_prize_round = 2` and both records
`lottery::mrc721::DEMO::1` and `::2` exist, but `GetLotteryList` returns only round 1;
after the first draw alone (`total_prize_round = 1`) it returns the empty list. -/
theorem GetLotteryList_omits_latest_round :
    allSucceed roundBlocks [] = true ∧
    ((kvGet (writeBlocks roundBlocks []) "mrc721::geninsc::DEMO").map (fun v =>
      match v with
      | Val.genesis g => g.TotalPrizeRound
      | _ => 0)) = some 2 ∧
    (kvGet (writeBlocks roundBlocks []) "lottery::mrc721::DEMO::1").isSome = true ∧
    (kvGet (writeBlocks roundBlocks []) "lottery::mrc721::DEMO::2").isSome = true ∧
    (GetLotteryList (writeBlocks roundBlocks []) "DEMO").toOption.map
      (fun l => l.map (fun x => x.Round)) = some [1] ∧
    ((kvGet (writeBlocks (roundBlocks.take 2) []) "mrc721::geninsc::DEMO").map (fun v =>
      match v with
      | Val.genesis g => g.TotalPrizeRound
      | _ => 0)) = some 1 ∧
    (GetLotteryList (writeBlocks (roundBlocks.take 2) []) "DEMO").toOption = some [] := by
  decide

/-- C28 (validated payloads stall mining). The payload with `total = 1`, `beg = -1` is
accepted and its genesis block is committed, after which every mining step fails: the next
block is rejected with `error: negative value of remaining tokens`. The payload with
`total = -5`, `beg = -5` is accepted as well, and the very block that reveals it is
rejected with the same error. -/
theorem validated_genesis_stalls_mining :
    validateMRC721Data (some negBegProtocol) = true ∧
    (WriteBlock [] negBegBlock).1.isOk = true ∧
    errorOf (WriteBlock (WriteBlock [] negBegBlock).2 negBegNext).1
      = some "error: negative value of remaining tokens" ∧
    (WriteBlock (WriteBlock [] negBegBlock).2 negBegNext).2 = (WriteBlock [] negBegBlock).2 ∧
    validateMRC721Data (some negTotalProtocol) = true ∧
    errorOf (WriteBlock []
      (mkBlock "100" "00ab" [mkInscription "g0" 1 "A" (genesisContent negTotalProtocol)] [])).1
      = some "error: negative value of remaining tokens" := by
  decide

/-- C29 (a member can have an empty owner). In the store of the scenario "lost owner" the
collection has `inscriptions_count = 1`, `count_inscr::DEMO::0` maps to `g0` and
`inscr_count::DEMO::g0` is `0`, but the only key under `mrc721::inscr_addr::g0::` carries
the empty address, so the lottery's owner lookup fails at block 101. -/
theorem member_with_empty_owner :
    ((kvGet lostStore "mrc721::geninsc::DEMO").map (fun v =>
      match v with
      | Val.genesis g => g.InscriptionsCount
      | _ => 0)) = some 1 ∧
    kvGet lostStore "mrc721::count_inscr::DEMO::0" = some (Val.raw "g0") ∧
    kvGet lostStore "mrc721::inscr_count::DEMO::g0" = some (Val.raw "0") ∧
    kvScan lostStore "mrc721::inscr_addr::g0::"
      = [("mrc721::inscr_addr::g0::", Val.raw "")] ∧
    firstUnder lostStore "mrc721::inscr_addr::g0::" = ("mrc721::inscr_addr::g0::", "") ∧
    errorOf (lotteryWithBlockHash lostStore drawBlock) = some "no luck address found" ∧
    errorOf (WriteBlock lostStore drawBlock).1 = some "no luck address found" := by
  decide

/-- C30 (a zero boost divides by zero). The payload with `burn.unit = 10`, `burn.boost = 0`
is accepted (permille 0); for an inscription of its collection `GetBurnInfo` divides 11000
by that permille and panics. With boost `0.100` it returns `BurnMax = unit * 10`. -/
theorem GetBurnInfo_zero_boost_panics :
    validateMRC721Data (some zeroBoostProtocol) = true ∧
    stringToPercentageBigInt "0" = 0 ∧
    allSucceed [mkBlock "100" "aa" [mkInscription "g0" 1 "A" (genesisContent zeroBoostProtocol)] []]
      [] = true ∧
    errorOf (GetBurnInfo zeroBoostStore "g0") = some "panic: division by zero" ∧
    (GetBurnInfo burnStore "g0").toOption.map (fun w => (w.Unit, w.Boost, w.BurnMax))
      = some ("10", "0.100", "100") := by
  decide

/-! ## Transfers revealed by the empty address -/

/-- C20 (a transfer revealed by the empty address is lost). In the store after block 100 of
the scenario "empty sender" the tick `demo` is registered and the address `""` holds
`b = 1000`. The reveal of the transfer inscription `t0` of `amt = 50` by that address is
accepted: the balance becomes 950 and the three pending keys are written. When `t0` is then
sent to `B`, `addTransfer` reads the empty address after `mrc20::inscr_addr::t0::` as "no
owner found" and returns the store unchanged: `B` has no balance and the three pending keys
remain. Run as blocks 100 to 102, every `WriteBlock` succeeds, 3000 tokens are mined and the
only balance of the tick is 2950: the 50 tokens are held by nobody. -/
theorem transfer_from_empty_address_is_lost :
    ValidateProtocolData (Content.json "mrc-20" none (some sendPayload) ("", "") none)
      = some "mrc-20" ∧
    kvGet senderStore "mrc20::geninsc::demo" = some (Val.raw "DEMO") ∧
    kvScan senderStore "mrc20::balance::" = [("mrc20::balance::::demo", Val.raw "1000")] ∧
    (addInscription senderStore (mkBlock "101" "ab" [lostInscription] [])
        lostInscription).toOption.map (fun s1 =>
          (kvGet s1 "mrc20::balance::::demo", kvGet s1 "mrc20::name_inscr::demo::t0",
            kvGet s1 "mrc20::addr_inscr::::t0", kvGet s1 "mrc20::inscr_addr::t0::"))
      = some (some (Val.raw "950"), some (Val.raw ""), some (Val.raw ""), some (Val.raw "")) ∧
    (addInscription senderStore (mkBlock "101" "ab" [lostInscription] [])
        lostInscription).toOption.bind (fun s1 =>
          (addTransfer s1 (mkTransfer "t0" "B")).toOption.map (fun s2 =>
            (decide (s2 = s1), kvGet s2 "mrc20::balance::B::demo",
              kvGet s2 "mrc20::inscr_addr::t0::")))
      = some (true, none, some (Val.raw "")) ∧
    allSucceed lostBlocks [] = true ∧
    (filterBlockData (writeBlocks (lostBlocks.take 2) [])
      (mkBlock "102" "ac" [] [mkTransfer "t0" "B"])).Transfers = [mkTransfer "t0" "B"] ∧
    kvScan (writeBlocks lostBlocks []) "mrc20::balance::"
      = [("mrc20::balance::::demo", Val.raw "2950")] ∧
    ((kvGet (writeBlocks lostBlocks []) "mrc721::geninsc::DEMO").map (fun v =>
      match v with
      | Val.genesis g => g.TotalMinedTokens
      | _ => "")) = some "3000" ∧
    kvGet (writeBlocks lostBlocks []) "mrc20::name_inscr::demo::t0" = some (Val.raw "") ∧
    kvGet (writeBlocks lostBlocks []) "mrc20::addr_inscr::::t0" = some (Val.raw "") ∧
    kvGet (writeBlocks lostBlocks []) "mrc20::inscr_addr::t0::" = some (Val.raw "") := by
  decide

end Satmine
